import Mathlib

/-!
# Video capture engine (`VideoOut`) of the fpga_1943 Verilator test bench

Shallow embedding of `src/verilator/video_out/video_out.cpp` / `video_out.h`.

* `vluint8_t` / `vluint16_t` values are natural numbers; every store into such a
  field is reduced modulo `2^8` / `2^16` (`u8`, `u16`, `u16i`).
* `int` values are integers.  The only `int` that is incremented without bound is
  `dump_ctr`; signed overflow is undefined in C and needs `2^31` persisted frames,
  so it is kept unbounded.
* The bitmap sink (`bmp->SetPixel`, `bmp->WriteToFile`) and `printf` are modelled
  as an output trace of `Event`s, in program order.
* Fields the constructor leaves indeterminate (`y0`, `u0`, the contents of the
  line buffers) are supplied by an `Uninit` record.
-/

/-- Store into a `vluint8_t`. -/
def u8 (n : Nat) : Nat := n % 256

/-- Store into a `vluint16_t`. -/
def u16 (n : Nat) : Nat := n % 65536

/-- Store of an `int` expression into a `vluint16_t` (two's complement wrap). -/
def u16i (z : Int) : Nat := (z % 65536).toNat

/-- The C expression `a & m` for an `int` a and a promoted `vluint8_t` m: the
bitwise AND of the 32-bit two's complement pattern of `a` with `m`. -/
def andMask (a : Int) (m : Nat) : Int := (((a % 4294967296).toNat &&& m : Nat) : Int)

/-- Pixel handed to the sink (EasyBMP `RGBApixel`); the engine never sets the alpha byte. -/
structure RGBApixel where
  Red : Nat
  Green : Nat
  Blue : Nat
deriving DecidableEq

/-- The three `printf` lines of the engine. -/
inductive Msg where
  | vsEdge (cycle : Nat)
  | hsEdge (cycle : Nat) (vcount : Nat)
  | save (ctr : Int)
deriving DecidableEq

/-- Observable effects of one call, in program order. -/
inductive Event where
  | SetPixel (x : Int) (y : Int) (p : RGBApixel)
  | WriteToFile (ctr : Int)
  | Print (m : Msg)
deriving DecidableEq

/-- Indeterminate initial contents of the members the constructor does not initialise. -/
structure Uninit where
  y0 : Int
  u0 : Int
  y_buf : Nat → Nat → Int
  c_buf : Nat → Nat → Int

/-- The members of `class VideoOut` (video_out.h). `filename` holds the characters
before the terminating NUL, so `filename[0] != 0` is `filename ≠ []`. -/
structure VideoOut where
  bit_shift : Nat
  bit_mask : Nat
  hs_pol : Nat
  vs_pol : Nat
  dbg_on : Nat
  hor_offs : Nat
  ver_offs : Nat
  hor_size : Nat
  ver_size : Nat
  u_to_g : List Int
  u_to_b : List Int
  v_to_r : List Int
  v_to_g : List Int
  y0 : Int
  u0 : Int
  y_buf : List (List Int)
  c_buf : List (List Int)
  filename : List Nat
  idx_yc : Int
  hcount1 : Nat
  hcount2 : Nat
  hcount : Nat
  vcount1 : Nat
  vcount2 : Nat
  vcount : Nat
  prev_clk : Nat
  prev_hs : Nat
  prev_vs : Nat
  dump_act : Nat
  dump_ctr : Int

/-- Result of one `eval_*` call: the engine afterwards, the returned byte, the effects. -/
structure Res where
  st : VideoOut
  ret : Nat
  out : List Event

/-- Read `buf[k][h]`; an index outside the allocation (undefined in C) reads 0. -/
def bufGet (buf : List (List Int)) (k h : Nat) : Int := (buf.getD k []).getD h 0

/-- Write `buf[k][h] = v`; an index outside the allocation (undefined in C) writes nothing. -/
def bufSet (buf : List (List Int)) (k h : Nat) (v : Int) : List (List Int) :=
  buf.set k ((buf.getD k []).set h v)

namespace VideoOut

/-- Constructor `VideoOut::VideoOut` (video_out.cpp 38-95). -/
def new (debug depth polarity hoffset hactive voffset vactive : Nat) (file : List Nat)
    (junk : Uninit) : VideoOut where
  bit_shift := if depth ≤ 8 then 8 - depth else 0
  bit_mask := if depth ≤ 8 then u8 ((1 <<< depth) - 1) else 255
  hs_pol := if polarity &&& 1 ≠ 0 then 1 else 0
  vs_pol := if polarity &&& 2 ≠ 0 then 1 else 0
  dbg_on := debug
  hor_offs := hoffset
  hor_size := hactive
  ver_offs := voffset
  ver_size := vactive
  u_to_g := (List.range 256).map (fun i => ((u16 (i * 44) : Nat) : Int))
  u_to_b := (List.range 256).map (fun i => ((u16 (i * 226) : Nat) : Int))
  v_to_r := (List.range 256).map (fun i => ((u16 (i * 180) : Nat) : Int))
  v_to_g := (List.range 256).map (fun i => ((u16 (i * 91) : Nat) : Int))
  y0 := junk.y0
  u0 := junk.u0
  y_buf := (List.range 16).map (fun k => (List.range hactive).map (fun h => junk.y_buf k h))
  c_buf := (List.range 8).map (fun k => (List.range hactive).map (fun h => junk.c_buf k h))
  filename := file.take 255
  idx_yc := 0
  hcount := 0
  hcount1 := 0
  hcount2 := 0
  vcount := 0
  vcount1 := 0
  vcount2 := 0
  prev_clk := 0
  prev_hs := 0
  prev_vs := 0
  dump_act := 0
  dump_ctr := 0

/-- The saturation `(t < 0) ? 0 : (t > 255) ? 255 : t` stored into a pixel byte. -/
def sat8 (t : Int) : Nat := if t < 0 then 0 else if t > 255 then 255 else t.toNat

/-- Method `VideoOut::yuv2rgb` (video_out.cpp 650-674). A table index outside 0..255
(undefined in C) reads 0. -/
def yuv2rgb (s : VideoOut) (lum cb cr : Int) : RGBApixel :=
  let y : Int := andMask lum s.bit_mask * 2 ^ (s.bit_shift + 7)
  let u : Int := andMask cb s.bit_mask * 2 ^ s.bit_shift
  let v : Int := andMask cr s.bit_mask * 2 ^ s.bit_shift
  let r : Int := (y + s.v_to_r.getD v.toNat 0 - 22906) >>> 7
  let g : Int := (y - s.u_to_g.getD u.toNat 0 - s.v_to_g.getD v.toNat 0 + 17264) >>> 7
  let b : Int := (y + s.u_to_b.getD u.toNat 0 - 28928) >>> 7
  { Red := sat8 r, Green := sat8 g, Blue := sat8 b }

/-- Method `VideoOut::eval_RGB444_HV` (video_out.cpp 110-182). -/
def eval_RGB444_HV (s : VideoOut) (cycle clk vs hs red green blue : Nat) : Res :=
  -- Rising edge on clock
  if clk ≠ 0 ∧ s.prev_clk = 0 then
    -- Grab active area
    let o1 : List Event :=
      if s.ver_offs ≤ s.vcount ∧ s.vcount < s.ver_offs + s.ver_size then
        if s.hor_offs ≤ s.hcount ∧ s.hcount < s.hor_offs + s.hor_size then
          [Event.SetPixel ((s.hcount : Int) - s.hor_offs) ((s.vcount : Int) - s.ver_offs)
            { Red := u8 ((red &&& s.bit_mask) <<< s.bit_shift),
              Green := u8 ((green &&& s.bit_mask) <<< s.bit_shift),
              Blue := u8 ((blue &&& s.bit_mask) <<< s.bit_shift) }]
        else []
      else []
    -- Rising edge on VS
    let r1 : Res :=
      if vs = s.vs_pol ∧ s.prev_vs ≠ s.vs_pol then
        let o2 := o1 ++ (if s.dbg_on ≠ 0 then [Event.Print (Msg.vsEdge cycle)] else [])
        let s2 : VideoOut := { s with hcount := 0, vcount := 0 }
        let r : Res :=
          if s2.dump_act ≠ 0 then
            { st := { s2 with dump_ctr := s2.dump_ctr + 1 }, ret := s.dump_act,
              out := o2 ++ [Event.Print (Msg.save s2.dump_ctr), Event.WriteToFile s2.dump_ctr] }
          else { st := s2, ret := s.dump_act, out := o2 }
        if s.filename ≠ [] then { r with st := { r.st with dump_act := 1 } } else r
      else { st := s, ret := 0, out := o1 }
    -- Rising edge on HS
    let s3 := r1.st
    let r2 : Res :=
      if hs = s3.hs_pol ∧ s3.prev_hs ≠ s3.hs_pol then
        let o3 := r1.out ++
          (if s3.dbg_on ≠ 0 then [Event.Print (Msg.hsEdge cycle s3.vcount)] else [])
        let s4 : VideoOut := if s3.hcount > 4 then { s3 with vcount := u16 (s3.vcount + 1) } else s3
        { st := { s4 with hcount := 0 }, ret := r1.ret, out := o3 }
      else { st := { s3 with hcount := u16 (s3.hcount + 1) }, ret := r1.ret, out := r1.out }
    { st := { r2.st with prev_vs := vs, prev_hs := hs, prev_clk := clk }, ret := r2.ret,
      out := r2.out }
  else { st := { s with prev_clk := clk }, ret := 0, out := [] }

/-- Method `VideoOut::eval_RGB444_DE` (video_out.cpp 185-245). -/
def eval_RGB444_DE (s : VideoOut) (cycle clk de red green blue : Nat) : Res :=
  -- Rising edge on clock
  if clk ≠ 0 ∧ s.prev_clk = 0 then
    -- Grab active area
    if de ≠ 0 then
      let o1 : List Event :=
        [Event.SetPixel (s.hcount : Int) (s.vcount : Int)
          { Red := u8 ((red &&& s.bit_mask) <<< s.bit_shift),
            Green := u8 ((green &&& s.bit_mask) <<< s.bit_shift),
            Blue := u8 ((blue &&& s.bit_mask) <<< s.bit_shift) }]
      let s1 : VideoOut := { s with hcount := u16 (s.hcount + 1) }
      if s1.hcount = s1.hor_size then
        let o2 := o1 ++
          (if s1.dbg_on ≠ 0 then [Event.Print (Msg.hsEdge cycle s1.vcount)] else [])
        let s2 : VideoOut := { s1 with hcount := 0, vcount := u16 (s1.vcount + 1) }
        if s2.vcount = s2.ver_size then
          let s3 : VideoOut := if s2.filename ≠ [] then { s2 with dump_act := 1 } else s2
          let o3 := o2 ++ (if s3.dbg_on ≠ 0 then [Event.Print (Msg.vsEdge cycle)] else [])
          let s4 : VideoOut := { s3 with vcount := 0 }
          if s4.dump_act ≠ 0 then
            { st := { s4 with dump_ctr := s4.dump_ctr + 1, prev_clk := clk }, ret := s3.dump_act,
              out := o3 ++ [Event.Print (Msg.save s4.dump_ctr), Event.WriteToFile s4.dump_ctr] }
          else { st := { s4 with prev_clk := clk }, ret := s3.dump_act, out := o3 }
        else { st := { s2 with prev_clk := clk }, ret := 0, out := o2 }
      else { st := { s1 with prev_clk := clk }, ret := 0, out := o1 }
    else { st := { s with prev_clk := clk }, ret := 0, out := [] }
  else { st := { s with prev_clk := clk }, ret := 0, out := [] }

/-- Method `VideoOut::eval_YUV444_HV` (video_out.cpp 248-320). -/
def eval_YUV444_HV (s : VideoOut) (cycle clk vs hs luma cb cr : Nat) : Res :=
  -- Rising edge on clock
  if clk ≠ 0 ∧ s.prev_clk = 0 then
    -- Grab active area
    let o1 : List Event :=
      if s.ver_offs ≤ s.vcount ∧ s.vcount < s.ver_offs + s.ver_size then
        if s.hor_offs ≤ s.hcount ∧ s.hcount < s.hor_offs + s.hor_size then
          [Event.SetPixel ((s.hcount : Int) - s.hor_offs) ((s.vcount : Int) - s.ver_offs)
            (s.yuv2rgb (luma : Int) (cb : Int) (cr : Int))]
        else []
      else []
    -- Rising edge on VS
    let r1 : Res :=
      if vs = s.vs_pol ∧ s.prev_vs ≠ s.vs_pol then
        let o2 := o1 ++ (if s.dbg_on ≠ 0 then [Event.Print (Msg.vsEdge cycle)] else [])
        let s2 : VideoOut := { s with hcount := 0, vcount := 0 }
        let r : Res :=
          if s2.dump_act ≠ 0 then
            { st := { s2 with dump_ctr := s2.dump_ctr + 1 }, ret := s.dump_act,
              out := o2 ++ [Event.Print (Msg.save s2.dump_ctr), Event.WriteToFile s2.dump_ctr] }
          else { st := s2, ret := s.dump_act, out := o2 }
        if s.filename ≠ [] then { r with st := { r.st with dump_act := 1 } } else r
      else { st := s, ret := 0, out := o1 }
    -- Rising edge on HS
    let s3 := r1.st
    let r2 : Res :=
      if hs = s3.hs_pol ∧ s3.prev_hs ≠ s3.hs_pol then
        let o3 := r1.out ++
          (if s3.dbg_on ≠ 0 then [Event.Print (Msg.hsEdge cycle s3.vcount)] else [])
        let s4 : VideoOut := if s3.hcount > 4 then { s3 with vcount := u16 (s3.vcount + 1) } else s3
        { st := { s4 with hcount := 0 }, ret := r1.ret, out := o3 }
      else { st := { s3 with hcount := u16 (s3.hcount + 1) }, ret := r1.ret, out := r1.out }
    { st := { r2.st with prev_vs := vs, prev_hs := hs, prev_clk := clk }, ret := r2.ret,
      out := r2.out }
  else { st := { s with prev_clk := clk }, ret := 0, out := [] }

/-- Method `VideoOut::eval_YUV444_DE` (video_out.cpp 323-383). -/
def eval_YUV444_DE (s : VideoOut) (cycle clk de luma cb cr : Nat) : Res :=
  -- Rising edge on clock
  if clk ≠ 0 ∧ s.prev_clk = 0 then
    -- Grab active area
    if de ≠ 0 then
      let o1 : List Event :=
        [Event.SetPixel (s.hcount : Int) (s.vcount : Int)
          (s.yuv2rgb (luma : Int) (cb : Int) (cr : Int))]
      let s1 : VideoOut := { s with hcount := u16 (s.hcount + 1) }
      if s1.hcount = s1.hor_size then
        let o2 := o1 ++
          (if s1.dbg_on ≠ 0 then [Event.Print (Msg.hsEdge cycle s1.vcount)] else [])
        let s2 : VideoOut := { s1 with hcount := 0, vcount := u16 (s1.vcount + 1) }
        if s2.vcount = s2.ver_size then
          let s3 : VideoOut := if s2.filename ≠ [] then { s2 with dump_act := 1 } else s2
          let o3 := o2 ++ (if s3.dbg_on ≠ 0 then [Event.Print (Msg.vsEdge cycle)] else [])
          let s4 : VideoOut := { s3 with vcount := 0 }
          if s4.dump_act ≠ 0 then
            { st := { s4 with dump_ctr := s4.dump_ctr + 1, prev_clk := clk }, ret := s3.dump_act,
              out := o3 ++ [Event.Print (Msg.save s4.dump_ctr), Event.WriteToFile s4.dump_ctr] }
          else { st := { s4 with prev_clk := clk }, ret := s3.dump_act, out := o3 }
        else { st := { s2 with prev_clk := clk }, ret := 0, out := o2 }
      else { st := { s1 with prev_clk := clk }, ret := 0, out := o1 }
    else { st := { s with prev_clk := clk }, ret := 0, out := [] }
  else { st := { s with prev_clk := clk }, ret := 0, out := [] }

/-- Method `VideoOut::eval_YUV422_HV` (video_out.cpp 386-468). Inside the window test
`hcount - hor_offs` is non-negative, so its parity is taken on the natural difference. -/
def eval_YUV422_HV (s : VideoOut) (cycle clk vs hs luma chroma : Nat) : Res :=
  -- Rising edge on clock
  if clk ≠ 0 ∧ s.prev_clk = 0 then
    -- Grab active area
    let o1 : List Event :=
      if s.ver_offs ≤ s.vcount ∧ s.vcount < s.ver_offs + s.ver_size then
        if s.hor_offs ≤ s.hcount ∧ s.hcount < s.hor_offs + s.hor_size then
          if (s.hcount - s.hor_offs) &&& 1 ≠ 0 then
            -- Odd pixel
            [Event.SetPixel ((s.hcount : Int) - s.hor_offs - 1) ((s.vcount : Int) - s.ver_offs)
               (s.yuv2rgb s.y0 s.u0 (chroma : Int)),
             Event.SetPixel ((s.hcount : Int) - s.hor_offs) ((s.vcount : Int) - s.ver_offs)
               (s.yuv2rgb (luma : Int) s.u0 (chroma : Int))]
          else []
        else []
      else []
    let s1 : VideoOut :=
      if s.ver_offs ≤ s.vcount ∧ s.vcount < s.ver_offs + s.ver_size then
        if s.hor_offs ≤ s.hcount ∧ s.hcount < s.hor_offs + s.hor_size then
          if (s.hcount - s.hor_offs) &&& 1 ≠ 0 then s
          else { s with y0 := (luma : Int), u0 := (chroma : Int) }  -- Even pixel
        else s
      else s
    -- Rising edge on VS
    let r1 : Res :=
      if vs = s1.vs_pol ∧ s1.prev_vs ≠ s1.vs_pol then
        let o2 := o1 ++ (if s1.dbg_on ≠ 0 then [Event.Print (Msg.vsEdge cycle)] else [])
        let s2 : VideoOut := { s1 with hcount := 0, vcount := 0 }
        let r : Res :=
          if s2.dump_act ≠ 0 then
            { st := { s2 with dump_ctr := s2.dump_ctr + 1 }, ret := s1.dump_act,
              out := o2 ++ [Event.Print (Msg.save s2.dump_ctr), Event.WriteToFile s2.dump_ctr] }
          else { st := s2, ret := s1.dump_act, out := o2 }
        if s1.filename ≠ [] then { r with st := { r.st with dump_act := 1 } } else r
      else { st := s1, ret := 0, out := o1 }
    -- Rising edge on HS
    let s3 := r1.st
    let r2 : Res :=
      if hs = s3.hs_pol ∧ s3.prev_hs ≠ s3.hs_pol then
        let o3 := r1.out ++
          (if s3.dbg_on ≠ 0 then [Event.Print (Msg.hsEdge cycle s3.vcount)] else [])
        let s4 : VideoOut := if s3.hcount > 4 then { s3 with vcount := u16 (s3.vcount + 1) } else s3
        { st := { s4 with hcount := 0 }, ret := r1.ret, out := o3 }
      else { st := { s3 with hcount := u16 (s3.hcount + 1) }, ret := r1.ret, out := r1.out }
    { st := { r2.st with prev_vs := vs, prev_hs := hs, prev_clk := clk }, ret := r2.ret,
      out := r2.out }
  else { st := { s with prev_clk := clk }, ret := 0, out := [] }

/-- Method `VideoOut::eval_YUV422_DE` (video_out.cpp 471-541). -/
def eval_YUV422_DE (s : VideoOut) (cycle clk de luma chroma : Nat) : Res :=
  -- Rising edge on clock
  if clk ≠ 0 ∧ s.prev_clk = 0 then
    -- Grab active area
    if de ≠ 0 then
      let o1 : List Event :=
        if s.hcount &&& 1 ≠ 0 then
          -- Odd pixel
          [Event.SetPixel ((s.hcount : Int) - 1) (s.vcount : Int)
             (s.yuv2rgb s.y0 s.u0 (chroma : Int)),
           Event.SetPixel (s.hcount : Int) (s.vcount : Int)
             (s.yuv2rgb (luma : Int) s.u0 (chroma : Int))]
        else []
      let s0 : VideoOut :=
        if s.hcount &&& 1 ≠ 0 then s
        else { s with y0 := (luma : Int), u0 := (chroma : Int) }  -- Even pixel
      let s1 : VideoOut := { s0 with hcount := u16 (s0.hcount + 1) }
      if s1.hcount = s1.hor_size then
        let o2 := o1 ++
          (if s1.dbg_on ≠ 0 then [Event.Print (Msg.hsEdge cycle s1.vcount)] else [])
        let s2 : VideoOut := { s1 with hcount := 0, vcount := u16 (s1.vcount + 1) }
        if s2.vcount = s2.ver_size then
          let s3 : VideoOut := if s2.filename ≠ [] then { s2 with dump_act := 1 } else s2
          let o3 := o2 ++ (if s3.dbg_on ≠ 0 then [Event.Print (Msg.vsEdge cycle)] else [])
          let s4 : VideoOut := { s3 with vcount := 0 }
          if s4.dump_act ≠ 0 then
            { st := { s4 with dump_ctr := s4.dump_ctr + 1, prev_clk := clk }, ret := s3.dump_act,
              out := o3 ++ [Event.Print (Msg.save s4.dump_ctr), Event.WriteToFile s4.dump_ctr] }
          else { st := { s4 with prev_clk := clk }, ret := s3.dump_act, out := o3 }
        else { st := { s2 with prev_clk := clk }, ret := 0, out := o2 }
      else { st := { s1 with prev_clk := clk }, ret := 0, out := o1 }
    else { st := { s with prev_clk := clk }, ret := 0, out := [] }
  else { st := { s with prev_clk := clk }, ret := 0, out := [] }

/-- The four `SetPixel` calls of one iteration `i` of the conversion loop of
`eval_YUV420_DE` (video_out.cpp 592-605). -/
def yuv420_block (s : VideoOut) (i : Nat) : List Event :=
  let u := bufGet s.c_buf ((s.vcount2 &&& 1) ^^^ 1) i
  let v := bufGet s.c_buf ((s.vcount2 &&& 1) ^^^ 1) (i + 1)
  [Event.SetPixel (i : Int) (s.vcount : Int)
     (s.yuv2rgb (bufGet s.y_buf ((s.vcount1 &&& 2) ^^^ 2) i) u v),
   Event.SetPixel ((i : Int) + 1) (s.vcount : Int)
     (s.yuv2rgb (bufGet s.y_buf ((s.vcount1 &&& 2) ^^^ 2) (i + 1)) u v),
   Event.SetPixel (i : Int) ((s.vcount : Int) + 1)
     (s.yuv2rgb (bufGet s.y_buf ((s.vcount1 &&& 2) ^^^ 3) i) u v),
   Event.SetPixel ((i : Int) + 1) ((s.vcount : Int) + 1)
     (s.yuv2rgb (bufGet s.y_buf ((s.vcount1 &&& 2) ^^^ 3) (i + 1)) u v)]

/-- Method `VideoOut::eval_YUV420_DE` (video_out.cpp 544-638). The loop
`for (i = 0; i < hor_size; i = i + 2)` runs for i = 2k, k < (hor_size + 1) / 2. -/
def eval_YUV420_DE (s : VideoOut) (cycle clk de_y de_c luma chroma : Nat) : Res :=
  -- Rising edge on clock
  if clk ≠ 0 ∧ s.prev_clk = 0 then
    -- Grab active area
    let s1 : VideoOut :=
      if de_y ≠ 0 then
        let a : VideoOut :=
          { s with y_buf := bufSet s.y_buf (s.vcount1 &&& 3) s.hcount1 (luma : Int),
                   hcount1 := u16 (s.hcount1 + 1) }
        if a.hcount1 = a.hor_size then { a with hcount1 := 0, vcount1 := u16 (a.vcount1 + 1) }
        else a
      else s
    let s2 : VideoOut :=
      if de_c ≠ 0 then
        let a : VideoOut :=
          { s1 with c_buf := bufSet s1.c_buf (s1.vcount2 &&& 1) s1.hcount2 (chroma : Int),
                    hcount2 := u16 (s1.hcount2 + 1) }
        if a.hcount2 = a.hor_size then { a with hcount2 := 0, vcount2 := u16 (a.vcount2 + 1) }
        else a
      else s1
    -- 2 lines of pixel are ready
    if (2 : Int) ≤ (s2.vcount1 : Int) - s2.vcount ∧ (2 : Int) ≤ (s2.vcount2 : Int) * 2 - s2.vcount then
      -- YUV420 to RGB444 conversion
      let o1 : List Event :=
        ((List.range ((s2.hor_size + 1) / 2)).map (fun k => yuv420_block s2 (2 * k))).flatten
      let o2 := o1 ++
        (if s2.dbg_on ≠ 0 then [Event.Print (Msg.hsEdge cycle s2.vcount)] else [])
      let s3 : VideoOut := { s2 with vcount := u16 (s2.vcount + 2) }
      if s3.vcount = s3.ver_size then
        let s4 : VideoOut :=
          { s3 with vcount := 0,
                    vcount1 := u16i ((s3.vcount1 : Int) - s3.ver_size),
                    vcount2 := u16i ((s3.vcount2 : Int) - ((s3.ver_size / 2 : Nat) : Int)) }
        let s5 : VideoOut := if s4.filename ≠ [] then { s4 with dump_act := 1 } else s4
        let o3 := o2 ++ (if s5.dbg_on ≠ 0 then [Event.Print (Msg.vsEdge cycle)] else [])
        if s5.dump_act ≠ 0 then
          { st := { s5 with dump_ctr := s5.dump_ctr + 1, prev_clk := clk }, ret := s5.dump_act,
            out := o3 ++ [Event.Print (Msg.save s5.dump_ctr), Event.WriteToFile s5.dump_ctr] }
        else { st := { s5 with prev_clk := clk }, ret := s5.dump_act, out := o3 }
      else { st := { s3 with prev_clk := clk }, ret := 0, out := o2 }
    else { st := { s2 with prev_clk := clk }, ret := 0, out := [] }
  else { st := { s with prev_clk := clk }, ret := 0, out := [] }

/-- Method `VideoOut::get_hcount`. -/
def get_hcount (s : VideoOut) : Nat := s.hcount

/-- Method `VideoOut::get_vcount`. -/
def get_vcount (s : VideoOut) : Nat := s.vcount

end VideoOut

/-- One call of the public `eval_*` interface with its arguments. -/
inductive Call where
  | RGB444_HV (cycle clk vs hs red green blue : Nat)
  | RGB444_DE (cycle clk de red green blue : Nat)
  | YUV444_HV (cycle clk vs hs luma cb cr : Nat)
  | YUV444_DE (cycle clk de luma cb cr : Nat)
  | YUV422_HV (cycle clk vs hs luma chroma : Nat)
  | YUV422_DE (cycle clk de luma chroma : Nat)
  | YUV420_DE (cycle clk de_y de_c luma chroma : Nat)
deriving DecidableEq

/-- The clock level passed to a call. -/
def Call.clk : Call → Nat
  | .RGB444_HV _ clk _ _ _ _ _ => clk
  | .RGB444_DE _ clk _ _ _ _ => clk
  | .YUV444_HV _ clk _ _ _ _ _ => clk
  | .YUV444_DE _ clk _ _ _ _ => clk
  | .YUV422_HV _ clk _ _ _ _ => clk
  | .YUV422_DE _ clk _ _ _ => clk
  | .YUV420_DE _ clk _ _ _ _ => clk

/-- Dispatch of one call to the method it names. -/
def VideoOut.step (s : VideoOut) : Call → Res
  | .RGB444_HV cycle clk vs hs red green blue => s.eval_RGB444_HV cycle clk vs hs red green blue
  | .RGB444_DE cycle clk de red green blue => s.eval_RGB444_DE cycle clk de red green blue
  | .YUV444_HV cycle clk vs hs luma cb cr => s.eval_YUV444_HV cycle clk vs hs luma cb cr
  | .YUV444_DE cycle clk de luma cb cr => s.eval_YUV444_DE cycle clk de luma cb cr
  | .YUV422_HV cycle clk vs hs luma chroma => s.eval_YUV422_HV cycle clk vs hs luma chroma
  | .YUV422_DE cycle clk de luma chroma => s.eval_YUV422_DE cycle clk de luma chroma
  | .YUV420_DE cycle clk de_y de_c luma chroma => s.eval_YUV420_DE cycle clk de_y de_c luma chroma

/-- The engine after a sequence of calls. -/
def VideoOut.exec (s : VideoOut) : List Call → VideoOut
  | [] => s
  | c :: cs => VideoOut.exec (s.step c).st cs

/-- The effects of a sequence of calls, in order. -/
def VideoOut.trace (s : VideoOut) : List Call → List Event
  | [] => []
  | c :: cs => (s.step c).out ++ VideoOut.trace (s.step c).st cs

/-- The values returned by a sequence of calls, in order. -/
def VideoOut.rets (s : VideoOut) : List Call → List Nat
  | [] => []
  | c :: cs => (s.step c).ret :: VideoOut.rets (s.step c).st cs

/-- The pixel writes (`SetPixel`) among a list of effects. -/
def pixelWrites : List Event → List (Int × Int × RGBApixel)
  | [] => []
  | Event.SetPixel x y p :: es => (x, y, p) :: pixelWrites es
  | _ :: es => pixelWrites es

/-- The sequence numbers of the finalize calls (`WriteToFile`) among a list of effects. -/
def finalizes : List Event → List Int
  | [] => []
  | Event.WriteToFile n :: es => n :: finalizes es
  | _ :: es => finalizes es

/-- The members fixed by the constructor and never assigned by any method. -/
def VideoOut.config (s : VideoOut) :
    Nat × Nat × Nat × Nat × Nat × Nat × Nat × Nat × Nat ×
      List Int × List Int × List Int × List Int × List Nat :=
  (s.bit_shift, s.bit_mask, s.hs_pol, s.vs_pol, s.dbg_on, s.hor_offs, s.ver_offs,
    s.hor_size, s.ver_size, s.u_to_g, s.u_to_b, s.v_to_r, s.v_to_g, s.filename)

/-- The clamp of spec section 4.1: 0 below 0, 255 above 255, the value otherwise. -/
def clamp255 (t : Int) : Int := if t < 0 then 0 else if t > 255 then 255 else t

/-- The conversion of spec section 4.1, written with the products instead of the
lookup tables. -/
def yuv2rgb_spec (mask shift : Nat) (lum cb cr : Int) : RGBApixel :=
  let y : Int := andMask lum mask * 2 ^ (shift + 7)
  let u : Int := andMask cb mask * 2 ^ shift
  let v : Int := andMask cr mask * 2 ^ shift
  { Red := (clamp255 ((y + 180 * v - 22906) >>> 7)).toNat,
    Green := (clamp255 ((y - 44 * u - 91 * v + 17264) >>> 7)).toNat,
    Blue := (clamp255 ((y + 226 * u - 28928) >>> 7)).toNat }

/-- The block "Rising edge on VS" shared verbatim by the three `eval_*_HV` methods
(video_out.cpp 144-162, 282-300, 430-448), run on engine `s` after effects `o1`. -/
def vsPart (s : VideoOut) (cycle vs : Nat) (o1 : List Event) : Res :=
  if vs = s.vs_pol ∧ s.prev_vs ≠ s.vs_pol then
    let o2 := o1 ++ (if s.dbg_on ≠ 0 then [Event.Print (Msg.vsEdge cycle)] else [])
    let s2 : VideoOut := { s with hcount := 0, vcount := 0 }
    let r : Res :=
      if s2.dump_act ≠ 0 then
        { st := { s2 with dump_ctr := s2.dump_ctr + 1 }, ret := s.dump_act,
          out := o2 ++ [Event.Print (Msg.save s2.dump_ctr), Event.WriteToFile s2.dump_ctr] }
      else { st := s2, ret := s.dump_act, out := o2 }
    if s.filename ≠ [] then { r with st := { r.st with dump_act := 1 } } else r
  else { st := s, ret := 0, out := o1 }

/-- The block "Rising edge on HS" shared verbatim by the three `eval_*_HV` methods
(video_out.cpp 164-177, 302-315, 450-463), followed by the stores of the previous
levels. -/
def hsPart (r1 : Res) (cycle clk vs hs : Nat) : Res :=
  let s3 := r1.st
  let r2 : Res :=
    if hs = s3.hs_pol ∧ s3.prev_hs ≠ s3.hs_pol then
      let o3 := r1.out ++
        (if s3.dbg_on ≠ 0 then [Event.Print (Msg.hsEdge cycle s3.vcount)] else [])
      let s4 : VideoOut := if s3.hcount > 4 then { s3 with vcount := u16 (s3.vcount + 1) } else s3
      { st := { s4 with hcount := 0 }, ret := r1.ret, out := o3 }
    else { st := { s3 with hcount := u16 (s3.hcount + 1) }, ret := r1.ret, out := r1.out }
  { st := { r2.st with prev_vs := vs, prev_hs := hs, prev_clk := clk }, ret := r2.ret,
    out := r2.out }

/-- The block after the pixel capture shared verbatim by `eval_RGB444_DE`,
`eval_YUV444_DE` and `eval_YUV422_DE` (video_out.cpp 214-239, 352-377, 510-535), run on
engine `s0` after effects `o1`, followed by the store of the clock level. -/
def dePart (s0 : VideoOut) (cycle clk : Nat) (o1 : List Event) : Res :=
  let s1 : VideoOut := { s0 with hcount := u16 (s0.hcount + 1) }
  if s1.hcount = s1.hor_size then
    let o2 := o1 ++
      (if s1.dbg_on ≠ 0 then [Event.Print (Msg.hsEdge cycle s1.vcount)] else [])
    let s2 : VideoOut := { s1 with hcount := 0, vcount := u16 (s1.vcount + 1) }
    if s2.vcount = s2.ver_size then
      let s3 : VideoOut := if s2.filename ≠ [] then { s2 with dump_act := 1 } else s2
      let o3 := o2 ++ (if s3.dbg_on ≠ 0 then [Event.Print (Msg.vsEdge cycle)] else [])
      let s4 : VideoOut := { s3 with vcount := 0 }
      if s4.dump_act ≠ 0 then
        { st := { s4 with dump_ctr := s4.dump_ctr + 1, prev_clk := clk }, ret := s3.dump_act,
          out := o3 ++ [Event.Print (Msg.save s4.dump_ctr), Event.WriteToFile s4.dump_ctr] }
      else { st := { s4 with prev_clk := clk }, ret := s3.dump_act, out := o3 }
    else { st := { s2 with prev_clk := clk }, ret := 0, out := o2 }
  else { st := { s1 with prev_clk := clk }, ret := 0, out := o1 }

/-- A call that is not a rising clock edge: only `prev_clk = clk` runs. -/
def idle (s : VideoOut) (clk : Nat) : Res :=
  { st := { s with prev_clk := clk }, ret := 0, out := [] }

/-- The pixel built from an RGB sample (video_out.cpp 136-138, 208-210). -/
def rgbPixel (s : VideoOut) (red green blue : Nat) : RGBApixel :=
  { Red := u8 ((red &&& s.bit_mask) <<< s.bit_shift),
    Green := u8 ((green &&& s.bit_mask) <<< s.bit_shift),
    Blue := u8 ((blue &&& s.bit_mask) <<< s.bit_shift) }

/-- The active-window test of the `eval_*_HV` methods (video_out.cpp 130-132), the
sums taken on promoted `int`s, without 16-bit wrap. -/
def inWindow (s : VideoOut) : Prop :=
  (s.ver_offs ≤ s.vcount ∧ s.vcount < s.ver_offs + s.ver_size) ∧
    (s.hor_offs ≤ s.hcount ∧ s.hcount < s.hor_offs + s.hor_size)

instance (s : VideoOut) : Decidable (inWindow s) := by unfold inWindow; infer_instance

/-- The storing of luma in `eval_YUV420_DE` (video_out.cpp 563-572). -/
def lumaPart (s : VideoOut) (de_y luma : Nat) : VideoOut :=
  if de_y ≠ 0 then
    let a : VideoOut :=
      { s with y_buf := bufSet s.y_buf (s.vcount1 &&& 3) s.hcount1 (luma : Int),
               hcount1 := u16 (s.hcount1 + 1) }
    if a.hcount1 = a.hor_size then { a with hcount1 := 0, vcount1 := u16 (a.vcount1 + 1) }
    else a
  else s

/-- The storing of chroma in `eval_YUV420_DE` (video_out.cpp 573-582). -/
def chromaPart (s1 : VideoOut) (de_c chroma : Nat) : VideoOut :=
  if de_c ≠ 0 then
    let a : VideoOut :=
      { s1 with c_buf := bufSet s1.c_buf (s1.vcount2 &&& 1) s1.hcount2 (chroma : Int),
                hcount2 := u16 (s1.hcount2 + 1) }
    if a.hcount2 = a.hor_size then { a with hcount2 := 0, vcount2 := u16 (a.vcount2 + 1) }
    else a
  else s1

/-- The test "2 lines of pixel are ready" of `eval_YUV420_DE` (video_out.cpp 585), on
promoted `int`s. -/
def ready420 (s2 : VideoOut) : Prop :=
  (2 : Int) ≤ (s2.vcount1 : Int) - s2.vcount ∧ (2 : Int) ≤ (s2.vcount2 : Int) * 2 - s2.vcount

instance (s : VideoOut) : Decidable (ready420 s) := by unfold ready420; infer_instance

/-- The emission of two lines in `eval_YUV420_DE` (video_out.cpp 584-635) on the engine
`s2` left by the two storing blocks. -/
def emitPart (s2 : VideoOut) (cycle clk : Nat) : Res :=
  if (2 : Int) ≤ (s2.vcount1 : Int) - s2.vcount ∧ (2 : Int) ≤ (s2.vcount2 : Int) * 2 - s2.vcount then
    let o1 : List Event :=
      ((List.range ((s2.hor_size + 1) / 2)).map (fun k => VideoOut.yuv420_block s2 (2 * k))).flatten
    let o2 := o1 ++
      (if s2.dbg_on ≠ 0 then [Event.Print (Msg.hsEdge cycle s2.vcount)] else [])
    let s3 : VideoOut := { s2 with vcount := u16 (s2.vcount + 2) }
    if s3.vcount = s3.ver_size then
      let s4 : VideoOut :=
        { s3 with vcount := 0,
                  vcount1 := u16i ((s3.vcount1 : Int) - s3.ver_size),
                  vcount2 := u16i ((s3.vcount2 : Int) - ((s3.ver_size / 2 : Nat) : Int)) }
      let s5 : VideoOut := if s4.filename ≠ [] then { s4 with dump_act := 1 } else s4
      let o3 := o2 ++ (if s5.dbg_on ≠ 0 then [Event.Print (Msg.vsEdge cycle)] else [])
      if s5.dump_act ≠ 0 then
        { st := { s5 with dump_ctr := s5.dump_ctr + 1, prev_clk := clk }, ret := s5.dump_act,
          out := o3 ++ [Event.Print (Msg.save s5.dump_ctr), Event.WriteToFile s5.dump_ctr] }
      else { st := { s5 with prev_clk := clk }, ret := s5.dump_act, out := o3 }
    else { st := { s3 with prev_clk := clk }, ret := 0, out := o2 }
  else { st := { s2 with prev_clk := clk }, ret := 0, out := [] }

/-- Effects of the capture block of `eval_RGB444_HV` (video_out.cpp 129-142). -/
def capRGBHV (s : VideoOut) (red green blue : Nat) : List Event :=
  if s.ver_offs ≤ s.vcount ∧ s.vcount < s.ver_offs + s.ver_size then
    if s.hor_offs ≤ s.hcount ∧ s.hcount < s.hor_offs + s.hor_size then
      [Event.SetPixel ((s.hcount : Int) - s.hor_offs) ((s.vcount : Int) - s.ver_offs)
        { Red := u8 ((red &&& s.bit_mask) <<< s.bit_shift),
          Green := u8 ((green &&& s.bit_mask) <<< s.bit_shift),
          Blue := u8 ((blue &&& s.bit_mask) <<< s.bit_shift) }]
    else []
  else []

/-- Effects of the capture block of `eval_YUV444_HV` (video_out.cpp 267-280). -/
def cap444HV (s : VideoOut) (luma cb cr : Nat) : List Event :=
  if s.ver_offs ≤ s.vcount ∧ s.vcount < s.ver_offs + s.ver_size then
    if s.hor_offs ≤ s.hcount ∧ s.hcount < s.hor_offs + s.hor_size then
      [Event.SetPixel ((s.hcount : Int) - s.hor_offs) ((s.vcount : Int) - s.ver_offs)
        (s.yuv2rgb (luma : Int) (cb : Int) (cr : Int))]
    else []
  else []

/-- Effects of the capture block of `eval_YUV422_HV` (video_out.cpp 404-428). -/
def cap422HV (s : VideoOut) (luma chroma : Nat) : List Event :=
  if s.ver_offs ≤ s.vcount ∧ s.vcount < s.ver_offs + s.ver_size then
    if s.hor_offs ≤ s.hcount ∧ s.hcount < s.hor_offs + s.hor_size then
      if (s.hcount - s.hor_offs) &&& 1 ≠ 0 then
        [Event.SetPixel ((s.hcount : Int) - s.hor_offs - 1) ((s.vcount : Int) - s.ver_offs)
           (s.yuv2rgb s.y0 s.u0 (chroma : Int)),
         Event.SetPixel ((s.hcount : Int) - s.hor_offs) ((s.vcount : Int) - s.ver_offs)
           (s.yuv2rgb (luma : Int) s.u0 (chroma : Int))]
      else []
    else []
  else []

/-- Engine after the capture block of `eval_YUV422_HV` (video_out.cpp 404-428). -/
def st422HV (s : VideoOut) (luma chroma : Nat) : VideoOut :=
  if s.ver_offs ≤ s.vcount ∧ s.vcount < s.ver_offs + s.ver_size then
    if s.hor_offs ≤ s.hcount ∧ s.hcount < s.hor_offs + s.hor_size then
      if (s.hcount - s.hor_offs) &&& 1 ≠ 0 then s
      else { s with y0 := (luma : Int), u0 := (chroma : Int) }
    else s
  else s

/-- Effects of the capture block of `eval_YUV422_DE` (video_out.cpp 491-508). -/
def cap422DE (s : VideoOut) (luma chroma : Nat) : List Event :=
  if s.hcount &&& 1 ≠ 0 then
    [Event.SetPixel ((s.hcount : Int) - 1) (s.vcount : Int)
       (s.yuv2rgb s.y0 s.u0 (chroma : Int)),
     Event.SetPixel (s.hcount : Int) (s.vcount : Int)
       (s.yuv2rgb (luma : Int) s.u0 (chroma : Int))]
  else []

/-- Engine after the capture block of `eval_YUV422_DE` (video_out.cpp 491-508). -/
def st422DE (s : VideoOut) (luma chroma : Nat) : VideoOut :=
  if s.hcount &&& 1 ≠ 0 then s
  else { s with y0 := (luma : Int), u0 := (chroma : Int) }

/-- The C expression `(c & bit_mask) << bit_shift` of `yuv2rgb` (video_out.cpp 662-663),
used as index into the lookup tables. -/
def VideoOut.chromaIndex (s : VideoOut) (c : Int) : Int := andMask c s.bit_mask * 2 ^ s.bit_shift

/-- One choice of the indeterminate contents: everything zero. -/
def Uninit.zero : Uninit := { y0 := 0, u0 := 0, y_buf := fun _ _ => 0, c_buf := fun _ _ => 0 }

/-- The characters of the file name "snapshot" used by the test bench (main.cpp 127). -/
def snapshotName : List Nat := [115, 110, 97, 112, 115, 104, 111, 116]

/-- Arguments of one `eval_RGB444_DE` call. -/
structure DeArgs where
  cycle : Nat
  clk : Nat
  de : Nat
  red : Nat
  green : Nat
  blue : Nat

/-- The call made with these arguments. -/
def DeArgs.call (a : DeArgs) : Call := Call.RGB444_DE a.cycle a.clk a.de a.red a.green a.blue

/-- Number of calls of the sequence that are rising clock edges (clock high, clock of
the previous call low, `prev` standing for the level before the first call) with
data-enable high. -/
def deSamples (prev : Nat) : List DeArgs → Nat
  | [] => 0
  | a :: as => (if (a.clk ≠ 0 ∧ prev = 0) ∧ a.de ≠ 0 then 1 else 0) + deSamples a.clk as

/-- Clock level of the last call of the sequence, `prev` if there is none. -/
def lastClk (prev : Nat) : List DeArgs → Nat
  | [] => prev
  | a :: as => lastClk a.clk as

/-- End of line in the data-enable methods: the incremented `hcount` equals `hor_size`
(video_out.cpp 214-215). -/
def lineEndDE (s : VideoOut) : Prop := u16 (s.hcount + 1) = s.hor_size

instance (s : VideoOut) : Decidable (lineEndDE s) := by unfold lineEndDE; infer_instance

/-- Frame boundary in the single-enable data-enable methods: end of line and the
incremented `vcount` equals `ver_size` (video_out.cpp 214-221). -/
def boundaryDE (s : VideoOut) : Prop :=
  u16 (s.hcount + 1) = s.hor_size ∧ u16 (s.vcount + 1) = s.ver_size

instance (s : VideoOut) : Decidable (boundaryDE s) := by unfold boundaryDE; infer_instance

/-- Three data-enable samples, each a call with the clock high followed by a call with
the clock low. -/
def demoHistory : List DeArgs :=
  [⟨0, 1, 1, 1, 2, 3⟩, ⟨1, 0, 1, 1, 2, 3⟩, ⟨2, 1, 1, 4, 5, 6⟩, ⟨3, 0, 1, 4, 5, 6⟩,
   ⟨4, 1, 1, 10, 11, 12⟩, ⟨5, 0, 1, 10, 11, 12⟩]

/-- A fourth data-enable sample. -/
def demoCall : DeArgs := ⟨6, 1, 1, 7, 8, 9⟩

/-- Recognition of a vertical-sync rising edge (video_out.cpp 145). -/
def vsRise (s : VideoOut) (vs : Nat) : Prop := vs = s.vs_pol ∧ s.prev_vs ≠ s.vs_pol

instance (s : VideoOut) (vs : Nat) : Decidable (vsRise s vs) := by unfold vsRise; infer_instance

/-- Recognition of a horizontal-sync rising edge (video_out.cpp 165). -/
def hsRise (s : VideoOut) (hs : Nat) : Prop := hs = s.hs_pol ∧ s.prev_hs ≠ s.hs_pol

instance (s : VideoOut) (hs : Nat) : Decidable (hsRise s hs) := by unfold hsRise; infer_instance

/-- One rising-clock sample fed to `eval_RGB444_HV`: the call with the clock high, then
the call with the clock low. -/
def hvSample (vs hs : Nat) (p : Nat × Nat × Nat) : List Call :=
  [Call.RGB444_HV 0 1 vs hs p.1 p.2.1 p.2.2, Call.RGB444_HV 0 0 vs hs p.1 p.2.1 p.2.2]

/-- The first `n` pixel samples of a row (hs = 0, vs = 0). -/
def hvPixels (row : Nat → Nat × Nat × Nat) : Nat → List Call
  | 0 => []
  | n + 1 => hvPixels row n ++ hvSample 0 0 (row n)

/-- One scanline: `W` pixel samples followed by one sample with hs = 1. -/
def hvRow (W : Nat) (row : Nat → Nat × Nat × Nat) (sync : Nat × Nat × Nat) : List Call :=
  hvPixels row W ++ hvSample 0 1 sync

/-- The first `n` scanlines of a frame. -/
def hvRows (W : Nat) (pix : Nat → Nat → Nat × Nat × Nat) (sync : Nat × Nat × Nat) :
    Nat → List Call
  | 0 => []
  | n + 1 => hvRows W pix sync n ++ hvRow W (pix n) sync

/-- The scenario of spec section 8: `H` scanlines of `W` samples, each closed by a
horizontal sync, then one sample with vs = 1. -/
def hvFrame (W H : Nat) (pix : Nat → Nat → Nat × Nat × Nat) (sync : Nat × Nat × Nat) :
    List Call :=
  hvRows W pix sync H ++ hvSample 1 0 sync

/-- The writes (c, r, fed value) for the first `n` columns of row `r`. -/
def rowWrites (r : Nat) (row : Nat → Nat × Nat × Nat) : Nat → List (Int × Int × RGBApixel)
  | 0 => []
  | n + 1 => rowWrites r row n ++
      [((n : Int), (r : Int), { Red := (row n).1, Green := (row n).2.1, Blue := (row n).2.2 })]

/-- The writes of the first `n` rows of a `W` wide frame in raster order. -/
def rasterWrites (W : Nat) (pix : Nat → Nat → Nat × Nat × Nat) :
    Nat → List (Int × Int × RGBApixel)
  | 0 => []
  | n + 1 => rasterWrites W pix n ++ rowWrites n (pix n) W

/-- Distinct 8-bit RGB triples for the small scenarios (spec section 8). -/
def demoPix (r c : Nat) : Nat × Nat × Nat :=
  ((10 * r + c + 1) % 256, (100 + 10 * r + c) % 256, (200 + 10 * r + c) % 256)

/-- Engine of the scenario between two samples: offsets 0, active size W x H, both
polarities positive, depth 8, dumping not armed, stored clock and vs levels low, at
position (hc, vc) with stored hs level phs. -/
def HVst (s : VideoOut) (W H hc vc phs : Nat) : Prop :=
  (s.hor_offs = 0 ∧ s.ver_offs = 0 ∧ s.hor_size = W ∧ s.ver_size = H) ∧
  (s.hs_pol = 1 ∧ s.vs_pol = 1 ∧ s.bit_mask = 255 ∧ s.bit_shift = 0) ∧
  (s.hcount = hc ∧ s.vcount = vc) ∧
  (s.prev_clk = 0 ∧ s.prev_vs = 0 ∧ s.prev_hs = phs ∧ s.dump_act = 0)

/-- A 4 x 2 engine with horizontal offset 1 after two rising-clock samples of
`eval_YUV422_HV`: it stands at hcount = 2, the odd column 1 of the window, with the
even sample (70, 80) stored. -/
def demo422 : VideoOut :=
  (VideoOut.new 0 8 3 1 4 0 2 snapshotName Uninit.zero).exec
    [Call.YUV422_HV 0 1 0 0 50 60, Call.YUV422_HV 1 0 0 0 50 60,
     Call.YUV422_HV 2 1 0 0 70 80, Call.YUV422_HV 3 0 0 0 70 80]

/-- The three data-enable methods with a single enable input. -/
def Call.isDE1 : Call → Bool
  | .RGB444_DE .. => true
  | .YUV444_DE .. => true
  | .YUV422_DE .. => true
  | _ => false

/-- Position invariant of the data-enable scan for an active size W x H. -/
def DEinv (s : VideoOut) (W H : Nat) : Prop :=
  s.hor_size = W ∧ s.ver_size = H ∧ s.hcount < W ∧ s.vcount < H

/-- A mixed sequence of single-enable data-enable calls: five rising-clock samples
(one RGB, two YUV444, two YUV422) with the falling-clock calls between them. -/
def demoDE : List Call :=
  [Call.RGB444_DE 0 1 1 1 2 3, Call.RGB444_DE 1 0 1 1 2 3,
   Call.YUV444_DE 2 1 1 128 128 128, Call.YUV444_DE 3 0 1 128 128 128,
   Call.YUV422_DE 4 1 1 90 100, Call.YUV422_DE 5 0 1 90 100,
   Call.YUV422_DE 6 1 1 91 101, Call.YUV422_DE 7 0 1 91 101,
   Call.YUV444_DE 8 1 1 60 70 80]

/-- The three sync-discipline methods. -/
def Call.isHV : Call → Bool
  | .RGB444_HV .. => true
  | .YUV444_HV .. => true
  | .YUV422_HV .. => true
  | _ => false

/-- The vertical-sync level passed to a sync-discipline call (0 for the others). -/
def Call.vs : Call → Nat
  | .RGB444_HV _ _ vs _ _ _ _ => vs
  | .YUV444_HV _ _ vs _ _ _ _ => vs
  | .YUV422_HV _ _ vs _ _ _ => vs
  | _ => 0

/-- Signal-level bookkeeping of one sync-discipline call for vertical-sync polarity
`pol`, on the triple (clock level of the previous call, vs level of the previous
rising-clock call, number of vertical-sync rising edges seen so far). -/
def hvTrack1 (pol : Nat) (t : Nat × Nat × Nat) (c : Call) : Nat × Nat × Nat :=
  if c.clk ≠ 0 ∧ t.1 = 0 then
    (c.clk, c.vs, if c.vs = pol ∧ t.2.1 ≠ pol then t.2.2 + 1 else t.2.2)
  else (c.clk, t.2.1, t.2.2)

/-- Signal-level bookkeeping over a sequence of sync-discipline calls. -/
def hvTrack (pol : Nat) (t : Nat × Nat × Nat) : List Call → Nat × Nat × Nat
  | [] => t
  | c :: cs => hvTrack pol (hvTrack1 pol t c) cs

/-- Relation between an engine with a non-empty file name and the signal-level
bookkeeping: same stored levels, dumping armed once an edge was seen, and the dump
counter one less than the number of edges seen. -/
def HVlat (s : VideoOut) (pol : Nat) (t : Nat × Nat × Nat) : Prop :=
  (s.vs_pol = pol ∧ s.filename ≠ []) ∧ (s.prev_clk = t.1 ∧ s.prev_vs = t.2.1) ∧
    (s.dump_act = (if t.2.2 = 0 then 0 else 1) ∧ s.dump_ctr = ((t.2.2 - 1 : Nat) : Int))

/-- A sync-discipline sequence with two vertical-sync rising edges (calls 0 and 4),
mixing the three methods. -/
def demoHV : List Call :=
  [Call.RGB444_HV 0 1 1 0 1 2 3, Call.RGB444_HV 1 0 1 0 1 2 3,
   Call.RGB444_HV 2 1 0 0 4 5 6, Call.RGB444_HV 3 0 0 0 4 5 6,
   Call.YUV444_HV 4 1 1 0 128 128 128, Call.YUV444_HV 5 0 1 0 128 128 128,
   Call.YUV422_HV 6 1 0 0 90 100, Call.YUV422_HV 7 0 0 0 90 100]

/-- Frame boundary in `eval_YUV420_DE` on the engine left by the two storing blocks:
two lines are ready and the advanced `vcount` equals `ver_size` (video_out.cpp 585,
610-612). -/
def boundary420 (s2 : VideoOut) : Prop :=
  ((2 : Int) ≤ (s2.vcount1 : Int) - s2.vcount ∧ (2 : Int) ≤ (s2.vcount2 : Int) * 2 - s2.vcount) ∧
    u16 (s2.vcount + 2) = s2.ver_size

instance (s : VideoOut) : Decidable (boundary420 s) := by unfold boundary420; infer_instance

/-- The four data-enable methods. -/
def Call.isDE : Call → Bool
  | .RGB444_DE .. => true
  | .YUV444_DE .. => true
  | .YUV422_DE .. => true
  | .YUV420_DE .. => true
  | _ => false

/-- The call signals a frame boundary in the data-enable discipline: it is a rising
clock edge on which the branch `vcount == ver_size` is taken (video_out.cpp 221, 359,
517, 612). -/
def signalsBoundary (s : VideoOut) : Call → Bool
  | .RGB444_DE _ clk de _ _ _ => decide ((clk ≠ 0 ∧ s.prev_clk = 0) ∧ de ≠ 0 ∧ boundaryDE s)
  | .YUV444_DE _ clk de _ _ _ => decide ((clk ≠ 0 ∧ s.prev_clk = 0) ∧ de ≠ 0 ∧ boundaryDE s)
  | .YUV422_DE _ clk de _ _ => decide ((clk ≠ 0 ∧ s.prev_clk = 0) ∧ de ≠ 0 ∧ boundaryDE s)
  | .YUV420_DE _ clk de_y de_c luma chroma =>
      decide ((clk ≠ 0 ∧ s.prev_clk = 0) ∧
        boundary420 (chromaPart (lumaPart s de_y luma) de_c chroma))
  | _ => false

/-- Number of calls of the sequence that signal a frame boundary. -/
def boundaryCount (s : VideoOut) : List Call → Nat
  | [] => 0
  | c :: cs => (if signalsBoundary s c then 1 else 0) + boundaryCount (s.step c).st cs

/-- A 2 x 2 frame fed to `eval_YUV420_DE` up to its last sample: the first luma line
together with the chroma line, then the first sample of the second luma line. -/
def demo420 : List Call :=
  [Call.YUV420_DE 0 1 1 1 100 110, Call.YUV420_DE 1 0 1 1 100 110,
   Call.YUV420_DE 2 1 1 1 101 120, Call.YUV420_DE 3 0 1 1 101 120,
   Call.YUV420_DE 4 1 1 0 102 0, Call.YUV420_DE 5 0 1 0 102 0]

/-- The horizontal-sync level passed to a sync-discipline call (0 for the others). -/
def Call.hs : Call → Nat
  | .RGB444_HV _ _ _ hs _ _ _ => hs
  | .YUV444_HV _ _ _ hs _ _ _ => hs
  | .YUV422_HV _ _ _ hs _ _ => hs
  | _ => 0

/-- A 5 x 2 engine (offsets 0, positive polarities) after the five pixel samples of
its first line: it stands at hcount = 5, vcount = 0. -/
def demoLine : VideoOut :=
  (VideoOut.new 0 8 3 0 5 0 2 snapshotName Uninit.zero).exec (hvPixels (demoPix 0) 5)

/-- An 8 x 2 engine with debug on, after a first vertical-sync edge (which arms the
dumping) and four pixel samples: it stands at hcount = 5, vcount = 0. -/
def demoArmed : VideoOut :=
  (VideoOut.new 1 8 3 0 8 0 2 snapshotName Uninit.zero).exec
    (hvSample 1 0 (0, 0, 0) ++ hvPixels (demoPix 0) 4)

/-- The line buffers have the shape allocated by the constructor for width `W`:
16 luma lines and 8 chroma lines of `W` entries (video_out.cpp 89-94). -/
def Dims (s : VideoOut) (W : Nat) : Prop :=
  (s.y_buf.length = 16 ∧ ∀ k, k < 16 → (s.y_buf.getD k []).length = W) ∧
    (s.c_buf.length = 8 ∧ ∀ k, k < 8 → (s.c_buf.getD k []).length = W)

/-- Counters of the 4:2:0 reconstruction on an engine of active size W x H whose line
buffers have the allocated shape. -/
def St420 (s : VideoOut) (W H h1 v1 h2 v2 v : Nat) : Prop :=
  (s.hor_size = W ∧ s.ver_size = H) ∧ (s.hcount1 = h1 ∧ s.vcount1 = v1) ∧
    (s.hcount2 = h2 ∧ s.vcount2 = v2) ∧ s.vcount = v ∧ Dims s W

/-- One rising-clock sample fed to `eval_YUV420_DE` with de_y = 1: the call with the
clock high, then the call with the clock low. -/
def sample420 (de_c luma chroma : Nat) : List Call :=
  [Call.YUV420_DE 0 1 1 de_c luma chroma, Call.YUV420_DE 0 0 1 de_c luma chroma]

/-- The four writes of one 2 x 2 block at even column `i` of the row pair
(`v`, `v + 1`): the upper pixels take the lumas `a0`, `a1`, the lower pixels the lumas
`b0`, `b1`, and all four are converted by `f` with the same chroma pair (`cb`, `cr`). -/
def blockWrites (f : Int → Int → Int → RGBApixel) (i v : Int) (a0 a1 b0 b1 cb cr : Int) :
    List (Int × Int × RGBApixel) :=
  [(i, v, f a0 cb cr), (i + 1, v, f a1 cb cr), (i, v + 1, f b0 cb cr),
   (i + 1, v + 1, f b1 cb cr)]

/-- The writes of one emission of `eval_YUV420_DE` for the first `n` column pairs, read
from luma ring lines `l` and `l + 1` and chroma ring line `c` of engine `s`. -/
def emitWrites (s : VideoOut) (l c : Nat) (n : Nat) : List (Int × Int × RGBApixel) :=
  ((List.range n).map (fun j =>
    blockWrites s.yuv2rgb ((2 * j : Nat) : Int) (s.vcount : Int)
      (bufGet s.y_buf l (2 * j)) (bufGet s.y_buf l (2 * j + 1))
      (bufGet s.y_buf (l + 1) (2 * j)) (bufGet s.y_buf (l + 1) (2 * j + 1))
      (bufGet s.c_buf c (2 * j)) (bufGet s.c_buf c (2 * j + 1)))).flatten

/-- An engine of width 4 whose first two luma lines and first chroma line are stored
except for the last luma sample (see `demo420` for the 2 x 2 case). -/
def demo420w : VideoOut :=
  (VideoOut.new 0 8 0 0 4 0 4 snapshotName Uninit.zero).exec
    (sample420 1 10 128 ++ sample420 1 20 128 ++ sample420 1 30 100 ++ sample420 1 40 200 ++
     sample420 0 50 0 ++ sample420 0 60 0 ++ sample420 0 70 0)

/-- Arguments of one `eval_YUV422_DE` call. -/
structure De422 where
  cycle : Nat
  clk : Nat
  de : Nat
  luma : Nat
  chroma : Nat

/-- The call made with these arguments. -/
def De422.call (a : De422) : Call := Call.YUV422_DE a.cycle a.clk a.de a.luma a.chroma

/-- Number of calls of the sequence that are data-enable samples: rising clock edges
(clock high, clock of the previous call low, `prev` standing for the level before the
first call) with data-enable high. -/
def samples422 (prev : Nat) : List De422 → Nat
  | [] => 0
  | a :: as => (if (a.clk ≠ 0 ∧ prev = 0) ∧ a.de ≠ 0 then 1 else 0) + samples422 a.clk as

/-- Clock level of the last call of the sequence, `prev` if there is none. -/
def lastClk422 (prev : Nat) : List De422 → Nat
  | [] => prev
  | a :: as => lastClk422 a.clk as

/-- Two complete sample pairs with their falling-clock calls, followed by a rising-clock
call with data-enable low. -/
def demoHist422 : List De422 :=
  [⟨0, 1, 1, 10, 20⟩, ⟨1, 0, 1, 10, 20⟩, ⟨2, 1, 1, 11, 21⟩, ⟨3, 0, 1, 11, 21⟩,
   ⟨4, 1, 1, 12, 22⟩, ⟨5, 0, 0, 12, 22⟩, ⟨6, 1, 1, 13, 23⟩, ⟨7, 0, 0, 13, 23⟩,
   ⟨8, 1, 0, 14, 24⟩, ⟨9, 0, 0, 14, 24⟩]

/-- Calls between the two samples of a pair that are not samples themselves: a
falling-clock call, a rising-clock call with data-enable low, a falling-clock call. -/
def demoGap422 : List De422 := [⟨11, 0, 1, 90, 100⟩, ⟨12, 1, 0, 55, 66⟩, ⟨13, 0, 1, 55, 66⟩]

/-- Entries 0 .. n-1 of line `r` of a line buffer hold the values `g`. -/
def RowIs (b : List (List Int)) (r n : Nat) (g : Nat → Nat) : Prop :=
  ∀ x, x < n → bufGet b r x = ((g x : Nat) : Int)

/-- Contents of one 4:2:0 frame as fed to the engine: luma lines `Y`, chroma lines `C`
(Cb at even index, Cr at odd index) and the values `Z` present on the chroma input
while de_c is low. -/
structure Frame420 where
  Y : Nat → Nat → Nat
  C : Nat → Nat → Nat
  Z : Nat → Nat → Nat

/-- The first `n` samples of a line fed to `eval_YUV420_DE`: sample x carries luma
`ys x` and chroma `cs x`, with chroma enable `de_c`. -/
def line420 (de_c : Nat) (ys cs : Nat → Nat) : Nat → List Call
  | 0 => []
  | n + 1 => line420 de_c ys cs n ++ sample420 de_c (ys n) (cs n)

/-- Line pair k of a frame of width W: luma line 2k together with chroma line k, then
luma line 2k+1 with the chroma enable low. -/
def pair420 (W : Nat) (F : Frame420) (k : Nat) : List Call :=
  line420 1 (F.Y (2 * k)) (F.C k) W ++ line420 0 (F.Y (2 * k + 1)) (F.Z k) W

/-- The calls of line pair k before the last sample of luma line 2k+1. -/
def pairHead420 (W : Nat) (F : Frame420) (k : Nat) : List Call :=
  line420 1 (F.Y (2 * k)) (F.C k) W ++ line420 0 (F.Y (2 * k + 1)) (F.Z k) (W - 1)

/-- The rising-clock call of the last sample of luma line 2k+1. -/
def pairLast420 (W : Nat) (F : Frame420) (k : Nat) : Call :=
  Call.YUV420_DE 0 1 1 0 (F.Y (2 * k + 1) (W - 1)) (F.Z k (W - 1))

/-- The first `n` line pairs of a frame. -/
def frame420 (W : Nat) (F : Frame420) : Nat → List Call
  | 0 => []
  | n + 1 => frame420 W F n ++ pair420 W F n

/-- A sequence of complete frames of H lines. -/
def feed420 (W H : Nat) : List Frame420 → List Call
  | [] => []
  | F :: Fs => frame420 W F (H / 2) ++ feed420 W H Fs

/-- The writes expected for the first `m` blocks of line pair k, in emission order. -/
def pairWrites (f : Int → Int → Int → RGBApixel) (F : Frame420) (k : Nat) (m : Nat) :
    List (Int × Int × RGBApixel) :=
  ((List.range m).map (fun (j : Nat) =>
    blockWrites f ((2 * j : Nat) : Int) ((2 * k : Nat) : Int)
      ((F.Y (2 * k) (2 * j) : Nat) : Int) ((F.Y (2 * k) (2 * j + 1) : Nat) : Int)
      ((F.Y (2 * k + 1) (2 * j) : Nat) : Int) ((F.Y (2 * k + 1) (2 * j + 1) : Nat) : Int)
      ((F.C k (2 * j) : Nat) : Int) ((F.C k (2 * j + 1) : Nat) : Int))).flatten

/-- The writes expected for the first `n` line pairs of a frame of width W. -/
def frameWrites (f : Int → Int → Int → RGBApixel) (W : Nat) (F : Frame420) :
    Nat → List (Int × Int × RGBApixel)
  | 0 => []
  | n + 1 => frameWrites f W F n ++ pairWrites f F n (W / 2)

/-- Start of line pair k of a frame: all horizontal counters at 0, 2k luma lines and k
chroma lines stored, 2k lines emitted, clock low, conversion function `f`. -/
def PairStart (s : VideoOut) (W H k : Nat) (f : Int → Int → Int → RGBApixel) : Prop :=
  St420 s W H 0 (2 * k) 0 k (2 * k) ∧ s.prev_clk = 0 ∧ s.yuv2rgb = f

/-- A frame with distinct luma and chroma values. -/
def demoFrame : Frame420 :=
  { Y := fun r x => (16 + 10 * r + x) % 256, C := fun k x => (100 + 20 * k + x) % 256,
    Z := fun _ _ => 7 }

/-- The method `eval_YUV420_DE`, with its two enable inputs. -/
def Call.is420 : Call → Bool
  | .YUV420_DE .. => true
  | _ => false

/-- The engine `s` with the debug flag replaced by `d`. -/
def setDbg (s : VideoOut) (d : Nat) : VideoOut := { s with dbg_on := d }

/-- The scan-tracking members of the engine: hcount, vcount, the previous clock, hs
and vs levels, the dump flag and the dump counter. -/
def VideoOut.scan (s : VideoOut) : Nat × Nat × Nat × Nat × Nat × Nat × Int :=
  (s.hcount, s.vcount, s.prev_clk, s.prev_hs, s.prev_vs, s.dump_act, s.dump_ctr)

/-- The data-enable level passed to a single-enable data-enable call (0 for the
others). -/
def Call.de : Call → Nat
  | .RGB444_DE _ _ de _ _ _ => de
  | .YUV444_DE _ _ de _ _ _ => de
  | .YUV422_DE _ _ de _ _ => de
  | _ => 0

/-- Two sync-discipline calls, of any colour formats, with the same (clk, vs, hs). -/
def sameHV (c d : Call) : Bool :=
  c.isHV && d.isHV && decide (c.clk = d.clk ∧ c.vs = d.vs ∧ c.hs = d.hs)

/-- Two single-enable data-enable calls, of any colour formats, with the same
(clk, de). -/
def sameDE (c d : Call) : Bool :=
  c.isDE1 && d.isDE1 && decide (c.clk = d.clk ∧ c.de = d.de)

/-- Two call sequences of the same length related call by call by `f`. -/
def alike (f : Call → Call → Bool) : List Call → List Call → Bool
  | [], [] => true
  | c :: cs, d :: ds => f c d && alike f cs ds
  | _, _ => false

/-- The method `eval_RGB444_HV`. -/
def Call.isRGBHV : Call → Bool
  | .RGB444_HV .. => true
  | _ => false

/-- The call with its horizontal-sync input inverted (1 - hs). -/
def Call.invH : Call → Call
  | .RGB444_HV cycle clk vs hs red green blue => .RGB444_HV cycle clk vs (1 - hs) red green blue
  | c => c

/-- The call with its vertical-sync input inverted (1 - vs). -/
def Call.invV : Call → Call
  | .RGB444_HV cycle clk vs hs red green blue => .RGB444_HV cycle clk (1 - vs) hs red green blue
  | c => c

/-- The first rising-clock call of the sequence, if there is one, satisfies `p`
(`prev` is the clock level before the first call). -/
def firstRise (p : Call → Bool) (prev : Nat) : List Call → Bool
  | [] => true
  | c :: cs => if c.clk ≠ 0 ∧ prev = 0 then p c else firstRise p c.clk cs

/-- The engine with the horizontal polarity inverted. -/
def lowerH (s : VideoOut) : VideoOut := { s with hs_pol := 1 - s.hs_pol }

/-- The engine with the vertical polarity inverted. -/
def lowerV (s : VideoOut) : VideoOut := { s with vs_pol := 1 - s.vs_pol }

/-- The engine with the horizontal polarity and the stored previous hs level
inverted. -/
def mirrorH (s : VideoOut) : VideoOut :=
  { s with hs_pol := 1 - s.hs_pol, prev_hs := 1 - s.prev_hs }

/-- The engine with the vertical polarity and the stored previous vs level inverted. -/
def mirrorV (s : VideoOut) : VideoOut :=
  { s with vs_pol := 1 - s.vs_pol, prev_vs := 1 - s.prev_vs }

/-- A short sync-discipline sequence with levels in 0, 1 whose first rising-clock
sample has hs = 0 and vs = 0: a vertical-sync pulse, pixels and a horizontal-sync
pulse. -/
def demoSync : List Call :=
  [Call.RGB444_HV 0 0 1 1 9 9 9, Call.RGB444_HV 1 1 0 0 1 2 3, Call.RGB444_HV 2 0 0 0 1 2 3,
   Call.RGB444_HV 3 1 1 0 4 5 6, Call.RGB444_HV 4 0 1 0 4 5 6,
   Call.RGB444_HV 5 1 0 1 7 8 9, Call.RGB444_HV 6 0 0 1 7 8 9,
   Call.RGB444_HV 7 1 1 0 1 1 1]

/-- Position of the sync-discipline scan on an engine with offsets 0, active size
W x H and positive polarities, between two samples (clock low, vs low). -/
def HVpos (s : VideoOut) (W H hc vc phs : Nat) : Prop :=
  (s.hor_offs = 0 ∧ s.ver_offs = 0 ∧ s.hor_size = W ∧ s.ver_size = H) ∧
  (s.hs_pol = 1 ∧ s.vs_pol = 1) ∧
  (s.hcount = hc ∧ s.vcount = vc) ∧
  (s.prev_clk = 0 ∧ s.prev_vs = 0 ∧ s.prev_hs = phs)

/-- The channel values stored for an RGB sample: masked and shifted as in
`eval_RGB444_HV` (video_out.cpp 136-138). -/
def convRGB (s : VideoOut) (p : Nat × Nat × Nat) : Nat × Nat × Nat :=
  (u8 ((p.1 &&& s.bit_mask) <<< s.bit_shift), u8 ((p.2.1 &&& s.bit_mask) <<< s.bit_shift),
    u8 ((p.2.2 &&& s.bit_mask) <<< s.bit_shift))

/-- The line-buffer reads of one 2 x 2 block at even column `i` (video_out.cpp
589-602), as (luma buffer?, line index, column index): the chroma pair, then the two
lumas of the upper line and the two of the lower line. -/
def blockReads (s : VideoOut) (i : Nat) : List (Bool × Nat × Nat) :=
  [(false, (s.vcount2 &&& 1) ^^^ 1, i), (false, (s.vcount2 &&& 1) ^^^ 1, i + 1),
   (true, (s.vcount1 &&& 2) ^^^ 2, i), (true, (s.vcount1 &&& 2) ^^^ 2, i + 1),
   (true, (s.vcount1 &&& 2) ^^^ 3, i), (true, (s.vcount1 &&& 2) ^^^ 3, i + 1)]

/-- The line-buffer accesses of one rising-clock call of `eval_YUV420_DE` on engine
`s`, in program order, as (luma buffer?, line index, column index): the luma store
(video_out.cpp 566), the chroma store (576) and the reads of the emission loop
(589-602). -/
def accesses420 (s : VideoOut) (de_y de_c luma chroma : Nat) : List (Bool × Nat × Nat) :=
  (if de_y ≠ 0 then [(true, s.vcount1 &&& 3, s.hcount1)] else []) ++
  (if de_c ≠ 0 then
    [(false, (lumaPart s de_y luma).vcount2 &&& 1, (lumaPart s de_y luma).hcount2)] else []) ++
  (if ready420 (chromaPart (lumaPart s de_y luma) de_c chroma) then
    ((List.range (((chromaPart (lumaPart s de_y luma) de_c chroma).hor_size + 1) / 2)).map
      (fun k => blockReads (chromaPart (lumaPart s de_y luma) de_c chroma) (2 * k))).flatten
   else [])

/-- Invariant of the 4:2:0 counters on an engine of active size W x H. -/
def Inv420 (s : VideoOut) (W H : Nat) : Prop :=
  (s.hor_size = W ∧ s.ver_size = H) ∧ (s.hcount1 < W ∧ s.hcount2 < W) ∧
    (s.vcount < H ∧ s.vcount % 2 = 0) ∧ Dims s W

/-- A sequence of `eval_YUV420_DE` calls in which chroma arrives after the luma it
belongs to: two luma lines, then a chroma line interleaved with the third luma line
(width 2). -/
def demoMix420 : List Call :=
  [Call.YUV420_DE 0 1 1 0 10 0, Call.YUV420_DE 1 0 1 0 10 0,
   Call.YUV420_DE 2 1 1 0 11 0, Call.YUV420_DE 3 0 1 0 11 0,
   Call.YUV420_DE 4 1 1 0 12 0, Call.YUV420_DE 5 0 1 0 12 0,
   Call.YUV420_DE 6 1 1 0 13 0, Call.YUV420_DE 7 0 1 0 13 0,
   Call.YUV420_DE 8 1 1 1 14 100, Call.YUV420_DE 9 0 1 1 14 100,
   Call.YUV420_DE 10 1 0 1 0 101, Call.YUV420_DE 11 0 0 1 0 101]

/-- The luma enable of an `eval_YUV420_DE` call (0 for the others). -/
def Call.deY : Call → Nat
  | .YUV420_DE _ _ de_y _ _ _ => de_y
  | _ => 0

/-- The chroma enable of an `eval_YUV420_DE` call (0 for the others). -/
def Call.deC : Call → Nat
  | .YUV420_DE _ _ _ de_c _ _ => de_c
  | _ => 0

/-- The luma input of an `eval_YUV420_DE` call (0 for the others). -/
def Call.lumaIn : Call → Nat
  | .YUV420_DE _ _ _ _ luma _ => luma
  | _ => 0

/-- The chroma input of an `eval_YUV420_DE` call (0 for the others). -/
def Call.chromaIn : Call → Nat
  | .YUV420_DE _ _ _ _ _ chroma => chroma
  | _ => 0

/-- The luma samples received, in arrival order: the luma inputs of the rising-clock
calls with de_y high (`prev` is the clock level before the first call). -/
def lumaStream (prev : Nat) : List Call → List Nat
  | [] => []
  | c :: cs =>
      (if (c.clk ≠ 0 ∧ prev = 0) ∧ c.deY ≠ 0 then [c.lumaIn] else []) ++ lumaStream c.clk cs

/-- The chroma samples received, in arrival order: the chroma inputs of the
rising-clock calls with de_c high. -/
def chromaStream (prev : Nat) : List Call → List Nat
  | [] => []
  | c :: cs =>
      (if (c.clk ≠ 0 ∧ prev = 0) ∧ c.deC ≠ 0 then [c.chromaIn] else []) ++ chromaStream c.clk cs

/-- State of the line rings of an engine of width W that has received the luma samples
`Ls` and the chroma samples `Cs` since the start of the frame: the write positions, and
the contents of every ring entry not yet overwritten (luma sample j sits in line
(j div W) mod 4, chroma sample j in line (j div W) mod 2, at column j mod W). -/
def Ring420 (s : VideoOut) (W : Nat) (Ls Cs : List Nat) : Prop :=
  (s.hor_size = W ∧ Dims s W) ∧
  (s.hcount1 = Ls.length % W ∧ s.vcount1 = (Ls.length / W) % 65536) ∧
  (s.hcount2 = Cs.length % W ∧ s.vcount2 = (Cs.length / W) % 65536) ∧
  (∀ j, j < Ls.length → Ls.length ≤ (j / W + 4) * W →
    bufGet s.y_buf ((j / W) % 4) (j % W) = ((Ls.getD j 0 : Nat) : Int)) ∧
  (∀ j, j < Cs.length → Cs.length ≤ (j / W + 2) * W →
    bufGet s.c_buf ((j / W) % 2) (j % W) = ((Cs.getD j 0 : Nat) : Int))

/-- The writes of the line pair at rows (v, v+1) built from the received samples: the
lumas of lines v and v+1 and the chroma pairs of chroma line v div 2, block by
block. -/
def linePairWrites (f : Int → Int → Int → RGBApixel) (W : Nat) (Ls Cs : List Nat) (v : Nat) :
    List (Int × Int × RGBApixel) :=
  ((List.range (W / 2)).map (fun (j : Nat) =>
    blockWrites f ((2 * j : Nat) : Int) (v : Int)
      ((Ls.getD (v * W + 2 * j) 0 : Nat) : Int) ((Ls.getD (v * W + (2 * j + 1)) 0 : Nat) : Int)
      ((Ls.getD ((v + 1) * W + 2 * j) 0 : Nat) : Int)
      ((Ls.getD ((v + 1) * W + (2 * j + 1)) 0 : Nat) : Int)
      ((Cs.getD (v / 2 * W + 2 * j) 0 : Nat) : Int)
      ((Cs.getD (v / 2 * W + (2 * j + 1)) 0 : Nat) : Int))).flatten

/-- Four luma lines of width 2 fed before any chroma, then the first chroma line. -/
def demoLumaAhead : List Call :=
  [Call.YUV420_DE 0 1 1 0 10 0, Call.YUV420_DE 0 0 1 0 10 0,
   Call.YUV420_DE 0 1 1 0 11 0, Call.YUV420_DE 0 0 1 0 11 0,
   Call.YUV420_DE 0 1 1 0 20 0, Call.YUV420_DE 0 0 1 0 20 0,
   Call.YUV420_DE 0 1 1 0 21 0, Call.YUV420_DE 0 0 1 0 21 0,
   Call.YUV420_DE 0 1 1 0 30 0, Call.YUV420_DE 0 0 1 0 30 0,
   Call.YUV420_DE 0 1 1 0 31 0, Call.YUV420_DE 0 0 1 0 31 0,
   Call.YUV420_DE 0 1 1 0 40 0, Call.YUV420_DE 0 0 1 0 40 0,
   Call.YUV420_DE 0 1 1 0 41 0, Call.YUV420_DE 0 0 1 0 41 0,
   Call.YUV420_DE 0 1 0 1 0 128, Call.YUV420_DE 0 0 0 1 0 128]

/-- Two chroma lines of width 2 fed before any luma, then the first luma line and the
first sample of the second. -/
def demoChromaAhead : List Call :=
  [Call.YUV420_DE 0 1 0 1 0 100, Call.YUV420_DE 0 0 0 1 0 100,
   Call.YUV420_DE 0 1 0 1 0 110, Call.YUV420_DE 0 0 0 1 0 110,
   Call.YUV420_DE 0 1 0 1 0 200, Call.YUV420_DE 0 0 0 1 0 200,
   Call.YUV420_DE 0 1 0 1 0 210, Call.YUV420_DE 0 0 0 1 0 210,
   Call.YUV420_DE 0 1 1 0 10 0, Call.YUV420_DE 0 0 1 0 10 0,
   Call.YUV420_DE 0 1 1 0 11 0, Call.YUV420_DE 0 0 1 0 11 0,
   Call.YUV420_DE 0 1 1 0 20 0, Call.YUV420_DE 0 0 1 0 20 0]

/-! ### Graphics ROM converter (src/conv_gfx/main.c) -/

/-- The `gfx_layout` record (main.c 31-43). The offset arrays hold the entries listed by
the initialiser; an entry past them reads 0. -/
structure gfx_layout where
  width : Nat
  height : Nat
  total : Nat
  planes : Nat
  planeoffset : List Nat
  xoffset : List Nat
  yoffset : List Nat
  charincrement : Nat

/-- Layout `chrlayout_1943` (main.c 48-57). -/
def chrlayout_1943 : gfx_layout :=
  { width := 8, height := 8, total := 2048, planes := 2,
    planeoffset := [4, 0],
    xoffset := [0, 1, 2, 3, 8+0, 8+1, 8+2, 8+3],
    yoffset := [0*16, 1*16, 2*16, 3*16, 4*16, 5*16, 6*16, 7*16],
    charincrement := 16*8 }

/-- Layout `chrlayout_gs` (main.c 62-71). -/
def chrlayout_gs : gfx_layout :=
  { width := 8, height := 8, total := 1024, planes := 2,
    planeoffset := [4, 0],
    xoffset := [0, 1, 2, 3, 8+0, 8+1, 8+2, 8+3],
    yoffset := [0*16, 1*16, 2*16, 3*16, 4*16, 5*16, 6*16, 7*16],
    charincrement := 16*8 }

/-- Layout `fgnlayout` (main.c 83-98). -/
def fgnlayout : gfx_layout :=
  { width := 32, height := 32, total := 512, planes := 4,
    planeoffset := [512*256*8+4, 512*256*8+0, 4, 0],
    xoffset := [0, 1, 2, 3, 8+0, 8+1, 8+2, 8+3,
      64*8+0, 64*8+1, 64*8+2, 64*8+3, 65*8+0, 65*8+1, 65*8+2, 65*8+3,
      128*8+0, 128*8+1, 128*8+2, 128*8+3, 129*8+0, 129*8+1, 129*8+2, 129*8+3,
      192*8+0, 192*8+1, 192*8+2, 192*8+3, 193*8+0, 193*8+1, 193*8+2, 193*8+3],
    yoffset := [0*16, 1*16, 2*16, 3*16, 4*16, 5*16, 6*16, 7*16,
      8*16, 9*16, 10*16, 11*16, 12*16, 13*16, 14*16, 15*16,
      16*16, 17*16, 18*16, 19*16, 20*16, 21*16, 22*16, 23*16,
      24*16, 25*16, 26*16, 27*16, 28*16, 29*16, 30*16, 31*16],
    charincrement := 256*8 }

/-- Layout `bgnlayout` (main.c 104-119). -/
def bgnlayout : gfx_layout :=
  { width := 32, height := 32, total := 128, planes := 4,
    planeoffset := [128*256*8+4, 128*256*8+0, 4, 0],
    xoffset := [0, 1, 2, 3, 8+0, 8+1, 8+2, 8+3,
      64*8+0, 64*8+1, 64*8+2, 64*8+3, 65*8+0, 65*8+1, 65*8+2, 65*8+3,
      128*8+0, 128*8+1, 128*8+2, 128*8+3, 129*8+0, 129*8+1, 129*8+2, 129*8+3,
      192*8+0, 192*8+1, 192*8+2, 192*8+3, 193*8+0, 193*8+1, 193*8+2, 193*8+3],
    yoffset := [0*16, 1*16, 2*16, 3*16, 4*16, 5*16, 6*16, 7*16,
      8*16, 9*16, 10*16, 11*16, 12*16, 13*16, 14*16, 15*16,
      16*16, 17*16, 18*16, 19*16, 20*16, 21*16, 22*16, 23*16,
      24*16, 25*16, 26*16, 27*16, 28*16, 29*16, 30*16, 31*16],
    charincrement := 256*8 }

/-- Layout `sprlayout_1943` (main.c 131-142). -/
def sprlayout_1943 : gfx_layout :=
  { width := 16, height := 16, total := 2048, planes := 4,
    planeoffset := [2048*64*8+4, 2048*64*8+0, 4, 0],
    xoffset := [0, 1, 2, 3, 8+0, 8+1, 8+2, 8+3,
      32*8+0, 32*8+1, 32*8+2, 32*8+3, 33*8+0, 33*8+1, 33*8+2, 33*8+3],
    yoffset := [0*16, 1*16, 2*16, 3*16, 4*16, 5*16, 6*16, 7*16,
      8*16, 9*16, 10*16, 11*16, 12*16, 13*16, 14*16, 15*16],
    charincrement := 64*8 }

/-- The sum `bit = poffs[p] + xoffs[x] + yoffs[y]` of `gfx_convert_CCW` (main.c 175) in
`ULONG` arithmetic: `unsigned long`, 64 bits wide in the LP64 build. -/
def gfx_bit (lay : gfx_layout) (p x y : Nat) : Nat :=
  (lay.planeoffset.getD p 0 + lay.xoffset.getD x 0 + lay.yoffset.getD y 0) % 2 ^ 64

/-- The tile count `tmax = (int)lay->total` of `gfx_convert_CCW` (main.c 162) as the
number of iterations of `for (t = 0; t < tmax; t++)`: the conversion to the 32-bit `int`
keeps the low 32 bits of `total`, and a negative result gives no iteration. -/
def gfx_tmax (lay : gfx_layout) : Nat :=
  if lay.total % 2 ^ 32 < 2 ^ 31 then lay.total % 2 ^ 32 else 0

/-- The plane loop of `gfx_convert_CCW` (main.c 173-178) on the 16-bit `word`, with
`src` advanced by `base` bytes. -/
def gfx_planes (lay : gfx_layout) (src : Nat → Nat) (base x y : Nat) (word : Nat) : Nat :=
  (List.range lay.planes).foldl (fun (w p : Nat) =>
    if src (base + (gfx_bit lay p x y >>> 3)) &&& (0x80 >>> (gfx_bit lay p x y &&& 7)) ≠ 0 then
      (w ||| (0x8000 >>> p)) % 65536
    else w) word

/-- One iteration of the row loop of `gfx_convert_CCW` (main.c 169-184) on the pair of
`word` and the words written to `dst` so far. -/
def gfx_row (lay : gfx_layout) (src : Nat → Nat) (base x : Nat) (st : Nat × List Nat)
    (y : Nat) : Nat × List Nat :=
  if y &&& 3 = 3 then
    (gfx_planes lay src base x y (st.1 >>> 4),
      st.2 ++ [gfx_planes lay src base x y (st.1 >>> 4)])
  else (gfx_planes lay src base x y (st.1 >>> 4), st.2)

/-- The row loop `for (y = 0; y <= ymax; y++)` of `gfx_convert_CCW`. -/
def gfx_column (lay : gfx_layout) (src : Nat → Nat) (base : Nat) (st : Nat × List Nat)
    (x : Nat) : Nat × List Nat :=
  (List.range lay.height).foldl (gfx_row lay src base x) st

/-- The column loop `for (x = xmax; x >= 0; x--)` of `gfx_convert_CCW` for tile `t`, whose
source starts `t * (charincrement >> 3)` bytes into the buffer. -/
def gfx_tile (lay : gfx_layout) (src : Nat → Nat) (st : Nat × List Nat) (t : Nat) :
    Nat × List Nat :=
  (List.range lay.width).reverse.foldl (gfx_column lay src (t * (lay.charincrement >>> 3))) st

/-- Function `gfx_convert_CCW` (main.c 144-188): the words written through `dst`, in
order. `src` gives the byte at each index of the source buffer. The tile loop runs
`gfx_tmax` times. -/
def gfx_convert_CCW (lay : gfx_layout) (src : Nat → Nat) : List Nat :=
  ((List.range (gfx_tmax lay)).foldl (gfx_tile lay src) (0, [])).2

/-- The bit tested by the code for plane p of pixel (x, y) with the source advanced by
`base` bytes. -/
def gfx_test (lay : gfx_layout) (src : Nat → Nat) (base x y p : Nat) : Bool :=
  decide (src (base + (gfx_bit lay p x y >>> 3)) &&& (0x80 >>> (gfx_bit lay p x y &&& 7)) ≠ 0)

/-- The word left by four row iterations on rows 4g .. 4g+3 of column x, from `word` 0. -/
def gfx_group (lay : gfx_layout) (src : Nat → Nat) (base x g : Nat) : Nat :=
  gfx_planes lay src base x (4 * g + 3)
    (gfx_planes lay src base x (4 * g + 2)
      (gfx_planes lay src base x (4 * g + 1)
        (gfx_planes lay src base x (4 * g) 0 >>> 4) >>> 4) >>> 4)

/-- Bit k of the word is set by the plane loop for pixel (x, y): k = 15 - p for a plane
p below `planes` whose source bit is set. -/
def gfx_mark (lay : gfx_layout) (src : Nat → Nat) (base x y k : Nat) : Bool :=
  decide (k ≤ 15 ∧ 15 - k < lay.planes) && gfx_test lay src base x y (15 - k)

/-- The array accesses of `gfx_convert_CCW` (main.c 175-176), in order: for each
evaluation of `bit = poffs[p] + xoffs[x] + yoffs[y]` and `src[bit >> 3]`, the indices p,
x and y used in the three offset arrays and the index of the byte read, counted from the
start of the source buffer. -/
def gfx_accesses (lay : gfx_layout) : List (Nat × Nat × Nat × Nat) :=
  (List.range (gfx_tmax lay)).flatMap (fun t =>
    (List.range lay.width).reverse.flatMap (fun x =>
      (List.range lay.height).flatMap (fun y =>
        (List.range lay.planes).map (fun p =>
          (p, x, y, t * (lay.charincrement >>> 3) + (gfx_bit lay p x y >>> 3))))))

/-- The conversion of layout `lay` stays inside its buffers when `loaded` source bytes
are valid and `written` bytes are saved: every offset-array index is within the listed
entries, every source byte read is below `loaded`, the words written take exactly
`written` bytes, and both sizes fit the 512 KB buffers of `main`. -/
def staysInside (lay : gfx_layout) (loaded written : Nat) : Prop :=
  (∀ a ∈ gfx_accesses lay,
    a.1 < lay.planeoffset.length ∧ a.2.1 < lay.xoffset.length ∧
      a.2.2.1 < lay.yoffset.length ∧ a.2.2.2 < loaded) ∧
  (∀ src : Nat → Nat, 2 * (gfx_convert_CCW lay src).length = written) ∧
  loaded ≤ 512 * 1024 ∧ written ≤ 512 * 1024

/-- A 5 x 65535 engine after 65535 complete scanlines and the five pixel samples of the
next line: it stands at hcount = 5, vcount = 65535. -/
def demoLastLine : VideoOut :=
  (VideoOut.new 0 8 3 0 5 0 65535 snapshotName Uninit.zero).exec
    (hvRows 5 demoPix (0, 0, 0) 65535 ++ hvPixels (demoPix 65535) 5)

/-! ## Theorems -/

theorem andMask_nonneg (a : Int) (m : Nat) : 0 ≤ andMask a m := by
  unfold andMask; exact Int.ofNat_nonneg _

theorem andMask_le (a : Int) (m : Nat) : andMask a m ≤ (m : Int) := by
  unfold andMask; exact_mod_cast Nat.and_le_right



/-! ### The methods as compositions of their blocks -/

theorem eval_RGB444_HV_eq (s : VideoOut) (cycle clk vs hs red green blue : Nat) :
    s.eval_RGB444_HV cycle clk vs hs red green blue =
      if clk ≠ 0 ∧ s.prev_clk = 0 then
        hsPart (vsPart s cycle vs (capRGBHV s red green blue)) cycle clk vs hs
      else idle s clk := rfl

theorem eval_YUV444_HV_eq (s : VideoOut) (cycle clk vs hs luma cb cr : Nat) :
    s.eval_YUV444_HV cycle clk vs hs luma cb cr =
      if clk ≠ 0 ∧ s.prev_clk = 0 then
        hsPart (vsPart s cycle vs (cap444HV s luma cb cr)) cycle clk vs hs
      else idle s clk := rfl

theorem eval_YUV422_HV_eq (s : VideoOut) (cycle clk vs hs luma chroma : Nat) :
    s.eval_YUV422_HV cycle clk vs hs luma chroma =
      if clk ≠ 0 ∧ s.prev_clk = 0 then
        hsPart (vsPart (st422HV s luma chroma) cycle vs (cap422HV s luma chroma)) cycle clk vs hs
      else idle s clk := rfl

theorem eval_RGB444_DE_eq (s : VideoOut) (cycle clk de red green blue : Nat) :
    s.eval_RGB444_DE cycle clk de red green blue =
      if clk ≠ 0 ∧ s.prev_clk = 0 then
        if de ≠ 0 then
          dePart s cycle clk
            [Event.SetPixel (s.hcount : Int) (s.vcount : Int) (rgbPixel s red green blue)]
        else idle s clk
      else idle s clk := rfl

theorem eval_YUV444_DE_eq (s : VideoOut) (cycle clk de luma cb cr : Nat) :
    s.eval_YUV444_DE cycle clk de luma cb cr =
      if clk ≠ 0 ∧ s.prev_clk = 0 then
        if de ≠ 0 then
          dePart s cycle clk
            [Event.SetPixel (s.hcount : Int) (s.vcount : Int)
              (s.yuv2rgb (luma : Int) (cb : Int) (cr : Int))]
        else idle s clk
      else idle s clk := rfl

theorem eval_YUV422_DE_eq (s : VideoOut) (cycle clk de luma chroma : Nat) :
    s.eval_YUV422_DE cycle clk de luma chroma =
      if clk ≠ 0 ∧ s.prev_clk = 0 then
        if de ≠ 0 then dePart (st422DE s luma chroma) cycle clk (cap422DE s luma chroma)
        else idle s clk
      else idle s clk := rfl

theorem eval_YUV420_DE_eq (s : VideoOut) (cycle clk de_y de_c luma chroma : Nat) :
    s.eval_YUV420_DE cycle clk de_y de_c luma chroma =
      if clk ≠ 0 ∧ s.prev_clk = 0 then
        emitPart (chromaPart (lumaPart s de_y luma) de_c chroma) cycle clk
      else idle s clk := rfl

/-! ### Configuration is never modified -/

theorem idle_config (s : VideoOut) (clk : Nat) : (idle s clk).st.config = s.config := rfl

theorem vsPart_config (s : VideoOut) (cycle vs : Nat) (o1 : List Event) :
    (vsPart s cycle vs o1).st.config = s.config := by
  simp only [vsPart]
  split_ifs <;> rfl

theorem hsPart_config (r : Res) (cycle clk vs hs : Nat) :
    (hsPart r cycle clk vs hs).st.config = r.st.config := by
  simp only [hsPart]
  split_ifs <;> rfl

theorem dePart_config (s : VideoOut) (cycle clk : Nat) (o1 : List Event) :
    (dePart s cycle clk o1).st.config = s.config := by
  simp only [dePart]
  split_ifs <;> rfl

theorem st422HV_config (s : VideoOut) (luma chroma : Nat) :
    (st422HV s luma chroma).config = s.config := by
  simp only [st422HV]
  split_ifs <;> rfl

theorem st422DE_config (s : VideoOut) (luma chroma : Nat) :
    (st422DE s luma chroma).config = s.config := by
  simp only [st422DE]
  split_ifs <;> rfl

theorem lumaPart_config (s : VideoOut) (de_y luma : Nat) :
    (lumaPart s de_y luma).config = s.config := by
  simp only [lumaPart]
  split_ifs <;> rfl

theorem chromaPart_config (s : VideoOut) (de_c chroma : Nat) :
    (chromaPart s de_c chroma).config = s.config := by
  simp only [chromaPart]
  split_ifs <;> rfl

theorem emitPart_config (s : VideoOut) (cycle clk : Nat) :
    (emitPart s cycle clk).st.config = s.config := by
  simp only [emitPart]
  split_ifs <;> rfl

theorem step_config (s : VideoOut) (c : Call) : (s.step c).st.config = s.config := by
  cases c <;>
    simp only [VideoOut.step, eval_RGB444_HV_eq, eval_RGB444_DE_eq, eval_YUV444_HV_eq,
      eval_YUV444_DE_eq, eval_YUV422_HV_eq, eval_YUV422_DE_eq, eval_YUV420_DE_eq] <;>
    split_ifs <;>
    simp only [idle_config, hsPart_config, vsPart_config, dePart_config, st422HV_config,
      st422DE_config, emitPart_config, chromaPart_config, lumaPart_config]

theorem exec_config (cs : List Call) (s : VideoOut) : (s.exec cs).config = s.config := by
  induction cs generalizing s with
  | nil => rfl
  | cons c cs ih => rw [VideoOut.exec, ih, step_config]

theorem config_fields {s t : VideoOut} (h : s.config = t.config) :
    s.bit_shift = t.bit_shift ∧ s.bit_mask = t.bit_mask ∧ s.hs_pol = t.hs_pol ∧
    s.vs_pol = t.vs_pol ∧ s.dbg_on = t.dbg_on ∧ s.hor_offs = t.hor_offs ∧
    s.ver_offs = t.ver_offs ∧ s.hor_size = t.hor_size ∧ s.ver_size = t.ver_size ∧
    s.u_to_g = t.u_to_g ∧ s.u_to_b = t.u_to_b ∧ s.v_to_r = t.v_to_r ∧ s.v_to_g = t.v_to_g ∧
    s.filename = t.filename := by
  simpa only [VideoOut.config, Prod.mk.injEq] using h

/-! ### Pixel writes and finalize calls of the blocks -/

@[simp] theorem pixelWrites_nil : pixelWrites [] = [] := rfl

@[simp] theorem pixelWrites_setPixel (x y : Int) (p : RGBApixel) (es : List Event) :
    pixelWrites (Event.SetPixel x y p :: es) = (x, y, p) :: pixelWrites es := rfl

@[simp] theorem pixelWrites_write (n : Int) (es : List Event) :
    pixelWrites (Event.WriteToFile n :: es) = pixelWrites es := rfl

@[simp] theorem pixelWrites_print (m : Msg) (es : List Event) :
    pixelWrites (Event.Print m :: es) = pixelWrites es := rfl

@[simp] theorem pixelWrites_append (as bs : List Event) :
    pixelWrites (as ++ bs) = pixelWrites as ++ pixelWrites bs := by
  induction as with
  | nil => rfl
  | cons a as ih => cases a <;> simp [ih]

@[simp] theorem finalizes_nil : finalizes [] = [] := rfl

@[simp] theorem finalizes_setPixel (x y : Int) (p : RGBApixel) (es : List Event) :
    finalizes (Event.SetPixel x y p :: es) = finalizes es := rfl

@[simp] theorem finalizes_write (n : Int) (es : List Event) :
    finalizes (Event.WriteToFile n :: es) = n :: finalizes es := rfl

@[simp] theorem finalizes_print (m : Msg) (es : List Event) :
    finalizes (Event.Print m :: es) = finalizes es := rfl

@[simp] theorem finalizes_append (as bs : List Event) :
    finalizes (as ++ bs) = finalizes as ++ finalizes bs := by
  induction as with
  | nil => rfl
  | cons a as ih => cases a <;> simp [ih]

theorem pixelWrites_vsPart (s : VideoOut) (cycle vs : Nat) (o1 : List Event) :
    pixelWrites (vsPart s cycle vs o1).out = pixelWrites o1 := by
  simp only [vsPart]
  split_ifs <;> simp

theorem pixelWrites_hsPart (r : Res) (cycle clk vs hs : Nat) :
    pixelWrites (hsPart r cycle clk vs hs).out = pixelWrites r.out := by
  simp only [hsPart]
  split_ifs <;> simp

theorem pixelWrites_dePart (s : VideoOut) (cycle clk : Nat) (o1 : List Event) :
    pixelWrites (dePart s cycle clk o1).out = pixelWrites o1 := by
  simp only [dePart]
  split_ifs <;> simp

theorem finalizes_hsPart (r : Res) (cycle clk vs hs : Nat) :
    finalizes (hsPart r cycle clk vs hs).out = finalizes r.out := by
  simp only [hsPart]
  split_ifs <;> simp

theorem finalizes_vsPart (s : VideoOut) (cycle vs : Nat) (o1 : List Event) :
    finalizes (vsPart s cycle vs o1).out =
      finalizes o1 ++
        (if (vs = s.vs_pol ∧ s.prev_vs ≠ s.vs_pol) ∧ s.dump_act ≠ 0 then [s.dump_ctr] else []) := by
  simp only [vsPart]
  split_ifs <;> simp_all

theorem capRGBHV_eq (s : VideoOut) (red green blue : Nat) :
    capRGBHV s red green blue =
      if inWindow s then
        [Event.SetPixel ((s.hcount : Int) - s.hor_offs) ((s.vcount : Int) - s.ver_offs)
          (rgbPixel s red green blue)]
      else [] := by
  simp only [capRGBHV, inWindow, rgbPixel]
  split_ifs <;> simp_all

theorem cap444HV_eq (s : VideoOut) (luma cb cr : Nat) :
    cap444HV s luma cb cr =
      if inWindow s then
        [Event.SetPixel ((s.hcount : Int) - s.hor_offs) ((s.vcount : Int) - s.ver_offs)
          (s.yuv2rgb (luma : Int) (cb : Int) (cr : Int))]
      else [] := by
  simp only [cap444HV, inWindow]
  split_ifs <;> simp_all

theorem cap422HV_eq (s : VideoOut) (luma chroma : Nat) :
    cap422HV s luma chroma =
      if inWindow s ∧ (s.hcount - s.hor_offs) &&& 1 ≠ 0 then
        [Event.SetPixel ((s.hcount : Int) - s.hor_offs - 1) ((s.vcount : Int) - s.ver_offs)
           (s.yuv2rgb s.y0 s.u0 (chroma : Int)),
         Event.SetPixel ((s.hcount : Int) - s.hor_offs) ((s.vcount : Int) - s.ver_offs)
           (s.yuv2rgb (luma : Int) s.u0 (chroma : Int))]
      else [] := by
  simp only [cap422HV, inWindow]
  split_ifs <;> simp_all

/-! ### Colour conversion -/

theorem table_getD (k : Nat) (i : Nat) (h : i < 256) :
    ((List.range 256).map (fun i => ((u16 (i * k) : Nat) : Int))).getD i 0
      = ((u16 (i * k) : Nat) : Int) := by
  simp [List.getD_eq_getElem?_getD, List.getElem?_map, List.getElem?_range h]

theorem sat8_eq_clamp (t : Int) : VideoOut.sat8 t = (clamp255 t).toNat := by
  unfold VideoOut.sat8 clamp255
  split_ifs <;> rfl

/-- With the mask and shift set by the constructor, a masked and shifted sample is a
table index in 0..255. -/
theorem index_lt (depth : Nat) (a : Int) :
    andMask a (if depth ≤ 8 then u8 ((1 <<< depth) - 1) else 255)
      * 2 ^ (if depth ≤ 8 then 8 - depth else 0) < 256 := by
  have h0 := andMask_nonneg a (if depth ≤ 8 then u8 ((1 <<< depth) - 1) else 255)
  have h1 := andMask_le a (if depth ≤ 8 then u8 ((1 <<< depth) - 1) else 255)
  by_cases hd : depth ≤ 8
  · simp only [hd, if_true] at h0 h1 ⊢
    interval_cases depth <;> simp [u8] at h1 ⊢ <;> omega
  · simp only [hd, if_false] at h0 h1 ⊢
    omega

theorem table_at (k : Nat) (hk : k ≤ 256) (z : Int) (h0 : 0 ≤ z) (h1 : z < 256) :
    ((List.range 256).map (fun i => ((u16 (i * k) : Nat) : Int))).getD z.toNat 0
      = (k : Int) * z := by
  have hz : z.toNat < 256 := by omega
  rw [table_getD k z.toNat hz]
  have hlt : z.toNat * k < 65536 := by nlinarith
  unfold u16
  rw [Nat.mod_eq_of_lt hlt]
  push_cast
  rw [Int.toNat_of_nonneg h0]
  ring

theorem yuv2rgb_eq_spec (s : VideoOut) (depth : Nat)
    (hm : s.bit_mask = if depth ≤ 8 then u8 ((1 <<< depth) - 1) else 255)
    (hs : s.bit_shift = if depth ≤ 8 then 8 - depth else 0)
    (hug : s.u_to_g = (List.range 256).map (fun i => ((u16 (i * 44) : Nat) : Int)))
    (hub : s.u_to_b = (List.range 256).map (fun i => ((u16 (i * 226) : Nat) : Int)))
    (hvr : s.v_to_r = (List.range 256).map (fun i => ((u16 (i * 180) : Nat) : Int)))
    (hvg : s.v_to_g = (List.range 256).map (fun i => ((u16 (i * 91) : Nat) : Int)))
    (lum cb cr : Int) :
    s.yuv2rgb lum cb cr = yuv2rgb_spec s.bit_mask s.bit_shift lum cb cr ∧
    (0 ≤ andMask cb s.bit_mask * 2 ^ s.bit_shift ∧ andMask cb s.bit_mask * 2 ^ s.bit_shift < 256 ∧
     0 ≤ andMask cr s.bit_mask * 2 ^ s.bit_shift ∧ andMask cr s.bit_mask * 2 ^ s.bit_shift < 256) ∧
    s.v_to_r.getD (andMask cr s.bit_mask * 2 ^ s.bit_shift).toNat 0
      = 180 * (andMask cr s.bit_mask * 2 ^ s.bit_shift) ∧
    s.u_to_g.getD (andMask cb s.bit_mask * 2 ^ s.bit_shift).toNat 0
      = 44 * (andMask cb s.bit_mask * 2 ^ s.bit_shift) ∧
    s.v_to_g.getD (andMask cr s.bit_mask * 2 ^ s.bit_shift).toNat 0
      = 91 * (andMask cr s.bit_mask * 2 ^ s.bit_shift) ∧
    s.u_to_b.getD (andMask cb s.bit_mask * 2 ^ s.bit_shift).toNat 0
      = 226 * (andMask cb s.bit_mask * 2 ^ s.bit_shift) := by
  have hu0 : 0 ≤ andMask cb s.bit_mask * 2 ^ s.bit_shift :=
    mul_nonneg (andMask_nonneg _ _) (by positivity)
  have hv0 : 0 ≤ andMask cr s.bit_mask * 2 ^ s.bit_shift :=
    mul_nonneg (andMask_nonneg _ _) (by positivity)
  have hu1 : andMask cb s.bit_mask * 2 ^ s.bit_shift < 256 := by
    rw [hm, hs]; exact index_lt depth cb
  have hv1 : andMask cr s.bit_mask * 2 ^ s.bit_shift < 256 := by
    rw [hm, hs]; exact index_lt depth cr
  have e1 := table_at 180 (by norm_num) _ hv0 hv1
  have e2 := table_at 44 (by norm_num) _ hu0 hu1
  have e3 := table_at 91 (by norm_num) _ hv0 hv1
  have e4 := table_at 226 (by norm_num) _ hu0 hu1
  rw [← hvr] at e1
  rw [← hug] at e2
  rw [← hvg] at e3
  rw [← hub] at e4
  refine ⟨?_, ⟨hu0, hu1, hv0, hv1⟩, ?_, ?_, ?_, ?_⟩
  · simp only [VideoOut.yuv2rgb, yuv2rgb_spec, e1, e2, e3, e4, sat8_eq_clamp]
    rfl
  · simpa using e1
  · simpa using e2
  · simpa using e3
  · simpa using e4

/-- C1: for every depth handed to the constructor, after any sequence of calls, and
for all integers lum, cb, cr, `yuv2rgb` returns the clamped r, g, b of the formula of
spec 4.1 (`yuv2rgb_spec`, written with the products 180 v, 44 u, 91 v, 226 u); the two
table indices u = `chromaIndex cb`, v = `chromaIndex cr` lie in 0..255 and the four
table lookups equal these products. -/
theorem C1_yuv2rgb_formula (debug depth polarity hoffset hactive voffset vactive : Nat)
    (file : List Nat) (junk : Uninit) (cs : List Call) (lum cb cr : Int) :
    ((VideoOut.new debug depth polarity hoffset hactive voffset vactive file junk).exec cs).yuv2rgb
        lum cb cr
      = yuv2rgb_spec
          (VideoOut.new debug depth polarity hoffset hactive voffset vactive file junk).bit_mask
          (VideoOut.new debug depth polarity hoffset hactive voffset vactive file junk).bit_shift
          lum cb cr ∧
    (0 ≤ ((VideoOut.new debug depth polarity hoffset hactive voffset vactive file junk).exec
            cs).chromaIndex cb ∧
      ((VideoOut.new debug depth polarity hoffset hactive voffset vactive file junk).exec
            cs).chromaIndex cb < 256 ∧
      0 ≤ ((VideoOut.new debug depth polarity hoffset hactive voffset vactive file junk).exec
            cs).chromaIndex cr ∧
      ((VideoOut.new debug depth polarity hoffset hactive voffset vactive file junk).exec
            cs).chromaIndex cr < 256) ∧
    ((VideoOut.new debug depth polarity hoffset hactive voffset vactive file junk).exec
        cs).v_to_r.getD
        (((VideoOut.new debug depth polarity hoffset hactive voffset vactive file junk).exec
          cs).chromaIndex cr).toNat 0
      = 180 * ((VideoOut.new debug depth polarity hoffset hactive voffset vactive file junk).exec
          cs).chromaIndex cr ∧
    ((VideoOut.new debug depth polarity hoffset hactive voffset vactive file junk).exec
        cs).u_to_g.getD
        (((VideoOut.new debug depth polarity hoffset hactive voffset vactive file junk).exec
          cs).chromaIndex cb).toNat 0
      = 44 * ((VideoOut.new debug depth polarity hoffset hactive voffset vactive file junk).exec
          cs).chromaIndex cb ∧
    ((VideoOut.new debug depth polarity hoffset hactive voffset vactive file junk).exec
        cs).v_to_g.getD
        (((VideoOut.new debug depth polarity hoffset hactive voffset vactive file junk).exec
          cs).chromaIndex cr).toNat 0
      = 91 * ((VideoOut.new debug depth polarity hoffset hactive voffset vactive file junk).exec
          cs).chromaIndex cr ∧
    ((VideoOut.new debug depth polarity hoffset hactive voffset vactive file junk).exec
        cs).u_to_b.getD
        (((VideoOut.new debug depth polarity hoffset hactive voffset vactive file junk).exec
          cs).chromaIndex cb).toNat 0
      = 226 * ((VideoOut.new debug depth polarity hoffset hactive voffset vactive file junk).exec
          cs).chromaIndex cb := by
  obtain ⟨hsh, hmk, -, -, -, -, -, -, -, hug, hub, hvr, hvg, -⟩ :=
    config_fields (exec_config cs
      (VideoOut.new debug depth polarity hoffset hactive voffset vactive file junk))
  have key := yuv2rgb_eq_spec
    ((VideoOut.new debug depth polarity hoffset hactive voffset vactive file junk).exec cs) depth
    (by rw [hmk]; rfl) (by rw [hsh]; rfl) (by rw [hug]; rfl) (by rw [hub]; rfl)
    (by rw [hvr]; rfl) (by rw [hvg]; rfl) lum cb cr
  refine ⟨?_, key.2⟩
  rw [key.1, hmk, hsh]

/-- With the constructor's mask and shift for a depth 1..8, an RGB channel needs no
truncation to a byte. -/
theorem channel_exact (d v : Nat) (hd1 : 1 ≤ d) (hd8 : d ≤ 8) :
    u8 ((v &&& (if d ≤ 8 then u8 ((1 <<< d) - 1) else 255)) <<< (if d ≤ 8 then 8 - d else 0))
        = (v &&& (2 ^ d - 1)) <<< (8 - d) ∧
      (v &&& (2 ^ d - 1)) <<< (8 - d) ≤ 255 := by
  have h := @Nat.and_le_right v (2 ^ d - 1)
  simp only [hd8, if_true, u8, Nat.shiftLeft_eq, one_mul]
  interval_cases d <;> simp at h ⊢ <;> omega

theorem rgbPixel_exact (s : VideoOut) (d : Nat) (hd1 : 1 ≤ d) (hd8 : d ≤ 8)
    (hm : s.bit_mask = if d ≤ 8 then u8 ((1 <<< d) - 1) else 255)
    (hs : s.bit_shift = if d ≤ 8 then 8 - d else 0) (red green blue : Nat) :
    rgbPixel s red green blue =
      { Red := (red &&& (2 ^ d - 1)) <<< (8 - d), Green := (green &&& (2 ^ d - 1)) <<< (8 - d),
        Blue := (blue &&& (2 ^ d - 1)) <<< (8 - d) } := by
  simp only [rgbPixel, hm, hs, (channel_exact d _ hd1 hd8).1]

/-- C2: on an engine constructed with depth d in 1..8, after any sequence of calls,
every pixel written by `eval_RGB444_HV` or `eval_RGB444_DE` for any input values has
channels exactly `(value & (2^d - 1)) << (8 - d)`, and these are at most 255 (the store
into the byte channel truncates nothing). -/
theorem C2_rgb_channels (debug d polarity hoffset hactive voffset vactive : Nat)
    (file : List Nat) (junk : Uninit) (cs : List Call) (hd1 : 1 ≤ d) (hd8 : d ≤ 8)
    (cycle clk vs hs de red green blue : Nat)
    (x y : Int) (p : RGBApixel)
    (hp : (x, y, p) ∈ pixelWrites
            (((VideoOut.new debug d polarity hoffset hactive voffset vactive file junk).exec
              cs).eval_RGB444_HV cycle clk vs hs red green blue).out ∨
          (x, y, p) ∈ pixelWrites
            (((VideoOut.new debug d polarity hoffset hactive voffset vactive file junk).exec
              cs).eval_RGB444_DE cycle clk de red green blue).out) :
    (p.Red = (red &&& (2 ^ d - 1)) <<< (8 - d) ∧ p.Green = (green &&& (2 ^ d - 1)) <<< (8 - d) ∧
      p.Blue = (blue &&& (2 ^ d - 1)) <<< (8 - d)) ∧
    (p.Red ≤ 255 ∧ p.Green ≤ 255 ∧ p.Blue ≤ 255) := by
  obtain ⟨hsh, hmk, -⟩ :=
    config_fields (exec_config cs
      (VideoOut.new debug d polarity hoffset hactive voffset vactive file junk))
  have hpx := rgbPixel_exact
    ((VideoOut.new debug d polarity hoffset hactive voffset vactive file junk).exec cs) d hd1 hd8
    (by rw [hmk]; rfl) (by rw [hsh]; rfl) red green blue
  have hv : p = rgbPixel
      ((VideoOut.new debug d polarity hoffset hactive voffset vactive file junk).exec cs)
      red green blue := by
    rcases hp with hp | hp
    · rw [eval_RGB444_HV_eq] at hp
      split_ifs at hp
      · rw [pixelWrites_hsPart, pixelWrites_vsPart, capRGBHV_eq] at hp
        split_ifs at hp <;> simp_all
      · simp [idle] at hp
    · rw [eval_RGB444_DE_eq] at hp
      split_ifs at hp
      · rw [pixelWrites_dePart] at hp
        simp_all
      · simp [idle] at hp
      · simp [idle] at hp
  rw [hv, hpx]
  exact ⟨⟨rfl, rfl, rfl⟩, (channel_exact d red hd1 hd8).2, (channel_exact d green hd1 hd8).2,
    (channel_exact d blue hd1 hd8).2⟩

/-- Witness of C2 on the test bench's engine (depth 4, 1280 x 1024, "snapshot"): the
first data-enable sample (10, 11, 15) is written as (160, 176, 240). -/
theorem C2_rgb_channels_witness :
    (0, 0, ({ Red := 160, Green := 176, Blue := 240 } : RGBApixel)) ∈ pixelWrites
        (((VideoOut.new 0 4 0 0 1280 0 1024 snapshotName Uninit.zero).exec
          []).eval_RGB444_DE 0 1 1 10 11 15).out ∧
      (160 = (10 &&& (2 ^ 4 - 1)) <<< (8 - 4) ∧ 176 = (11 &&& (2 ^ 4 - 1)) <<< (8 - 4) ∧
        240 = (15 &&& (2 ^ 4 - 1)) <<< (8 - 4)) :=
  ⟨by decide,
    (C2_rgb_channels 0 4 0 0 1280 0 1024 snapshotName Uninit.zero [] (by decide) (by decide)
      0 1 0 0 1 10 11 15 0 0
      { Red := 160, Green := 176, Blue := 240 } (Or.inr (by decide))).1⟩

/-! ### The data-enable block -/

theorem dePart_hcount (s : VideoOut) (cycle clk : Nat) (o1 : List Event) :
    (dePart s cycle clk o1).st.hcount = if lineEndDE s then 0 else u16 (s.hcount + 1) := by
  simp only [dePart, lineEndDE]
  split_ifs <;> rfl

theorem dePart_vcount (s : VideoOut) (cycle clk : Nat) (o1 : List Event) :
    (dePart s cycle clk o1).st.vcount =
      if lineEndDE s then (if u16 (s.vcount + 1) = s.ver_size then 0 else u16 (s.vcount + 1))
      else s.vcount := by
  simp only [dePart, lineEndDE]
  split_ifs <;> rfl

theorem dePart_prev_clk (s : VideoOut) (cycle clk : Nat) (o1 : List Event) :
    (dePart s cycle clk o1).st.prev_clk = clk := by
  simp only [dePart]
  split_ifs <;> rfl

theorem dePart_ret (s : VideoOut) (cycle clk : Nat) (o1 : List Event) :
    (dePart s cycle clk o1).ret =
      if boundaryDE s then (if s.filename ≠ [] then 1 else s.dump_act) else 0 := by
  simp only [dePart, boundaryDE]
  split_ifs <;> simp_all

theorem dePart_finalizes (s : VideoOut) (cycle clk : Nat) (o1 : List Event) :
    finalizes (dePart s cycle clk o1).out =
      finalizes o1 ++
        (if boundaryDE s ∧ (s.filename ≠ [] ∨ s.dump_act ≠ 0) then [s.dump_ctr] else []) := by
  simp only [dePart, boundaryDE]
  split_ifs <;> simp_all

theorem dePart_dump_ctr (s : VideoOut) (cycle clk : Nat) (o1 : List Event) :
    (dePart s cycle clk o1).st.dump_ctr =
      if boundaryDE s ∧ (s.filename ≠ [] ∨ s.dump_act ≠ 0) then s.dump_ctr + 1
      else s.dump_ctr := by
  simp only [dePart, boundaryDE]
  split_ifs <;> simp_all

theorem dePart_dump_act (s : VideoOut) (cycle clk : Nat) (o1 : List Event) :
    (dePart s cycle clk o1).st.dump_act =
      if boundaryDE s ∧ s.filename ≠ [] then 1 else s.dump_act := by
  simp only [dePart, boundaryDE]
  split_ifs <;> simp_all

/-! ### Raster arithmetic -/

theorem succ_divmod (W n : Nat) (hW : 0 < W) :
    (n % W + 1 = W → (n + 1) % W = 0 ∧ (n + 1) / W = n / W + 1) ∧
    (n % W + 1 ≠ W → (n + 1) % W = n % W + 1 ∧ (n + 1) / W = n / W) := by
  have h1 := Nat.div_add_mod n W
  have h2 := Nat.mod_lt n hW
  constructor
  · intro h
    have : (n + 1) / W = n / W + 1 ∧ (n + 1) % W = 0 := by
      rw [Nat.div_mod_unique hW]
      constructor
      · rw [Nat.mul_add]; omega
      · exact hW
    exact ⟨this.2, this.1⟩
  · intro h
    have : (n + 1) / W = n / W ∧ (n + 1) % W = n % W + 1 := by
      rw [Nat.div_mod_unique hW]
      constructor <;> omega
    exact ⟨this.2, this.1⟩

theorem frame_end_iff (W H m : Nat) (hW : 0 < W) :
    m % (W * H) = 0 ↔ m % W = 0 ∧ (m / W) % H = 0 := by
  rw [Nat.mod_mul]
  constructor
  · intro h
    have h1 : m % W = 0 := by omega
    have h2 : W * (m / W % H) = 0 := by omega
    rcases Nat.mul_eq_zero.mp h2 with h3 | h3
    · omega
    · exact ⟨h1, h3⟩
  · rintro ⟨h1, h2⟩
    rw [h1, h2]
    simp

theorem dePart_raster (s : VideoOut) (W H n : Nat) (hW : 0 < W) (hH : 0 < H)
    (hW16 : W < 65536) (hH16 : H < 65536) (hw : s.hor_size = W) (hh : s.ver_size = H)
    (hc : s.hcount = n % W) (vc : s.vcount = (n / W) % H) (cycle clk : Nat) (o1 : List Event) :
    (dePart s cycle clk o1).st.hcount = (n + 1) % W ∧
    (dePart s cycle clk o1).st.vcount = ((n + 1) / W) % H ∧
    (boundaryDE s ↔ (n + 1) % (W * H) = 0) := by
  have a1 := succ_divmod W n hW
  have a2 := succ_divmod H (n / W) hH
  have b1 := Nat.mod_lt n hW
  have b2 := Nat.mod_lt (n / W) hH
  rw [dePart_hcount, dePart_vcount, frame_end_iff W H (n + 1) hW]
  simp only [lineEndDE, boundaryDE, u16, hw, hh, hc, vc]
  rw [Nat.mod_eq_of_lt (show n % W + 1 < 65536 by omega),
    Nat.mod_eq_of_lt (show n / W % H + 1 < 65536 by omega)]
  by_cases e1 : n % W + 1 = W
  · obtain ⟨c1, c2⟩ := a1.1 e1
    by_cases e2 : n / W % H + 1 = H
    · obtain ⟨d1, d2⟩ := a2.1 e2
      simp [e1, e2, c1, c2, d1]
    · obtain ⟨d1, d2⟩ := a2.2 e2
      simp [e1, e2, c1, c2, d1]
  · obtain ⟨c1, c2⟩ := a1.2 e1
    simp [e1, c1, c2]

/-- Invariant of the data-enable raster scan under `eval_RGB444_DE` calls. -/
theorem exec_rgbDE_raster (W H : Nat) (hW : 0 < W) (hH : 0 < H)
    (hW16 : W < 65536) (hH16 : H < 65536) (as : List DeArgs) :
    ∀ (s : VideoOut) (n : Nat), s.hor_size = W → s.ver_size = H →
      s.hcount = n % W → s.vcount = (n / W) % H →
      (s.exec (as.map DeArgs.call)).hcount = (n + deSamples s.prev_clk as) % W ∧
      (s.exec (as.map DeArgs.call)).vcount = ((n + deSamples s.prev_clk as) / W) % H ∧
      (s.exec (as.map DeArgs.call)).prev_clk = lastClk s.prev_clk as := by
  induction as with
  | nil => intro s n _ _ hc vc; exact ⟨hc, vc, rfl⟩
  | cons a as ih =>
    intro s n hw hh hc vc
    simp only [List.map_cons, VideoOut.exec, deSamples, lastClk]
    have hcfg := config_fields (step_config s a.call)
    have hw1 : (s.step a.call).st.hor_size = W := by rw [hcfg.2.2.2.2.2.2.2.1, hw]
    have hh1 : (s.step a.call).st.ver_size = H := by rw [hcfg.2.2.2.2.2.2.2.2.1, hh]
    by_cases hr : (a.clk ≠ 0 ∧ s.prev_clk = 0) ∧ a.de ≠ 0
    · have hstep : s.step a.call = dePart s a.cycle a.clk
          [Event.SetPixel (s.hcount : Int) (s.vcount : Int) (rgbPixel s a.red a.green a.blue)] := by
        simp only [VideoOut.step, DeArgs.call, eval_RGB444_DE_eq]
        rw [if_pos hr.1, if_pos hr.2]
      have hras := dePart_raster s W H n hW hH hW16 hH16 hw hh hc vc a.cycle a.clk
          [Event.SetPixel (s.hcount : Int) (s.vcount : Int) (rgbPixel s a.red a.green a.blue)]
      rw [← hstep] at hras
      have hp : (s.step a.call).st.prev_clk = a.clk := by rw [hstep, dePart_prev_clk]
      have := ih (s.step a.call).st (n + 1) hw1 hh1 hras.1 hras.2.1
      rw [hp] at this
      rw [if_pos hr, ← Nat.add_assoc]
      exact this
    · have hstep : s.step a.call = idle s a.clk := by
        simp only [VideoOut.step, DeArgs.call, eval_RGB444_DE_eq]
        split_ifs with h1 h2
        · exact absurd ⟨h1, h2⟩ hr
        · rfl
        · rfl
      have := ih (s.step a.call).st n hw1 hh1 (by rw [hstep]; exact hc) (by rw [hstep]; exact vc)
      rw [show (s.step a.call).st.prev_clk = a.clk by rw [hstep]; rfl] at this
      rw [if_neg hr, Nat.zero_add]
      exact this

theorem take_ne_nil (file : List Nat) : file.take 255 ≠ [] ↔ file ≠ [] := by
  cases file <;> simp

theorem rgbPixel_config {s t : VideoOut} (h : s.config = t.config) (red green blue : Nat) :
    rgbPixel s red green blue = rgbPixel t red green blue := by
  obtain ⟨h1, h2, -⟩ := config_fields h
  simp only [rgbPixel, h1, h2]

/-- C3: on a fresh engine with active size W x H (1 <= W, H < 2^16) driven only through
`eval_RGB444_DE`, let n be the number of earlier rising-clock calls with de != 0.  A
rising-clock call with de != 0 writes exactly one pixel, at (n mod W, (n div W) mod H),
with that call's converted colour, and leaves the counts at ((n+1) mod W,
((n+1) div W) mod H); it takes the frame-boundary branch exactly when n+1 is a multiple
of W*H, and with a non-empty file name exactly then returns non-zero.  A rising-clock
call with de = 0 writes nothing and leaves both counts unchanged. -/
theorem C3_de_raster_order (debug depth polarity hoffset W voffset H : Nat) (file : List Nat)
    (junk : Uninit) (hW : 1 ≤ W) (hH : 1 ≤ H) (hW16 : W < 65536) (hH16 : H < 65536)
    (as : List DeArgs) (a : DeArgs) (hclk : a.clk ≠ 0 ∧ lastClk 0 as = 0) :
    (a.de ≠ 0 →
      pixelWrites (((VideoOut.new debug depth polarity hoffset W voffset H file junk).exec
          (as.map DeArgs.call)).step a.call).out
        = [(((deSamples 0 as % W : Nat) : Int), (((deSamples 0 as / W) % H : Nat) : Int),
            rgbPixel (VideoOut.new debug depth polarity hoffset W voffset H file junk)
              a.red a.green a.blue)] ∧
      (((VideoOut.new debug depth polarity hoffset W voffset H file junk).exec
          (as.map DeArgs.call)).step a.call).st.hcount = (deSamples 0 as + 1) % W ∧
      (((VideoOut.new debug depth polarity hoffset W voffset H file junk).exec
          (as.map DeArgs.call)).step a.call).st.vcount = ((deSamples 0 as + 1) / W) % H ∧
      (boundaryDE ((VideoOut.new debug depth polarity hoffset W voffset H file junk).exec
          (as.map DeArgs.call)) ↔ (deSamples 0 as + 1) % (W * H) = 0) ∧
      (file ≠ [] →
        ((((VideoOut.new debug depth polarity hoffset W voffset H file junk).exec
          (as.map DeArgs.call)).step a.call).ret ≠ 0 ↔ (deSamples 0 as + 1) % (W * H) = 0))) ∧
    (a.de = 0 →
      pixelWrites (((VideoOut.new debug depth polarity hoffset W voffset H file junk).exec
          (as.map DeArgs.call)).step a.call).out = [] ∧
      (((VideoOut.new debug depth polarity hoffset W voffset H file junk).exec
          (as.map DeArgs.call)).step a.call).st.hcount
        = ((VideoOut.new debug depth polarity hoffset W voffset H file junk).exec
          (as.map DeArgs.call)).hcount ∧
      (((VideoOut.new debug depth polarity hoffset W voffset H file junk).exec
          (as.map DeArgs.call)).step a.call).st.vcount
        = ((VideoOut.new debug depth polarity hoffset W voffset H file junk).exec
          (as.map DeArgs.call)).vcount) := by
  have hcfg := exec_config (as.map DeArgs.call)
    (VideoOut.new debug depth polarity hoffset W voffset H file junk)
  have hf := config_fields hcfg
  have hw : ((VideoOut.new debug depth polarity hoffset W voffset H file junk).exec
      (as.map DeArgs.call)).hor_size = W := by rw [hf.2.2.2.2.2.2.2.1]; rfl
  have hh : ((VideoOut.new debug depth polarity hoffset W voffset H file junk).exec
      (as.map DeArgs.call)).ver_size = H := by rw [hf.2.2.2.2.2.2.2.2.1]; rfl
  have hfn : ((VideoOut.new debug depth polarity hoffset W voffset H file junk).exec
      (as.map DeArgs.call)).filename = file.take 255 := by rw [hf.2.2.2.2.2.2.2.2.2.2.2.2.2]; rfl
  obtain ⟨ihc, ivc, ipc⟩ := exec_rgbDE_raster W H hW hH hW16 hH16 as
    (VideoOut.new debug depth polarity hoffset W voffset H file junk) 0 rfl rfl
    (by simp [VideoOut.new]) (by simp [VideoOut.new])
  simp only [Nat.zero_add, show (VideoOut.new debug depth polarity hoffset W voffset H file
    junk).prev_clk = 0 from rfl] at ihc ivc ipc
  have hrise : a.clk ≠ 0 ∧ ((VideoOut.new debug depth polarity hoffset W voffset H file junk).exec
      (as.map DeArgs.call)).prev_clk = 0 := ⟨hclk.1, by rw [ipc]; exact hclk.2⟩
  generalize (VideoOut.new debug depth polarity hoffset W voffset H file junk).exec
      (as.map DeArgs.call) = s at *
  constructor
  · intro hde
    have hstep : s.step a.call = dePart s a.cycle a.clk
        [Event.SetPixel (s.hcount : Int) (s.vcount : Int) (rgbPixel s a.red a.green a.blue)] := by
      simp only [VideoOut.step, DeArgs.call, eval_RGB444_DE_eq]
      rw [if_pos hrise, if_pos hde]
    obtain ⟨r1, r2, r3⟩ := dePart_raster s W H (deSamples 0 as) hW hH hW16 hH16 hw hh ihc ivc
      a.cycle a.clk
      [Event.SetPixel (s.hcount : Int) (s.vcount : Int) (rgbPixel s a.red a.green a.blue)]
    rw [hstep]
    refine ⟨?_, r1, r2, r3, ?_⟩
    · rw [pixelWrites_dePart, ihc, ivc, rgbPixel_config hcfg]
      rfl
    · intro hfile
      have hne : s.filename ≠ [] := by rw [hfn]; exact (take_ne_nil file).2 hfile
      rw [dePart_ret, ← r3]
      simp [hne]
  · intro hde
    have hstep : s.step a.call = idle s a.clk := by
      simp only [VideoOut.step, DeArgs.call, eval_RGB444_DE_eq]
      rw [if_pos hrise, if_neg (not_not.mpr hde)]
    rw [hstep]
    exact ⟨rfl, rfl, rfl⟩

/-- Witness of C3: on a fresh 2 x 2 engine of depth 8 the fourth data-enable sample
(n = 3) is written at (1, 1), leaves the counts at (0, 0) and returns non-zero. -/
theorem C3_de_raster_order_witness :
    pixelWrites (((VideoOut.new 0 8 0 0 2 0 2 snapshotName Uninit.zero).exec
        (demoHistory.map DeArgs.call)).step demoCall.call).out
      = [(1, 1, { Red := 7, Green := 8, Blue := 9 })] ∧
    (((VideoOut.new 0 8 0 0 2 0 2 snapshotName Uninit.zero).exec
        (demoHistory.map DeArgs.call)).step demoCall.call).st.hcount = 0 ∧
    (((VideoOut.new 0 8 0 0 2 0 2 snapshotName Uninit.zero).exec
        (demoHistory.map DeArgs.call)).step demoCall.call).st.vcount = 0 ∧
    (((VideoOut.new 0 8 0 0 2 0 2 snapshotName Uninit.zero).exec
        (demoHistory.map DeArgs.call)).step demoCall.call).ret ≠ 0 :=
  have h := (C3_de_raster_order 0 8 0 0 2 0 2 snapshotName Uninit.zero (by decide) (by decide)
    (by decide) (by decide) demoHistory demoCall (by decide)).1 (by decide)
  ⟨h.1, h.2.1, h.2.2.1, (h.2.2.2.2 (by decide)).2 (by decide)⟩

/-! ### The sync blocks, field by field -/

theorem vsPart_hcount (s : VideoOut) (cycle vs : Nat) (o1 : List Event) :
    (vsPart s cycle vs o1).st.hcount = if vsRise s vs then 0 else s.hcount := by
  simp only [vsPart, vsRise]
  split_ifs <;> rfl

theorem vsPart_vcount (s : VideoOut) (cycle vs : Nat) (o1 : List Event) :
    (vsPart s cycle vs o1).st.vcount = if vsRise s vs then 0 else s.vcount := by
  simp only [vsPart, vsRise]
  split_ifs <;> rfl

theorem vsPart_dump_act (s : VideoOut) (cycle vs : Nat) (o1 : List Event) :
    (vsPart s cycle vs o1).st.dump_act =
      if vsRise s vs ∧ s.filename ≠ [] then 1 else s.dump_act := by
  simp only [vsPart, vsRise]
  split_ifs <;> simp_all

theorem vsPart_dump_ctr (s : VideoOut) (cycle vs : Nat) (o1 : List Event) :
    (vsPart s cycle vs o1).st.dump_ctr =
      if vsRise s vs ∧ s.dump_act ≠ 0 then s.dump_ctr + 1 else s.dump_ctr := by
  simp only [vsPart, vsRise]
  split_ifs <;> simp_all

theorem vsPart_ret (s : VideoOut) (cycle vs : Nat) (o1 : List Event) :
    (vsPart s cycle vs o1).ret = if vsRise s vs then s.dump_act else 0 := by
  simp only [vsPart, vsRise]
  split_ifs <;> rfl

theorem vsPart_prev (s : VideoOut) (cycle vs : Nat) (o1 : List Event) :
    (vsPart s cycle vs o1).st.prev_hs = s.prev_hs ∧ (vsPart s cycle vs o1).st.prev_vs = s.prev_vs ∧
      (vsPart s cycle vs o1).st.prev_clk = s.prev_clk := by
  simp only [vsPart]
  split_ifs <;> exact ⟨rfl, rfl, rfl⟩

theorem hsPart_hcount (r : Res) (cycle clk vs hs : Nat) :
    (hsPart r cycle clk vs hs).st.hcount = if hsRise r.st hs then 0 else u16 (r.st.hcount + 1) := by
  simp only [hsPart, hsRise]
  split_ifs <;> rfl

theorem hsPart_vcount (r : Res) (cycle clk vs hs : Nat) :
    (hsPart r cycle clk vs hs).st.vcount =
      if hsRise r.st hs ∧ r.st.hcount > 4 then u16 (r.st.vcount + 1) else r.st.vcount := by
  simp only [hsPart, hsRise]
  split_ifs <;> simp_all

theorem hsPart_prev (r : Res) (cycle clk vs hs : Nat) :
    (hsPart r cycle clk vs hs).st.prev_hs = hs ∧ (hsPart r cycle clk vs hs).st.prev_vs = vs ∧
      (hsPart r cycle clk vs hs).st.prev_clk = clk := ⟨rfl, rfl, rfl⟩

theorem hsPart_dump (r : Res) (cycle clk vs hs : Nat) :
    (hsPart r cycle clk vs hs).st.dump_act = r.st.dump_act ∧
      (hsPart r cycle clk vs hs).st.dump_ctr = r.st.dump_ctr ∧
      (hsPart r cycle clk vs hs).ret = r.ret := by
  simp only [hsPart]
  split_ifs <;> exact ⟨rfl, rfl, rfl⟩

/-! ### Sequences of calls -/

theorem exec_append (as bs : List Call) (s : VideoOut) :
    s.exec (as ++ bs) = (s.exec as).exec bs := by
  induction as generalizing s with
  | nil => rfl
  | cons a as ih => exact ih (s.step a).st

theorem trace_append (as bs : List Call) (s : VideoOut) :
    s.trace (as ++ bs) = s.trace as ++ (s.exec as).trace bs := by
  induction as generalizing s with
  | nil => rfl
  | cons a as ih =>
    show (s.step a).out ++ (s.step a).st.trace (as ++ bs) = _
    rw [ih]
    simp only [VideoOut.trace, VideoOut.exec, List.append_assoc]

/-! ### A rising-clock call of the sync discipline -/

theorem hsRise_vsPart (s : VideoOut) (cycle vs hs : Nat) (o1 : List Event) :
    hsRise (vsPart s cycle vs o1).st hs ↔ hsRise s hs := by
  have h1 := (config_fields (vsPart_config s cycle vs o1)).2.2.1
  have h2 := (vsPart_prev s cycle vs o1).1
  simp only [hsRise, h1, h2]

theorem riseHV_hcount (s : VideoOut) (cycle clk vs hs : Nat) (o1 : List Event) :
    (hsPart (vsPart s cycle vs o1) cycle clk vs hs).st.hcount =
      if hsRise s hs then 0 else if vsRise s vs then 1 else u16 (s.hcount + 1) := by
  rw [hsPart_hcount, vsPart_hcount]
  simp only [hsRise_vsPart]
  split_ifs <;> rfl

theorem riseHV_vcount (s : VideoOut) (cycle clk vs hs : Nat) (o1 : List Event) :
    (hsPart (vsPart s cycle vs o1) cycle clk vs hs).st.vcount =
      if vsRise s vs then 0
      else if hsRise s hs ∧ s.hcount > 4 then u16 (s.vcount + 1) else s.vcount := by
  rw [hsPart_vcount, vsPart_vcount, vsPart_hcount]
  simp only [hsRise_vsPart]
  split_ifs <;> simp_all

theorem riseHV_prev (s : VideoOut) (cycle clk vs hs : Nat) (o1 : List Event) :
    (hsPart (vsPart s cycle vs o1) cycle clk vs hs).st.prev_hs = hs ∧
      (hsPart (vsPart s cycle vs o1) cycle clk vs hs).st.prev_vs = vs ∧
      (hsPart (vsPart s cycle vs o1) cycle clk vs hs).st.prev_clk = clk := ⟨rfl, rfl, rfl⟩

theorem riseHV_dump_act (s : VideoOut) (cycle clk vs hs : Nat) (o1 : List Event) :
    (hsPart (vsPart s cycle vs o1) cycle clk vs hs).st.dump_act =
      if vsRise s vs ∧ s.filename ≠ [] then 1 else s.dump_act := by
  rw [(hsPart_dump _ _ _ _ _).1, vsPart_dump_act]

theorem riseHV_dump_ctr (s : VideoOut) (cycle clk vs hs : Nat) (o1 : List Event) :
    (hsPart (vsPart s cycle vs o1) cycle clk vs hs).st.dump_ctr =
      if vsRise s vs ∧ s.dump_act ≠ 0 then s.dump_ctr + 1 else s.dump_ctr := by
  rw [(hsPart_dump _ _ _ _ _).2.1, vsPart_dump_ctr]

theorem riseHV_ret (s : VideoOut) (cycle clk vs hs : Nat) (o1 : List Event) :
    (hsPart (vsPart s cycle vs o1) cycle clk vs hs).ret =
      if vsRise s vs then s.dump_act else 0 := by
  rw [(hsPart_dump _ _ _ _ _).2.2, vsPart_ret]

theorem riseHV_config (s : VideoOut) (cycle clk vs hs : Nat) (o1 : List Event) :
    (hsPart (vsPart s cycle vs o1) cycle clk vs hs).st.config = s.config := by
  rw [hsPart_config, vsPart_config]

theorem riseHV_pixelWrites (s : VideoOut) (cycle clk vs hs : Nat) (o1 : List Event) :
    pixelWrites (hsPart (vsPart s cycle vs o1) cycle clk vs hs).out = pixelWrites o1 := by
  rw [pixelWrites_hsPart, pixelWrites_vsPart]

theorem riseHV_finalizes (s : VideoOut) (cycle clk vs hs : Nat) (o1 : List Event) :
    finalizes (hsPart (vsPart s cycle vs o1) cycle clk vs hs).out =
      finalizes o1 ++ (if vsRise s vs ∧ s.dump_act ≠ 0 then [s.dump_ctr] else []) := by
  rw [finalizes_hsPart, finalizes_vsPart]
  rfl

/-! ### The sync-discipline scenario of spec section 8 -/

theorem hvSample_run (s : VideoOut) (vs hs : Nat) (p : Nat × Nat × Nat) (h0 : s.prev_clk = 0) :
    s.exec (hvSample vs hs p) =
        (idle (hsPart (vsPart s 0 vs (capRGBHV s p.1 p.2.1 p.2.2)) 0 1 vs hs).st 0).st ∧
      s.trace (hvSample vs hs p) =
        (hsPart (vsPart s 0 vs (capRGBHV s p.1 p.2.1 p.2.2)) 0 1 vs hs).out := by
  have e1 : s.step (Call.RGB444_HV 0 1 vs hs p.1 p.2.1 p.2.2) =
      hsPart (vsPart s 0 vs (capRGBHV s p.1 p.2.1 p.2.2)) 0 1 vs hs := by
    simp only [VideoOut.step, eval_RGB444_HV_eq]
    rw [if_pos ⟨by decide, h0⟩]
  have e2 : ∀ t : VideoOut, t.step (Call.RGB444_HV 0 0 vs hs p.1 p.2.1 p.2.2) = idle t 0 := by
    intro t
    simp only [VideoOut.step, eval_RGB444_HV_eq]
    rw [if_neg (by simp)]
  constructor
  · show ((s.step _).st.step _).st = _
    rw [e2, e1]
  · show (s.step _).out ++ (((s.step _).st.step _).out ++ []) = _
    rw [e2, e1]
    simp [idle]

theorem byte_and_255 (v : Nat) (h : v < 256) : u8 ((v &&& 255) <<< 0) = v := by
  have : v &&& 255 = v := by
    have := Nat.and_pow_two_sub_one_eq_mod v 8
    norm_num at this
    rw [this, Nat.mod_eq_of_lt h]
  rw [this]
  simp [u8, Nat.mod_eq_of_lt h]

/-- Fields of the engine after one rising-clock sample of the scenario. -/
theorem hvSample_state (s : VideoOut) (W H c r phs vs hs : Nat) (p : Nat × Nat × Nat)
    (hst : HVst s W H c r phs) (hc' vc' : Nat)
    (h1 : (if hsRise s hs then 0 else if vsRise s vs then 1 else u16 (s.hcount + 1)) = hc')
    (h2 : (if vsRise s vs then 0
      else if hsRise s hs ∧ s.hcount > 4 then u16 (s.vcount + 1) else s.vcount) = vc')
    (h3 : vs = 0) :
    HVst (s.exec (hvSample vs hs p)) W H hc' vc' hs := by
  obtain ⟨⟨a1, a2, a3, a4⟩, ⟨b1, b2, b3, b4⟩, ⟨c1, c2⟩, ⟨d1, d2, d3, d4⟩⟩ := hst
  have hcfg := config_fields (riseHV_config s 0 1 vs hs (capRGBHV s p.1 p.2.1 p.2.2))
  have hv : ¬ vsRise s vs := by simp [vsRise, b2, h3]
  rw [(hvSample_run s vs hs p d1).1]
  refine ⟨⟨?_, ?_, ?_, ?_⟩, ⟨?_, ?_, ?_, ?_⟩, ⟨?_, ?_⟩, ⟨rfl, h3, rfl, ?_⟩⟩
  · exact hcfg.2.2.2.2.2.1.trans a1
  · exact hcfg.2.2.2.2.2.2.1.trans a2
  · exact hcfg.2.2.2.2.2.2.2.1.trans a3
  · exact hcfg.2.2.2.2.2.2.2.2.1.trans a4
  · exact hcfg.2.2.1.trans b1
  · exact hcfg.2.2.2.1.trans b2
  · exact hcfg.2.1.trans b3
  · exact hcfg.1.trans b4
  · exact (riseHV_hcount s 0 1 vs hs _).trans h1
  · exact (riseHV_vcount s 0 1 vs hs _).trans h2
  · exact (riseHV_dump_act s 0 1 vs hs _).trans (by rw [if_neg (fun h => hv h.1), d4])

/-- A pixel sample inside the active area is written at the current position and
advances the horizontal count. -/
theorem hvSample_pixel (s : VideoOut) (W H c r phs : Nat) (p : Nat × Nat × Nat)
    (hs : HVst s W H c r phs) (hc : c < W) (hr : r < H) (hW16 : W < 65536)
    (hp : p.1 < 256 ∧ p.2.1 < 256 ∧ p.2.2 < 256) :
    HVst (s.exec (hvSample 0 0 p)) W H (c + 1) r 0 ∧
      pixelWrites (s.trace (hvSample 0 0 p))
        = [((c : Int), (r : Int), { Red := p.1, Green := p.2.1, Blue := p.2.2 })] ∧
      finalizes (s.trace (hvSample 0 0 p)) = [] := by
  have hs' := hs
  obtain ⟨⟨a1, a2, a3, a4⟩, ⟨b1, b2, b3, b4⟩, ⟨c1, c2⟩, ⟨d1, d2, d3, d4⟩⟩ := hs'
  have hv : ¬ vsRise s 0 := by simp [vsRise, b2]
  have hh : ¬ hsRise s 0 := by simp [hsRise, b1]
  have hwin : inWindow s := by
    simp only [inWindow, a1, a2, a3, a4, c1, c2]
    omega
  refine ⟨hvSample_state s W H c r phs 0 0 p hs (c + 1) r ?_ ?_ rfl, ?_, ?_⟩
  · rw [if_neg hh, if_neg hv, c1, u16]
    exact Nat.mod_eq_of_lt (by omega)
  · rw [if_neg hv, if_neg (fun h => hh h.1), c2]
  · rw [(hvSample_run s 0 0 p d1).2, riseHV_pixelWrites, capRGBHV_eq, if_pos hwin]
    simp only [rgbPixel, b3, b4, byte_and_255 _ hp.1, byte_and_255 _ hp.2.1,
      byte_and_255 _ hp.2.2, pixelWrites_setPixel, pixelWrites_nil, a1, a2, c1, c2]
    simp
  · rw [(hvSample_run s 0 0 p d1).2, riseHV_finalizes, capRGBHV_eq, if_pos hwin]
    simp [d4]

/-- The sample closing a line of at least 5 pixels: nothing is written, the vertical
count advances and the horizontal count restarts. -/
theorem hvSample_hsync (s : VideoOut) (W H r : Nat) (p : Nat × Nat × Nat)
    (hs : HVst s W H W r 0) (hW : 5 ≤ W) (hr : r < H) (hH16 : H < 65536) :
    HVst (s.exec (hvSample 0 1 p)) W H 0 (r + 1) 1 ∧
      pixelWrites (s.trace (hvSample 0 1 p)) = [] ∧
      finalizes (s.trace (hvSample 0 1 p)) = [] := by
  have hs' := hs
  obtain ⟨⟨a1, a2, a3, a4⟩, ⟨b1, b2, b3, b4⟩, ⟨c1, c2⟩, ⟨d1, d2, d3, d4⟩⟩ := hs'
  have hv : ¬ vsRise s 0 := by simp [vsRise, b2]
  have hh : hsRise s 1 := by simp [hsRise, b1, d3]
  have hwin : ¬ inWindow s := by
    simp only [inWindow, a1, a2, a3, a4, c1, c2]
    omega
  refine ⟨hvSample_state s W H W r 0 0 1 p hs 0 (r + 1) ?_ ?_ rfl, ?_, ?_⟩
  · rw [if_pos hh]
  · rw [if_neg hv, if_pos ⟨hh, by omega⟩, c2, u16]
    exact Nat.mod_eq_of_lt (by omega)
  · rw [(hvSample_run s 0 1 p d1).2, riseHV_pixelWrites, capRGBHV_eq, if_neg hwin]
    rfl
  · rw [(hvSample_run s 0 1 p d1).2, riseHV_finalizes, capRGBHV_eq, if_neg hwin]
    simp [d4]

/-- The first `n` pixel samples of row `r`. -/
theorem hvPixels_run (W H r : Nat) (row : Nat → Nat × Nat × Nat) (hr : r < H) (hW16 : W < 65536)
    (hrow : ∀ c, (row c).1 < 256 ∧ (row c).2.1 < 256 ∧ (row c).2.2 < 256) (n : Nat) :
    ∀ (s : VideoOut) (phs : Nat), n ≤ W → HVst s W H 0 r phs →
      HVst (s.exec (hvPixels row n)) W H n r (if n = 0 then phs else 0) ∧
        pixelWrites (s.trace (hvPixels row n)) = rowWrites r row n ∧
        finalizes (s.trace (hvPixels row n)) = [] := by
  induction n with
  | zero => intro s phs _ hs; exact ⟨hs, rfl, rfl⟩
  | succ n ih =>
    intro s phs hn hs
    obtain ⟨i1, i2, i3⟩ := ih s phs (by omega) hs
    obtain ⟨j1, j2, j3⟩ := hvSample_pixel (s.exec (hvPixels row n)) W H n r _ (row n) i1
      (by omega) hr hW16 (hrow n)
    simp only [hvPixels, rowWrites, exec_append, trace_append, pixelWrites_append,
      finalizes_append, i2, i3, j2, j3, List.append_nil]
    exact ⟨by simpa using j1, trivial, trivial⟩

/-- One scanline of the scenario. -/
theorem hvRow_run (W H r : Nat) (row : Nat → Nat × Nat × Nat) (sync : Nat × Nat × Nat)
    (hW : 5 ≤ W) (hW16 : W < 65536) (hr : r < H) (hH16 : H < 65536)
    (hrow : ∀ c, (row c).1 < 256 ∧ (row c).2.1 < 256 ∧ (row c).2.2 < 256)
    (s : VideoOut) (phs : Nat) (hs : HVst s W H 0 r phs) :
    HVst (s.exec (hvRow W row sync)) W H 0 (r + 1) 1 ∧
      pixelWrites (s.trace (hvRow W row sync)) = rowWrites r row W ∧
      finalizes (s.trace (hvRow W row sync)) = [] := by
  obtain ⟨i1, i2, i3⟩ := hvPixels_run W H r row hr hW16 hrow W s phs (le_refl W) hs
  rw [if_neg (by omega)] at i1
  obtain ⟨j1, j2, j3⟩ := hvSample_hsync (s.exec (hvPixels row W)) W H r sync i1 hW hr hH16
  simp only [hvRow, exec_append, trace_append, pixelWrites_append, finalizes_append, i2, i3, j2,
    j3, List.append_nil]
  exact ⟨j1, trivial, trivial⟩

/-- The first `n` scanlines of the scenario. -/
theorem hvRows_run (W H : Nat) (pix : Nat → Nat → Nat × Nat × Nat) (sync : Nat × Nat × Nat)
    (hW : 5 ≤ W) (hW16 : W < 65536) (hH16 : H < 65536)
    (hpix : ∀ r c, (pix r c).1 < 256 ∧ (pix r c).2.1 < 256 ∧ (pix r c).2.2 < 256)
    (s : VideoOut) (hs : HVst s W H 0 0 0) (n : Nat) :
    n ≤ H →
      HVst (s.exec (hvRows W pix sync n)) W H 0 n (if n = 0 then 0 else 1) ∧
        pixelWrites (s.trace (hvRows W pix sync n)) = rasterWrites W pix n ∧
        finalizes (s.trace (hvRows W pix sync n)) = [] := by
  induction n with
  | zero => intro _; exact ⟨hs, rfl, rfl⟩
  | succ n ih =>
    intro hn
    obtain ⟨i1, i2, i3⟩ := ih (by omega)
    obtain ⟨j1, j2, j3⟩ := hvRow_run W H n (pix n) sync hW hW16 (by omega) hH16 (hpix n)
      (s.exec (hvRows W pix sync n)) _ i1
    simp only [hvRows, rasterWrites, exec_append, trace_append, pixelWrites_append,
      finalizes_append, i2, i3, j2, j3, List.append_nil]
    exact ⟨by simpa using j1, trivial, trivial⟩

/-- The closing vertical-sync sample after `H` full lines: outside the window, first
boundary, so nothing is written and nothing is finalized. -/
theorem hvSample_vsync (s : VideoOut) (W H phs : Nat) (p : Nat × Nat × Nat)
    (hs : HVst s W H 0 H phs) :
    pixelWrites (s.trace (hvSample 1 0 p)) = [] ∧ finalizes (s.trace (hvSample 1 0 p)) = [] := by
  obtain ⟨⟨a1, a2, a3, a4⟩, ⟨b1, b2, b3, b4⟩, ⟨c1, c2⟩, ⟨d1, d2, d3, d4⟩⟩ := hs
  have hwin : ¬ inWindow s := by
    simp only [inWindow, a1, a2, a3, a4, c1, c2]
    omega
  constructor
  · rw [(hvSample_run s 1 0 p d1).2, riseHV_pixelWrites, capRGBHV_eq, if_neg hwin]
    rfl
  · rw [(hvSample_run s 1 0 p d1).2, riseHV_finalizes, capRGBHV_eq, if_neg hwin]
    simp [d4]

theorem rowWrites_length (r : Nat) (row : Nat → Nat × Nat × Nat) (n : Nat) :
    (rowWrites r row n).length = n := by
  induction n with
  | zero => rfl
  | succ n ih => simp [rowWrites, ih]

theorem rasterWrites_length (W : Nat) (pix : Nat → Nat → Nat × Nat × Nat) (n : Nat) :
    (rasterWrites W pix n).length = W * n := by
  induction n with
  | zero => rfl
  | succ n ih => simp [rasterWrites, ih, rowWrites_length, Nat.mul_succ]

theorem rowWrites_get (r : Nat) (row : Nat → Nat × Nat × Nat) (n c : Nat) (hc : c < n) :
    (rowWrites r row n)[c]? =
      some ((c : Int), (r : Int), { Red := (row c).1, Green := (row c).2.1, Blue := (row c).2.2 }) := by
  induction n with
  | zero => omega
  | succ n ih =>
    rw [rowWrites]
    by_cases h : c < n
    · rw [List.getElem?_append_left (by rw [rowWrites_length]; exact h), ih h]
    · have : c = n := by omega
      subst this
      rw [List.getElem?_append_right (by rw [rowWrites_length]), rowWrites_length]
      simp

theorem rasterWrites_get (W : Nat) (pix : Nat → Nat → Nat × Nat × Nat) (n r c : Nat)
    (hr : r < n) (hc : c < W) :
    (rasterWrites W pix n)[W * r + c]? =
      some ((c : Int), (r : Int),
        { Red := (pix r c).1, Green := (pix r c).2.1, Blue := (pix r c).2.2 }) := by
  induction n with
  | zero => omega
  | succ n ih =>
    rw [rasterWrites]
    by_cases h : r < n
    · have : W * r + c < W * n := by
        have : W * (r + 1) ≤ W * n := Nat.mul_le_mul_left W h
        rw [Nat.mul_succ] at this
        omega
      rw [List.getElem?_append_left (by rw [rasterWrites_length]; exact this), ih h]
    · have : r = n := by omega
      subst this
      rw [List.getElem?_append_right (by rw [rasterWrites_length]; omega), rasterWrites_length]
      rw [show W * r + c - W * r = c by omega]
      exact rowWrites_get r (pix r) W c hc

theorem HVst_new (debug W H : Nat) (file : List Nat) (junk : Uninit) :
    HVst (VideoOut.new debug 8 3 0 W 0 H file junk) W H 0 0 0 :=
  ⟨⟨rfl, rfl, rfl, rfl⟩, ⟨rfl, rfl, rfl, rfl⟩, ⟨rfl, rfl⟩, ⟨rfl, rfl, rfl, rfl⟩⟩

/-- C4 (as amended): for every active size W x H with 5 <= W < 2^16 and H < 2^16, on
a fresh engine with offsets 0, depth 8 and both polarities positive, fed through
`eval_RGB444_HV` with H rows of W rising-clock samples (hs = 0, vs = 0) of 8-bit RGB
triples, each row followed by one rising-clock sample with hs = 1, and then one
rising-clock sample with vs = 1: the pixel writes are exactly the W*H writes
(c, r, fed value) in raster order (entry W*r + c is the c-th sample of row r) and no
finalize call is made. -/
theorem C4_hv_scanlines (debug W H : Nat) (file : List Nat) (junk : Uninit)
    (pix : Nat → Nat → Nat × Nat × Nat) (sync : Nat × Nat × Nat)
    (hW : 5 ≤ W) (hW16 : W < 65536) (hH16 : H < 65536)
    (hpix : ∀ r c, (pix r c).1 < 256 ∧ (pix r c).2.1 < 256 ∧ (pix r c).2.2 < 256) :
    pixelWrites ((VideoOut.new debug 8 3 0 W 0 H file junk).trace (hvFrame W H pix sync))
        = rasterWrites W pix H ∧
      finalizes ((VideoOut.new debug 8 3 0 W 0 H file junk).trace (hvFrame W H pix sync)) = [] ∧
      (rasterWrites W pix H).length = W * H ∧
      (∀ r c, r < H → c < W →
        (rasterWrites W pix H)[W * r + c]? =
          some ((c : Int), (r : Int),
            { Red := (pix r c).1, Green := (pix r c).2.1, Blue := (pix r c).2.2 })) := by
  obtain ⟨i1, i2, i3⟩ := hvRows_run W H pix sync hW hW16 hH16 hpix
    (VideoOut.new debug 8 3 0 W 0 H file junk) (HVst_new debug W H file junk) H (le_refl H)
  obtain ⟨j2, j3⟩ := hvSample_vsync _ W H _ sync i1
  refine ⟨?_, ?_, rasterWrites_length W pix H, fun r c hr hc => rasterWrites_get W pix H r c hr hc⟩
  · simp only [hvFrame, trace_append, pixelWrites_append, i2, j2, List.append_nil]
  · simp only [hvFrame, trace_append, finalizes_append, i3, j3, List.append_nil]

/-- Witness of C4 as amended: 5 x 2 gives the ten writes (0,0)...(4,1) in raster order. -/
theorem C4_hv_scanlines_witness :
    pixelWrites ((VideoOut.new 0 8 3 0 5 0 2 snapshotName Uninit.zero).trace
        (hvFrame 5 2 demoPix (0, 0, 0)))
      = [(0, 0, ⟨1, 100, 200⟩), (1, 0, ⟨2, 101, 201⟩), (2, 0, ⟨3, 102, 202⟩),
         (3, 0, ⟨4, 103, 203⟩), (4, 0, ⟨5, 104, 204⟩), (0, 1, ⟨11, 110, 210⟩),
         (1, 1, ⟨12, 111, 211⟩), (2, 1, ⟨13, 112, 212⟩), (3, 1, ⟨14, 113, 213⟩),
         (4, 1, ⟨15, 114, 214⟩)] :=
  (C4_hv_scanlines 0 5 2 snapshotName Uninit.zero demoPix (0, 0, 0) (by decide) (by decide)
    (by decide) (fun r c => by simp only [demoPix]; omega)).1

/-- Counterexample to C4 as stated: in the 4 x 2 scenario of spec section 8 the line
end is not counted (`hcount > 4` fails at hcount = 4), so the second row is written
over row 0 and the closing vertical-sync sample is written at (0, 0): nine writes,
not the eight writes (0,0)...(3,1). -/
theorem C4_counterexample :
    pixelWrites ((VideoOut.new 0 8 3 0 4 0 2 snapshotName Uninit.zero).trace
        (hvFrame 4 2 demoPix (0, 0, 0)))
      = [(0, 0, ⟨1, 100, 200⟩), (1, 0, ⟨2, 101, 201⟩), (2, 0, ⟨3, 102, 202⟩),
         (3, 0, ⟨4, 103, 203⟩), (0, 0, ⟨11, 110, 210⟩), (1, 0, ⟨12, 111, 211⟩),
         (2, 0, ⟨13, 112, 212⟩), (3, 0, ⟨14, 113, 213⟩), (0, 0, ⟨0, 0, 0⟩)] ∧
    ¬ (pixelWrites ((VideoOut.new 0 8 3 0 4 0 2 snapshotName Uninit.zero).trace
        (hvFrame 4 2 demoPix (0, 0, 0))) = rasterWrites 4 demoPix 2) := by
  decide

/-! ### Active-window gating -/

theorem odd_pos (n : Nat) (h : n &&& 1 ≠ 0) : 1 ≤ n := by
  rcases Nat.eq_zero_or_pos n with h0 | h0
  · subst h0
    simp at h
  · exact h0

theorem window_coords (s : VideoOut) (hw : inWindow s) :
    (0 ≤ (s.hcount : Int) - s.hor_offs ∧ (s.hcount : Int) - s.hor_offs < s.hor_size) ∧
      (0 ≤ (s.vcount : Int) - s.ver_offs ∧ (s.vcount : Int) - s.ver_offs < s.ver_size) := by
  obtain ⟨⟨h1, h2⟩, h3, h4⟩ := hw
  omega

/-- C5: in `eval_RGB444_HV`, `eval_YUV444_HV` and `eval_YUV422_HV`, from any engine
state and for any arguments, a call whose pre-call counts are outside the active
window (`inWindow`, sums without 16-bit wrap) writes no pixel, and every pixel write
(x, y, p) of a call implies that the pre-call counts are inside the window and that
0 <= x < hor_size and 0 <= y < ver_size (this covers the x-1 write of the YUV422 odd
sample). -/
theorem C5_window_gating (s : VideoOut) (cycle clk vs hs a b c : Nat) :
    (¬ inWindow s →
      pixelWrites (s.eval_RGB444_HV cycle clk vs hs a b c).out = [] ∧
      pixelWrites (s.eval_YUV444_HV cycle clk vs hs a b c).out = [] ∧
      pixelWrites (s.eval_YUV422_HV cycle clk vs hs a b).out = []) ∧
    (∀ w : Int × Int × RGBApixel,
      (w ∈ pixelWrites (s.eval_RGB444_HV cycle clk vs hs a b c).out ∨
       w ∈ pixelWrites (s.eval_YUV444_HV cycle clk vs hs a b c).out ∨
       w ∈ pixelWrites (s.eval_YUV422_HV cycle clk vs hs a b).out) →
      inWindow s ∧ (0 ≤ w.1 ∧ w.1 < s.hor_size) ∧ (0 ≤ w.2.1 ∧ w.2.1 < s.ver_size)) := by
  have e1 : pixelWrites (s.eval_RGB444_HV cycle clk vs hs a b c).out =
      if clk ≠ 0 ∧ s.prev_clk = 0 then pixelWrites (capRGBHV s a b c) else [] := by
    rw [eval_RGB444_HV_eq]
    split_ifs
    · rw [riseHV_pixelWrites]
    · rfl
  have e2 : pixelWrites (s.eval_YUV444_HV cycle clk vs hs a b c).out =
      if clk ≠ 0 ∧ s.prev_clk = 0 then pixelWrites (cap444HV s a b c) else [] := by
    rw [eval_YUV444_HV_eq]
    split_ifs
    · rw [riseHV_pixelWrites]
    · rfl
  have e3 : pixelWrites (s.eval_YUV422_HV cycle clk vs hs a b).out =
      if clk ≠ 0 ∧ s.prev_clk = 0 then pixelWrites (cap422HV s a b) else [] := by
    rw [eval_YUV422_HV_eq]
    split_ifs
    · rw [riseHV_pixelWrites]
    · rfl
  rw [e1, e2, e3, capRGBHV_eq, cap444HV_eq, cap422HV_eq]
  constructor
  · intro hw
    simp [hw]
  · intro w hmem
    by_cases hw : inWindow s
    · have hco := window_coords s hw
      refine ⟨hw, ?_⟩
      by_cases hr : clk ≠ 0 ∧ s.prev_clk = 0
      · rw [if_pos hr, if_pos hr, if_pos hr, if_pos hw, if_pos hw] at hmem
        rcases hmem with h | h | h
        · simp only [pixelWrites_setPixel, pixelWrites_nil, List.mem_singleton] at h
          subst h
          exact hco
        · simp only [pixelWrites_setPixel, pixelWrites_nil, List.mem_singleton] at h
          subst h
          exact hco
        · by_cases hodd : (s.hcount - s.hor_offs) &&& 1 ≠ 0
          · have h1 := odd_pos _ hodd
            rw [if_pos ⟨hw, hodd⟩] at h
            simp only [pixelWrites_setPixel, pixelWrites_nil, List.mem_cons, List.mem_singleton,
              List.not_mem_nil, or_false] at h
            rcases h with h | h
            · subst h
              refine ⟨⟨?_, ?_⟩, hco.2⟩
              · show 0 ≤ (s.hcount : Int) - s.hor_offs - 1
                omega
              · show (s.hcount : Int) - s.hor_offs - 1 < s.hor_size
                omega
            · subst h
              exact hco
          · rw [if_neg (fun hh => hodd hh.2)] at h
            simp at h
      · rw [if_neg hr, if_neg hr, if_neg hr] at hmem
        simp at hmem
    · simp [hw] at hmem

/-- Witness of C5: the odd YUV422 sample at hcount = 2 (offset 1) writes x = 0 and
x = 1 inside the 4 x 2 window; a fresh engine with offset 1 stands outside the window at
hcount = 0 and writes nothing. -/
theorem C5_window_gating_witness :
    (inWindow demo422 ∧ (0 ≤ (0 : Int) ∧ (0 : Int) < demo422.hor_size) ∧
      (0 ≤ (0 : Int) ∧ (0 : Int) < demo422.ver_size)) ∧
    (pixelWrites ((VideoOut.new 0 8 3 1 4 0 2 snapshotName Uninit.zero).eval_RGB444_HV
        0 1 0 0 1 2 3).out = [] ∧
      pixelWrites ((VideoOut.new 0 8 3 1 4 0 2 snapshotName Uninit.zero).eval_YUV444_HV
        0 1 0 0 1 2 3).out = [] ∧
      pixelWrites ((VideoOut.new 0 8 3 1 4 0 2 snapshotName Uninit.zero).eval_YUV422_HV
        0 1 0 0 1 2).out = []) :=
  ⟨(C5_window_gating demo422 4 1 0 0 90 100 0).2
      (0, 0, demo422.yuv2rgb demo422.y0 demo422.u0 100) (Or.inr (Or.inr (by decide))),
    (C5_window_gating (VideoOut.new 0 8 3 1 4 0 2 snapshotName Uninit.zero) 0 1 0 0 1 2 3).1
      (by decide)⟩

/-! ### Position invariant of the data-enable scan -/

theorem st422DE_counts (s : VideoOut) (luma chroma : Nat) :
    (st422DE s luma chroma).hcount = s.hcount ∧ (st422DE s luma chroma).vcount = s.vcount := by
  simp only [st422DE]
  split_ifs <;> exact ⟨rfl, rfl⟩

theorem dePart_inv (s : VideoOut) (W H : Nat) (hW16 : W < 65536) (hH16 : H < 65536)
    (h : DEinv s W H) (cycle clk : Nat) (o1 : List Event) :
    DEinv (dePart s cycle clk o1).st W H := by
  obtain ⟨h1, h2, h3, h4⟩ := h
  have hc := config_fields (dePart_config s cycle clk o1)
  refine ⟨hc.2.2.2.2.2.2.2.1.trans h1, hc.2.2.2.2.2.2.2.2.1.trans h2, ?_, ?_⟩
  · rw [dePart_hcount]
    simp only [lineEndDE, u16, h1]
    rw [Nat.mod_eq_of_lt (show s.hcount + 1 < 65536 by omega)]
    split_ifs <;> omega
  · rw [dePart_vcount]
    simp only [lineEndDE, u16, h1, h2]
    rw [Nat.mod_eq_of_lt (show s.vcount + 1 < 65536 by omega)]
    split_ifs <;> omega

theorem idle_inv (s : VideoOut) (W H : Nat) (h : DEinv s W H) (clk : Nat) :
    DEinv (idle s clk).st W H := h

theorem nat_coords (a b W H : Nat) (p : RGBApixel) (ha : a < W) (hb : b < H) :
    (0 ≤ ((a : Int), (b : Int), p).1 ∧ ((a : Int), (b : Int), p).1 < W) ∧
      (0 ≤ ((a : Int), (b : Int), p).2.1 ∧ ((a : Int), (b : Int), p).2.1 < H) := by
  show (0 ≤ (a : Int) ∧ (a : Int) < W) ∧ (0 ≤ (b : Int) ∧ (b : Int) < H)
  omega

theorem step_DEinv (s : VideoOut) (W H : Nat) (hW16 : W < 65536) (hH16 : H < 65536)
    (h : DEinv s W H) (c : Call) (hc : c.isDE1 = true) :
    DEinv (s.step c).st W H ∧
      ∀ w ∈ pixelWrites (s.step c).out, (0 ≤ w.1 ∧ w.1 < W) ∧ (0 ≤ w.2.1 ∧ w.2.1 < H) := by
  have h' := h
  obtain ⟨h1, h2, h3, h4⟩ := h'
  cases c with
  | RGB444_DE cycle clk de red green blue =>
    simp only [VideoOut.step, eval_RGB444_DE_eq]
    split_ifs
    · refine ⟨dePart_inv s W H hW16 hH16 h _ _ _, ?_⟩
      intro w hw
      rw [pixelWrites_dePart] at hw
      simp only [pixelWrites_setPixel, pixelWrites_nil, List.mem_singleton] at hw
      subst hw
      exact nat_coords _ _ W H _ h3 h4
    · exact ⟨h, by simp [idle]⟩
    · exact ⟨h, by simp [idle]⟩
  | YUV444_DE cycle clk de luma cb cr =>
    simp only [VideoOut.step, eval_YUV444_DE_eq]
    split_ifs
    · refine ⟨dePart_inv s W H hW16 hH16 h _ _ _, ?_⟩
      intro w hw
      rw [pixelWrites_dePart] at hw
      simp only [pixelWrites_setPixel, pixelWrites_nil, List.mem_singleton] at hw
      subst hw
      exact nat_coords _ _ W H _ h3 h4
    · exact ⟨h, by simp [idle]⟩
    · exact ⟨h, by simp [idle]⟩
  | YUV422_DE cycle clk de luma chroma =>
    simp only [VideoOut.step, eval_YUV422_DE_eq]
    split_ifs
    · have hcfg := config_fields (st422DE_config s luma chroma)
      have hcnt := st422DE_counts s luma chroma
      have h0 : DEinv (st422DE s luma chroma) W H :=
        ⟨hcfg.2.2.2.2.2.2.2.1.trans h1, hcfg.2.2.2.2.2.2.2.2.1.trans h2,
          by rw [hcnt.1]; exact h3, by rw [hcnt.2]; exact h4⟩
      refine ⟨dePart_inv _ W H hW16 hH16 h0 _ _ _, ?_⟩
      intro w hw
      rw [pixelWrites_dePart] at hw
      simp only [cap422DE] at hw
      split_ifs at hw with hodd
      · have hpos := odd_pos _ hodd
        simp only [pixelWrites_setPixel, pixelWrites_nil, List.mem_cons, List.mem_singleton,
          List.not_mem_nil, or_false] at hw
        rcases hw with hw | hw
        · subst hw
          show (0 ≤ (s.hcount : Int) - 1 ∧ (s.hcount : Int) - 1 < W) ∧
            (0 ≤ (s.vcount : Int) ∧ (s.vcount : Int) < H)
          omega
        · subst hw
          exact nat_coords _ _ W H _ h3 h4
      · simp at hw
    · exact ⟨h, by simp [idle]⟩
    · exact ⟨h, by simp [idle]⟩
  | RGB444_HV _ _ _ _ _ _ _ => simp [Call.isDE1] at hc
  | YUV444_HV _ _ _ _ _ _ _ => simp [Call.isDE1] at hc
  | YUV422_HV _ _ _ _ _ _ => simp [Call.isDE1] at hc
  | YUV420_DE _ _ _ _ _ _ => simp [Call.isDE1] at hc

theorem exec_DEinv (W H : Nat) (hW16 : W < 65536) (hH16 : H < 65536) (cs : List Call) :
    ∀ s : VideoOut, DEinv s W H → (∀ c ∈ cs, c.isDE1 = true) →
      DEinv (s.exec cs) W H ∧
        ∀ w ∈ pixelWrites (s.trace cs), (0 ≤ w.1 ∧ w.1 < W) ∧ (0 ≤ w.2.1 ∧ w.2.1 < H) := by
  induction cs with
  | nil => intro s h _; exact ⟨h, by simp [VideoOut.trace]⟩
  | cons c cs ih =>
    intro s h hcs
    obtain ⟨i1, i2⟩ := step_DEinv s W H hW16 hH16 h c (hcs c (List.mem_cons_self _ _))
    obtain ⟨j1, j2⟩ := ih (s.step c).st i1 (fun d hd => hcs d (List.mem_cons_of_mem _ hd))
    refine ⟨j1, ?_⟩
    intro w hw
    simp only [VideoOut.trace, pixelWrites_append, List.mem_append] at hw
    rcases hw with hw | hw
    · exact i2 w hw
    · exact j2 w hw

/-- C6: for an engine constructed with 1 <= hor_size = W < 2^16 and
1 <= ver_size = H < 2^16 and driven by any sequence of calls to `eval_RGB444_DE`,
`eval_YUV444_DE` and `eval_YUV422_DE`, after the sequence (hence after every call)
hcount < W and vcount < H, and every pixel write (x, y, p) issued has 0 <= x < W and
0 <= y < H. -/
theorem C6_de_position_invariant (debug depth polarity hoffset W voffset H : Nat)
    (file : List Nat) (junk : Uninit) (hW : 1 ≤ W) (hH : 1 ≤ H) (hW16 : W < 65536)
    (hH16 : H < 65536) (cs : List Call) (hcs : ∀ c ∈ cs, c.isDE1 = true) :
    ((VideoOut.new debug depth polarity hoffset W voffset H file junk).exec cs).hcount < W ∧
    ((VideoOut.new debug depth polarity hoffset W voffset H file junk).exec cs).vcount < H ∧
    ∀ w ∈ pixelWrites ((VideoOut.new debug depth polarity hoffset W voffset H file junk).trace cs),
      (0 ≤ w.1 ∧ w.1 < W) ∧ (0 ≤ w.2.1 ∧ w.2.1 < H) := by
  obtain ⟨⟨-, -, h3, h4⟩, h5⟩ := exec_DEinv W H hW16 hH16 cs
    (VideoOut.new debug depth polarity hoffset W voffset H file junk) ⟨rfl, rfl, hW, hH⟩ hcs
  exact ⟨h3, h4, h5⟩

/-- Witness of C6 on a 2 x 2 engine driven by the mixed sequence `demoDE`. -/
theorem C6_de_position_invariant_witness :
    ((VideoOut.new 0 8 0 0 2 0 2 snapshotName Uninit.zero).exec demoDE).hcount < 2 ∧
    ((VideoOut.new 0 8 0 0 2 0 2 snapshotName Uninit.zero).exec demoDE).vcount < 2 ∧
    ∀ w ∈ pixelWrites ((VideoOut.new 0 8 0 0 2 0 2 snapshotName Uninit.zero).trace demoDE),
      (0 ≤ w.1 ∧ w.1 < (2 : Nat)) ∧ (0 ≤ w.2.1 ∧ w.2.1 < (2 : Nat)) :=
  C6_de_position_invariant 0 8 0 0 2 0 2 snapshotName Uninit.zero (by decide) (by decide)
    (by decide) (by decide) demoDE (by decide)

/-! ### Frame-persist latency of the sync discipline -/

theorem st422HV_fields (s : VideoOut) (luma chroma : Nat) :
    ((st422HV s luma chroma).prev_clk = s.prev_clk ∧ (st422HV s luma chroma).prev_vs = s.prev_vs ∧
      (st422HV s luma chroma).prev_hs = s.prev_hs) ∧
    ((st422HV s luma chroma).dump_act = s.dump_act ∧
      (st422HV s luma chroma).dump_ctr = s.dump_ctr) ∧
    ((st422HV s luma chroma).hcount = s.hcount ∧ (st422HV s luma chroma).vcount = s.vcount) := by
  simp only [st422HV]
  split_ifs <;> exact ⟨⟨rfl, rfl, rfl⟩, ⟨rfl, rfl⟩, rfl, rfl⟩

theorem vsRise_st422HV (s : VideoOut) (luma chroma vs : Nat) :
    vsRise (st422HV s luma chroma) vs ↔ vsRise s vs := by
  have h1 := (config_fields (st422HV_config s luma chroma)).2.2.2.1
  have h2 := (st422HV_fields s luma chroma).1.2.1
  simp only [vsRise, h1, h2]

theorem finalizes_capRGBHV (s : VideoOut) (a b c : Nat) : finalizes (capRGBHV s a b c) = [] := by
  rw [capRGBHV_eq]
  split_ifs <;> rfl

theorem finalizes_cap444HV (s : VideoOut) (a b c : Nat) : finalizes (cap444HV s a b c) = [] := by
  rw [cap444HV_eq]
  split_ifs <;> rfl

theorem finalizes_cap422HV (s : VideoOut) (a b : Nat) : finalizes (cap422HV s a b) = [] := by
  rw [cap422HV_eq]
  split_ifs <;> rfl

/-- What a sync-discipline call does to the fields that decide persistence. -/
theorem stepHV_dump (s : VideoOut) (c : Call) (hc : c.isHV = true) :
    (s.step c).st.prev_clk = c.clk ∧
    (s.step c).st.prev_vs = (if c.clk ≠ 0 ∧ s.prev_clk = 0 then c.vs else s.prev_vs) ∧
    (s.step c).st.dump_act =
      (if (c.clk ≠ 0 ∧ s.prev_clk = 0) ∧ vsRise s c.vs ∧ s.filename ≠ [] then 1
       else s.dump_act) ∧
    (s.step c).st.dump_ctr =
      (if (c.clk ≠ 0 ∧ s.prev_clk = 0) ∧ vsRise s c.vs ∧ s.dump_act ≠ 0 then s.dump_ctr + 1
       else s.dump_ctr) ∧
    finalizes (s.step c).out =
      (if (c.clk ≠ 0 ∧ s.prev_clk = 0) ∧ vsRise s c.vs ∧ s.dump_act ≠ 0 then [s.dump_ctr]
       else []) ∧
    (s.step c).ret =
      (if (c.clk ≠ 0 ∧ s.prev_clk = 0) ∧ vsRise s c.vs then s.dump_act else 0) := by
  cases c with
  | RGB444_HV cycle clk vs hs red green blue =>
    simp only [VideoOut.step, eval_RGB444_HV_eq, Call.clk, Call.vs]
    by_cases hr : clk ≠ 0 ∧ s.prev_clk = 0
    · rw [if_pos hr, riseHV_dump_act, riseHV_dump_ctr, riseHV_finalizes, riseHV_ret,
        finalizes_capRGBHV]
      simp only [and_iff_right hr, if_pos hr, List.nil_append]
      refine ⟨?_, ?_, ?_, ?_, ?_, ?_⟩ <;> first | rfl | trivial
    · rw [if_neg hr]
      simp only [hr, false_and, if_false]
      refine ⟨?_, ?_, ?_, ?_, ?_, ?_⟩ <;> rfl
  | YUV444_HV cycle clk vs hs luma cb cr =>
    simp only [VideoOut.step, eval_YUV444_HV_eq, Call.clk, Call.vs]
    by_cases hr : clk ≠ 0 ∧ s.prev_clk = 0
    · rw [if_pos hr, riseHV_dump_act, riseHV_dump_ctr, riseHV_finalizes, riseHV_ret,
        finalizes_cap444HV]
      simp only [and_iff_right hr, if_pos hr, List.nil_append]
      refine ⟨?_, ?_, ?_, ?_, ?_, ?_⟩ <;> first | rfl | trivial
    · rw [if_neg hr]
      simp only [hr, false_and, if_false]
      refine ⟨?_, ?_, ?_, ?_, ?_, ?_⟩ <;> rfl
  | YUV422_HV cycle clk vs hs luma chroma =>
    simp only [VideoOut.step, eval_YUV422_HV_eq, Call.clk, Call.vs]
    by_cases hr : clk ≠ 0 ∧ s.prev_clk = 0
    · obtain ⟨-, ⟨f1, f2⟩, -⟩ := st422HV_fields s luma chroma
      have f3 := (config_fields (st422HV_config s luma chroma)).2.2.2.2.2.2.2.2.2.2.2.2.2
      rw [if_pos hr, riseHV_dump_act, riseHV_dump_ctr, riseHV_finalizes, riseHV_ret,
        finalizes_cap422HV]
      simp only [and_iff_right hr, if_pos hr, List.nil_append, vsRise_st422HV, f1, f2, f3]
      refine ⟨?_, ?_, ?_, ?_, ?_, ?_⟩ <;> first | rfl | trivial
    · rw [if_neg hr]
      simp only [hr, false_and, if_false]
      refine ⟨?_, ?_, ?_, ?_, ?_, ?_⟩ <;> rfl
  | RGB444_DE _ _ _ _ _ _ => simp [Call.isHV] at hc
  | YUV444_DE _ _ _ _ _ _ => simp [Call.isHV] at hc
  | YUV422_DE _ _ _ _ _ => simp [Call.isHV] at hc
  | YUV420_DE _ _ _ _ _ _ => simp [Call.isHV] at hc

theorem step_HVlat (s : VideoOut) (pol : Nat) (t : Nat × Nat × Nat) (h : HVlat s pol t)
    (c : Call) (hc : c.isHV = true) : HVlat (s.step c).st pol (hvTrack1 pol t c) := by
  obtain ⟨⟨a1, a2⟩, ⟨b1, b2⟩, c1, c2⟩ := h
  obtain ⟨d1, d2, d3, d4, -, -⟩ := stepHV_dump s c hc
  have hcfg := config_fields (step_config s c)
  have hvr : vsRise s c.vs ↔ (c.vs = pol ∧ t.2.1 ≠ pol) := by simp only [vsRise, a1, b2]
  refine ⟨⟨hcfg.2.2.2.1.trans a1, by rw [hcfg.2.2.2.2.2.2.2.2.2.2.2.2.2]; exact a2⟩, ?_, ?_⟩
  · rw [d1, d2, b1, b2]
    simp only [hvTrack1]
    split_ifs <;> exact ⟨rfl, rfl⟩
  · rw [d3, d4, b1]
    simp only [hvr, c1, c2, hvTrack1]
    by_cases hr : c.clk ≠ 0 ∧ t.1 = 0
    · by_cases he : c.vs = pol ∧ t.2.1 ≠ pol
      · by_cases hk : t.2.2 = 0
        · simp [hr, he, hk, a2]
        · have : (1 : Nat) ≤ t.2.2 := Nat.one_le_iff_ne_zero.mpr hk
          simp only [hr, he, hk, a2, and_self, ne_eq, not_false_eq_true, if_true, if_false,
            one_ne_zero, Nat.add_sub_cancel, Nat.succ_ne_zero, true_and]
          push_cast [Nat.cast_sub this]
          ring
      · simp [hr, he]
    · simp [hr]

theorem exec_HVlat (pol : Nat) (cs : List Call) :
    ∀ (s : VideoOut) (t : Nat × Nat × Nat), HVlat s pol t → (∀ c ∈ cs, c.isHV = true) →
      HVlat (s.exec cs) pol (hvTrack pol t cs) := by
  induction cs with
  | nil => intro s t h _; exact h
  | cons c cs ih =>
    intro s t h hcs
    exact ih _ _ (step_HVlat s pol t h c (hcs c (List.mem_cons_self _ _)))
      (fun d hd => hcs d (List.mem_cons_of_mem _ hd))

/-- C7: on a fresh engine with a non-empty file name driven through the `eval_*_HV`
methods, let k be the number of vertical-sync rising edges detected by the earlier
calls (`hvTrack`, signal-level count).  A call finalizes if and only if it is a
rising-clock call that detects a vertical-sync rising edge and k >= 1, and it then makes
exactly one finalize call, tagged k - 1; so the first edge never finalizes and the
(k+1)-th edge is tagged (k+1) - 2. -/
theorem C7_hv_persist_latency (debug depth polarity hoffset hactive voffset vactive : Nat)
    (file : List Nat) (junk : Uninit) (hfile : file ≠ []) (cs : List Call)
    (hcs : ∀ c ∈ cs, c.isHV = true) (c : Call) (hc : c.isHV = true) :
    finalizes (((VideoOut.new debug depth polarity hoffset hactive voffset vactive file junk).exec
        cs).step c).out =
      if (c.clk ≠ 0 ∧
            (hvTrack (VideoOut.new debug depth polarity hoffset hactive voffset vactive file
              junk).vs_pol (0, 0, 0) cs).1 = 0) ∧
          (c.vs = (VideoOut.new debug depth polarity hoffset hactive voffset vactive file
              junk).vs_pol ∧
            (hvTrack (VideoOut.new debug depth polarity hoffset hactive voffset vactive file
              junk).vs_pol (0, 0, 0) cs).2.1 ≠
              (VideoOut.new debug depth polarity hoffset hactive voffset vactive file
                junk).vs_pol) ∧
          1 ≤ (hvTrack (VideoOut.new debug depth polarity hoffset hactive voffset vactive file
              junk).vs_pol (0, 0, 0) cs).2.2
      then [(((hvTrack (VideoOut.new debug depth polarity hoffset hactive voffset vactive file
              junk).vs_pol (0, 0, 0) cs).2.2 : Nat) : Int) - 1]
      else [] := by
  have h0 : HVlat (VideoOut.new debug depth polarity hoffset hactive voffset vactive file junk)
      (VideoOut.new debug depth polarity hoffset hactive voffset vactive file junk).vs_pol
      (0, 0, 0) :=
    ⟨⟨rfl, (take_ne_nil file).2 hfile⟩, ⟨rfl, rfl⟩, rfl, rfl⟩
  obtain ⟨⟨a1, a2⟩, ⟨b1, b2⟩, c1, c2⟩ := exec_HVlat _ cs _ _ h0 hcs
  obtain ⟨-, -, -, -, d5, -⟩ := stepHV_dump
    ((VideoOut.new debug depth polarity hoffset hactive voffset vactive file junk).exec cs) c hc
  rw [d5]
  simp only [vsRise, a1, b1, b2, c1, c2]
  generalize hvTrack (VideoOut.new debug depth polarity hoffset hactive voffset vactive file
    junk).vs_pol (0, 0, 0) cs = t
  by_cases hk : t.2.2 = 0
  · simp [hk]
  · have h1 : (1 : Nat) ≤ t.2.2 := Nat.one_le_iff_ne_zero.mpr hk
    simp only [hk, if_false, one_ne_zero, ne_eq, not_false_eq_true, and_true, h1]
    push_cast [Nat.cast_sub h1]
    rfl

/-- Witness of C7: after the two edges of `demoHV`, the call detecting the third edge
makes exactly one finalize call, tagged 1. -/
theorem C7_hv_persist_latency_witness :
    finalizes (((VideoOut.new 0 8 3 0 4 0 2 snapshotName Uninit.zero).exec demoHV).step
      (Call.RGB444_HV 8 1 1 0 7 8 9)).out = [1] :=
  C7_hv_persist_latency 0 8 3 0 4 0 2 snapshotName Uninit.zero (by decide) demoHV (by decide)
    (Call.RGB444_HV 8 1 1 0 7 8 9) rfl

/-! ### Persistence in the data-enable discipline -/

theorem finalizes_yuv420_blocks (s : VideoOut) (n : Nat) :
    finalizes ((List.range n).map (fun k => VideoOut.yuv420_block s (2 * k))).flatten = [] := by
  induction n with
  | zero => rfl
  | succ n ih =>
    rw [List.range_succ, List.map_append, List.flatten_append, finalizes_append, ih]
    simp [VideoOut.yuv420_block]

theorem emitPart_finalizes (s : VideoOut) (cycle clk : Nat) :
    finalizes (emitPart s cycle clk).out =
      if boundary420 s ∧ (s.filename ≠ [] ∨ s.dump_act ≠ 0) then [s.dump_ctr] else [] := by
  simp only [emitPart, boundary420]
  split_ifs <;> simp_all [finalizes_yuv420_blocks]

theorem emitPart_dump_ctr (s : VideoOut) (cycle clk : Nat) :
    (emitPart s cycle clk).st.dump_ctr =
      if boundary420 s ∧ (s.filename ≠ [] ∨ s.dump_act ≠ 0) then s.dump_ctr + 1
      else s.dump_ctr := by
  simp only [emitPart, boundary420]
  split_ifs <;> simp_all

theorem emitPart_ret (s : VideoOut) (cycle clk : Nat) :
    (emitPart s cycle clk).ret =
      if boundary420 s then (if s.filename ≠ [] then 1 else s.dump_act) else 0 := by
  simp only [emitPart, boundary420]
  split_ifs <;> simp_all

theorem lumaPart_dump (s : VideoOut) (de_y luma : Nat) :
    (lumaPart s de_y luma).dump_act = s.dump_act ∧ (lumaPart s de_y luma).dump_ctr = s.dump_ctr ∧
      (lumaPart s de_y luma).prev_clk = s.prev_clk := by
  simp only [lumaPart]
  split_ifs <;> exact ⟨rfl, rfl, rfl⟩

theorem chromaPart_dump (s : VideoOut) (de_c chroma : Nat) :
    (chromaPart s de_c chroma).dump_act = s.dump_act ∧
      (chromaPart s de_c chroma).dump_ctr = s.dump_ctr ∧
      (chromaPart s de_c chroma).prev_clk = s.prev_clk := by
  simp only [chromaPart]
  split_ifs <;> exact ⟨rfl, rfl, rfl⟩

theorem st422DE_dump (s : VideoOut) (luma chroma : Nat) :
    (st422DE s luma chroma).dump_act = s.dump_act ∧ (st422DE s luma chroma).dump_ctr = s.dump_ctr ∧
      (st422DE s luma chroma).prev_clk = s.prev_clk := by
  simp only [st422DE]
  split_ifs <;> exact ⟨rfl, rfl, rfl⟩

theorem boundaryDE_st422DE (s : VideoOut) (luma chroma : Nat) :
    boundaryDE (st422DE s luma chroma) ↔ boundaryDE s := by
  obtain ⟨h1, h2⟩ := st422DE_counts s luma chroma
  have hc := config_fields (st422DE_config s luma chroma)
  simp only [boundaryDE, h1, h2, hc.2.2.2.2.2.2.2.1, hc.2.2.2.2.2.2.2.2.1]

theorem finalizes_cap422DE (s : VideoOut) (a b : Nat) : finalizes (cap422DE s a b) = [] := by
  simp only [cap422DE]
  split_ifs <;> rfl

/-- What a data-enable call does to the dump counter, its finalize calls and its
return value, in terms of `signalsBoundary`. -/
theorem stepDE_dump (s : VideoOut) (c : Call) (hc : c.isDE = true) :
    finalizes (s.step c).out =
      (if signalsBoundary s c = true ∧ (s.filename ≠ [] ∨ s.dump_act ≠ 0) then [s.dump_ctr]
       else []) ∧
    (s.step c).st.dump_ctr =
      (if signalsBoundary s c = true ∧ (s.filename ≠ [] ∨ s.dump_act ≠ 0) then s.dump_ctr + 1
       else s.dump_ctr) ∧
    (s.step c).ret =
      (if signalsBoundary s c = true then (if s.filename ≠ [] then 1 else s.dump_act) else 0) := by
  cases c with
  | RGB444_DE cycle clk de red green blue =>
    simp only [VideoOut.step, eval_RGB444_DE_eq, signalsBoundary, decide_eq_true_eq]
    by_cases hr : clk ≠ 0 ∧ s.prev_clk = 0
    · by_cases hd : de ≠ 0
      · rw [if_pos hr, if_pos hd, dePart_finalizes, dePart_dump_ctr, dePart_ret]
        simp only [and_iff_right hr, and_iff_right hd, finalizes_setPixel, finalizes_nil,
          List.nil_append]
        refine ⟨?_, ?_, ?_⟩ <;> first | rfl | trivial
      · rw [if_pos hr, if_neg hd]
        simp only [hd, false_and, and_false, if_false]
        refine ⟨?_, ?_, ?_⟩ <;> rfl
    · rw [if_neg hr]
      simp only [hr, false_and, if_false]
      refine ⟨?_, ?_, ?_⟩ <;> rfl
  | YUV444_DE cycle clk de luma cb cr =>
    simp only [VideoOut.step, eval_YUV444_DE_eq, signalsBoundary, decide_eq_true_eq]
    by_cases hr : clk ≠ 0 ∧ s.prev_clk = 0
    · by_cases hd : de ≠ 0
      · rw [if_pos hr, if_pos hd, dePart_finalizes, dePart_dump_ctr, dePart_ret]
        simp only [and_iff_right hr, and_iff_right hd, finalizes_setPixel, finalizes_nil,
          List.nil_append]
        refine ⟨?_, ?_, ?_⟩ <;> first | rfl | trivial
      · rw [if_pos hr, if_neg hd]
        simp only [hd, false_and, and_false, if_false]
        refine ⟨?_, ?_, ?_⟩ <;> rfl
    · rw [if_neg hr]
      simp only [hr, false_and, if_false]
      refine ⟨?_, ?_, ?_⟩ <;> rfl
  | YUV422_DE cycle clk de luma chroma =>
    simp only [VideoOut.step, eval_YUV422_DE_eq, signalsBoundary, decide_eq_true_eq]
    by_cases hr : clk ≠ 0 ∧ s.prev_clk = 0
    · by_cases hd : de ≠ 0
      · obtain ⟨f1, f2, -⟩ := st422DE_dump s luma chroma
        have f3 := (config_fields (st422DE_config s luma chroma)).2.2.2.2.2.2.2.2.2.2.2.2.2
        rw [if_pos hr, if_pos hd, dePart_finalizes, dePart_dump_ctr, dePart_ret]
        simp only [and_iff_right hr, and_iff_right hd, finalizes_cap422DE, List.nil_append,
          boundaryDE_st422DE, f1, f2, f3]
        refine ⟨?_, ?_, ?_⟩ <;> first | rfl | trivial
      · rw [if_pos hr, if_neg hd]
        simp only [hd, false_and, and_false, if_false]
        refine ⟨?_, ?_, ?_⟩ <;> rfl
    · rw [if_neg hr]
      simp only [hr, false_and, if_false]
      refine ⟨?_, ?_, ?_⟩ <;> rfl
  | YUV420_DE cycle clk de_y de_c luma chroma =>
    simp only [VideoOut.step, eval_YUV420_DE_eq, signalsBoundary, decide_eq_true_eq]
    by_cases hr : clk ≠ 0 ∧ s.prev_clk = 0
    · obtain ⟨f1, f2, -⟩ := lumaPart_dump s de_y luma
      obtain ⟨g1, g2, -⟩ := chromaPart_dump (lumaPart s de_y luma) de_c chroma
      have f3 := (config_fields ((chromaPart_config (lumaPart s de_y luma) de_c chroma).trans
        (lumaPart_config s de_y luma))).2.2.2.2.2.2.2.2.2.2.2.2.2
      rw [if_pos hr, emitPart_finalizes, emitPart_dump_ctr, emitPart_ret]
      simp only [and_iff_right hr, g1, g2, f1, f2, f3]
      refine ⟨?_, ?_, ?_⟩ <;> first | rfl | trivial
    · rw [if_neg hr]
      simp only [hr, false_and, if_false]
      refine ⟨?_, ?_, ?_⟩ <;> rfl
  | RGB444_HV _ _ _ _ _ _ _ => simp [Call.isDE] at hc
  | YUV444_HV _ _ _ _ _ _ _ => simp [Call.isDE] at hc
  | YUV422_HV _ _ _ _ _ _ => simp [Call.isDE] at hc

theorem exec_boundaryCount (cs : List Call) :
    ∀ s : VideoOut, s.filename ≠ [] → (∀ c ∈ cs, c.isDE = true) →
      (s.exec cs).dump_ctr = s.dump_ctr + (boundaryCount s cs : Int) := by
  induction cs with
  | nil => intro s _ _; simp [VideoOut.exec, boundaryCount]
  | cons c cs ih =>
    intro s hf hcs
    obtain ⟨-, h2, -⟩ := stepDE_dump s c (hcs c (List.mem_cons_self _ _))
    have hf' : (s.step c).st.filename ≠ [] := by
      rw [(config_fields (step_config s c)).2.2.2.2.2.2.2.2.2.2.2.2.2]; exact hf
    rw [VideoOut.exec, ih (s.step c).st hf' (fun d hd => hcs d (List.mem_cons_of_mem _ hd)), h2,
      boundaryCount]
    by_cases hb : signalsBoundary s c = true
    · rw [if_pos ⟨hb, Or.inl hf⟩, if_pos hb]
      push_cast
      ring
    · rw [if_neg (fun h => hb h.1), if_neg hb]
      push_cast
      ring

/-- C8 (as amended): in the data-enable discipline the arming precedes the persist
test, so on a fresh engine with a non-empty file name driven through the four
`eval_*_DE` methods every call that signals a frame boundary calls finalize exactly
once and returns 1; the call signalling the (k+1)-th boundary (k earlier boundaries)
is tagged k, so the first boundary already persists, tagged 0.  A call that signals
no boundary makes no finalize call and returns 0. -/
theorem C8_de_first_boundary_persists
    (debug depth polarity hoffset hactive voffset vactive : Nat) (file : List Nat)
    (junk : Uninit) (hfile : file ≠ []) (cs : List Call) (hcs : ∀ c ∈ cs, c.isDE = true)
    (c : Call) (hc : c.isDE = true) :
    (signalsBoundary
        ((VideoOut.new debug depth polarity hoffset hactive voffset vactive file junk).exec cs)
        c = true →
      finalizes (((VideoOut.new debug depth polarity hoffset hactive voffset vactive file
          junk).exec cs).step c).out
        = [((boundaryCount (VideoOut.new debug depth polarity hoffset hactive voffset vactive
            file junk) cs : Nat) : Int)] ∧
      (((VideoOut.new debug depth polarity hoffset hactive voffset vactive file junk).exec
          cs).step c).ret = 1) ∧
    (signalsBoundary
        ((VideoOut.new debug depth polarity hoffset hactive voffset vactive file junk).exec cs)
        c = false →
      finalizes (((VideoOut.new debug depth polarity hoffset hactive voffset vactive file
          junk).exec cs).step c).out = [] ∧
      (((VideoOut.new debug depth polarity hoffset hactive voffset vactive file junk).exec
          cs).step c).ret = 0) := by
  have hf0 : (VideoOut.new debug depth polarity hoffset hactive voffset vactive file
      junk).filename ≠ [] := (take_ne_nil file).2 hfile
  have hctr := exec_boundaryCount cs _ hf0 hcs
  have hf : ((VideoOut.new debug depth polarity hoffset hactive voffset vactive file junk).exec
      cs).filename ≠ [] := by
    rw [(config_fields (exec_config cs _)).2.2.2.2.2.2.2.2.2.2.2.2.2]; exact hf0
  obtain ⟨h1, -, h3⟩ := stepDE_dump
    ((VideoOut.new debug depth polarity hoffset hactive voffset vactive file junk).exec cs) c hc
  rw [h1, h3, hctr]
  constructor
  · intro hb
    simp only [hb, hf, ne_eq, not_false_eq_true, true_or, and_self, if_true]
    exact ⟨by simp [VideoOut.new], trivial⟩
  · intro hb
    simp only [hb, Bool.false_eq_true, false_and, if_false]
    exact ⟨trivial, trivial⟩

/-- Witness of C8 as amended: on a fresh 2 x 2 engine the fourth data-enable sample
closes the first frame; it is the first boundary and already finalizes, tagged 0. -/
theorem C8_de_first_boundary_persists_witness :
    finalizes (((VideoOut.new 0 8 0 0 2 0 2 snapshotName Uninit.zero).exec
        (demoHistory.map DeArgs.call)).step demoCall.call).out = [0] ∧
    (((VideoOut.new 0 8 0 0 2 0 2 snapshotName Uninit.zero).exec
        (demoHistory.map DeArgs.call)).step demoCall.call).ret = 1 :=
  (C8_de_first_boundary_persists 0 8 0 0 2 0 2 snapshotName Uninit.zero (by decide)
    (demoHistory.map DeArgs.call) (by decide) demoCall.call rfl).1 (by decide)

/-- Counterexample to C8 as stated: on a fresh engine with file name "snapshot" the
call that signals the first frame boundary does call finalize (tag 0) and returns 1,
in `eval_RGB444_DE` (1 x 1 frame, first sample) and in `eval_YUV420_DE` (2 x 2 frame,
last sample of the second luma line). -/
theorem C8_counterexample :
    (signalsBoundary (VideoOut.new 0 8 0 0 1 0 1 snapshotName Uninit.zero)
        (Call.RGB444_DE 0 1 1 1 2 3) = true ∧
      finalizes ((VideoOut.new 0 8 0 0 1 0 1 snapshotName Uninit.zero).eval_RGB444_DE
        0 1 1 1 2 3).out = [0] ∧
      ((VideoOut.new 0 8 0 0 1 0 1 snapshotName Uninit.zero).eval_RGB444_DE
        0 1 1 1 2 3).ret = 1) ∧
    (boundaryCount (VideoOut.new 0 8 0 0 2 0 2 snapshotName Uninit.zero) demo420 = 0 ∧
      signalsBoundary ((VideoOut.new 0 8 0 0 2 0 2 snapshotName Uninit.zero).exec demo420)
        (Call.YUV420_DE 6 1 1 0 103 0) = true ∧
      finalizes (((VideoOut.new 0 8 0 0 2 0 2 snapshotName Uninit.zero).exec
        demo420).eval_YUV420_DE 6 1 1 0 103 0).out = [0] ∧
      (((VideoOut.new 0 8 0 0 2 0 2 snapshotName Uninit.zero).exec
        demo420).eval_YUV420_DE 6 1 1 0 103 0).ret = 1) := by
  decide

/-! ### The frame-sequence counter -/

theorem isHV_or_isDE (c : Call) : c.isHV = true ∨ c.isDE = true := by
  cases c <;> simp [Call.isHV, Call.isDE]

/-- Every call either makes no finalize call and keeps `dump_ctr`, or makes exactly one,
tagged with the old `dump_ctr`, and increments it. -/
theorem step_ctr (s : VideoOut) (c : Call) :
    (finalizes (s.step c).out = [] ∧ (s.step c).st.dump_ctr = s.dump_ctr) ∨
      (finalizes (s.step c).out = [s.dump_ctr] ∧ (s.step c).st.dump_ctr = s.dump_ctr + 1) := by
  rcases isHV_or_isDE c with hc | hc
  · obtain ⟨-, -, -, h4, h5, -⟩ := stepHV_dump s c hc
    rw [h4, h5]
    split_ifs
    · exact Or.inr ⟨rfl, rfl⟩
    · exact Or.inl ⟨rfl, rfl⟩
  · obtain ⟨h1, h2, -⟩ := stepDE_dump s c hc
    rw [h1, h2]
    split_ifs
    · exact Or.inr ⟨rfl, rfl⟩
    · exact Or.inl ⟨rfl, rfl⟩

theorem trace_ctr (cs : List Call) :
    ∀ s : VideoOut,
      finalizes (s.trace cs) =
          (List.range (finalizes (s.trace cs)).length).map (fun (i : Nat) => s.dump_ctr + (i : Int)) ∧
        (s.exec cs).dump_ctr = s.dump_ctr + ((finalizes (s.trace cs)).length : Int) := by
  induction cs with
  | nil => intro s; simp [VideoOut.trace, VideoOut.exec]
  | cons c cs ih =>
    intro s
    obtain ⟨i1, i2⟩ := ih (s.step c).st
    simp only [VideoOut.trace, VideoOut.exec, finalizes_append, List.length_append]
    rcases step_ctr s c with ⟨h1, h2⟩ | ⟨h1, h2⟩
    · rw [h2] at i1 i2
      rw [h1]
      simp only [List.nil_append, List.length_nil, Nat.zero_add]
      exact ⟨i1, i2⟩
    · rw [h1]
      rw [h2] at i1 i2
      simp only [List.singleton_append, List.length_cons, List.length_nil, Nat.zero_add]
      constructor
      · rw [Nat.add_comm 1, List.range_succ_eq_map, List.map_cons, List.map_map]
        congr 1
        · simp
        · conv_lhs => rw [i1]
          apply List.map_congr_left
          intro i _
          simp only [Function.comp, Nat.succ_eq_add_one]
          push_cast
          ring
      · rw [i2]
        push_cast
        ring

/-- C9: over calls of any variant, from any engine state, `dump_ctr` never decreases;
a call increases it, by exactly 1, if and only if the call invokes finalize, and then
the finalize call is the only one of the call and carries the old `dump_ctr`.  Hence
on a fresh engine the finalize calls of any call sequence are tagged 0, 1, 2, ...
without gap or repeat, and `dump_ctr` is their number. -/
theorem C9_dump_counter (s : VideoOut) (c : Call)
    (debug depth polarity hoffset hactive voffset vactive : Nat) (file : List Nat)
    (junk : Uninit) (cs : List Call) :
    (s.dump_ctr ≤ (s.step c).st.dump_ctr ∧
      ((s.step c).st.dump_ctr = s.dump_ctr ∨ (s.step c).st.dump_ctr = s.dump_ctr + 1) ∧
      ((s.step c).st.dump_ctr = s.dump_ctr + 1 ↔ finalizes (s.step c).out ≠ []) ∧
      (finalizes (s.step c).out = [] ∨ finalizes (s.step c).out = [s.dump_ctr])) ∧
    (finalizes ((VideoOut.new debug depth polarity hoffset hactive voffset vactive file
        junk).trace cs)
      = (List.range (finalizes ((VideoOut.new debug depth polarity hoffset hactive voffset
            vactive file junk).trace cs)).length).map (fun (i : Nat) => (i : Int)) ∧
      ((VideoOut.new debug depth polarity hoffset hactive voffset vactive file junk).exec
          cs).dump_ctr
        = ((finalizes ((VideoOut.new debug depth polarity hoffset hactive voffset vactive file
            junk).trace cs)).length : Int)) := by
  constructor
  · rcases step_ctr s c with ⟨h1, h2⟩ | ⟨h1, h2⟩
    · rw [h1, h2]
      refine ⟨le_refl _, Or.inl rfl, ?_, Or.inl rfl⟩
      constructor
      · intro h; omega
      · intro h; exact absurd rfl h
    · rw [h1, h2]
      refine ⟨by omega, Or.inr rfl, ?_, Or.inr rfl⟩
      constructor
      · intro _; simp
      · intro _; rfl
  · obtain ⟨h1, h2⟩ := trace_ctr cs
      (VideoOut.new debug depth polarity hoffset hactive voffset vactive file junk)
    have h0 : (VideoOut.new debug depth polarity hoffset hactive voffset vactive file
        junk).dump_ctr = 0 := rfl
    rw [h0] at h1 h2
    simp only [zero_add] at h1 h2
    exact ⟨h1, h2⟩

/-! ### Calls that are not a rising clock edge -/

/-- C10: for every `eval_*` variant and from every engine state, a call for which it
is not the case that (clk != 0 and the stored previous clock level is 0) writes no
pixel, calls no finalize, has no other effect, returns 0, and leaves every member
unchanged except `prev_clk`, which becomes clk. -/
theorem C10_non_rising_noop (s : VideoOut) (c : Call) (h : ¬ (c.clk ≠ 0 ∧ s.prev_clk = 0)) :
    s.step c = { st := { s with prev_clk := c.clk }, ret := 0, out := [] } ∧
      pixelWrites (s.step c).out = [] ∧ finalizes (s.step c).out = [] ∧ (s.step c).ret = 0 := by
  have key : s.step c = { st := { s with prev_clk := c.clk }, ret := 0, out := [] } := by
    cases c <;>
      simp only [VideoOut.step, eval_RGB444_HV_eq, eval_RGB444_DE_eq, eval_YUV444_HV_eq,
        eval_YUV444_DE_eq, eval_YUV422_HV_eq, eval_YUV422_DE_eq, eval_YUV420_DE_eq] <;>
      simp only [Call.clk] at h <;>
      rw [if_neg h] <;> rfl
  rw [key]
  exact ⟨rfl, rfl, rfl, rfl⟩

/-- Witness of C10: a second call with the clock still high after a rising-clock call
of `eval_YUV420_DE` changes nothing but is a no-op returning 0. -/
theorem C10_non_rising_noop_witness :
    (((VideoOut.new 0 8 0 0 2 0 2 snapshotName Uninit.zero).exec
        [Call.YUV420_DE 0 1 1 1 100 110]).step (Call.YUV420_DE 1 1 1 1 101 120)).ret = 0 ∧
      pixelWrites (((VideoOut.new 0 8 0 0 2 0 2 snapshotName Uninit.zero).exec
        [Call.YUV420_DE 0 1 1 1 100 110]).step (Call.YUV420_DE 1 1 1 1 101 120)).out = [] :=
  have h := C10_non_rising_noop
    ((VideoOut.new 0 8 0 0 2 0 2 snapshotName Uninit.zero).exec [Call.YUV420_DE 0 1 1 1 100 110])
    (Call.YUV420_DE 1 1 1 1 101 120) (by decide)
  ⟨h.2.2.2, h.2.1⟩

/-! ### Position after a rising-clock call of the sync discipline -/

theorem hsRise_st422HV (s : VideoOut) (luma chroma hs : Nat) :
    hsRise (st422HV s luma chroma) hs ↔ hsRise s hs := by
  have h1 := (config_fields (st422HV_config s luma chroma)).2.2.1
  have h2 := (st422HV_fields s luma chroma).1.2.2
  simp only [hsRise, h1, h2]

/-- The counts after a rising-clock call of any of the three sync-discipline methods:
the vertical-sync block runs first, the horizontal-sync block after it. -/
theorem stepHV_counts (s : VideoOut) (c : Call) (hc : c.isHV = true)
    (hr : c.clk ≠ 0 ∧ s.prev_clk = 0) :
    (s.step c).st.hcount =
      (if hsRise s c.hs then 0 else if vsRise s c.vs then 1 else u16 (s.hcount + 1)) ∧
    (s.step c).st.vcount =
      (if vsRise s c.vs then 0
       else if hsRise s c.hs ∧ s.hcount > 4 then u16 (s.vcount + 1) else s.vcount) := by
  cases c with
  | RGB444_HV cycle clk vs hs red green blue =>
    simp only [Call.clk] at hr
    simp only [VideoOut.step, eval_RGB444_HV_eq, Call.vs, Call.hs]
    rw [if_pos hr]
    exact ⟨riseHV_hcount _ _ _ _ _ _, riseHV_vcount _ _ _ _ _ _⟩
  | YUV444_HV cycle clk vs hs luma cb cr =>
    simp only [Call.clk] at hr
    simp only [VideoOut.step, eval_YUV444_HV_eq, Call.vs, Call.hs]
    rw [if_pos hr]
    exact ⟨riseHV_hcount _ _ _ _ _ _, riseHV_vcount _ _ _ _ _ _⟩
  | YUV422_HV cycle clk vs hs luma chroma =>
    simp only [Call.clk] at hr
    simp only [VideoOut.step, eval_YUV422_HV_eq, Call.vs, Call.hs]
    rw [if_pos hr, riseHV_hcount, riseHV_vcount]
    obtain ⟨-, -, f1, f2⟩ := st422HV_fields s luma chroma
    simp only [hsRise_st422HV, vsRise_st422HV, f1, f2]
    exact ⟨trivial, trivial⟩
  | RGB444_DE _ _ _ _ _ _ => simp [Call.isHV] at hc
  | YUV444_DE _ _ _ _ _ _ => simp [Call.isHV] at hc
  | YUV422_DE _ _ _ _ _ => simp [Call.isHV] at hc
  | YUV420_DE _ _ _ _ _ _ => simp [Call.isHV] at hc

/-- C11 (as amended): in every `eval_*_HV` variant, after a rising-clock call in which a
vertical-sync rising edge is recognised, `get_vcount()` returns 0, and `get_hcount()`
returns 0 when a horizontal-sync rising edge is recognised in the same call and 1
otherwise (the horizontal-sync block runs after the reset and increments the count). -/
theorem C11_vsync_reset (s : VideoOut) (c : Call) (hc : c.isHV = true)
    (hr : c.clk ≠ 0 ∧ s.prev_clk = 0) (hv : vsRise s c.vs) :
    (s.step c).st.get_vcount = 0 ∧
      (s.step c).st.get_hcount = (if hsRise s c.hs then 0 else 1) := by
  obtain ⟨h1, h2⟩ := stepHV_counts s c hc hr
  refine ⟨?_, ?_⟩
  · show (s.step c).st.vcount = 0
    rw [h2, if_pos hv]
  · show (s.step c).st.hcount = _
    rw [h1, if_pos hv]

/-- Witness of C11 as amended: the first call of a fresh engine with vs = 1, hs = 0
leaves `get_vcount() = 0` and `get_hcount() = 1`. -/
theorem C11_vsync_reset_witness :
    ((VideoOut.new 0 8 3 0 4 0 2 snapshotName Uninit.zero).step
        (Call.YUV444_HV 0 1 1 0 128 128 128)).st.get_vcount = 0 ∧
      ((VideoOut.new 0 8 3 0 4 0 2 snapshotName Uninit.zero).step
        (Call.YUV444_HV 0 1 1 0 128 128 128)).st.get_hcount = 1 :=
  C11_vsync_reset (VideoOut.new 0 8 3 0 4 0 2 snapshotName Uninit.zero)
    (Call.YUV444_HV 0 1 1 0 128 128 128) rfl (by decide) (by decide)

/-- Counterexample to C11 as stated: on a fresh engine with positive polarities the
rising-clock call `eval_RGB444_HV(clk = 1, vs = 1, hs = 0)` recognises a vertical-sync
rising edge, and afterwards `get_hcount()` returns 1, not 0. -/
theorem C11_counterexample :
    vsRise (VideoOut.new 0 8 3 0 4 0 2 snapshotName Uninit.zero) 1 ∧
    ((VideoOut.new 0 8 3 0 4 0 2 snapshotName Uninit.zero).eval_RGB444_HV
        0 1 1 0 1 2 3).st.get_hcount = 1 ∧
    ¬ (((VideoOut.new 0 8 3 0 4 0 2 snapshotName Uninit.zero).eval_RGB444_HV
          0 1 1 0 1 2 3).st.get_hcount = 0 ∧
       ((VideoOut.new 0 8 3 0 4 0 2 snapshotName Uninit.zero).eval_RGB444_HV
          0 1 1 0 1 2 3).st.get_vcount = 0) := by
  decide

/-- C12 (as amended): in every `eval_*_HV` variant, on a rising-clock call with no
vertical-sync edge: if a horizontal-sync rising edge is recognised then afterwards
hcount = 0 and vcount is the old vcount + 1 (mod 2^16) when the old hcount > 4 and the
old vcount otherwise; if no horizontal-sync edge is recognised then hcount is the old
hcount + 1 (mod 2^16) and vcount is unchanged. Below 65535 the incremented vcount is the
plain old vcount + 1. -/
theorem C12_hsync_step (s : VideoOut) (c : Call) (hc : c.isHV = true)
    (hr : c.clk ≠ 0 ∧ s.prev_clk = 0) (hv : ¬ vsRise s c.vs) :
    (hsRise s c.hs →
      (s.step c).st.hcount = 0 ∧
      (s.step c).st.vcount = (if s.hcount > 4 then (s.vcount + 1) % 65536 else s.vcount) ∧
      (s.hcount > 4 → s.vcount < 65535 → (s.step c).st.vcount = s.vcount + 1)) ∧
    (¬ hsRise s c.hs →
      (s.step c).st.hcount = (s.hcount + 1) % 65536 ∧ (s.step c).st.vcount = s.vcount) := by
  obtain ⟨h1, h2⟩ := stepHV_counts s c hc hr
  rw [if_neg hv] at h1 h2
  rw [h1, h2]
  constructor
  · intro hh
    rw [if_pos hh]
    refine ⟨rfl, ?_, ?_⟩
    · by_cases h4 : s.hcount > 4
      · rw [if_pos ⟨hh, h4⟩, if_pos h4]; rfl
      · rw [if_neg (fun h => h4 h.2), if_neg h4]
    · intro h4 hlt
      rw [if_pos ⟨hh, h4⟩, u16]
      exact Nat.mod_eq_of_lt (by omega)
  · intro hh
    rw [if_neg hh, if_neg (fun h => hh h.1)]
    exact ⟨rfl, rfl⟩

/-- Witness of C12 as amended: after five pixel samples a horizontal-sync edge resets hcount and
advances vcount from 0 to 1. -/
theorem C12_hsync_step_witness :
    (demoLine.step (Call.RGB444_HV 0 1 0 1 0 0 0)).st.hcount = 0 ∧
      (demoLine.step (Call.RGB444_HV 0 1 0 1 0 0 0)).st.vcount = 0 + 1 :=
  have h := (C12_hsync_step demoLine (Call.RGB444_HV 0 1 0 1 0 0 0) rfl (by decide)
    (by decide)).1 (by decide)
  ⟨h.1, h.2.2 (by decide) (by decide)⟩

/-! ### Order of the effects of one rising-clock call -/

theorem vsPart_out (s : VideoOut) (cycle vs : Nat) (o1 : List Event) :
    (vsPart s cycle vs o1).out =
      o1 ++ (if vsRise s vs then
          (if s.dbg_on ≠ 0 then [Event.Print (Msg.vsEdge cycle)] else []) ++
          (if s.dump_act ≠ 0 then
            [Event.Print (Msg.save s.dump_ctr), Event.WriteToFile s.dump_ctr] else [])
        else []) := by
  simp only [vsPart, vsRise]
  split_ifs <;> simp

theorem hsPart_out (r : Res) (cycle clk vs hs : Nat) :
    (hsPart r cycle clk vs hs).out =
      r.out ++ (if hsRise r.st hs ∧ r.st.dbg_on ≠ 0 then
        [Event.Print (Msg.hsEdge cycle r.st.vcount)] else []) := by
  simp only [hsPart, hsRise]
  split_ifs <;> simp_all

/-- C13: in one rising-clock call of `eval_RGB444_HV` whose pre-call position is inside
the active window, that recognises a vertical-sync rising edge while dumping is armed,
the effects are, in this order: the write of the sample at the pre-call coordinates
(hcount - hor_offs, vcount - ver_offs), the vertical-sync log line (debug only), the
finalize call with the current sequence number, and last the horizontal-sync log line
(debug only), which already shows the reset vcount 0.  So the write precedes the
finalize, the counts are reset after the write, and the horizontal-sync block runs
after the vertical-sync block (vcount ends at 0 even when hcount was above 4). -/
theorem C13_processing_order (s : VideoOut) (cycle clk vs hs red green blue : Nat)
    (hr : clk ≠ 0 ∧ s.prev_clk = 0) (hw : inWindow s) (hv : vsRise s vs)
    (hd : s.dump_act ≠ 0) :
    (s.eval_RGB444_HV cycle clk vs hs red green blue).out =
      [Event.SetPixel ((s.hcount : Int) - s.hor_offs) ((s.vcount : Int) - s.ver_offs)
        (rgbPixel s red green blue)] ++
      (if s.dbg_on ≠ 0 then [Event.Print (Msg.vsEdge cycle)] else []) ++
      [Event.Print (Msg.save s.dump_ctr), Event.WriteToFile s.dump_ctr] ++
      (if hsRise s hs ∧ s.dbg_on ≠ 0 then [Event.Print (Msg.hsEdge cycle 0)] else []) ∧
    pixelWrites (s.eval_RGB444_HV cycle clk vs hs red green blue).out =
      [((s.hcount : Int) - s.hor_offs, (s.vcount : Int) - s.ver_offs,
        rgbPixel s red green blue)] ∧
    finalizes (s.eval_RGB444_HV cycle clk vs hs red green blue).out = [s.dump_ctr] ∧
    (s.eval_RGB444_HV cycle clk vs hs red green blue).st.vcount = 0 ∧
    (s.eval_RGB444_HV cycle clk vs hs red green blue).st.hcount =
      (if hsRise s hs then 0 else 1) := by
  have hdbg : ∀ o1, (vsPart s cycle vs o1).st.dbg_on = s.dbg_on := fun o1 =>
    (config_fields (vsPart_config s cycle vs o1)).2.2.2.2.1
  have hvc : ∀ o1, (vsPart s cycle vs o1).st.vcount = 0 := fun o1 => by
    rw [vsPart_vcount, if_pos hv]
  have hout : (s.eval_RGB444_HV cycle clk vs hs red green blue).out =
      [Event.SetPixel ((s.hcount : Int) - s.hor_offs) ((s.vcount : Int) - s.ver_offs)
        (rgbPixel s red green blue)] ++
      (if s.dbg_on ≠ 0 then [Event.Print (Msg.vsEdge cycle)] else []) ++
      [Event.Print (Msg.save s.dump_ctr), Event.WriteToFile s.dump_ctr] ++
      (if hsRise s hs ∧ s.dbg_on ≠ 0 then [Event.Print (Msg.hsEdge cycle 0)] else []) := by
    rw [eval_RGB444_HV_eq, if_pos hr, hsPart_out, vsPart_out, capRGBHV_eq, if_pos hw, if_pos hv,
      if_pos hd]
    simp only [hvc, hdbg, hsRise_vsPart, List.append_assoc]
  refine ⟨hout, ?_, ?_, ?_, ?_⟩
  · rw [hout]
    by_cases h1 : s.dbg_on ≠ 0 <;> by_cases h2 : hsRise s hs <;> simp [h1, h2]
  · rw [hout]
    by_cases h1 : s.dbg_on ≠ 0 <;> by_cases h2 : hsRise s hs <;> simp [h1, h2]
  · rw [eval_RGB444_HV_eq, if_pos hr, riseHV_vcount, if_pos hv]
  · rw [eval_RGB444_HV_eq, if_pos hr, riseHV_hcount, if_pos hv]

/-- Witness of C13: with debug on, a sample at (5, 0) that carries both sync edges is
written first, then the frame is finalized with number 0, and the horizontal-sync line
is logged last with vcount 0. -/
theorem C13_processing_order_witness :
    (demoArmed.eval_RGB444_HV 9 1 1 1 7 8 9).out =
      [Event.SetPixel 5 0 ⟨7, 8, 9⟩, Event.Print (Msg.vsEdge 9), Event.Print (Msg.save 0),
        Event.WriteToFile 0, Event.Print (Msg.hsEdge 9 0)] ∧
    (demoArmed.eval_RGB444_HV 9 1 1 1 7 8 9).st.vcount = 0 :=
  have h := C13_processing_order demoArmed 9 1 1 1 7 8 9 (by decide) (by decide) (by decide)
    (by decide)
  ⟨h.1, h.2.2.2.1⟩

/-! ### Bit-depth normalisation -/

theorem rgbPixel_255 (s : VideoOut) (hm : s.bit_mask = 255) (hs : s.bit_shift = 0)
    (r g b : Nat) (hr : r < 256) (hg : g < 256) (hb : b < 256) :
    rgbPixel s r g b = { Red := r, Green := g, Blue := b } := by
  simp only [rgbPixel, hm, hs, byte_and_255 r hr, byte_and_255 g hg, byte_and_255 b hb]

/-- C19 (as amended): for every constructor depth argument of 9 or more the engine
is the depth-8 engine, with mask = 0xFF and shift = 0, so an 8-bit RGB channel value is
passed through unchanged; for every depth in 0..8, mask = 2^depth - 1 and
shift = 8 - depth (so depth 0 gives mask 0 and shift 8, not the depth-8 engine). -/
theorem C19_depth_normalisation (debug depth polarity hoffset hactive voffset vactive : Nat)
    (file : List Nat) (junk : Uninit) :
    (9 ≤ depth →
      VideoOut.new debug depth polarity hoffset hactive voffset vactive file junk
        = VideoOut.new debug 8 polarity hoffset hactive voffset vactive file junk ∧
      (VideoOut.new debug depth polarity hoffset hactive voffset vactive file junk).bit_mask
        = 255 ∧
      (VideoOut.new debug depth polarity hoffset hactive voffset vactive file junk).bit_shift
        = 0 ∧
      ∀ r g b : Nat, r < 256 → g < 256 → b < 256 →
        rgbPixel (VideoOut.new debug depth polarity hoffset hactive voffset vactive file junk)
          r g b = { Red := r, Green := g, Blue := b }) ∧
    (depth ≤ 8 →
      (VideoOut.new debug depth polarity hoffset hactive voffset vactive file junk).bit_mask
        = 2 ^ depth - 1 ∧
      (VideoOut.new debug depth polarity hoffset hactive voffset vactive file junk).bit_shift
        = 8 - depth) := by
  constructor
  · intro h
    have hn : ¬ depth ≤ 8 := by omega
    have e : VideoOut.new debug depth polarity hoffset hactive voffset vactive file junk
        = VideoOut.new debug 8 polarity hoffset hactive voffset vactive file junk := by
      simp only [VideoOut.new, hn, if_false]
      rfl
    refine ⟨e, ?_, ?_, ?_⟩
    · rw [e]; rfl
    · rw [e]; rfl
    · intro r g b hr hg hb
      rw [e]
      exact rgbPixel_255 _ rfl rfl r g b hr hg hb
  · intro h
    constructor
    · show (if depth ≤ 8 then u8 ((1 <<< depth) - 1) else 255) = 2 ^ depth - 1
      rw [if_pos h]
      interval_cases depth <;> rfl
    · show (if depth ≤ 8 then 8 - depth else 0) = 8 - depth
      rw [if_pos h]

/-- Witness of C19 as amended: depth 12 gives the depth-8 engine, which passes
(200, 100, 50) through; depth 4 gives mask 15 and shift 4. -/
theorem C19_depth_normalisation_witness :
    (VideoOut.new 0 12 0 0 1280 0 1024 snapshotName Uninit.zero).bit_mask = 255 ∧
    rgbPixel (VideoOut.new 0 12 0 0 1280 0 1024 snapshotName Uninit.zero) 200 100 50
      = { Red := 200, Green := 100, Blue := 50 } ∧
    (VideoOut.new 0 4 0 0 1280 0 1024 snapshotName Uninit.zero).bit_mask = 2 ^ 4 - 1 ∧
    (VideoOut.new 0 4 0 0 1280 0 1024 snapshotName Uninit.zero).bit_shift = 8 - 4 :=
  have h1 := (C19_depth_normalisation 0 12 0 0 1280 0 1024 snapshotName Uninit.zero).1
    (by decide)
  have h2 := (C19_depth_normalisation 0 4 0 0 1280 0 1024 snapshotName Uninit.zero).2
    (by decide)
  ⟨h1.2.1, h1.2.2.2 200 100 50 (by decide) (by decide) (by decide), h2.1, h2.2⟩

/-- Counterexample to C19 as stated: depth 0 takes the branch `depth <= 8`, so the
mask is 0 and the shift 8, not 0xFF and 0, and the channel value 255 is written as 0
instead of being passed through. -/
theorem C19_counterexample :
    (VideoOut.new 0 0 0 0 1280 0 1024 snapshotName Uninit.zero).bit_mask = 0 ∧
    (VideoOut.new 0 0 0 0 1280 0 1024 snapshotName Uninit.zero).bit_shift = 8 ∧
    pixelWrites ((VideoOut.new 0 0 0 0 1280 0 1024 snapshotName Uninit.zero).eval_RGB444_DE
        0 1 1 255 255 255).out = [(0, 0, { Red := 0, Green := 0, Blue := 0 })] ∧
    ¬ ((VideoOut.new 0 0 0 0 1280 0 1024 snapshotName Uninit.zero).bit_mask = 255 ∧
       (VideoOut.new 0 0 0 0 1280 0 1024 snapshotName Uninit.zero).bit_shift = 0) := by
  decide

/-! ### Empty file name -/

theorem emitPart_dump_act (s : VideoOut) (cycle clk : Nat) :
    (emitPart s cycle clk).st.dump_act =
      if boundary420 s ∧ s.filename ≠ [] then 1 else s.dump_act := by
  simp only [emitPart, boundary420]
  split_ifs <;> simp_all

/-- A call on an engine without file name and with the dump flag clear finalizes
nothing, returns 0 and leaves the flag and the counter as they are. -/
theorem step_nofile (s : VideoOut) (c : Call) (hf : s.filename = []) (ha : s.dump_act = 0) :
    finalizes (s.step c).out = [] ∧ (s.step c).ret = 0 ∧ (s.step c).st.dump_act = 0 ∧
      (s.step c).st.dump_ctr = s.dump_ctr ∧ (s.step c).st.filename = [] := by
  have hfn := (config_fields (step_config s c)).2.2.2.2.2.2.2.2.2.2.2.2.2
  rcases isHV_or_isDE c with hc | hc
  · obtain ⟨-, -, h3, h4, h5, h6⟩ := stepHV_dump s c hc
    rw [h3, h4, h5, h6, hfn, hf, ha]
    simp
  · obtain ⟨h1, h2, h3⟩ := stepDE_dump s c hc
    have h4 : (s.step c).st.dump_act = 0 := by
      cases c with
      | RGB444_DE cycle clk de red green blue =>
        simp only [VideoOut.step, eval_RGB444_DE_eq]
        split_ifs
        · rw [dePart_dump_act, hf, ha]; simp
        · exact ha
        · exact ha
      | YUV444_DE cycle clk de luma cb cr =>
        simp only [VideoOut.step, eval_YUV444_DE_eq]
        split_ifs
        · rw [dePart_dump_act, hf, ha]; simp
        · exact ha
        · exact ha
      | YUV422_DE cycle clk de luma chroma =>
        simp only [VideoOut.step, eval_YUV422_DE_eq]
        split_ifs
        · rw [dePart_dump_act, (st422DE_dump s luma chroma).1,
            (config_fields (st422DE_config s luma chroma)).2.2.2.2.2.2.2.2.2.2.2.2.2, hf, ha]
          simp
        · exact ha
        · exact ha
      | YUV420_DE cycle clk de_y de_c luma chroma =>
        simp only [VideoOut.step, eval_YUV420_DE_eq]
        split_ifs
        · rw [emitPart_dump_act, (chromaPart_dump _ de_c chroma).1, (lumaPart_dump s de_y luma).1,
            (config_fields ((chromaPart_config (lumaPart s de_y luma) de_c chroma).trans
              (lumaPart_config s de_y luma))).2.2.2.2.2.2.2.2.2.2.2.2.2, hf, ha]
          simp
        · exact ha
      | RGB444_HV _ _ _ _ _ _ _ => simp [Call.isDE] at hc
      | YUV444_HV _ _ _ _ _ _ _ => simp [Call.isDE] at hc
      | YUV422_HV _ _ _ _ _ _ => simp [Call.isDE] at hc
    rw [h1, h2, h3, h4, hfn, hf, ha]
    simp

theorem exec_nofile (cs : List Call) :
    ∀ s : VideoOut, s.filename = [] → s.dump_act = 0 →
      finalizes (s.trace cs) = [] ∧ (∀ r ∈ s.rets cs, r = 0) ∧ (s.exec cs).dump_act = 0 ∧
        (s.exec cs).dump_ctr = s.dump_ctr := by
  induction cs with
  | nil => intro s _ ha; exact ⟨rfl, by simp [VideoOut.rets], ha, rfl⟩
  | cons c cs ih =>
    intro s hf ha
    obtain ⟨h1, h2, h3, h4, h5⟩ := step_nofile s c hf ha
    obtain ⟨i1, i2, i3, i4⟩ := ih (s.step c).st h5 h3
    refine ⟨?_, ?_, i3, ?_⟩
    · simp only [VideoOut.trace, finalizes_append, h1, i1, List.append_nil]
    · intro r hr
      simp only [VideoOut.rets, List.mem_cons] at hr
      rcases hr with hr | hr
      · rw [hr, h2]
      · exact i2 r hr
    · show ((s.step c).st.exec cs).dump_ctr = s.dump_ctr
      rw [i4, h4]

/-- C20: for an engine constructed with an empty file name, over any sequence of calls
to any `eval_*` variant, finalize (`WriteToFile`) is never called, the dump flag stays
clear, `dump_ctr` stays 0 and every call returns 0. -/
theorem C20_empty_name_no_persistence
    (debug depth polarity hoffset hactive voffset vactive : Nat) (junk : Uninit)
    (cs : List Call) :
    finalizes ((VideoOut.new debug depth polarity hoffset hactive voffset vactive [] junk).trace
        cs) = [] ∧
    ((VideoOut.new debug depth polarity hoffset hactive voffset vactive [] junk).exec
        cs).dump_act = 0 ∧
    ((VideoOut.new debug depth polarity hoffset hactive voffset vactive [] junk).exec
        cs).dump_ctr = 0 ∧
    (∀ r ∈ (VideoOut.new debug depth polarity hoffset hactive voffset vactive [] junk).rets cs,
      r = 0) := by
  obtain ⟨h1, h2, h3, h4⟩ := exec_nofile cs
    (VideoOut.new debug depth polarity hoffset hactive voffset vactive [] junk) rfl rfl
  exact ⟨h1, h3, h4, h2⟩

/-! ### The neutral-gray axis -/

/-- The arithmetic right shift by 7 is the flooring division by 128. -/
theorem shr7 (m : Int) : m >>> (7 : Int) = m / 128 := by
  cases m with
  | ofNat k =>
    have h := Int.shiftRight_coe_nat k 7
    simp only [Nat.cast_ofNat] at h
    rw [Int.ofNat_eq_coe, h, Nat.shiftRight_eq_div_pow]
    norm_num
  | negSucc k =>
    have h := Int.shiftRight_negSucc k 7
    simp only [Nat.cast_ofNat] at h
    rw [h, Nat.shiftRight_eq_div_pow]
    simp only [Int.negSucc_eq]
    norm_num
    omega

theorem mask_eq (d : Nat) (hd : d ≤ 8) : u8 ((1 <<< d) - 1) = 2 ^ d - 1 := by
  interval_cases d <;> rfl

/-- A sample that fits the configured depth passes the mask unchanged. -/
theorem andMask_small (d Y : Nat) (hd : d ≤ 8) (hY : Y < 2 ^ d) :
    andMask (Y : Int) (u8 ((1 <<< d) - 1)) = (Y : Int) := by
  have h256 : Y < 4294967296 := by
    have : 2 ^ d ≤ 2 ^ 8 := Nat.pow_le_pow_right (by norm_num) hd
    omega
  have h1 : ((Y : Int) % 4294967296).toNat = Y := by
    rw [Int.emod_eq_of_lt (by positivity) (by exact_mod_cast h256)]
    simp
  unfold andMask
  rw [h1, mask_eq d hd, Nat.and_pow_two_sub_one_eq_mod, Nat.mod_eq_of_lt hY]

theorem gray_values (d Y : Nat) (hd1 : 1 ≤ d) (hd8 : d ≤ 8) (hY : Y < 2 ^ d) :
    (yuv2rgb_spec (u8 ((1 <<< d) - 1)) (8 - d) (Y : Int) ((2 ^ (d - 1) : Nat) : Int)
        ((2 ^ (d - 1) : Nat) : Int)).Red = min (Y * 2 ^ (8 - d) + 1) 255 ∧
    (yuv2rgb_spec (u8 ((1 <<< d) - 1)) (8 - d) (Y : Int) ((2 ^ (d - 1) : Nat) : Int)
        ((2 ^ (d - 1) : Nat) : Int)).Green = Y * 2 ^ (8 - d) - 1 ∧
    (yuv2rgb_spec (u8 ((1 <<< d) - 1)) (8 - d) (Y : Int) ((2 ^ (d - 1) : Nat) : Int)
        ((2 ^ (d - 1) : Nat) : Int)).Blue = Y * 2 ^ (8 - d) := by
  have hc : (2 : Nat) ^ (d - 1) < 2 ^ d := Nat.pow_lt_pow_right (by norm_num) (by omega)
  simp only [yuv2rgb_spec, andMask_small d Y hd8 hY, andMask_small d (2 ^ (d - 1)) hd8 hc,
    shr7, clamp255]
  interval_cases d <;> norm_num at hY ⊢ <;> refine ⟨?_, ?_, ?_⟩ <;> split_ifs <;> omega

/-- C18: for every depth d in 1..8, after any sequence of calls, and every luma value
Y in 0..2^d-1, `yuv2rgb(Y, 2^(d-1), 2^(d-1))` yields red, green and blue that each
differ by at most 1 from `Y << (8 - d)` (red is that value plus 1 capped at 255, green
that value minus 1 floored at 0, blue that value); mid-scale gray Y = 2^(d-1) has
`Y << (8 - d)` = 128, so its channels are within 1 of 128. -/
theorem C18_neutral_gray (debug d polarity hoffset hactive voffset vactive : Nat)
    (file : List Nat) (junk : Uninit) (cs : List Call) (hd1 : 1 ≤ d) (hd8 : d ≤ 8)
    (Y : Nat) (hY : Y < 2 ^ d) :
    ((((VideoOut.new debug d polarity hoffset hactive voffset vactive file junk).exec
          cs).yuv2rgb (Y : Int) ((2 ^ (d - 1) : Nat) : Int) ((2 ^ (d - 1) : Nat) : Int)).Red
        ≤ Y <<< (8 - d) + 1 ∧
      Y <<< (8 - d) ≤
        (((VideoOut.new debug d polarity hoffset hactive voffset vactive file junk).exec
          cs).yuv2rgb (Y : Int) ((2 ^ (d - 1) : Nat) : Int) ((2 ^ (d - 1) : Nat) : Int)).Red
          + 1) ∧
    ((((VideoOut.new debug d polarity hoffset hactive voffset vactive file junk).exec
          cs).yuv2rgb (Y : Int) ((2 ^ (d - 1) : Nat) : Int) ((2 ^ (d - 1) : Nat) : Int)).Green
        ≤ Y <<< (8 - d) + 1 ∧
      Y <<< (8 - d) ≤
        (((VideoOut.new debug d polarity hoffset hactive voffset vactive file junk).exec
          cs).yuv2rgb (Y : Int) ((2 ^ (d - 1) : Nat) : Int) ((2 ^ (d - 1) : Nat) : Int)).Green
          + 1) ∧
    ((((VideoOut.new debug d polarity hoffset hactive voffset vactive file junk).exec
          cs).yuv2rgb (Y : Int) ((2 ^ (d - 1) : Nat) : Int) ((2 ^ (d - 1) : Nat) : Int)).Blue
        ≤ Y <<< (8 - d) + 1 ∧
      Y <<< (8 - d) ≤
        (((VideoOut.new debug d polarity hoffset hactive voffset vactive file junk).exec
          cs).yuv2rgb (Y : Int) ((2 ^ (d - 1) : Nat) : Int) ((2 ^ (d - 1) : Nat) : Int)).Blue
          + 1) ∧
    (2 ^ (d - 1)) <<< (8 - d) = 128 := by
  obtain ⟨hsh, hmk, -, -, -, -, -, -, -, hug, hub, hvr, hvg, -⟩ :=
    config_fields (exec_config cs
      (VideoOut.new debug d polarity hoffset hactive voffset vactive file junk))
  have hm : ((VideoOut.new debug d polarity hoffset hactive voffset vactive file junk).exec
      cs).bit_mask = if d ≤ 8 then u8 ((1 <<< d) - 1) else 255 := by rw [hmk]; rfl
  have hs : ((VideoOut.new debug d polarity hoffset hactive voffset vactive file junk).exec
      cs).bit_shift = if d ≤ 8 then 8 - d else 0 := by rw [hsh]; rfl
  have key := (yuv2rgb_eq_spec
    ((VideoOut.new debug d polarity hoffset hactive voffset vactive file junk).exec cs) d
    hm hs (by rw [hug]; rfl) (by rw [hub]; rfl) (by rw [hvr]; rfl) (by rw [hvg]; rfl)
    (Y : Int) ((2 ^ (d - 1) : Nat) : Int) ((2 ^ (d - 1) : Nat) : Int)).1
  rw [if_pos hd8] at hm hs
  rw [key, hm, hs]
  obtain ⟨g1, g2, g3⟩ := gray_values d Y hd1 hd8 hY
  rw [g1, g2, g3]
  simp only [Nat.shiftLeft_eq]
  refine ⟨⟨?_, ?_⟩, ⟨?_, ?_⟩, ⟨?_, ?_⟩, ?_⟩
  · exact Nat.min_le_left _ _
  · have h255 : Y * 2 ^ (8 - d) ≤ 255 := by
      interval_cases d <;> norm_num at hY ⊢ <;> omega
    rw [Nat.min_def]
    split_ifs <;> omega
  · omega
  · omega
  · omega
  · omega
  · interval_cases d <;> rfl

/-- Witness of C18: depth 8, Y = Cb = Cr = 128 gives (129, 127, 128). -/
theorem C18_neutral_gray_witness :
    ((VideoOut.new 0 8 0 0 1280 0 1024 snapshotName Uninit.zero).exec []).yuv2rgb
        ((128 : Nat) : Int) ((2 ^ (8 - 1) : Nat) : Int) ((2 ^ (8 - 1) : Nat) : Int)
      = { Red := 129, Green := 127, Blue := 128 } ∧
    (((VideoOut.new 0 8 0 0 1280 0 1024 snapshotName Uninit.zero).exec []).yuv2rgb
        ((128 : Nat) : Int) ((2 ^ (8 - 1) : Nat) : Int) ((2 ^ (8 - 1) : Nat) : Int)).Red
      ≤ 128 <<< (8 - 8) + 1 :=
  ⟨by decide,
    (C18_neutral_gray 0 8 0 0 1280 0 1024 snapshotName Uninit.zero [] (by decide) (by decide)
      128 (by decide)).1.1⟩

/-! ### Line buffers -/

theorem getD_set_self {α : Type} (l : List α) (i : Nat) (v d : α) (h : i < l.length) :
    (l.set i v).getD i d = v := by
  simp [List.getD_eq_getElem?_getD, List.getElem?_set, h]

theorem getD_set_ne {α : Type} (l : List α) (i j : Nat) (v d : α) (h : i ≠ j) :
    (l.set i v).getD j d = l.getD j d := by
  simp [List.getD_eq_getElem?_getD, List.getElem?_set, h]

theorem bufGet_bufSet_self (b : List (List Int)) (k h : Nat) (v : Int) (hk : k < b.length)
    (hh : h < (b.getD k []).length) : bufGet (bufSet b k h v) k h = v := by
  unfold bufGet bufSet
  rw [getD_set_self _ _ _ _ hk, getD_set_self _ _ _ _ hh]

theorem bufGet_bufSet_row (b : List (List Int)) (k h k' h' : Nat) (v : Int) (hne : k ≠ k') :
    bufGet (bufSet b k h v) k' h' = bufGet b k' h' := by
  unfold bufGet bufSet
  rw [getD_set_ne _ _ _ _ _ hne]

theorem bufGet_bufSet_col (b : List (List Int)) (k h h' : Nat) (v : Int) (hne : h ≠ h') :
    bufGet (bufSet b k h v) k h' = bufGet b k h' := by
  unfold bufGet bufSet
  by_cases hk : k < b.length
  · rw [getD_set_self _ _ _ _ hk, getD_set_ne _ _ _ _ _ hne]
  · rw [List.set_eq_of_length_le (by omega)]

theorem bufSet_length (b : List (List Int)) (k h : Nat) (v : Int) :
    (bufSet b k h v).length = b.length := by
  unfold bufSet
  rw [List.length_set]

theorem bufSet_row_length (b : List (List Int)) (k h k' : Nat) (v : Int) :
    ((bufSet b k h v).getD k' []).length = (b.getD k' []).length := by
  unfold bufSet
  by_cases hk : k < b.length
  · by_cases he : k = k'
    · subst he
      rw [getD_set_self _ _ _ _ hk, List.length_set]
    · rw [getD_set_ne _ _ _ _ _ he]
  · rw [List.set_eq_of_length_le (by omega)]

theorem Dims_new (debug depth polarity hoffset hactive voffset vactive : Nat) (file : List Nat)
    (junk : Uninit) :
    Dims (VideoOut.new debug depth polarity hoffset hactive voffset vactive file junk) hactive := by
  refine ⟨⟨by simp [VideoOut.new], ?_⟩, ⟨by simp [VideoOut.new], ?_⟩⟩
  · intro k hk
    simp [VideoOut.new, List.getD_eq_getElem?_getD, List.getElem?_map, List.getElem?_range hk]
  · intro k hk
    simp [VideoOut.new, List.getD_eq_getElem?_getD, List.getElem?_map, List.getElem?_range hk]

/-! ### Ring indices of the 4:2:0 reconstruction -/

theorem and_three (n : Nat) : n &&& 3 = n % 4 := Nat.and_pow_two_sub_one_eq_mod n 2

theorem and_one (n : Nat) : n &&& 1 = n % 2 := Nat.and_pow_two_sub_one_eq_mod n 1

theorem and_two (n : Nat) : n &&& 2 = if n / 2 % 2 = 1 then 2 else 0 := by
  have h := Nat.and_two_pow n 1
  rw [Nat.testBit_to_div_mod] at h
  simp only [pow_one] at h
  rw [h]
  split_ifs with h1 <;> simp [h1]

/-- The luma lines read by an emission when `vcount1 = 2k + 2`: those written while
`vcount1` was `2k` and `2k + 1`. -/
theorem luma_ring (k : Nat) :
    ((2 * k + 2) &&& 2) ^^^ 2 = (2 * k) &&& 3 ∧ ((2 * k + 2) &&& 2) ^^^ 3 = (2 * k + 1) &&& 3 := by
  rw [and_two, and_three, and_three]
  have h : (2 * k + 2) / 2 = k + 1 := by omega
  rw [h]
  rcases Nat.mod_two_eq_zero_or_one k with hk | hk
  · rw [if_pos (by omega)]
    exact ⟨by rw [show (2 * k) % 4 = 0 by omega]; rfl, by rw [show (2 * k + 1) % 4 = 1 by omega]; rfl⟩
  · rw [if_neg (by omega)]
    exact ⟨by rw [show (2 * k) % 4 = 2 by omega]; rfl, by rw [show (2 * k + 1) % 4 = 3 by omega]; rfl⟩

/-- The chroma line read by an emission when `vcount2 = k + 1`: the one written while
`vcount2` was `k`. -/
theorem chroma_ring (k : Nat) : ((k + 1) &&& 1) ^^^ 1 = k &&& 1 := by
  rw [and_one, and_one]
  rcases Nat.mod_two_eq_zero_or_one k with hk | hk
  · rw [show (k + 1) % 2 = 1 by omega, hk]; rfl
  · rw [show (k + 1) % 2 = 0 by omega, hk]; rfl

/-- The two luma lines read by an emission are consecutive ring entries. -/
theorem luma_next (n : Nat) : (n &&& 2) ^^^ 3 = ((n &&& 2) ^^^ 2) + 1 := by
  rw [and_two]
  split_ifs <;> rfl

/-! ### The storing blocks of the 4:2:0 reconstruction -/

theorem lumaPart_St (s : VideoOut) (W H h1 v1 h2 v2 v : Nat) (hs : St420 s W H h1 v1 h2 v2 v)
    (hh : h1 < W) (hW16 : W < 65536) (hv16 : v1 + 1 < 65536) (de_y luma : Nat)
    (hde : de_y ≠ 0) :
    St420 (lumaPart s de_y luma) W H (if h1 + 1 = W then 0 else h1 + 1)
        (if h1 + 1 = W then v1 + 1 else v1) h2 v2 v ∧
      (lumaPart s de_y luma).y_buf = bufSet s.y_buf (v1 &&& 3) h1 (luma : Int) ∧
      (lumaPart s de_y luma).c_buf = s.c_buf := by
  obtain ⟨⟨a1, a2⟩, ⟨b1, b2⟩, ⟨c1, c2⟩, d1, ⟨e1, e2⟩, e3⟩ := hs
  have hu1 : u16 (h1 + 1) = h1 + 1 := Nat.mod_eq_of_lt (by omega)
  have hu2 : u16 (v1 + 1) = v1 + 1 := Nat.mod_eq_of_lt hv16
  have hcond : u16 (s.hcount1 + 1) = s.hor_size ↔ h1 + 1 = W := by rw [b1, hu1, a1]
  have hy : bufSet s.y_buf (s.vcount1 &&& 3) s.hcount1 (luma : Int)
      = bufSet s.y_buf (v1 &&& 3) h1 (luma : Int) := by rw [b1, b2]
  simp only [lumaPart, if_pos hde]
  by_cases he : h1 + 1 = W
  · rw [if_pos (hcond.2 he), if_pos he, if_pos he]
    exact ⟨⟨⟨a1, a2⟩, ⟨rfl, by show u16 (s.vcount1 + 1) = v1 + 1; rw [b2, hu2]⟩, ⟨c1, c2⟩, d1,
      ⟨(bufSet_length _ _ _ _).trans e1, fun k hk => (bufSet_row_length _ _ _ _ _).trans (e2 k hk)⟩,
      e3⟩, hy, rfl⟩
  · rw [if_neg (fun h => he (hcond.1 h)), if_neg he, if_neg he]
    exact ⟨⟨⟨a1, a2⟩, ⟨by show u16 (s.hcount1 + 1) = h1 + 1; rw [b1, hu1], b2⟩, ⟨c1, c2⟩, d1,
      ⟨(bufSet_length _ _ _ _).trans e1, fun k hk => (bufSet_row_length _ _ _ _ _).trans (e2 k hk)⟩,
      e3⟩, hy, rfl⟩

theorem chromaPart_St (s : VideoOut) (W H h1 v1 h2 v2 v : Nat) (hs : St420 s W H h1 v1 h2 v2 v)
    (hh : h2 < W) (hW16 : W < 65536) (hv16 : v2 + 1 < 65536) (de_c chroma : Nat)
    (hde : de_c ≠ 0) :
    St420 (chromaPart s de_c chroma) W H h1 v1 (if h2 + 1 = W then 0 else h2 + 1)
        (if h2 + 1 = W then v2 + 1 else v2) v ∧
      (chromaPart s de_c chroma).c_buf = bufSet s.c_buf (v2 &&& 1) h2 (chroma : Int) ∧
      (chromaPart s de_c chroma).y_buf = s.y_buf := by
  obtain ⟨⟨a1, a2⟩, ⟨b1, b2⟩, ⟨c1, c2⟩, d1, e3, ⟨e1, e2⟩⟩ := hs
  have hu1 : u16 (h2 + 1) = h2 + 1 := Nat.mod_eq_of_lt (by omega)
  have hu2 : u16 (v2 + 1) = v2 + 1 := Nat.mod_eq_of_lt hv16
  have hcond : u16 (s.hcount2 + 1) = s.hor_size ↔ h2 + 1 = W := by rw [c1, hu1, a1]
  have hy : bufSet s.c_buf (s.vcount2 &&& 1) s.hcount2 (chroma : Int)
      = bufSet s.c_buf (v2 &&& 1) h2 (chroma : Int) := by rw [c1, c2]
  simp only [chromaPart, if_pos hde]
  by_cases he : h2 + 1 = W
  · rw [if_pos (hcond.2 he), if_pos he, if_pos he]
    exact ⟨⟨⟨a1, a2⟩, ⟨b1, b2⟩, ⟨rfl, by show u16 (s.vcount2 + 1) = v2 + 1; rw [c2, hu2]⟩, d1,
      e3, ⟨(bufSet_length _ _ _ _).trans e1,
        fun k hk => (bufSet_row_length _ _ _ _ _).trans (e2 k hk)⟩⟩, hy, rfl⟩
  · rw [if_neg (fun h => he (hcond.1 h)), if_neg he, if_neg he]
    exact ⟨⟨⟨a1, a2⟩, ⟨b1, b2⟩, ⟨by show u16 (s.hcount2 + 1) = h2 + 1; rw [c1, hu1], c2⟩, d1,
      e3, ⟨(bufSet_length _ _ _ _).trans e1,
        fun k hk => (bufSet_row_length _ _ _ _ _).trans (e2 k hk)⟩⟩, hy, rfl⟩

theorem chromaPart_off (s : VideoOut) (chroma : Nat) : chromaPart s 0 chroma = s := by
  simp [chromaPart]

/-! ### The emission block of the 4:2:0 reconstruction -/

theorem emitPart_idle (s : VideoOut) (cycle clk : Nat) (h : ¬ ready420 s) :
    emitPart s cycle clk = idle s clk := by
  unfold ready420 at h
  simp only [emitPart, if_neg h]
  rfl

theorem pixelWrites_yuv420_blocks (s : VideoOut) (n : Nat) :
    pixelWrites ((List.range n).map (fun k => VideoOut.yuv420_block s (2 * k))).flatten =
      emitWrites s ((s.vcount1 &&& 2) ^^^ 2) ((s.vcount2 &&& 1) ^^^ 1) n := by
  induction n with
  | zero => rfl
  | succ n ih =>
    unfold emitWrites at ih ⊢
    rw [List.range_succ, List.map_append, List.flatten_append, pixelWrites_append, ih,
      List.map_append, List.flatten_append]
    congr 1
    simp only [List.map_cons, List.map_nil, List.flatten_cons, List.flatten_nil, List.append_nil,
      VideoOut.yuv420_block, pixelWrites_setPixel, pixelWrites_nil, blockWrites, ← luma_next]

theorem emitPart_pixelWrites (s : VideoOut) (cycle clk : Nat) :
    pixelWrites (emitPart s cycle clk).out =
      if ready420 s then
        emitWrites s ((s.vcount1 &&& 2) ^^^ 2) ((s.vcount2 &&& 1) ^^^ 1) ((s.hor_size + 1) / 2)
      else [] := by
  simp only [emitPart, ready420]
  split_ifs <;> simp [pixelWrites_yuv420_blocks]

theorem emitPart_vcount (s : VideoOut) (cycle clk : Nat) :
    (emitPart s cycle clk).st.vcount =
      if ready420 s then (if u16 (s.vcount + 2) = s.ver_size then 0 else u16 (s.vcount + 2))
      else s.vcount := by
  simp only [emitPart, ready420]
  split_ifs <;> rfl

theorem emitPart_vcount1 (s : VideoOut) (cycle clk : Nat) :
    (emitPart s cycle clk).st.vcount1 =
      if boundary420 s then u16i ((s.vcount1 : Int) - s.ver_size) else s.vcount1 := by
  simp only [emitPart, boundary420]
  split_ifs <;> simp_all

theorem emitPart_vcount2 (s : VideoOut) (cycle clk : Nat) :
    (emitPart s cycle clk).st.vcount2 =
      if boundary420 s then u16i ((s.vcount2 : Int) - ((s.ver_size / 2 : Nat) : Int))
      else s.vcount2 := by
  simp only [emitPart, boundary420]
  split_ifs <;> simp_all

theorem emitPart_same (s : VideoOut) (cycle clk : Nat) :
    ((emitPart s cycle clk).st.hcount1 = s.hcount1 ∧ (emitPart s cycle clk).st.hcount2 = s.hcount2) ∧
    ((emitPart s cycle clk).st.y_buf = s.y_buf ∧ (emitPart s cycle clk).st.c_buf = s.c_buf) ∧
    (emitPart s cycle clk).st.prev_clk = clk := by
  simp only [emitPart]
  split_ifs <;> exact ⟨⟨rfl, rfl⟩, ⟨rfl, rfl⟩, rfl⟩

/-- C16: every time `eval_YUV420_DE` emits an output line pair at rows (v, v+1) on an
engine with even `hor_size`, the pixel writes of the call are, for each even column
i < hor_size in turn, the four writes (i, v), (i+1, v), (i, v+1), (i+1, v+1)
(`blockWrites`), all four converted by `yuv2rgb` with one and the same pair
(Cb, Cr) = (c_buf[c][i], c_buf[c][i+1]); the two upper pixels take their luma from
luma ring line l and the two lower ones from the next line l + 1.  A rising-clock call
that does not emit writes nothing. -/
theorem C16_chroma_sharing (s : VideoOut) (cycle clk de_y de_c luma chroma : Nat)
    (hr : clk ≠ 0 ∧ s.prev_clk = 0)
    (hW : (chromaPart (lumaPart s de_y luma) de_c chroma).hor_size % 2 = 0) :
    (ready420 (chromaPart (lumaPart s de_y luma) de_c chroma) →
      pixelWrites (s.eval_YUV420_DE cycle clk de_y de_c luma chroma).out =
        emitWrites (chromaPart (lumaPart s de_y luma) de_c chroma)
          (((chromaPart (lumaPart s de_y luma) de_c chroma).vcount1 &&& 2) ^^^ 2)
          (((chromaPart (lumaPart s de_y luma) de_c chroma).vcount2 &&& 1) ^^^ 1)
          ((chromaPart (lumaPart s de_y luma) de_c chroma).hor_size / 2)) ∧
    (¬ ready420 (chromaPart (lumaPart s de_y luma) de_c chroma) →
      pixelWrites (s.eval_YUV420_DE cycle clk de_y de_c luma chroma).out = []) := by
  rw [eval_YUV420_DE_eq, if_pos hr, emitPart_pixelWrites]
  constructor
  · intro h
    rw [if_pos h, show ((chromaPart (lumaPart s de_y luma) de_c chroma).hor_size + 1) / 2
      = (chromaPart (lumaPart s de_y luma) de_c chroma).hor_size / 2 by omega]
  · intro h
    rw [if_neg h]

/-- Witness of C16: on a 4 x 4 engine the last sample of the second luma line emits the
two blocks of rows 0 and 1, read from luma ring lines 0 and 1 and chroma ring line 0. -/
theorem C16_chroma_sharing_witness :
    pixelWrites (demo420w.eval_YUV420_DE 0 1 1 0 80 0).out =
      emitWrites (chromaPart (lumaPart demo420w 1 80) 0 0) 0 0 2 :=
  (C16_chroma_sharing demo420w 0 1 1 0 80 0 (by decide) (by decide)).1 (by decide)

/-! ### Frame rewind of the 4:2:0 reconstruction -/

theorem lumaPart_counts (s : VideoOut) (de_y luma : Nat) :
    ((lumaPart s de_y luma).vcount = s.vcount ∧ (lumaPart s de_y luma).vcount2 = s.vcount2 ∧
      (lumaPart s de_y luma).hcount2 = s.hcount2) ∧
    ((lumaPart s de_y luma).vcount1 = s.vcount1 ∨
      (lumaPart s de_y luma).vcount1 = u16 (s.vcount1 + 1)) := by
  simp only [lumaPart]
  split_ifs
  · exact ⟨⟨rfl, rfl, rfl⟩, Or.inr rfl⟩
  · exact ⟨⟨rfl, rfl, rfl⟩, Or.inl rfl⟩
  · exact ⟨⟨rfl, rfl, rfl⟩, Or.inl rfl⟩

theorem chromaPart_counts (s : VideoOut) (de_c chroma : Nat) :
    ((chromaPart s de_c chroma).vcount = s.vcount ∧
      (chromaPart s de_c chroma).vcount1 = s.vcount1 ∧
      (chromaPart s de_c chroma).hcount1 = s.hcount1) ∧
    ((chromaPart s de_c chroma).vcount2 = s.vcount2 ∨
      (chromaPart s de_c chroma).vcount2 = u16 (s.vcount2 + 1)) := by
  simp only [chromaPart]
  split_ifs
  · exact ⟨⟨rfl, rfl, rfl⟩, Or.inr rfl⟩
  · exact ⟨⟨rfl, rfl, rfl⟩, Or.inl rfl⟩
  · exact ⟨⟨rfl, rfl, rfl⟩, Or.inl rfl⟩

/-- C17: in a rising-clock call of `eval_YUV420_DE` on an engine with ver_size = H
(any H, in particular H >= 2; all counters being 16-bit values), with s2 the engine after
the two storing blocks:
an emission advances vcount by exactly 2 (to 0 when vcount + 2 = H); whenever the
rewind branch runs, vcount1 >= H and vcount2 >= H div 2 hold just before it, so the
16-bit subtractions do not wrap, and after the call vcount = 0, vcount1 is its value
before the rewind minus H and vcount2 its value before the rewind minus H div 2. -/
theorem C17_yuv420_rewind (s : VideoOut) (cycle clk de_y de_c luma chroma : Nat)
    (hr : clk ≠ 0 ∧ s.prev_clk = 0) (hv : s.vcount < 65536)
    (hv1 : s.vcount1 < 65536) (hv2 : s.vcount2 < 65536) :
    (ready420 (chromaPart (lumaPart s de_y luma) de_c chroma) →
      (s.eval_YUV420_DE cycle clk de_y de_c luma chroma).st.vcount =
        (if s.vcount + 2 = s.ver_size then 0 else s.vcount + 2)) ∧
    (boundary420 (chromaPart (lumaPart s de_y luma) de_c chroma) →
      s.ver_size ≤ (chromaPart (lumaPart s de_y luma) de_c chroma).vcount1 ∧
      s.ver_size / 2 ≤ (chromaPart (lumaPart s de_y luma) de_c chroma).vcount2 ∧
      (s.eval_YUV420_DE cycle clk de_y de_c luma chroma).st.vcount = 0 ∧
      (s.eval_YUV420_DE cycle clk de_y de_c luma chroma).st.vcount1 =
        (chromaPart (lumaPart s de_y luma) de_c chroma).vcount1 - s.ver_size ∧
      (s.eval_YUV420_DE cycle clk de_y de_c luma chroma).st.vcount2 =
        (chromaPart (lumaPart s de_y luma) de_c chroma).vcount2 - s.ver_size / 2) := by
  obtain ⟨⟨l1, l2, -⟩, l3⟩ := lumaPart_counts s de_y luma
  obtain ⟨⟨c1, c2, -⟩, c3⟩ := chromaPart_counts (lumaPart s de_y luma) de_c chroma
  have hH := (config_fields ((chromaPart_config (lumaPart s de_y luma) de_c chroma).trans
    (lumaPart_config s de_y luma))).2.2.2.2.2.2.2.2.1
  have b0 : (chromaPart (lumaPart s de_y luma) de_c chroma).vcount = s.vcount := by rw [c1, l1]
  have b1 : (chromaPart (lumaPart s de_y luma) de_c chroma).vcount1 < 65536 := by
    rw [c2]
    rcases l3 with h | h <;> rw [h]
    · exact hv1
    · exact Nat.mod_lt _ (by norm_num)
  have b2 : (chromaPart (lumaPart s de_y luma) de_c chroma).vcount2 < 65536 := by
    rcases c3 with h | h <;> rw [h]
    · rw [l2]; exact hv2
    · exact Nat.mod_lt _ (by norm_num)
  rw [eval_YUV420_DE_eq, if_pos hr, emitPart_vcount, emitPart_vcount1, emitPart_vcount2]
  generalize chromaPart (lumaPart s de_y luma) de_c chroma = s2 at *
  constructor
  · intro hrd
    have hrd' := hrd
    unfold ready420 at hrd'
    have hu : u16 (s2.vcount + 2) = s2.vcount + 2 := Nat.mod_eq_of_lt (by omega)
    rw [if_pos hrd, hu, hH, b0]
  · intro hb
    have hb' := hb
    unfold boundary420 at hb'
    obtain ⟨⟨r1, r2⟩, r3⟩ := hb'
    have hu : u16 (s2.vcount + 2) = s2.vcount + 2 := Nat.mod_eq_of_lt (by omega)
    rw [hu, hH] at r3
    rw [if_pos ⟨r1, r2⟩, if_pos hb, if_pos hb, if_pos (by rw [hu, hH]; exact r3), hH]
    refine ⟨by omega, by omega, rfl, ?_, ?_⟩
    · unfold u16i
      omega
    · unfold u16i
      omega

/-- Witness of C17: on the 2 x 2 engine `demo420` the last luma sample of the frame
emits rows 0 and 1 and rewinds: vcount1 goes from 2 to 0 and vcount2 from 1 to 0. -/
theorem C17_yuv420_rewind_witness :
    ((VideoOut.new 0 8 0 0 2 0 2 snapshotName Uninit.zero).exec demo420).ver_size ≤
      (chromaPart (lumaPart ((VideoOut.new 0 8 0 0 2 0 2 snapshotName Uninit.zero).exec demo420)
        1 103) 0 0).vcount1 ∧
    (((VideoOut.new 0 8 0 0 2 0 2 snapshotName Uninit.zero).exec demo420).eval_YUV420_DE
      6 1 1 0 103 0).st.vcount = 0 ∧
    (((VideoOut.new 0 8 0 0 2 0 2 snapshotName Uninit.zero).exec demo420).eval_YUV420_DE
      6 1 1 0 103 0).st.vcount1 = 2 - 2 :=
  have h := (C17_yuv420_rewind ((VideoOut.new 0 8 0 0 2 0 2 snapshotName Uninit.zero).exec demo420)
    6 1 1 0 103 0 (by decide) (by decide) (by decide) (by decide)).2 (by decide)
  ⟨h.1, h.2.2.1, h.2.2.2.1⟩

/-! ### Pairing of the 4:2:2 samples in the data-enable discipline -/

theorem yuv2rgb_config {s t : VideoOut} (h : s.config = t.config) : s.yuv2rgb = t.yuv2rgb := by
  obtain ⟨h1, h2, -, -, -, -, -, -, -, h3, h4, h5, h6, -⟩ := config_fields h
  funext lum cb cr
  simp only [VideoOut.yuv2rgb, h1, h2, h3, h4, h5, h6]

theorem dePart_y0u0 (s : VideoOut) (cycle clk : Nat) (o1 : List Event) :
    (dePart s cycle clk o1).st.y0 = s.y0 ∧ (dePart s cycle clk o1).st.u0 = s.u0 := by
  simp only [dePart]
  split_ifs <;> exact ⟨rfl, rfl⟩

theorem step422_idle (s : VideoOut) (a : De422)
    (h : ¬ ((a.clk ≠ 0 ∧ s.prev_clk = 0) ∧ a.de ≠ 0)) : s.step a.call = idle s a.clk := by
  simp only [VideoOut.step, De422.call, eval_YUV422_DE_eq]
  split_ifs with h1 h2
  · exact absurd ⟨h1, h2⟩ h
  · rfl
  · rfl

theorem step422_sample (s : VideoOut) (a : De422)
    (h : (a.clk ≠ 0 ∧ s.prev_clk = 0) ∧ a.de ≠ 0) :
    s.step a.call = dePart (st422DE s a.luma a.chroma) a.cycle a.clk
      (cap422DE s a.luma a.chroma) := by
  simp only [VideoOut.step, De422.call, eval_YUV422_DE_eq]
  rw [if_pos h.1, if_pos h.2]

/-- Invariant of the data-enable raster scan under `eval_YUV422_DE` calls. -/
theorem exec_422_raster (W H : Nat) (hW : 0 < W) (hH : 0 < H)
    (hW16 : W < 65536) (hH16 : H < 65536) (as : List De422) :
    ∀ (s : VideoOut) (n : Nat), s.hor_size = W → s.ver_size = H →
      s.hcount = n % W → s.vcount = (n / W) % H →
      (s.exec (as.map De422.call)).hcount = (n + samples422 s.prev_clk as) % W ∧
      (s.exec (as.map De422.call)).vcount = ((n + samples422 s.prev_clk as) / W) % H ∧
      (s.exec (as.map De422.call)).prev_clk = lastClk422 s.prev_clk as := by
  induction as with
  | nil => intro s n _ _ hc vc; exact ⟨hc, vc, rfl⟩
  | cons a as ih =>
    intro s n hw hh hc vc
    simp only [List.map_cons, VideoOut.exec, samples422, lastClk422]
    have hcfg := config_fields (step_config s a.call)
    have hw1 : (s.step a.call).st.hor_size = W := by rw [hcfg.2.2.2.2.2.2.2.1, hw]
    have hh1 : (s.step a.call).st.ver_size = H := by rw [hcfg.2.2.2.2.2.2.2.2.1, hh]
    by_cases hr : (a.clk ≠ 0 ∧ s.prev_clk = 0) ∧ a.de ≠ 0
    · have hstep := step422_sample s a hr
      have hc0 := config_fields (st422DE_config s a.luma a.chroma)
      have hn0 := st422DE_counts s a.luma a.chroma
      have hras := dePart_raster (st422DE s a.luma a.chroma) W H n hW hH hW16 hH16
        (hc0.2.2.2.2.2.2.2.1.trans hw) (hc0.2.2.2.2.2.2.2.2.1.trans hh)
        (hn0.1.trans hc) (hn0.2.trans vc) a.cycle a.clk (cap422DE s a.luma a.chroma)
      rw [← hstep] at hras
      have hp : (s.step a.call).st.prev_clk = a.clk := by rw [hstep, dePart_prev_clk]
      have := ih (s.step a.call).st (n + 1) hw1 hh1 hras.1 hras.2.1
      rw [hp] at this
      rw [if_pos hr, ← Nat.add_assoc]
      exact this
    · have hstep := step422_idle s a hr
      have := ih (s.step a.call).st n hw1 hh1 (by rw [hstep]; exact hc) (by rw [hstep]; exact vc)
      rw [show (s.step a.call).st.prev_clk = a.clk by rw [hstep]; rfl] at this
      rw [if_neg hr, Nat.zero_add]
      exact this

/-- A sequence of `eval_YUV422_DE` calls without a data-enable sample only moves the
stored clock level. -/
theorem exec_422_gap (as : List De422) :
    ∀ s : VideoOut, samples422 s.prev_clk as = 0 →
      s.exec (as.map De422.call) = { s with prev_clk := lastClk422 s.prev_clk as } := by
  induction as with
  | nil => intro s _; rfl
  | cons a as ih =>
    intro s h
    simp only [samples422] at h
    have hr : ¬ ((a.clk ≠ 0 ∧ s.prev_clk = 0) ∧ a.de ≠ 0) := by
      intro hr
      rw [if_pos hr] at h
      omega
    rw [if_neg hr, Nat.zero_add] at h
    simp only [List.map_cons, VideoOut.exec, lastClk422]
    rw [step422_idle s a hr]
    exact ih (idle s a.clk).st h

/-- C14: on a fresh engine with even hor_size = W >= 2 and ver_size = H >= 1 (both below
2^16) driven only through `eval_YUV422_DE`, let n be the (even) number of data-enable
samples of the history, A the next sample (luma a, chroma cb), `gap` any calls that are
not samples, and B the sample after them (luma b, chroma cr).  Then A is at the even
column n mod W of row (n div W) mod H and writes no pixel, and B, at the next column of
the same row, writes exactly two pixels: yuv2rgb(a, cb, cr) at A's column and
yuv2rgb(b, cb, cr) at its own, whatever the indeterminate initial contents. -/
theorem C14_yuv422_pairing (debug depth polarity hoffset W voffset H : Nat) (file : List Nat)
    (junk : Uninit) (hW : 2 ≤ W) (hWe : W % 2 = 0) (hH : 1 ≤ H) (hW16 : W < 65536)
    (hH16 : H < 65536) (hist gap : List De422) (A B : De422)
    (hn : samples422 0 hist % 2 = 0)
    (hA : (A.clk ≠ 0 ∧ lastClk422 0 hist = 0) ∧ A.de ≠ 0)
    (hgap : samples422 A.clk gap = 0)
    (hB : (B.clk ≠ 0 ∧ lastClk422 A.clk gap = 0) ∧ B.de ≠ 0) :
    (samples422 0 hist % W % 2 = 0 ∧ samples422 0 hist % W + 1 < W) ∧
    pixelWrites (((VideoOut.new debug depth polarity hoffset W voffset H file junk).exec
      (hist.map De422.call)).step A.call).out = [] ∧
    pixelWrites (((VideoOut.new debug depth polarity hoffset W voffset H file junk).exec
      ((hist ++ A :: gap).map De422.call)).step B.call).out =
      [(((samples422 0 hist % W : Nat) : Int), ((samples422 0 hist / W % H : Nat) : Int),
          (VideoOut.new debug depth polarity hoffset W voffset H file junk).yuv2rgb
            (A.luma : Int) (A.chroma : Int) (B.chroma : Int)),
       (((samples422 0 hist % W + 1 : Nat) : Int), ((samples422 0 hist / W % H : Nat) : Int),
          (VideoOut.new debug depth polarity hoffset W voffset H file junk).yuv2rgb
            (B.luma : Int) (A.chroma : Int) (B.chroma : Int))] := by
  have hras := exec_422_raster W H (by omega) (by omega) hW16 hH16 hist
    (VideoOut.new debug depth polarity hoffset W voffset H file junk) 0 rfl rfl
    (by simp [VideoOut.new]) (by simp [VideoOut.new])
  have hcfg := exec_config (hist.map De422.call)
    (VideoOut.new debug depth polarity hoffset W voffset H file junk)
  have hp0 : (VideoOut.new debug depth polarity hoffset W voffset H file junk).prev_clk = 0 := rfl
  rw [hp0, Nat.zero_add] at hras
  have hpar : samples422 0 hist % W % 2 = 0 := by
    rw [Nat.mod_mod_of_dvd _ (Nat.dvd_of_mod_eq_zero hWe)]
    exact hn
  have hlt : samples422 0 hist % W + 1 < W := by
    have := Nat.mod_lt (samples422 0 hist) (show 0 < W by omega)
    omega
  refine ⟨⟨hpar, hlt⟩, ?_⟩
  rw [List.map_append, exec_append, List.map_cons]
  simp only [VideoOut.exec]
  generalize (VideoOut.new debug depth polarity hoffset W voffset H file junk).exec
    (hist.map De422.call) = s at *
  obtain ⟨hc, vc, hp⟩ := hras
  have hAs : (A.clk ≠ 0 ∧ s.prev_clk = 0) ∧ A.de ≠ 0 := by rw [hp]; exact hA
  have heven : ¬ (s.hcount &&& 1 ≠ 0) := by rw [and_one, hc, hpar]; simp
  have hcap : cap422DE s A.luma A.chroma = [] := by
    simp only [cap422DE]
    rw [if_neg heven]
  have hst : (st422DE s A.luma A.chroma).y0 = (A.luma : Int) ∧
      (st422DE s A.luma A.chroma).u0 = (A.chroma : Int) := by
    simp only [st422DE]
    rw [if_neg heven]
    exact ⟨rfl, rfl⟩
  rw [step422_sample s A hAs, pixelWrites_dePart, hcap]
  refine ⟨rfl, ?_⟩
  have hc0 := config_fields (st422DE_config s A.luma A.chroma)
  have hn0 := st422DE_counts s A.luma A.chroma
  have hfs := config_fields hcfg
  have hdr := dePart_raster (st422DE s A.luma A.chroma) W H (samples422 0 hist) (by omega)
    (by omega) hW16 hH16 (hc0.2.2.2.2.2.2.2.1.trans hfs.2.2.2.2.2.2.2.1)
    (hc0.2.2.2.2.2.2.2.2.1.trans hfs.2.2.2.2.2.2.2.2.1)
    (hn0.1.trans hc) (hn0.2.trans vc) A.cycle A.clk []
  obtain ⟨e1, e2⟩ := (succ_divmod W (samples422 0 hist) (by omega)).2 (by omega)
  rw [e1] at hdr
  rw [e2] at hdr
  obtain ⟨d1, d2, -⟩ := hdr
  obtain ⟨y1, y2⟩ := dePart_y0u0 (st422DE s A.luma A.chroma) A.cycle A.clk []
  have hpA := dePart_prev_clk (st422DE s A.luma A.chroma) A.cycle A.clk []
  have hcA : (dePart (st422DE s A.luma A.chroma) A.cycle A.clk []).st.config =
      (VideoOut.new debug depth polarity hoffset W voffset H file junk).config := by
    rw [dePart_config, st422DE_config, hcfg]
  rw [hst.1] at y1
  rw [hst.2] at y2
  generalize (dePart (st422DE s A.luma A.chroma) A.cycle A.clk []).st = sA at *
  rw [exec_422_gap gap sA (by rw [hpA]; exact hgap), hpA]
  rw [step422_sample _ B hB, pixelWrites_dePart]
  have hodd : sA.hcount &&& 1 ≠ 0 := by rw [and_one, d1]; omega
  simp only [cap422DE]
  rw [if_pos hodd]
  simp only [pixelWrites_setPixel, pixelWrites_nil]
  rw [yuv2rgb_config (show ({ sA with prev_clk := lastClk422 A.clk gap } : VideoOut).config =
    (VideoOut.new debug depth polarity hoffset W voffset H file junk).config from hcA)]
  show [(((sA.hcount : Nat) : Int) - 1, ((sA.vcount : Nat) : Int), _),
    (((sA.hcount : Nat) : Int), ((sA.vcount : Nat) : Int), _)] = _
  rw [d1, d2]
  show [(_, _, (VideoOut.new debug depth polarity hoffset W voffset H file junk).yuv2rgb
      sA.y0 sA.u0 (B.chroma : Int)),
    (_, _, (VideoOut.new debug depth polarity hoffset W voffset H file junk).yuv2rgb
      (B.luma : Int) sA.u0 (B.chroma : Int))] = _
  rw [y1, y2]
  simp

/-- Witness of C14 on a 4 x 2 engine: after four samples (one complete line) and calls
that are not samples, the pair (90, 100), (91, 101) lands in columns 0 and 1 of row 1. -/
theorem C14_yuv422_pairing_witness :
    pixelWrites (((VideoOut.new 0 8 0 0 4 0 2 snapshotName Uninit.zero).exec
      (demoHist422.map De422.call)).step (De422.call ⟨10, 1, 1, 90, 100⟩)).out = [] ∧
    pixelWrites (((VideoOut.new 0 8 0 0 4 0 2 snapshotName Uninit.zero).exec
      ((demoHist422 ++ (⟨10, 1, 1, 90, 100⟩ : De422) :: demoGap422).map De422.call)).step
        (De422.call ⟨14, 1, 1, 91, 101⟩)).out =
      [(((samples422 0 demoHist422 % 4 : Nat) : Int), ((samples422 0 demoHist422 / 4 % 2 : Nat) : Int),
          (VideoOut.new 0 8 0 0 4 0 2 snapshotName Uninit.zero).yuv2rgb
            ((90 : Nat) : Int) ((100 : Nat) : Int) ((101 : Nat) : Int)),
       (((samples422 0 demoHist422 % 4 + 1 : Nat) : Int),
          ((samples422 0 demoHist422 / 4 % 2 : Nat) : Int),
          (VideoOut.new 0 8 0 0 4 0 2 snapshotName Uninit.zero).yuv2rgb
            ((91 : Nat) : Int) ((100 : Nat) : Int) ((101 : Nat) : Int))] :=
  (C14_yuv422_pairing 0 8 0 0 4 0 2 snapshotName Uninit.zero (by decide) (by decide) (by decide)
    (by decide) (by decide) demoHist422 demoGap422 ⟨10, 1, 1, 90, 100⟩ ⟨14, 1, 1, 91, 101⟩
    (by decide) (by decide) (by decide) (by decide)).2

/-! ### Whole-frame reconstruction of 4:2:0 under lock-step feeding -/

theorem boundaryCount_append (as bs : List Call) (s : VideoOut) :
    boundaryCount s (as ++ bs) = boundaryCount s as + boundaryCount (s.exec as) bs := by
  induction as generalizing s with
  | nil => simp [boundaryCount, VideoOut.exec]
  | cons a as ih =>
    show (if signalsBoundary s a = true then 1 else 0) + boundaryCount (s.step a).st (as ++ bs) =
      ((if signalsBoundary s a = true then 1 else 0) + boundaryCount (s.step a).st as) +
        boundaryCount ((s.step a).st.exec as) bs
    rw [ih, Nat.add_assoc]

theorem exec_yuv2rgb (cs : List Call) (s : VideoOut) : (s.exec cs).yuv2rgb = s.yuv2rgb :=
  yuv2rgb_config (exec_config cs s)

theorem step420_fall (t : VideoOut) (de_y de_c luma chroma : Nat) :
    t.step (Call.YUV420_DE 0 0 de_y de_c luma chroma) = idle t 0 := by
  simp only [VideoOut.step, eval_YUV420_DE_eq]
  rw [if_neg (by simp)]

theorem step420_rise (s : VideoOut) (de_y de_c luma chroma : Nat) (hp : s.prev_clk = 0) :
    s.step (Call.YUV420_DE 0 1 de_y de_c luma chroma) =
      emitPart (chromaPart (lumaPart s de_y luma) de_c chroma) 0 1 := by
  simp only [VideoOut.step, eval_YUV420_DE_eq]
  rw [if_pos ⟨by decide, hp⟩]

/-- A sample after which no two lines are ready only stores. -/
theorem quiet_sample (s : VideoOut) (de_c luma chroma : Nat) (hp : s.prev_clk = 0)
    (hq : ¬ ready420 (chromaPart (lumaPart s 1 luma) de_c chroma)) :
    s.exec (sample420 de_c luma chroma) =
      { chromaPart (lumaPart s 1 luma) de_c chroma with prev_clk := 0 } ∧
    pixelWrites (s.trace (sample420 de_c luma chroma)) = [] ∧
    boundaryCount s (sample420 de_c luma chroma) = 0 := by
  have h1 := step420_rise s 1 de_c luma chroma hp
  rw [emitPart_idle _ _ _ hq] at h1
  have hb : ¬ boundary420 (chromaPart (lumaPart s 1 luma) de_c chroma) := fun h => hq h.1
  refine ⟨?_, ?_, ?_⟩
  · simp only [sample420, VideoOut.exec, h1, step420_fall]
    rfl
  · simp only [sample420, VideoOut.trace, h1, step420_fall]
    rfl
  · simp only [sample420, boundaryCount, signalsBoundary, hb, and_false, decide_False]
    simp

theorem RowIs_set (b : List (List Int)) (r n : Nat) (g : Nat → Nat) (hr : r < b.length)
    (hn : n < (b.getD r []).length) (h : RowIs b r n g) :
    RowIs (bufSet b r n ((g n : Nat) : Int)) r (n + 1) g := by
  intro x hx
  by_cases hxn : x = n
  · subst hxn
    exact bufGet_bufSet_self b r x _ hr hn
  · rw [bufGet_bufSet_col b r n x _ (fun e => hxn e.symm)]
    exact h x (by omega)

theorem RowIs_other (b : List (List Int)) (r r' h m : Nat) (v : Int) (g : Nat → Nat)
    (hne : r ≠ r') (hg : RowIs b r' m g) : RowIs (bufSet b r h v) r' m g := by
  intro x hx
  rw [bufGet_bufSet_row b r h r' x v hne]
  exact hg x hx

theorem line420_succ (de_c : Nat) (ys cs : Nat → Nat) (n : Nat) :
    line420 de_c ys cs (n + 1) = line420 de_c ys cs n ++ sample420 de_c (ys n) (cs n) := rfl

theorem ring_lt (n : Nat) : n &&& 3 < 16 ∧ n &&& 1 < 8 := by
  rw [and_three, and_one]
  omega

/-- Invariant of a line fed with the chroma enable high at the start of line pair k. -/
theorem lineA_inv (W H k : Nat) (hW : 0 < W) (hW16 : W < 65536) (hk : 2 * k + 2 < 65536)
    (ys cs : Nat → Nat) (s : VideoOut) (hs : St420 s W H 0 (2 * k) 0 k (2 * k))
    (hp : s.prev_clk = 0) :
    ∀ n, n ≤ W →
      St420 (s.exec (line420 1 ys cs n)) W H (if n = W then 0 else n)
        (if n = W then 2 * k + 1 else 2 * k) (if n = W then 0 else n)
        (if n = W then k + 1 else k) (2 * k) ∧
      (s.exec (line420 1 ys cs n)).prev_clk = 0 ∧
      RowIs (s.exec (line420 1 ys cs n)).y_buf ((2 * k) &&& 3) n ys ∧
      RowIs (s.exec (line420 1 ys cs n)).c_buf (k &&& 1) n cs ∧
      pixelWrites (s.trace (line420 1 ys cs n)) = [] ∧
      boundaryCount s (line420 1 ys cs n) = 0 := by
  intro n
  induction n with
  | zero =>
    intro _
    simp only [if_neg (show 0 ≠ W by omega)]
    exact ⟨hs, hp, fun x hx => absurd hx (Nat.not_lt_zero x),
      fun x hx => absurd hx (Nat.not_lt_zero x), rfl, rfl⟩
  | succ n ih =>
    intro hn
    obtain ⟨i1, i2, i3, i4, i5, i6⟩ := ih (by omega)
    have hne : n ≠ W := by omega
    simp only [if_neg hne] at i1
    rw [line420_succ, exec_append, trace_append, boundaryCount_append, pixelWrites_append, i5, i6]
    generalize s.exec (line420 1 ys cs n) = t at *
    obtain ⟨l1, l2, l3⟩ := lumaPart_St t W H n (2 * k) n k (2 * k) i1 (by omega) hW16 (by omega)
      1 (ys n) (by decide)
    obtain ⟨c1, c2, c3⟩ := chromaPart_St (lumaPart t 1 (ys n)) W H _ _ n k (2 * k) l1 (by omega)
      hW16 (by omega) 1 (cs n) (by decide)
    have hq : ¬ ready420 (chromaPart (lumaPart t 1 (ys n)) 1 (cs n)) := by
      obtain ⟨-, ⟨-, v1⟩, -, v, -⟩ := c1
      unfold ready420
      rw [v1, v]
      split_ifs <;> omega
    obtain ⟨q1, q2, q3⟩ := quiet_sample t 1 (ys n) (cs n) i2 hq
    obtain ⟨-, -, -, -, ⟨dy, dyr⟩, ⟨dc, dcr⟩⟩ := i1
    rw [q1, q2, q3]
    refine ⟨c1, rfl, ?_, ?_, rfl, rfl⟩
    · show RowIs (chromaPart (lumaPart t 1 (ys n)) 1 (cs n)).y_buf _ _ _
      rw [c3, l2]
      exact RowIs_set _ _ _ _ (by rw [dy]; exact (ring_lt _).1)
        (by rw [dyr _ (ring_lt _).1]; omega) i3
    · show RowIs (chromaPart (lumaPart t 1 (ys n)) 1 (cs n)).c_buf _ _ _
      rw [c2, l3]
      exact RowIs_set _ _ _ _ (by rw [dc]; exact (ring_lt _).2)
        (by rw [dcr _ (ring_lt _).2]; omega) i4

/-- Invariant of the second luma line of line pair k, fed with the chroma enable low,
before its last sample. -/
theorem lineB_inv (W H k : Nat) (hW16 : W < 65536) (hk : 2 * k + 2 < 65536)
    (ys cs : Nat → Nat) (s : VideoOut) (hs : St420 s W H 0 (2 * k + 1) 0 (k + 1) (2 * k))
    (hp : s.prev_clk = 0) (ys0 : Nat → Nat) (hy0 : RowIs s.y_buf ((2 * k) &&& 3) W ys0) :
    ∀ n, n < W →
      St420 (s.exec (line420 0 ys cs n)) W H n (2 * k + 1) 0 (k + 1) (2 * k) ∧
      (s.exec (line420 0 ys cs n)).prev_clk = 0 ∧
      RowIs (s.exec (line420 0 ys cs n)).y_buf ((2 * k + 1) &&& 3) n ys ∧
      RowIs (s.exec (line420 0 ys cs n)).y_buf ((2 * k) &&& 3) W ys0 ∧
      (s.exec (line420 0 ys cs n)).c_buf = s.c_buf ∧
      pixelWrites (s.trace (line420 0 ys cs n)) = [] ∧
      boundaryCount s (line420 0 ys cs n) = 0 := by
  intro n
  induction n with
  | zero =>
    intro _
    exact ⟨hs, hp, fun x hx => absurd hx (Nat.not_lt_zero x), hy0, rfl, rfl, rfl⟩
  | succ n ih =>
    intro hn
    obtain ⟨i1, i2, i3, i4, i5, i6, i7⟩ := ih (by omega)
    rw [line420_succ, exec_append, trace_append, boundaryCount_append, pixelWrites_append, i6, i7]
    generalize s.exec (line420 0 ys cs n) = t at *
    obtain ⟨l1, l2, l3⟩ := lumaPart_St t W H n (2 * k + 1) 0 (k + 1) (2 * k) i1 (by omega) hW16
      (by omega) 1 (ys n) (by decide)
    rw [if_neg (show n + 1 ≠ W by omega), if_neg (show n + 1 ≠ W by omega)] at l1
    have hq : ¬ ready420 (chromaPart (lumaPart t 1 (ys n)) 0 (cs n)) := by
      rw [chromaPart_off]
      obtain ⟨-, ⟨-, v1⟩, -, v, -⟩ := l1
      unfold ready420
      rw [v1, v]
      omega
    obtain ⟨q1, q2, q3⟩ := quiet_sample t 0 (ys n) (cs n) i2 hq
    obtain ⟨-, -, -, -, ⟨dy, dyr⟩, -⟩ := i1
    rw [q1, q2, q3, chromaPart_off]
    have hrow : (2 * k + 1) &&& 3 ≠ (2 * k) &&& 3 := by
      rw [and_three, and_three]
      omega
    refine ⟨l1, rfl, ?_, ?_, ?_, rfl, rfl⟩
    · show RowIs (lumaPart t 1 (ys n)).y_buf _ _ _
      rw [l2]
      exact RowIs_set _ _ _ _ (by rw [dy]; exact (ring_lt _).1)
        (by rw [dyr _ (ring_lt _).1]; omega) i3
    · show RowIs (lumaPart t 1 (ys n)).y_buf _ _ _
      rw [l2]
      exact RowIs_other _ _ _ _ _ _ _ hrow i4
    · show (lumaPart t 1 (ys n)).c_buf = _
      rw [l3]
      exact i5

theorem emitWrites_rows (s : VideoOut) (F : Frame420) (k m l c : Nat)
    (f : Int → Int → Int → RGBApixel) (hf : s.yuv2rgb = f) (hv : s.vcount = 2 * k)
    (r0 : RowIs s.y_buf l (2 * m) (F.Y (2 * k)))
    (r1 : RowIs s.y_buf (l + 1) (2 * m) (F.Y (2 * k + 1)))
    (rc : RowIs s.c_buf c (2 * m) (F.C k)) : emitWrites s l c m = pairWrites f F k m := by
  unfold emitWrites pairWrites
  congr 1
  apply List.map_congr_left
  intro j hj
  have hjm : j < m := List.mem_range.1 hj
  rw [r0 (2 * j) (by omega), r0 (2 * j + 1) (by omega), r1 (2 * j) (by omega),
    r1 (2 * j + 1) (by omega), rc (2 * j) (by omega), rc (2 * j + 1) (by omega), hf, hv]

/-- The last sample of luma line 2k+1 emits line pair k and moves to the next pair,
rewinding at the end of the frame. -/
theorem loud_sample (W H k : Nat) (hW : 2 ≤ W) (hWe : W % 2 = 0) (hW16 : W < 65536)
    (hHe : H % 2 = 0) (hH16 : H < 65536) (hk : 2 * k + 2 ≤ H) (F : Frame420)
    (f : Int → Int → Int → RGBApixel) (t : VideoOut)
    (ht : St420 t W H (W - 1) (2 * k + 1) 0 (k + 1) (2 * k)) (hp : t.prev_clk = 0)
    (hf : t.yuv2rgb = f) (r1 : RowIs t.y_buf ((2 * k + 1) &&& 3) (W - 1) (F.Y (2 * k + 1)))
    (r0 : RowIs t.y_buf ((2 * k) &&& 3) W (F.Y (2 * k)))
    (rc : RowIs t.c_buf (k &&& 1) W (F.C k)) (z : Nat) :
    pixelWrites (t.step (Call.YUV420_DE 0 1 1 0 (F.Y (2 * k + 1) (W - 1)) z)).out =
      pairWrites f F k (W / 2) ∧
    (signalsBoundary t (Call.YUV420_DE 0 1 1 0 (F.Y (2 * k + 1) (W - 1)) z) = true ↔
      2 * k + 2 = H) ∧
    PairStart (t.exec (sample420 0 (F.Y (2 * k + 1) (W - 1)) z)) W H
      (if 2 * k + 2 = H then 0 else k + 1) f := by
  have hstep := step420_rise t 1 0 (F.Y (2 * k + 1) (W - 1)) z hp
  rw [chromaPart_off] at hstep
  obtain ⟨l1, l2, l3⟩ := lumaPart_St t W H (W - 1) (2 * k + 1) 0 (k + 1) (2 * k) ht (by omega)
    hW16 (by omega) 1 (F.Y (2 * k + 1) (W - 1)) (by decide)
  rw [if_pos (show W - 1 + 1 = W by omega), if_pos (show W - 1 + 1 = W by omega)] at l1
  obtain ⟨-, -, -, -, ⟨dy, dyr⟩, -⟩ := ht
  have hrow : (2 * k + 1) &&& 3 ≠ (2 * k) &&& 3 := by
    rw [and_three, and_three]
    omega
  have hrow1 : ((2 * k) &&& 3) + 1 = (2 * k + 1) &&& 3 := by
    rw [and_three, and_three]
    omega
  have q1 : RowIs (lumaPart t 1 (F.Y (2 * k + 1) (W - 1))).y_buf (((2 * k) &&& 3) + 1) (2 * (W / 2))
      (F.Y (2 * k + 1)) := by
    rw [l2, hrow1, show 2 * (W / 2) = W - 1 + 1 by omega]
    exact RowIs_set _ _ _ _ (by rw [dy]; exact (ring_lt _).1)
      (by rw [dyr _ (ring_lt _).1]; omega) r1
  have q0 : RowIs (lumaPart t 1 (F.Y (2 * k + 1) (W - 1))).y_buf ((2 * k) &&& 3) (2 * (W / 2))
      (F.Y (2 * k)) := by
    rw [l2, show 2 * (W / 2) = W by omega]
    exact RowIs_other _ _ _ _ _ _ _ hrow r0
  have qc : RowIs (lumaPart t 1 (F.Y (2 * k + 1) (W - 1))).c_buf (k &&& 1) (2 * (W / 2))
      (F.C k) := by
    rw [l3, show 2 * (W / 2) = W by omega]
    exact rc
  have qf : (lumaPart t 1 (F.Y (2 * k + 1) (W - 1))).yuv2rgb = f := by
    rw [yuv2rgb_config (lumaPart_config t 1 _), hf]
  have hcf := config_fields (emitPart_config (lumaPart t 1 (F.Y (2 * k + 1) (W - 1))) 0 1)
  have hvc := emitPart_vcount (lumaPart t 1 (F.Y (2 * k + 1) (W - 1))) 0 1
  have hv1 := emitPart_vcount1 (lumaPart t 1 (F.Y (2 * k + 1) (W - 1))) 0 1
  have hv2 := emitPart_vcount2 (lumaPart t 1 (F.Y (2 * k + 1) (W - 1))) 0 1
  have hsm := emitPart_same (lumaPart t 1 (F.Y (2 * k + 1) (W - 1))) 0 1
  have hpw := emitPart_pixelWrites (lumaPart t 1 (F.Y (2 * k + 1) (W - 1))) 0 1
  have hsb : signalsBoundary t (Call.YUV420_DE 0 1 1 0 (F.Y (2 * k + 1) (W - 1)) z) = true ↔
      boundary420 (lumaPart t 1 (F.Y (2 * k + 1) (W - 1))) := by
    simp only [signalsBoundary, decide_eq_true_eq, chromaPart_off]
    exact ⟨fun h => h.2, fun h => ⟨⟨by decide, hp⟩, h⟩⟩
  generalize lumaPart t 1 (F.Y (2 * k + 1) (W - 1)) = s2 at *
  obtain ⟨⟨w1, w2⟩, ⟨w3, w4⟩, ⟨w5, w6⟩, w7, w8⟩ := l1
  have hready : ready420 s2 := by
    unfold ready420
    rw [w4, w6, w7]
    omega
  have hu : u16 (2 * k + 2) = 2 * k + 2 := Nat.mod_eq_of_lt (by omega)
  have hbd : boundary420 s2 ↔ 2 * k + 2 = H := by
    unfold boundary420
    rw [w4, w6, w7, hu, w2]
    constructor
    · exact fun h => h.2
    · exact fun h => ⟨⟨by omega, by omega⟩, h⟩
  refine ⟨?_, ?_, ?_⟩
  · rw [hstep, hpw, if_pos hready, w4, w6, w1, (luma_ring k).1, chroma_ring,
      show (W + 1) / 2 = W / 2 by omega]
    exact emitWrites_rows s2 F k (W / 2) _ _ f qf w7 q0 q1 qc
  · exact hsb.trans hbd
  · simp only [sample420, VideoOut.exec, hstep, step420_fall]
    refine ⟨⟨⟨?_, ?_⟩, ⟨?_, ?_⟩, ⟨?_, ?_⟩, ?_, ?_⟩, rfl, ?_⟩
    · exact hcf.2.2.2.2.2.2.2.1.trans w1
    · exact hcf.2.2.2.2.2.2.2.2.1.trans w2
    · exact hsm.1.1.trans w3
    · show (emitPart s2 0 1).st.vcount1 = _
      rw [hv1, w4, w2]
      by_cases hb : 2 * k + 2 = H
      · rw [if_pos (hbd.2 hb), if_pos hb]
        unfold u16i
        omega
      · rw [if_neg (fun h => hb (hbd.1 h)), if_neg hb]
        omega
    · exact hsm.1.2.trans w5
    · show (emitPart s2 0 1).st.vcount2 = _
      rw [hv2, w6, w2]
      by_cases hb : 2 * k + 2 = H
      · rw [if_pos (hbd.2 hb), if_pos hb]
        unfold u16i
        omega
      · rw [if_neg (fun h => hb (hbd.1 h)), if_neg hb]
    · show (emitPart s2 0 1).st.vcount = _
      rw [hvc, if_pos hready, w7, hu, w2]
      by_cases hb : 2 * k + 2 = H
      · rw [if_pos hb, if_pos hb]
      · rw [if_neg hb, if_neg hb]
        omega
    · show Dims (emitPart s2 0 1).st W
      unfold Dims
      rw [hsm.2.1.1, hsm.2.1.2]
      exact w8
    · show (emitPart s2 0 1).st.yuv2rgb = f
      rw [yuv2rgb_config (emitPart_config s2 0 1)]
      exact qf

theorem pair420_split (W : Nat) (hW : 0 < W) (F : Frame420) (k : Nat) :
    pair420 W F k = pairHead420 W F k ++
      sample420 0 (F.Y (2 * k + 1) (W - 1)) (F.Z k (W - 1)) := by
  obtain ⟨m, rfl⟩ : ∃ m, W = m + 1 := ⟨W - 1, by omega⟩
  simp only [pair420, pairHead420, line420_succ, Nat.add_sub_cancel, List.append_assoc]

/-- One line pair under lock-step feeding: nothing is written before the last sample of
luma line 2k+1, which writes the whole pair and is the frame boundary exactly for the
last pair of the frame. -/
theorem pair_inv (W H k : Nat) (hW : 2 ≤ W) (hWe : W % 2 = 0) (hW16 : W < 65536)
    (hHe : H % 2 = 0) (hH16 : H < 65536) (hk : 2 * k + 2 ≤ H) (F : Frame420)
    (f : Int → Int → Int → RGBApixel) (s : VideoOut) (hs : PairStart s W H k f) :
    (pixelWrites (s.trace (pairHead420 W F k)) = [] ∧
      boundaryCount s (pairHead420 W F k) = 0) ∧
    (pixelWrites ((s.exec (pairHead420 W F k)).step (pairLast420 W F k)).out =
      pairWrites f F k (W / 2) ∧
      (signalsBoundary (s.exec (pairHead420 W F k)) (pairLast420 W F k) = true ↔
        2 * k + 2 = H)) ∧
    PairStart (s.exec (pair420 W F k)) W H (if 2 * k + 2 = H then 0 else k + 1) f ∧
    pixelWrites (s.trace (pair420 W F k)) = pairWrites f F k (W / 2) := by
  obtain ⟨hs1, hp, hf⟩ := hs
  obtain ⟨a1, a2, a3, a4, a5, a6⟩ := lineA_inv W H k (by omega) hW16 (by omega) (F.Y (2 * k))
    (F.C k) s hs1 hp W (Nat.le_refl W)
  simp only [if_pos] at a1
  have af := exec_yuv2rgb (line420 1 (F.Y (2 * k)) (F.C k) W) s
  obtain ⟨b1, b2, b3, b4, b5, b6, b7⟩ := lineB_inv W H k hW16 (by omega) (F.Y (2 * k + 1))
    (F.Z k) (s.exec (line420 1 (F.Y (2 * k)) (F.C k) W)) a1 a2 (F.Y (2 * k)) a3 (W - 1) (by omega)
  have bf := exec_yuv2rgb (line420 0 (F.Y (2 * k + 1)) (F.Z k) (W - 1))
    (s.exec (line420 1 (F.Y (2 * k)) (F.C k) W))
  have hhead : s.exec (pairHead420 W F k) =
      (s.exec (line420 1 (F.Y (2 * k)) (F.C k) W)).exec
        (line420 0 (F.Y (2 * k + 1)) (F.Z k) (W - 1)) := by
    rw [pairHead420, exec_append]
  have hw0 : pixelWrites (s.trace (pairHead420 W F k)) = [] := by
    rw [pairHead420, trace_append, pixelWrites_append, a5, b6]
    rfl
  have hb0 : boundaryCount s (pairHead420 W F k) = 0 := by
    rw [pairHead420, boundaryCount_append, a6, b7]
  obtain ⟨c1, c2, c3⟩ := loud_sample W H k hW hWe hW16 hHe hH16 hk F f _ b1 b2
    (by rw [bf, af, hf]) b3 b4 (by rw [b5]; exact a4) (F.Z k (W - 1))
  rw [← hhead] at c1 c2 c3
  refine ⟨⟨hw0, hb0⟩, ⟨c1, c2⟩, ?_, ?_⟩
  · rw [pair420_split W (by omega), exec_append]
    exact c3
  · rw [pair420_split W (by omega), trace_append, pixelWrites_append, hw0, List.nil_append]
    simp only [sample420, VideoOut.trace, step420_fall, pixelWrites_append]
    rw [show pixelWrites ((s.exec (pairHead420 W F k)).step
        (Call.YUV420_DE 0 1 1 0 (F.Y (2 * k + 1) (W - 1)) (F.Z k (W - 1)))).out =
        pairWrites f F k (W / 2) from c1]
    simp [idle]

/-- The first n line pairs of a frame under lock-step feeding. -/
theorem frame_inv (W H : Nat) (hW : 2 ≤ W) (hWe : W % 2 = 0) (hW16 : W < 65536)
    (hHe : H % 2 = 0) (hH16 : H < 65536) (F : Frame420)
    (f : Int → Int → Int → RGBApixel) (s : VideoOut) (hs : PairStart s W H 0 f) :
    ∀ n, 2 * n ≤ H →
      PairStart (s.exec (frame420 W F n)) W H (if 2 * n = H then 0 else n) f ∧
      pixelWrites (s.trace (frame420 W F n)) = frameWrites f W F n := by
  intro n
  induction n with
  | zero =>
    intro _
    have h0 : (if 2 * 0 = H then 0 else 0) = 0 := by split_ifs <;> rfl
    rw [h0]
    exact ⟨hs, rfl⟩
  | succ n ih =>
    intro hn
    obtain ⟨i1, i2⟩ := ih (by omega)
    rw [if_neg (show 2 * n ≠ H by omega)] at i1
    obtain ⟨-, -, p1, p2⟩ := pair_inv W H n hW hWe hW16 hHe hH16 (by omega) F f _ i1
    have e : (if 2 * n + 2 = H then 0 else n + 1) = (if 2 * (n + 1) = H then 0 else n + 1) := by
      split_ifs <;> first | rfl | omega
    rw [e] at p1
    refine ⟨?_, ?_⟩
    · show PairStart (s.exec (frame420 W F n ++ pair420 W F n)) W H _ f
      rw [exec_append]
      exact p1
    · show pixelWrites (s.trace (frame420 W F n ++ pair420 W F n)) =
        frameWrites f W F n ++ pairWrites f F n (W / 2)
      rw [trace_append, pixelWrites_append, i2, p2]

/-- Complete frames lead from a frame start to a frame start. -/
theorem feed_inv (W H : Nat) (hW : 2 ≤ W) (hWe : W % 2 = 0) (hW16 : W < 65536)
    (hHe : H % 2 = 0) (hH16 : H < 65536) (f : Int → Int → Int → RGBApixel)
    (Fs : List Frame420) :
    ∀ s : VideoOut, PairStart s W H 0 f → PairStart (s.exec (feed420 W H Fs)) W H 0 f := by
  induction Fs with
  | nil => intro s hs; exact hs
  | cons F Fs ih =>
    intro s hs
    have h := (frame_inv W H hW hWe hW16 hHe hH16 F f s hs (H / 2) (by omega)).1
    rw [if_pos (show 2 * (H / 2) = H by omega)] at h
    show PairStart (s.exec (frame420 W F (H / 2) ++ feed420 W H Fs)) W H 0 f
    rw [exec_append]
    exact ih _ h

theorem mem_blockWrites (f : Int → Int → Int → RGBApixel) (i v a0 a1 b0 b1 cb cr : Int)
    (w : Int × Int × RGBApixel) (h : w ∈ blockWrites f i v a0 a1 b0 b1 cb cr) :
    (w.1 = i ∨ w.1 = i + 1) ∧ (w.2.1 = v ∨ w.2.1 = v + 1) := by
  simp only [blockWrites, List.mem_cons, List.mem_singleton, List.not_mem_nil, or_false] at h
  rcases h with rfl | rfl | rfl | rfl <;> simp

theorem pairWrites_succ (f : Int → Int → Int → RGBApixel) (F : Frame420) (k m : Nat) :
    pairWrites f F k (m + 1) = pairWrites f F k m ++
      blockWrites f ((2 * m : Nat) : Int) ((2 * k : Nat) : Int)
        ((F.Y (2 * k) (2 * m) : Nat) : Int) ((F.Y (2 * k) (2 * m + 1) : Nat) : Int)
        ((F.Y (2 * k + 1) (2 * m) : Nat) : Int) ((F.Y (2 * k + 1) (2 * m + 1) : Nat) : Int)
        ((F.C k (2 * m) : Nat) : Int) ((F.C k (2 * m + 1) : Nat) : Int) := by
  simp only [pairWrites, List.range_succ, List.map_append, List.flatten_append, List.map_cons,
    List.map_nil, List.flatten_cons, List.flatten_nil, List.append_nil]

theorem mem_pairWrites (f : Int → Int → Int → RGBApixel) (F : Frame420) (k m : Nat)
    (w : Int × Int × RGBApixel) (h : w ∈ pairWrites f F k m) :
    (0 ≤ w.1 ∧ w.1 < ((2 * m : Nat) : Int)) ∧
      (w.2.1 = ((2 * k : Nat) : Int) ∨ w.2.1 = ((2 * k : Nat) : Int) + 1) := by
  induction m with
  | zero => simp [pairWrites] at h
  | succ m ih =>
    rw [pairWrites_succ, List.mem_append] at h
    rcases h with h | h
    · obtain ⟨⟨h1, h2⟩, h3⟩ := ih h
      exact ⟨⟨h1, by push_cast at h2 ⊢; omega⟩, h3⟩
    · obtain ⟨h1, h2⟩ := mem_blockWrites _ _ _ _ _ _ _ _ _ w h
      refine ⟨?_, h2⟩
      push_cast at h1 ⊢
      omega

theorem mem_frameWrites (f : Int → Int → Int → RGBApixel) (W : Nat) (F : Frame420) (n : Nat)
    (w : Int × Int × RGBApixel) (h : w ∈ frameWrites f W F n) :
    w.2.1 < ((2 * n : Nat) : Int) := by
  induction n with
  | zero => simp [frameWrites] at h
  | succ n ih =>
    simp only [frameWrites, List.mem_append] at h
    rcases h with h | h
    · have := ih h
      push_cast at this ⊢
      omega
    · have := (mem_pairWrites f F n (W / 2) w h).2
      push_cast at this ⊢
      omega

theorem blockWrites_once (f : Int → Int → Int → RGBApixel) (F : Frame420) (k j e d : Nat)
    (he : e < 2) (hd : d < 2) :
    (blockWrites f ((2 * j : Nat) : Int) ((2 * k : Nat) : Int)
        ((F.Y (2 * k) (2 * j) : Nat) : Int) ((F.Y (2 * k) (2 * j + 1) : Nat) : Int)
        ((F.Y (2 * k + 1) (2 * j) : Nat) : Int) ((F.Y (2 * k + 1) (2 * j + 1) : Nat) : Int)
        ((F.C k (2 * j) : Nat) : Int) ((F.C k (2 * j + 1) : Nat) : Int)).filter
      (fun w => decide (w.1 = ((2 * j + e : Nat) : Int) ∧ w.2.1 = ((2 * k + d : Nat) : Int))) =
    [(((2 * j + e : Nat) : Int), ((2 * k + d : Nat) : Int),
      f ((F.Y (2 * k + d) (2 * j + e) : Nat) : Int) ((F.C k (2 * j) : Nat) : Int)
        ((F.C k (2 * j + 1) : Nat) : Int))] := by
  have he' : e = 0 ∨ e = 1 := by omega
  have hd' : d = 0 ∨ d = 1 := by omega
  rcases he' with rfl | rfl <;> rcases hd' with rfl | rfl <;>
    simp [blockWrites, List.filter_cons]

/-- Among the writes of line pair k, pixel (x, y) of the pair occurs exactly once. -/
theorem pairWrites_once (f : Int → Int → Int → RGBApixel) (F : Frame420) (k m x y : Nat)
    (hx : x < 2 * m) (hy : y / 2 = k) :
    (pairWrites f F k m).filter
      (fun w => decide (w.1 = ((x : Nat) : Int) ∧ w.2.1 = ((y : Nat) : Int))) =
    [(((x : Nat) : Int), ((y : Nat) : Int),
      f ((F.Y y x : Nat) : Int) ((F.C k (2 * (x / 2)) : Nat) : Int)
        ((F.C k (2 * (x / 2) + 1) : Nat) : Int))] := by
  induction m with
  | zero => omega
  | succ m ih =>
    rw [pairWrites_succ, List.filter_append]
    by_cases hxm : x < 2 * m
    · rw [ih hxm]
      have hnil : (blockWrites f ((2 * m : Nat) : Int) ((2 * k : Nat) : Int)
          ((F.Y (2 * k) (2 * m) : Nat) : Int) ((F.Y (2 * k) (2 * m + 1) : Nat) : Int)
          ((F.Y (2 * k + 1) (2 * m) : Nat) : Int) ((F.Y (2 * k + 1) (2 * m + 1) : Nat) : Int)
          ((F.C k (2 * m) : Nat) : Int) ((F.C k (2 * m + 1) : Nat) : Int)).filter
          (fun w => decide (w.1 = ((x : Nat) : Int) ∧ w.2.1 = ((y : Nat) : Int))) = [] := by
        rw [List.filter_eq_nil_iff]
        intro w hw
        have := (mem_blockWrites _ _ _ _ _ _ _ _ _ w hw).1
        simp only [decide_eq_true_eq, not_and]
        intro h1
        push_cast at this
        omega
      rw [hnil, List.append_nil]
    · have hnil : (pairWrites f F k m).filter
          (fun w => decide (w.1 = ((x : Nat) : Int) ∧ w.2.1 = ((y : Nat) : Int))) = [] := by
        rw [List.filter_eq_nil_iff]
        intro w hw
        have := (mem_pairWrites f F k m w hw).1
        simp only [decide_eq_true_eq, not_and]
        intro h1
        push_cast at this
        omega
      rw [hnil, List.nil_append]
      have hxe : x = 2 * m + x % 2 := by omega
      have hye : y = 2 * k + y % 2 := by omega
      have hx2 : x / 2 = m := by omega
      rw [hx2]
      have key := blockWrites_once f F k m (x % 2) (y % 2) (Nat.mod_lt _ (by decide))
        (Nat.mod_lt _ (by decide))
      rw [← hxe, ← hye] at key
      exact key

/-- Among the writes of the first n line pairs, each pixel of rows 0 .. 2n-1 occurs
exactly once, with the luma of its own position and the chroma pair of its block. -/
theorem frameWrites_once (f : Int → Int → Int → RGBApixel) (W : Nat) (hWe : W % 2 = 0)
    (F : Frame420) (n x y : Nat) (hx : x < W) (hy : y < 2 * n) :
    (frameWrites f W F n).filter
      (fun w => decide (w.1 = ((x : Nat) : Int) ∧ w.2.1 = ((y : Nat) : Int))) =
    [(((x : Nat) : Int), ((y : Nat) : Int),
      f ((F.Y y x : Nat) : Int) ((F.C (y / 2) (2 * (x / 2)) : Nat) : Int)
        ((F.C (y / 2) (2 * (x / 2) + 1) : Nat) : Int))] := by
  induction n with
  | zero => omega
  | succ n ih =>
    simp only [frameWrites, List.filter_append]
    by_cases hyn : y < 2 * n
    · rw [ih hyn]
      have hnil : (pairWrites f F n (W / 2)).filter
          (fun w => decide (w.1 = ((x : Nat) : Int) ∧ w.2.1 = ((y : Nat) : Int))) = [] := by
        rw [List.filter_eq_nil_iff]
        intro w hw
        have := (mem_pairWrites f F n (W / 2) w hw).2
        simp only [decide_eq_true_eq, not_and]
        intro _
        push_cast at this
        omega
      rw [hnil, List.append_nil]
    · have hnil : (frameWrites f W F n).filter
          (fun w => decide (w.1 = ((x : Nat) : Int) ∧ w.2.1 = ((y : Nat) : Int))) = [] := by
        rw [List.filter_eq_nil_iff]
        intro w hw
        have := mem_frameWrites f W F n w hw
        simp only [decide_eq_true_eq, not_and]
        intro _
        push_cast at this
        omega
      rw [hnil, List.nil_append]
      have hy2 : y / 2 = n := by omega
      rw [hy2]
      exact pairWrites_once f F n (W / 2) x y (by omega) hy2

/-- C15: on a fresh engine with even hor_size = W >= 2 and even ver_size = H (below
2^16; any even H, in particular H >= 2) fed through `eval_YUV420_DE` in lock step,
after any number of complete frames `prev`, the next frame F behaves as follows.  For
each line pair k < H div 2: the W samples of luma line 2k with chroma line k and the
first W-1 samples of luma line 2k+1 write no pixel and signal no frame boundary; the
last sample of luma line 2k+1 writes exactly the blocks of rows 2k and 2k+1
(`pairWrites`), and it signals the frame boundary exactly when k is the last pair.  The
writes of the whole frame are `frameWrites`; among them every pixel (x, y) with x < W,
y < H occurs exactly once, with value yuv2rgb(Y[y][x], C[y div 2][2*(x div 2)],
C[y div 2][2*(x div 2) + 1]).  After the frame vcount = vcount1 = vcount2 = hcount1 =
hcount2 = 0, as on the fresh engine. -/
theorem C15_yuv420_lockstep (debug depth polarity hoffset W voffset H : Nat) (file : List Nat)
    (junk : Uninit) (hW : 2 ≤ W) (hWe : W % 2 = 0) (hW16 : W < 65536) (hHe : H % 2 = 0)
    (hH16 : H < 65536) (prev : List Frame420) (F : Frame420) :
    (∀ k, k < H / 2 →
      (pixelWrites (((VideoOut.new debug depth polarity hoffset W voffset H file junk).exec
          (feed420 W H prev ++ frame420 W F k)).trace (pairHead420 W F k)) = [] ∧
        boundaryCount ((VideoOut.new debug depth polarity hoffset W voffset H file junk).exec
          (feed420 W H prev ++ frame420 W F k)) (pairHead420 W F k) = 0) ∧
      (pixelWrites (((VideoOut.new debug depth polarity hoffset W voffset H file junk).exec
          (feed420 W H prev ++ frame420 W F k ++ pairHead420 W F k)).step
            (pairLast420 W F k)).out =
          pairWrites (VideoOut.new debug depth polarity hoffset W voffset H file junk).yuv2rgb
            F k (W / 2) ∧
        (signalsBoundary ((VideoOut.new debug depth polarity hoffset W voffset H file junk).exec
          (feed420 W H prev ++ frame420 W F k ++ pairHead420 W F k)) (pairLast420 W F k) = true ↔
          k + 1 = H / 2))) ∧
    (pixelWrites (((VideoOut.new debug depth polarity hoffset W voffset H file junk).exec
        (feed420 W H prev)).trace (frame420 W F (H / 2))) =
      frameWrites (VideoOut.new debug depth polarity hoffset W voffset H file junk).yuv2rgb
        W F (H / 2) ∧
      ∀ x y, x < W → y < H →
        (pixelWrites (((VideoOut.new debug depth polarity hoffset W voffset H file junk).exec
          (feed420 W H prev)).trace (frame420 W F (H / 2)))).filter
          (fun w => decide (w.1 = ((x : Nat) : Int) ∧ w.2.1 = ((y : Nat) : Int))) =
        [(((x : Nat) : Int), ((y : Nat) : Int),
          (VideoOut.new debug depth polarity hoffset W voffset H file junk).yuv2rgb
            ((F.Y y x : Nat) : Int) ((F.C (y / 2) (2 * (x / 2)) : Nat) : Int)
            ((F.C (y / 2) (2 * (x / 2) + 1) : Nat) : Int))]) ∧
    (((VideoOut.new debug depth polarity hoffset W voffset H file junk).exec
        (feed420 W H prev ++ frame420 W F (H / 2))).vcount = 0 ∧
      ((VideoOut.new debug depth polarity hoffset W voffset H file junk).exec
        (feed420 W H prev ++ frame420 W F (H / 2))).vcount1 = 0 ∧
      ((VideoOut.new debug depth polarity hoffset W voffset H file junk).exec
        (feed420 W H prev ++ frame420 W F (H / 2))).vcount2 = 0 ∧
      ((VideoOut.new debug depth polarity hoffset W voffset H file junk).exec
        (feed420 W H prev ++ frame420 W F (H / 2))).hcount1 = 0 ∧
      ((VideoOut.new debug depth polarity hoffset W voffset H file junk).exec
        (feed420 W H prev ++ frame420 W F (H / 2))).hcount2 = 0) := by
  have hE : PairStart (VideoOut.new debug depth polarity hoffset W voffset H file junk) W H 0
      (VideoOut.new debug depth polarity hoffset W voffset H file junk).yuv2rgb :=
    ⟨⟨⟨rfl, rfl⟩, ⟨rfl, rfl⟩, ⟨rfl, rfl⟩, rfl, Dims_new _ _ _ _ _ _ _ _ _⟩, rfl, rfl⟩
  have hS := feed_inv W H hW hWe hW16 hHe hH16 _ prev _ hE
  generalize (VideoOut.new debug depth polarity hoffset W voffset H file junk).yuv2rgb = f at *
  simp only [exec_append]
  generalize (VideoOut.new debug depth polarity hoffset W voffset H file junk).exec
    (feed420 W H prev) = S at *
  refine ⟨?_, ?_, ?_⟩
  · intro k hk
    have h1 := (frame_inv W H hW hWe hW16 hHe hH16 F f S hS k (by omega)).1
    rw [if_neg (show 2 * k ≠ H by omega)] at h1
    obtain ⟨p1, ⟨p2, p3⟩, -, -⟩ := pair_inv W H k hW hWe hW16 hHe hH16 (by omega) F f _ h1
    refine ⟨p1, p2, p3.trans ?_⟩
    omega
  · have h2 := (frame_inv W H hW hWe hW16 hHe hH16 F f S hS (H / 2) (by omega)).2
    refine ⟨h2, ?_⟩
    intro x y hx hy
    rw [h2]
    exact frameWrites_once f W hWe F (H / 2) x y hx (by omega)
  · have h3 := (frame_inv W H hW hWe hW16 hHe hH16 F f S hS (H / 2) (by omega)).1
    rw [if_pos (show 2 * (H / 2) = H by omega)] at h3
    obtain ⟨⟨-, ⟨e1, e2⟩, ⟨e3, e4⟩, e5, -⟩, -, -⟩ := h3
    exact ⟨e5, e2, e4, e1, e3⟩

/-- Witness of C15 on a 4 x 6 engine (H not a multiple of 4), second frame: the last
sample of the frame writes the blocks of rows 4 and 5 and signals the frame boundary,
and all counters are back at 0 after it. -/
theorem C15_yuv420_lockstep_witness :
    (pixelWrites (((VideoOut.new 0 8 0 0 4 0 6 snapshotName Uninit.zero).exec
        (feed420 4 6 [demoFrame] ++ frame420 4 demoFrame 2 ++ pairHead420 4 demoFrame 2)).step
          (pairLast420 4 demoFrame 2)).out =
        pairWrites (VideoOut.new 0 8 0 0 4 0 6 snapshotName Uninit.zero).yuv2rgb
          demoFrame 2 (4 / 2) ∧
      signalsBoundary ((VideoOut.new 0 8 0 0 4 0 6 snapshotName Uninit.zero).exec
        (feed420 4 6 [demoFrame] ++ frame420 4 demoFrame 2 ++ pairHead420 4 demoFrame 2))
        (pairLast420 4 demoFrame 2) = true) ∧
    ((VideoOut.new 0 8 0 0 4 0 6 snapshotName Uninit.zero).exec
        (feed420 4 6 [demoFrame] ++ frame420 4 demoFrame (6 / 2))).vcount1 = 0 :=
  have h := C15_yuv420_lockstep 0 8 0 0 4 0 6 snapshotName Uninit.zero (by decide) (by decide)
    (by decide) (by decide) (by decide) [demoFrame] demoFrame
  ⟨⟨(h.1 2 (by decide)).2.1, (h.1 2 (by decide)).2.2.2 (by decide)⟩, h.2.2.2.1⟩

/-! ### Zero-sized active area -/

theorem stepHV_pixelWrites (s : VideoOut) (c : Call) (hc : c.isHV = true)
    (hw : ¬ inWindow s) : pixelWrites (s.step c).out = [] := by
  cases c with
  | RGB444_HV cycle clk vs hs red green blue =>
    simp only [VideoOut.step, eval_RGB444_HV_eq]
    split_ifs
    · rw [riseHV_pixelWrites, capRGBHV_eq, if_neg hw]
      rfl
    · rfl
  | YUV444_HV cycle clk vs hs luma cb cr =>
    simp only [VideoOut.step, eval_YUV444_HV_eq]
    split_ifs
    · rw [riseHV_pixelWrites, cap444HV_eq, if_neg hw]
      rfl
    · rfl
  | YUV422_HV cycle clk vs hs luma chroma =>
    simp only [VideoOut.step, eval_YUV422_HV_eq]
    split_ifs
    · rw [riseHV_pixelWrites, cap422HV_eq, if_neg (fun h => hw h.1)]
      rfl
    · rfl
  | RGB444_DE _ _ _ _ _ _ => simp [Call.isHV] at hc
  | YUV444_DE _ _ _ _ _ _ => simp [Call.isHV] at hc
  | YUV422_DE _ _ _ _ _ => simp [Call.isHV] at hc
  | YUV420_DE _ _ _ _ _ _ => simp [Call.isHV] at hc

theorem trace_zero_area (cs : List Call) :
    ∀ s : VideoOut, (s.hor_size = 0 ∨ s.ver_size = 0) → (∀ c ∈ cs, c.isHV = true) →
      pixelWrites (s.trace cs) = [] := by
  induction cs with
  | nil => intro s _ _; rfl
  | cons c cs ih =>
    intro s hz hcs
    have hcfg := config_fields (step_config s c)
    have hz1 : (s.step c).st.hor_size = 0 ∨ (s.step c).st.ver_size = 0 := by
      rw [hcfg.2.2.2.2.2.2.2.1, hcfg.2.2.2.2.2.2.2.2.1]
      exact hz
    have hnw : ¬ inWindow s := by
      unfold inWindow
      rcases hz with h | h <;> rw [h] <;> omega
    simp only [VideoOut.trace, pixelWrites_append]
    rw [ih (s.step c).st hz1 (fun d hd => hcs d (List.mem_cons_of_mem _ hd)), List.append_nil]
    exact stepHV_pixelWrites s c (hcs c (List.mem_cons_self _ _)) hnw

/-- C21 (as amended): for an engine constructed with hor_size = 0 or ver_size = 0, no
sequence of calls to the sync-discipline variants `eval_RGB444_HV`, `eval_YUV444_HV` and
`eval_YUV422_HV` ever produces a pixel write (the active-window test is never passed). -/
theorem C21_zero_area_never_emits (debug depth polarity hoffset W voffset H : Nat)
    (file : List Nat) (junk : Uninit) (hz : W = 0 ∨ H = 0) (cs : List Call)
    (hcs : ∀ c ∈ cs, c.isHV = true) :
    pixelWrites ((VideoOut.new debug depth polarity hoffset W voffset H file junk).trace cs)
      = [] :=
  trace_zero_area cs _ hz hcs

/-- Witness of C21 as amended: an engine of size 0 x 0 with offsets 0, driven through
rising-clock calls of the three sync-discipline methods, writes nothing. -/
theorem C21_zero_area_never_emits_witness :
    pixelWrites ((VideoOut.new 0 8 3 0 0 0 0 snapshotName Uninit.zero).trace
      [Call.RGB444_HV 0 1 0 0 1 2 3, Call.RGB444_HV 1 0 0 0 1 2 3,
       Call.YUV444_HV 2 1 0 0 100 110 120, Call.YUV444_HV 3 0 0 0 100 110 120,
       Call.YUV422_HV 4 1 0 0 100 110]) = [] :=
  C21_zero_area_never_emits 0 8 3 0 0 0 0 snapshotName Uninit.zero (by decide)
    [Call.RGB444_HV 0 1 0 0 1 2 3, Call.RGB444_HV 1 0 0 0 1 2 3,
     Call.YUV444_HV 2 1 0 0 100 110 120, Call.YUV444_HV 3 0 0 0 100 110 120,
     Call.YUV422_HV 4 1 0 0 100 110] (by decide)

/-- Counterexample to C21 as stated: on an engine constructed with hor_size = 0 and
ver_size = 0 the first rising-clock call of `eval_RGB444_DE` with de = 1 writes the
pixel (0, 0) (the data-enable methods have no active-window test); and on an engine
with hor_size = 2, ver_size = 0 `eval_YUV420_DE` emits the first line pair once two luma
lines and one chroma line are stored. -/
theorem C21_counterexample :
    (VideoOut.new 0 8 0 0 0 0 0 snapshotName Uninit.zero).hor_size = 0 ∧
    (VideoOut.new 0 8 0 0 0 0 0 snapshotName Uninit.zero).ver_size = 0 ∧
    pixelWrites ((VideoOut.new 0 8 0 0 0 0 0 snapshotName Uninit.zero).trace
      [Call.RGB444_DE 0 1 1 1 2 3]) = [(0, 0, { Red := 1, Green := 2, Blue := 3 })] ∧
    (pixelWrites ((VideoOut.new 0 8 0 0 2 0 0 snapshotName Uninit.zero).trace
      (sample420 1 100 128 ++ sample420 1 101 128 ++ sample420 0 102 0 ++
        sample420 0 103 0))).length = 4 := by
  decide

/-! ### The debug flag only adds log lines -/

theorem vsPart_dbg (s : VideoOut) (d cycle vs : Nat) (o1 o2 : List Event) :
    (vsPart (setDbg s d) cycle vs o2).st = setDbg (vsPart s cycle vs o1).st d ∧
      (vsPart (setDbg s d) cycle vs o2).ret = (vsPart s cycle vs o1).ret := by
  simp only [vsPart, setDbg]
  split_ifs <;> exact ⟨rfl, rfl⟩

theorem hsPart_dbg (r1 r2 : Res) (d cycle clk vs hs : Nat) (hst : r2.st = setDbg r1.st d)
    (hret : r2.ret = r1.ret) :
    (hsPart r2 cycle clk vs hs).st = setDbg (hsPart r1 cycle clk vs hs).st d ∧
      (hsPart r2 cycle clk vs hs).ret = (hsPart r1 cycle clk vs hs).ret := by
  simp only [hsPart, hst, hret, setDbg]
  split_ifs <;> exact ⟨rfl, rfl⟩

theorem dePart_dbg (s : VideoOut) (d cycle clk : Nat) (o1 o2 : List Event) :
    (dePart (setDbg s d) cycle clk o2).st = setDbg (dePart s cycle clk o1).st d ∧
      (dePart (setDbg s d) cycle clk o2).ret = (dePart s cycle clk o1).ret := by
  simp only [dePart, setDbg]
  split_ifs <;> exact ⟨rfl, rfl⟩

theorem emitPart_dbg (s : VideoOut) (d cycle clk : Nat) :
    (emitPart (setDbg s d) cycle clk).st = setDbg (emitPart s cycle clk).st d ∧
      (emitPart (setDbg s d) cycle clk).ret = (emitPart s cycle clk).ret := by
  simp only [emitPart, setDbg]
  split_ifs <;> exact ⟨rfl, rfl⟩

theorem st422HV_dbg (s : VideoOut) (d luma chroma : Nat) :
    st422HV (setDbg s d) luma chroma = setDbg (st422HV s luma chroma) d := by
  simp only [st422HV, setDbg]
  split_ifs <;> rfl

theorem st422DE_dbg (s : VideoOut) (d luma chroma : Nat) :
    st422DE (setDbg s d) luma chroma = setDbg (st422DE s luma chroma) d := by
  simp only [st422DE, setDbg]
  split_ifs <;> rfl

theorem store420_dbg (s : VideoOut) (d de_y de_c luma chroma : Nat) :
    chromaPart (lumaPart (setDbg s d) de_y luma) de_c chroma =
      setDbg (chromaPart (lumaPart s de_y luma) de_c chroma) d := by
  simp only [chromaPart, lumaPart, setDbg]
  split_ifs <;> rfl

theorem riseHV_dbg (s t : VideoOut) (d cycle clk vs hs : Nat) (o1 o2 : List Event)
    (ht : t = setDbg s d) (hp : pixelWrites o2 = pixelWrites o1)
    (hf : finalizes o2 = finalizes o1) :
    ((hsPart (vsPart t cycle vs o2) cycle clk vs hs).st =
        setDbg (hsPart (vsPart s cycle vs o1) cycle clk vs hs).st d ∧
      (hsPart (vsPart t cycle vs o2) cycle clk vs hs).ret =
        (hsPart (vsPart s cycle vs o1) cycle clk vs hs).ret) ∧
    pixelWrites (hsPart (vsPart t cycle vs o2) cycle clk vs hs).out =
      pixelWrites (hsPart (vsPart s cycle vs o1) cycle clk vs hs).out ∧
    finalizes (hsPart (vsPart t cycle vs o2) cycle clk vs hs).out =
      finalizes (hsPart (vsPart s cycle vs o1) cycle clk vs hs).out := by
  subst ht
  obtain ⟨v1, v2⟩ := vsPart_dbg s d cycle vs o1 o2
  refine ⟨hsPart_dbg _ _ d cycle clk vs hs v1 v2, ?_, ?_⟩
  · rw [riseHV_pixelWrites, riseHV_pixelWrites, hp]
  · rw [riseHV_finalizes, riseHV_finalizes, hf]
    rfl

theorem riseDE_dbg (s t : VideoOut) (d cycle clk : Nat) (o1 o2 : List Event)
    (ht : t = setDbg s d) (hp : pixelWrites o2 = pixelWrites o1)
    (hf : finalizes o2 = finalizes o1) :
    ((dePart t cycle clk o2).st = setDbg (dePart s cycle clk o1).st d ∧
      (dePart t cycle clk o2).ret = (dePart s cycle clk o1).ret) ∧
    pixelWrites (dePart t cycle clk o2).out = pixelWrites (dePart s cycle clk o1).out ∧
    finalizes (dePart t cycle clk o2).out = finalizes (dePart s cycle clk o1).out := by
  subst ht
  refine ⟨dePart_dbg s d cycle clk o1 o2, ?_, ?_⟩
  · rw [pixelWrites_dePart, pixelWrites_dePart, hp]
  · rw [dePart_finalizes, dePart_finalizes, hf]
    rfl

theorem idle_dbg (s : VideoOut) (d clk : Nat) :
    ((idle (setDbg s d) clk).st = setDbg (idle s clk).st d ∧
      (idle (setDbg s d) clk).ret = (idle s clk).ret) ∧
    pixelWrites (idle (setDbg s d) clk).out = pixelWrites (idle s clk).out ∧
    finalizes (idle (setDbg s d) clk).out = finalizes (idle s clk).out :=
  ⟨⟨rfl, rfl⟩, rfl, rfl⟩

/-- One call on the engine with another debug flag: same engine up to the flag, same
returned value, same pixel writes and same finalize calls. -/
theorem step_dbg (s : VideoOut) (d : Nat) (c : Call) :
    (((setDbg s d).step c).st = setDbg (s.step c).st d ∧
      ((setDbg s d).step c).ret = (s.step c).ret) ∧
    pixelWrites ((setDbg s d).step c).out = pixelWrites (s.step c).out ∧
    finalizes ((setDbg s d).step c).out = finalizes (s.step c).out := by
  have hp : (setDbg s d).prev_clk = s.prev_clk := rfl
  cases c with
  | RGB444_HV cycle clk vs hs red green blue =>
    simp only [VideoOut.step, eval_RGB444_HV_eq, hp]
    split_ifs
    · exact riseHV_dbg s _ d cycle clk vs hs _ _ rfl rfl rfl
    · exact idle_dbg s d clk
  | YUV444_HV cycle clk vs hs luma cb cr =>
    simp only [VideoOut.step, eval_YUV444_HV_eq, hp]
    split_ifs
    · exact riseHV_dbg s _ d cycle clk vs hs _ _ rfl rfl rfl
    · exact idle_dbg s d clk
  | YUV422_HV cycle clk vs hs luma chroma =>
    simp only [VideoOut.step, eval_YUV422_HV_eq, hp]
    split_ifs
    · exact riseHV_dbg (st422HV s luma chroma) _ d cycle clk vs hs _ _
        (st422HV_dbg s d luma chroma) rfl rfl
    · exact idle_dbg s d clk
  | RGB444_DE cycle clk de red green blue =>
    simp only [VideoOut.step, eval_RGB444_DE_eq, hp]
    split_ifs
    · exact riseDE_dbg s _ d cycle clk _ _ rfl rfl rfl
    · exact idle_dbg s d clk
    · exact idle_dbg s d clk
  | YUV444_DE cycle clk de luma cb cr =>
    simp only [VideoOut.step, eval_YUV444_DE_eq, hp]
    split_ifs
    · exact riseDE_dbg s _ d cycle clk _ _ rfl rfl rfl
    · exact idle_dbg s d clk
    · exact idle_dbg s d clk
  | YUV422_DE cycle clk de luma chroma =>
    simp only [VideoOut.step, eval_YUV422_DE_eq, hp]
    split_ifs
    · exact riseDE_dbg (st422DE s luma chroma) _ d cycle clk _ _
        (st422DE_dbg s d luma chroma) rfl rfl
    · exact idle_dbg s d clk
    · exact idle_dbg s d clk
  | YUV420_DE cycle clk de_y de_c luma chroma =>
    simp only [VideoOut.step, eval_YUV420_DE_eq, hp]
    split_ifs
    · rw [store420_dbg]
      refine ⟨emitPart_dbg _ d cycle clk, ?_, ?_⟩
      · rw [emitPart_pixelWrites, emitPart_pixelWrites]
        rfl
      · rw [emitPart_finalizes, emitPart_finalizes]
        rfl
    · exact idle_dbg s d clk

theorem exec_dbg (d : Nat) (cs : List Call) :
    ∀ s : VideoOut,
      (setDbg s d).exec cs = setDbg (s.exec cs) d ∧ (setDbg s d).rets cs = s.rets cs ∧
      pixelWrites ((setDbg s d).trace cs) = pixelWrites (s.trace cs) ∧
      finalizes ((setDbg s d).trace cs) = finalizes (s.trace cs) := by
  induction cs with
  | nil => intro s; exact ⟨rfl, rfl, rfl, rfl⟩
  | cons c cs ih =>
    intro s
    obtain ⟨⟨h1, h2⟩, h3, h4⟩ := step_dbg s d c
    obtain ⟨i1, i2, i3, i4⟩ := ih (s.step c).st
    simp only [VideoOut.exec, VideoOut.rets, VideoOut.trace, pixelWrites_append,
      finalizes_append, h1, h2, h3, h4, i1, i2, i3, i4]
    exact ⟨trivial, trivial, trivial, trivial⟩

/-- C22: two engines constructed with identical arguments except the debug flag
(d1, d2) and fed the same sequence of calls of any variants produce the same pixel
writes, the same finalize calls and the same returned values, and after the sequence
(hence after every call) the second engine is the first one with the debug flag d2:
every other member is equal. -/
theorem C22_debug_noninterference (d1 d2 depth polarity hoffset hactive voffset vactive : Nat)
    (file : List Nat) (junk : Uninit) (cs : List Call) :
    pixelWrites ((VideoOut.new d2 depth polarity hoffset hactive voffset vactive file junk).trace
        cs) =
      pixelWrites ((VideoOut.new d1 depth polarity hoffset hactive voffset vactive file junk).trace
        cs) ∧
    finalizes ((VideoOut.new d2 depth polarity hoffset hactive voffset vactive file junk).trace
        cs) =
      finalizes ((VideoOut.new d1 depth polarity hoffset hactive voffset vactive file junk).trace
        cs) ∧
    (VideoOut.new d2 depth polarity hoffset hactive voffset vactive file junk).rets cs =
      (VideoOut.new d1 depth polarity hoffset hactive voffset vactive file junk).rets cs ∧
    (VideoOut.new d2 depth polarity hoffset hactive voffset vactive file junk).exec cs =
      setDbg ((VideoOut.new d1 depth polarity hoffset hactive voffset vactive file junk).exec cs)
        d2 := by
  have h0 : VideoOut.new d2 depth polarity hoffset hactive voffset vactive file junk =
      setDbg (VideoOut.new d1 depth polarity hoffset hactive voffset vactive file junk) d2 := rfl
  obtain ⟨e1, e2, e3, e4⟩ := exec_dbg d2 cs
    (VideoOut.new d1 depth polarity hoffset hactive voffset vactive file junk)
  rw [h0]
  exact ⟨e3, e4, e2, e1⟩

/-! ### The returned value and the finalize call -/

theorem stepDE_dump_act (s : VideoOut) (c : Call) (hc : c.isDE = true) :
    (s.step c).st.dump_act = s.dump_act ∨ (s.step c).st.dump_act = 1 := by
  cases c with
  | RGB444_DE cycle clk de red green blue =>
    simp only [VideoOut.step, eval_RGB444_DE_eq]
    split_ifs
    · rw [dePart_dump_act]
      split_ifs
      · exact Or.inr rfl
      · exact Or.inl rfl
    · exact Or.inl rfl
    · exact Or.inl rfl
  | YUV444_DE cycle clk de luma cb cr =>
    simp only [VideoOut.step, eval_YUV444_DE_eq]
    split_ifs
    · rw [dePart_dump_act]
      split_ifs
      · exact Or.inr rfl
      · exact Or.inl rfl
    · exact Or.inl rfl
    · exact Or.inl rfl
  | YUV422_DE cycle clk de luma chroma =>
    simp only [VideoOut.step, eval_YUV422_DE_eq]
    split_ifs
    · rw [dePart_dump_act]
      split_ifs
      · exact Or.inr rfl
      · exact Or.inl (st422DE_dump s luma chroma).1
    · exact Or.inl rfl
    · exact Or.inl rfl
  | YUV420_DE cycle clk de_y de_c luma chroma =>
    simp only [VideoOut.step, eval_YUV420_DE_eq]
    split_ifs
    · rw [emitPart_dump_act]
      split_ifs
      · exact Or.inr rfl
      · exact Or.inl ((chromaPart_dump _ de_c chroma).1.trans (lumaPart_dump s de_y luma).1)
    · exact Or.inl rfl
  | RGB444_HV _ _ _ _ _ _ _ => simp [Call.isDE] at hc
  | YUV444_HV _ _ _ _ _ _ _ => simp [Call.isDE] at hc
  | YUV422_HV _ _ _ _ _ _ => simp [Call.isDE] at hc

/-- One call on an engine whose dump flag is 0 or 1: the returned value is non-zero
exactly when the call finalizes, it is then 1 and the call finalizes once; the dump
flag stays 0 or 1. -/
theorem step_ret_iff (s : VideoOut) (c : Call) (ha : s.dump_act ≤ 1) :
    ((s.step c).ret ≠ 0 ↔ finalizes (s.step c).out ≠ []) ∧
    ((s.step c).ret ≠ 0 → (s.step c).ret = 1 ∧ finalizes (s.step c).out = [s.dump_ctr]) ∧
    (s.step c).st.dump_act ≤ 1 := by
  rcases isHV_or_isDE c with hc | hc
  · obtain ⟨-, -, h3, -, h5, h6⟩ := stepHV_dump s c hc
    rw [h3, h5, h6]
    by_cases hr : (c.clk ≠ 0 ∧ s.prev_clk = 0) ∧ vsRise s c.vs
    · rw [if_pos hr]
      by_cases hd : s.dump_act ≠ 0
      · rw [if_pos ⟨hr.1, hr.2, hd⟩]
        refine ⟨⟨fun _ => by simp, fun _ => hd⟩, fun _ => ⟨by omega, rfl⟩, ?_⟩
        split_ifs <;> omega
      · rw [if_neg (fun h => hd h.2.2)]
        refine ⟨⟨fun h => absurd h hd, fun h => absurd rfl h⟩, fun h => absurd h hd, ?_⟩
        split_ifs <;> omega
    · rw [if_neg hr, if_neg (fun h => hr ⟨h.1, h.2.1⟩)]
      refine ⟨⟨fun h => absurd rfl h, fun h => absurd rfl h⟩, fun h => absurd rfl h, ?_⟩
      split_ifs <;> omega
  · obtain ⟨h1, -, h3⟩ := stepDE_dump s c hc
    have h4 := stepDE_dump_act s c hc
    rw [h1, h3]
    refine ⟨?_, ?_, by omega⟩
    · by_cases hb : signalsBoundary s c = true
      · by_cases hf : s.filename ≠ []
        · rw [if_pos hb, if_pos hf, if_pos ⟨hb, Or.inl hf⟩]
          simp
        · by_cases hd : s.dump_act ≠ 0
          · rw [if_pos hb, if_neg hf, if_pos ⟨hb, Or.inr hd⟩]
            simp [hd]
          · rw [if_pos hb, if_neg hf, if_neg (fun h => h.2.elim hf hd)]
            simp [hd]
      · rw [if_neg hb, if_neg (fun h => hb h.1)]
        simp
    · by_cases hb : signalsBoundary s c = true
      · by_cases hf : s.filename ≠ []
        · rw [if_pos hb, if_pos hf, if_pos ⟨hb, Or.inl hf⟩]
          exact fun _ => ⟨rfl, rfl⟩
        · by_cases hd : s.dump_act ≠ 0
          · rw [if_pos hb, if_neg hf, if_pos ⟨hb, Or.inr hd⟩]
            exact fun _ => ⟨by omega, rfl⟩
          · rw [if_pos hb, if_neg hf]
            exact fun h => absurd h hd
      · rw [if_neg hb]
        exact fun h => absurd rfl h

theorem exec_ret_iff (cs : List Call) :
    ∀ s : VideoOut, s.dump_act ≤ 1 →
      (s.exec cs).dump_act ≤ 1 ∧
      ((s.rets cs).filter (fun r => decide (r ≠ 0))).length = (finalizes (s.trace cs)).length := by
  induction cs with
  | nil => intro s ha; exact ⟨ha, rfl⟩
  | cons c cs ih =>
    intro s ha
    obtain ⟨h1, h2, h3⟩ := step_ret_iff s c ha
    obtain ⟨i1, i2⟩ := ih (s.step c).st h3
    refine ⟨i1, ?_⟩
    simp only [VideoOut.rets, VideoOut.trace, finalizes_append, List.length_append]
    by_cases hr : (s.step c).ret ≠ 0
    · rw [@List.filter_cons_of_pos _ (fun r => decide (r ≠ 0)) _ _ (decide_eq_true hr),
        (h2 hr).2, List.length_cons, i2, List.length_singleton]
      omega
    · have hf : finalizes (s.step c).out = [] := by
        by_contra hne
        exact hr (h1.2 hne)
      rw [@List.filter_cons_of_neg _ (fun r => decide (r ≠ 0)) _ _
        (fun h => hr (of_decide_eq_true h)), hf, i2, List.length_nil, Nat.zero_add]

/-- C26: on an engine built by the constructor, after any sequence of calls, the value
returned by a call of any variant is non-zero if and only if that call invoked
finalize (`WriteToFile`); it is then 1 and finalize was invoked exactly once, with the
current sequence number.  So over any run the number of calls returning non-zero (the
test bench's `vs` trigger) equals the number of persisted frames. -/
theorem C26_return_means_snapshot (debug depth polarity hoffset hactive voffset vactive : Nat)
    (file : List Nat) (junk : Uninit) (cs : List Call) (c : Call) :
    ((((VideoOut.new debug depth polarity hoffset hactive voffset vactive file junk).exec
        cs).step c).ret ≠ 0 ↔
      finalizes (((VideoOut.new debug depth polarity hoffset hactive voffset vactive file
        junk).exec cs).step c).out ≠ []) ∧
    ((((VideoOut.new debug depth polarity hoffset hactive voffset vactive file junk).exec
        cs).step c).ret ≠ 0 →
      (((VideoOut.new debug depth polarity hoffset hactive voffset vactive file junk).exec
        cs).step c).ret = 1 ∧
      finalizes (((VideoOut.new debug depth polarity hoffset hactive voffset vactive file
        junk).exec cs).step c).out =
        [((VideoOut.new debug depth polarity hoffset hactive voffset vactive file junk).exec
          cs).dump_ctr]) ∧
    (((VideoOut.new debug depth polarity hoffset hactive voffset vactive file junk).rets
        cs).filter (fun r => decide (r ≠ 0))).length =
      (finalizes ((VideoOut.new debug depth polarity hoffset hactive voffset vactive file
        junk).trace cs)).length := by
  obtain ⟨h1, h2⟩ := exec_ret_iff cs
    (VideoOut.new debug depth polarity hoffset hactive voffset vactive file junk)
    (Nat.zero_le 1)
  obtain ⟨k1, k2, -⟩ := step_ret_iff _ c h1
  exact ⟨k1, k2, h2⟩

/-! ### Scan tracking does not depend on the colour format -/

theorem stepHV_idle (s : VideoOut) (c : Call) (hc : c.isHV = true)
    (hr : ¬ (c.clk ≠ 0 ∧ s.prev_clk = 0)) : s.step c = idle s c.clk := by
  cases c with
  | RGB444_HV cycle clk vs hs red green blue =>
    simp only [VideoOut.step, eval_RGB444_HV_eq, Call.clk] at hr ⊢
    rw [if_neg hr]
  | YUV444_HV cycle clk vs hs luma cb cr =>
    simp only [VideoOut.step, eval_YUV444_HV_eq, Call.clk] at hr ⊢
    rw [if_neg hr]
  | YUV422_HV cycle clk vs hs luma chroma =>
    simp only [VideoOut.step, eval_YUV422_HV_eq, Call.clk] at hr ⊢
    rw [if_neg hr]
  | RGB444_DE _ _ _ _ _ _ => simp [Call.isHV] at hc
  | YUV444_DE _ _ _ _ _ _ => simp [Call.isHV] at hc
  | YUV422_DE _ _ _ _ _ => simp [Call.isHV] at hc
  | YUV420_DE _ _ _ _ _ _ => simp [Call.isHV] at hc

theorem stepHV_prev_hs (s : VideoOut) (c : Call) (hc : c.isHV = true)
    (hr : c.clk ≠ 0 ∧ s.prev_clk = 0) : (s.step c).st.prev_hs = c.hs := by
  cases c with
  | RGB444_HV cycle clk vs hs red green blue =>
    simp only [VideoOut.step, eval_RGB444_HV_eq, Call.clk, Call.hs] at hr ⊢
    rw [if_pos hr]
    rfl
  | YUV444_HV cycle clk vs hs luma cb cr =>
    simp only [VideoOut.step, eval_YUV444_HV_eq, Call.clk, Call.hs] at hr ⊢
    rw [if_pos hr]
    rfl
  | YUV422_HV cycle clk vs hs luma chroma =>
    simp only [VideoOut.step, eval_YUV422_HV_eq, Call.clk, Call.hs] at hr ⊢
    rw [if_pos hr]
    rfl
  | RGB444_DE _ _ _ _ _ _ => simp [Call.isHV] at hc
  | YUV444_DE _ _ _ _ _ _ => simp [Call.isHV] at hc
  | YUV422_DE _ _ _ _ _ => simp [Call.isHV] at hc
  | YUV420_DE _ _ _ _ _ _ => simp [Call.isHV] at hc

/-- The scan-tracking members and the returned value after a sync-discipline call, as
functions of those members, the polarities, the file name and (clk, vs, hs). -/
theorem stepHV_scan (s : VideoOut) (c : Call) (hc : c.isHV = true) :
    (s.step c).st.scan =
      (if c.clk ≠ 0 ∧ s.prev_clk = 0 then
         (if hsRise s c.hs then 0 else if vsRise s c.vs then 1 else u16 (s.hcount + 1))
       else s.hcount,
       if c.clk ≠ 0 ∧ s.prev_clk = 0 then
         (if vsRise s c.vs then 0
          else if hsRise s c.hs ∧ s.hcount > 4 then u16 (s.vcount + 1) else s.vcount)
       else s.vcount,
       c.clk,
       if c.clk ≠ 0 ∧ s.prev_clk = 0 then c.hs else s.prev_hs,
       if c.clk ≠ 0 ∧ s.prev_clk = 0 then c.vs else s.prev_vs,
       if (c.clk ≠ 0 ∧ s.prev_clk = 0) ∧ vsRise s c.vs ∧ s.filename ≠ [] then 1
       else s.dump_act,
       if (c.clk ≠ 0 ∧ s.prev_clk = 0) ∧ vsRise s c.vs ∧ s.dump_act ≠ 0 then s.dump_ctr + 1
       else s.dump_ctr) := by
  obtain ⟨d1, d2, d3, d4, -, -⟩ := stepHV_dump s c hc
  simp only [VideoOut.scan, Prod.mk.injEq]
  refine ⟨?_, ?_, d1, ?_, d2, d3, d4⟩
  · by_cases hr : c.clk ≠ 0 ∧ s.prev_clk = 0
    · rw [if_pos hr]
      exact (stepHV_counts s c hc hr).1
    · rw [if_neg hr, stepHV_idle s c hc hr]
      rfl
  · by_cases hr : c.clk ≠ 0 ∧ s.prev_clk = 0
    · rw [if_pos hr]
      exact (stepHV_counts s c hc hr).2
    · rw [if_neg hr, stepHV_idle s c hc hr]
      rfl
  · by_cases hr : c.clk ≠ 0 ∧ s.prev_clk = 0
    · rw [if_pos hr]
      exact stepHV_prev_hs s c hc hr
    · rw [if_neg hr, stepHV_idle s c hc hr]
      rfl

theorem dePart_prev_sync (s : VideoOut) (cycle clk : Nat) (o1 : List Event) :
    (dePart s cycle clk o1).st.prev_hs = s.prev_hs ∧
      (dePart s cycle clk o1).st.prev_vs = s.prev_vs := by
  simp only [dePart]
  split_ifs <;> exact ⟨rfl, rfl⟩

theorem st422DE_prev_sync (s : VideoOut) (luma chroma : Nat) :
    (st422DE s luma chroma).prev_hs = s.prev_hs ∧ (st422DE s luma chroma).prev_vs = s.prev_vs := by
  simp only [st422DE]
  split_ifs <;> exact ⟨rfl, rfl⟩

theorem dePart_scan (s : VideoOut) (cycle clk : Nat) (o1 : List Event) :
    (dePart s cycle clk o1).st.scan =
      (if lineEndDE s then 0 else u16 (s.hcount + 1),
       if lineEndDE s then (if u16 (s.vcount + 1) = s.ver_size then 0 else u16 (s.vcount + 1))
       else s.vcount,
       clk, s.prev_hs, s.prev_vs,
       if boundaryDE s ∧ s.filename ≠ [] then 1 else s.dump_act,
       if boundaryDE s ∧ (s.filename ≠ [] ∨ s.dump_act ≠ 0) then s.dump_ctr + 1
       else s.dump_ctr) := by
  simp only [VideoOut.scan, Prod.mk.injEq]
  exact ⟨dePart_hcount _ _ _ _, dePart_vcount _ _ _ _, dePart_prev_clk _ _ _ _,
    (dePart_prev_sync _ _ _ _).1, (dePart_prev_sync _ _ _ _).2, dePart_dump_act _ _ _ _,
    dePart_dump_ctr _ _ _ _⟩

/-- The scan-tracking members and the returned value after a single-enable data-enable
call, as functions of those members, the active size, the file name and (clk, de). -/
theorem stepDE1_scan (s : VideoOut) (c : Call) (hc : c.isDE1 = true) :
    (s.step c).st.scan =
      (if (c.clk ≠ 0 ∧ s.prev_clk = 0) ∧ c.de ≠ 0 then
        (if lineEndDE s then 0 else u16 (s.hcount + 1),
         if lineEndDE s then
           (if u16 (s.vcount + 1) = s.ver_size then 0 else u16 (s.vcount + 1))
         else s.vcount,
         c.clk, s.prev_hs, s.prev_vs,
         if boundaryDE s ∧ s.filename ≠ [] then 1 else s.dump_act,
         if boundaryDE s ∧ (s.filename ≠ [] ∨ s.dump_act ≠ 0) then s.dump_ctr + 1
         else s.dump_ctr)
      else (s.hcount, s.vcount, c.clk, s.prev_hs, s.prev_vs, s.dump_act, s.dump_ctr)) ∧
    (s.step c).ret =
      (if (c.clk ≠ 0 ∧ s.prev_clk = 0) ∧ c.de ≠ 0 then
        (if boundaryDE s then (if s.filename ≠ [] then 1 else s.dump_act) else 0)
      else 0) := by
  cases c with
  | RGB444_DE cycle clk de red green blue =>
    simp only [VideoOut.step, eval_RGB444_DE_eq, Call.clk, Call.de]
    by_cases hr : clk ≠ 0 ∧ s.prev_clk = 0
    · by_cases hd : de ≠ 0
      · have hrd := And.intro hr hd
        rw [if_pos hr, if_pos hd, if_pos hrd, if_pos hrd]
        exact ⟨dePart_scan _ _ _ _, dePart_ret _ _ _ _⟩
      · have hrd : ¬ ((clk ≠ 0 ∧ s.prev_clk = 0) ∧ de ≠ 0) := fun h => hd h.2
        rw [if_pos hr, if_neg hd, if_neg hrd, if_neg hrd]
        exact ⟨rfl, rfl⟩
    · have hrd : ¬ ((clk ≠ 0 ∧ s.prev_clk = 0) ∧ de ≠ 0) := fun h => hr h.1
      rw [if_neg hr, if_neg hrd, if_neg hrd]
      exact ⟨rfl, rfl⟩
  | YUV444_DE cycle clk de luma cb cr =>
    simp only [VideoOut.step, eval_YUV444_DE_eq, Call.clk, Call.de]
    by_cases hr : clk ≠ 0 ∧ s.prev_clk = 0
    · by_cases hd : de ≠ 0
      · have hrd := And.intro hr hd
        rw [if_pos hr, if_pos hd, if_pos hrd, if_pos hrd]
        exact ⟨dePart_scan _ _ _ _, dePart_ret _ _ _ _⟩
      · have hrd : ¬ ((clk ≠ 0 ∧ s.prev_clk = 0) ∧ de ≠ 0) := fun h => hd h.2
        rw [if_pos hr, if_neg hd, if_neg hrd, if_neg hrd]
        exact ⟨rfl, rfl⟩
    · have hrd : ¬ ((clk ≠ 0 ∧ s.prev_clk = 0) ∧ de ≠ 0) := fun h => hr h.1
      rw [if_neg hr, if_neg hrd, if_neg hrd]
      exact ⟨rfl, rfl⟩
  | YUV422_DE cycle clk de luma chroma =>
    simp only [VideoOut.step, eval_YUV422_DE_eq, Call.clk, Call.de]
    by_cases hr : clk ≠ 0 ∧ s.prev_clk = 0
    · by_cases hd : de ≠ 0
      · have hrd := And.intro hr hd
        rw [if_pos hr, if_pos hd, if_pos hrd, if_pos hrd, dePart_scan, dePart_ret]
        obtain ⟨a1, a2⟩ := st422DE_counts s luma chroma
        obtain ⟨a3, a4, -⟩ := st422DE_dump s luma chroma
        obtain ⟨a5, a6⟩ := st422DE_prev_sync s luma chroma
        obtain ⟨-, -, -, -, -, -, -, a7, a8, -, -, -, -, a9⟩ :=
          config_fields (st422DE_config s luma chroma)
        simp only [lineEndDE, boundaryDE, a1, a2, a3, a4, a5, a6, a7, a8, a9]
        exact ⟨trivial, trivial⟩
      · have hrd : ¬ ((clk ≠ 0 ∧ s.prev_clk = 0) ∧ de ≠ 0) := fun h => hd h.2
        rw [if_pos hr, if_neg hd, if_neg hrd, if_neg hrd]
        exact ⟨rfl, rfl⟩
    · have hrd : ¬ ((clk ≠ 0 ∧ s.prev_clk = 0) ∧ de ≠ 0) := fun h => hr h.1
      rw [if_neg hr, if_neg hrd, if_neg hrd]
      exact ⟨rfl, rfl⟩
  | RGB444_HV _ _ _ _ _ _ _ => simp [Call.isDE1] at hc
  | YUV444_HV _ _ _ _ _ _ _ => simp [Call.isDE1] at hc
  | YUV422_HV _ _ _ _ _ _ => simp [Call.isDE1] at hc
  | YUV420_DE _ _ _ _ _ _ => simp [Call.isDE1] at hc

theorem step_sameHV (s t : VideoOut) (c d : Call) (hs : s.scan = t.scan)
    (hcfg : s.config = t.config) (h : sameHV c d = true) :
    (s.step c).st.scan = (t.step d).st.scan ∧ (s.step c).ret = (t.step d).ret := by
  simp only [sameHV, Bool.and_eq_true, decide_eq_true_eq] at h
  obtain ⟨⟨hc, hd⟩, e1, e2, e3⟩ := h
  simp only [VideoOut.scan, Prod.mk.injEq] at hs
  obtain ⟨f1, f2, f3, f4, f5, f6, f7⟩ := hs
  obtain ⟨-, -, g1, g2, -, -, -, -, -, -, -, -, -, g3⟩ := config_fields hcfg
  rw [stepHV_scan s c hc, stepHV_scan t d hd, (stepHV_dump s c hc).2.2.2.2.2,
    (stepHV_dump t d hd).2.2.2.2.2]
  simp only [vsRise, hsRise, e1, e2, e3, f1, f2, f3, f4, f5, f6, f7, g1, g2, g3]
  exact ⟨trivial, trivial⟩

theorem step_sameDE (s t : VideoOut) (c d : Call) (hs : s.scan = t.scan)
    (hcfg : s.config = t.config) (h : sameDE c d = true) :
    (s.step c).st.scan = (t.step d).st.scan ∧ (s.step c).ret = (t.step d).ret := by
  simp only [sameDE, Bool.and_eq_true, decide_eq_true_eq] at h
  obtain ⟨⟨hc, hd⟩, e1, e2⟩ := h
  simp only [VideoOut.scan, Prod.mk.injEq] at hs
  obtain ⟨f1, f2, f3, f4, f5, f6, f7⟩ := hs
  obtain ⟨-, -, -, -, -, -, -, g1, g2, -, -, -, -, g3⟩ := config_fields hcfg
  rw [(stepDE1_scan s c hc).1, (stepDE1_scan t d hd).1, (stepDE1_scan s c hc).2,
    (stepDE1_scan t d hd).2]
  simp only [lineEndDE, boundaryDE, e1, e2, f1, f2, f3, f4, f5, f6, f7, g1, g2, g3]
  exact ⟨trivial, trivial⟩

theorem exec_alike (f : Call → Call → Bool)
    (hf : ∀ (s t : VideoOut) (c d : Call), s.scan = t.scan → s.config = t.config →
      f c d = true →
      (s.step c).st.scan = (t.step d).st.scan ∧ (s.step c).ret = (t.step d).ret)
    (cs : List Call) :
    ∀ (ds : List Call) (s t : VideoOut), s.scan = t.scan → s.config = t.config →
      alike f cs ds = true → s.rets cs = t.rets ds ∧ (s.exec cs).scan = (t.exec ds).scan := by
  induction cs with
  | nil =>
    intro ds s t hs _ h
    cases ds with
    | nil => exact ⟨rfl, hs⟩
    | cons d ds => simp [alike] at h
  | cons c cs ih =>
    intro ds s t hs hcfg h
    cases ds with
    | nil => simp [alike] at h
    | cons d ds =>
      simp only [alike, Bool.and_eq_true] at h
      obtain ⟨h1, h2⟩ := hf s t c d hs hcfg h.1
      obtain ⟨i1, i2⟩ := ih ds (s.step c).st (t.step d).st h1
        ((step_config s c).trans (hcfg.trans (step_config t d).symm)) h.2
      simp only [VideoOut.rets, VideoOut.exec, h2, i1, i2]
      exact ⟨trivial, trivial⟩

/-- C27: two identically constructed engines fed call sequences that agree call by
call on (clk, vs, hs), each call being any of `eval_RGB444_HV`, `eval_YUV444_HV`,
`eval_YUV422_HV` with any cycle number and colour inputs, return the same values and
have the same hcount, vcount, previous clock, hs and vs levels, dump flag and dump
counter after the sequences (hence after every call); the same holds for
`eval_RGB444_DE`, `eval_YUV444_DE`, `eval_YUV422_DE` and sequences agreeing on
(clk, de). -/
theorem C27_scan_format_independent (debug depth polarity hoffset hactive voffset vactive : Nat)
    (file : List Nat) (junk : Uninit) (cs ds : List Call) :
    (alike sameHV cs ds = true →
      (VideoOut.new debug depth polarity hoffset hactive voffset vactive file junk).rets cs =
        (VideoOut.new debug depth polarity hoffset hactive voffset vactive file junk).rets ds ∧
      ((VideoOut.new debug depth polarity hoffset hactive voffset vactive file junk).exec cs).scan =
        ((VideoOut.new debug depth polarity hoffset hactive voffset vactive file junk).exec
          ds).scan) ∧
    (alike sameDE cs ds = true →
      (VideoOut.new debug depth polarity hoffset hactive voffset vactive file junk).rets cs =
        (VideoOut.new debug depth polarity hoffset hactive voffset vactive file junk).rets ds ∧
      ((VideoOut.new debug depth polarity hoffset hactive voffset vactive file junk).exec cs).scan =
        ((VideoOut.new debug depth polarity hoffset hactive voffset vactive file junk).exec
          ds).scan) :=
  ⟨exec_alike sameHV step_sameHV cs ds _ _ rfl rfl,
    exec_alike sameDE step_sameDE cs ds _ _ rfl rfl⟩

/-- Witness of C27: an RGB line start and the same signals carried by YUV 4:4:4 and
YUV 4:2:2 calls with other colour values leave the same scan state. -/
theorem C27_scan_format_independent_witness :
    alike sameHV
      [Call.RGB444_HV 0 1 1 0 1 2 3, Call.RGB444_HV 1 0 1 0 1 2 3, Call.RGB444_HV 2 1 0 1 4 5 6]
      [Call.YUV444_HV 7 1 1 0 90 80 70, Call.YUV422_HV 8 0 1 0 60 50,
        Call.YUV422_HV 9 1 0 1 40 30] = true ∧
    ((VideoOut.new 0 8 3 0 4 0 2 snapshotName Uninit.zero).exec
      [Call.RGB444_HV 0 1 1 0 1 2 3, Call.RGB444_HV 1 0 1 0 1 2 3,
        Call.RGB444_HV 2 1 0 1 4 5 6]).scan =
    ((VideoOut.new 0 8 3 0 4 0 2 snapshotName Uninit.zero).exec
      [Call.YUV444_HV 7 1 1 0 90 80 70, Call.YUV422_HV 8 0 1 0 60 50,
        Call.YUV422_HV 9 1 0 1 40 30]).scan :=
  ⟨by decide, ((C27_scan_format_independent 0 8 3 0 4 0 2 snapshotName Uninit.zero
    [Call.RGB444_HV 0 1 1 0 1 2 3, Call.RGB444_HV 1 0 1 0 1 2 3, Call.RGB444_HV 2 1 0 1 4 5 6]
    [Call.YUV444_HV 7 1 1 0 90 80 70, Call.YUV422_HV 8 0 1 0 60 50,
      Call.YUV422_HV 9 1 0 1 40 30]).1 (by decide)).2⟩

/-! ### Polarity symmetry of the sync discipline -/

theorem vsPart_mirrorH (s : VideoOut) (cycle vs : Nat) (o1 : List Event) :
    vsPart (mirrorH s) cycle vs o1 =
      { st := mirrorH (vsPart s cycle vs o1).st, ret := (vsPart s cycle vs o1).ret,
        out := (vsPart s cycle vs o1).out } := by
  simp only [vsPart, mirrorH]
  split_ifs <;> rfl

theorem vsPart_lowerH (s : VideoOut) (cycle vs : Nat) (o1 : List Event) :
    vsPart (lowerH s) cycle vs o1 =
      { st := lowerH (vsPart s cycle vs o1).st, ret := (vsPart s cycle vs o1).ret,
        out := (vsPart s cycle vs o1).out } := by
  simp only [vsPart, lowerH]
  split_ifs <;> rfl

theorem hsPart_mirrorH (r : Res) (cycle clk vs hs : Nat)
    (hp : r.st.hs_pol = 1) (hhs : hs ≤ 1) (hph : r.st.prev_hs ≤ 1) :
    hsPart { st := mirrorH r.st, ret := r.ret, out := r.out } cycle clk vs (1 - hs) =
      { st := mirrorH (hsPart r cycle clk vs hs).st,
        ret := (hsPart r cycle clk vs hs).ret, out := (hsPart r cycle clk vs hs).out } := by
  have hcond : (1 - hs = 1 - r.st.hs_pol ∧ 1 - r.st.prev_hs ≠ 1 - r.st.hs_pol) ↔
      (hs = r.st.hs_pol ∧ r.st.prev_hs ≠ r.st.hs_pol) := by omega
  simp only [hsPart, mirrorH, hcond]
  split_ifs <;> rfl

theorem hsPart_lowerH_quiet (r : Res) (cycle clk vs : Nat) (hp : r.st.hs_pol = 1) :
    hsPart { st := lowerH r.st, ret := r.ret, out := r.out } cycle clk vs 1 =
      { st := mirrorH (hsPart r cycle clk vs 0).st,
        ret := (hsPart r cycle clk vs 0).ret, out := (hsPart r cycle clk vs 0).out } := by
  have c1 : ¬ (1 = 1 - r.st.hs_pol ∧ r.st.prev_hs ≠ 1 - r.st.hs_pol) := by omega
  have c2 : ¬ (0 = r.st.hs_pol ∧ r.st.prev_hs ≠ r.st.hs_pol) := by omega
  simp only [hsPart, lowerH, mirrorH, if_neg c1, if_neg c2]

theorem vsPart_mirrorV (s : VideoOut) (cycle vs : Nat) (o1 : List Event)
    (hp : s.vs_pol = 1) (hvs : vs ≤ 1) (hpv : s.prev_vs ≤ 1) :
    vsPart (mirrorV s) cycle (1 - vs) o1 =
      { st := mirrorV (vsPart s cycle vs o1).st, ret := (vsPart s cycle vs o1).ret,
        out := (vsPart s cycle vs o1).out } := by
  have hcond : (1 - vs = 1 - s.vs_pol ∧ 1 - s.prev_vs ≠ 1 - s.vs_pol) ↔
      (vs = s.vs_pol ∧ s.prev_vs ≠ s.vs_pol) := by omega
  simp only [vsPart, mirrorV, hcond]
  split_ifs <;> rfl

theorem hsPart_mirrorV (r : Res) (cycle clk vs hs : Nat) :
    hsPart { st := mirrorV r.st, ret := r.ret, out := r.out } cycle clk (1 - vs) hs =
      { st := mirrorV (hsPart r cycle clk vs hs).st,
        ret := (hsPart r cycle clk vs hs).ret, out := (hsPart r cycle clk vs hs).out } := by
  simp only [hsPart, mirrorV]
  split_ifs <;> rfl

theorem vsPart_lowerV_quiet (s : VideoOut) (cycle : Nat) (o1 : List Event)
    (hp : s.vs_pol = 1) :
    vsPart (lowerV s) cycle 1 o1 =
      { st := lowerV (vsPart s cycle 0 o1).st, ret := (vsPart s cycle 0 o1).ret,
        out := (vsPart s cycle 0 o1).out } := by
  have c1 : ¬ (1 = 1 - s.vs_pol ∧ s.prev_vs ≠ 1 - s.vs_pol) := by omega
  have c2 : ¬ (0 = s.vs_pol ∧ s.prev_vs ≠ s.vs_pol) := by omega
  simp only [vsPart, lowerV, if_neg c1, if_neg c2]

theorem hsPart_lowerV_quiet (r : Res) (cycle clk hs : Nat) :
    hsPart { st := lowerV r.st, ret := r.ret, out := r.out } cycle clk 1 hs =
      { st := mirrorV (hsPart r cycle clk 0 hs).st,
        ret := (hsPart r cycle clk 0 hs).ret, out := (hsPart r cycle clk 0 hs).out } := by
  simp only [hsPart, lowerV, mirrorV]
  split_ifs <;> rfl

theorem vsPart_hs (s : VideoOut) (cycle vs : Nat) (o1 : List Event) :
    (vsPart s cycle vs o1).st.hs_pol = s.hs_pol ∧
      (vsPart s cycle vs o1).st.prev_hs = s.prev_hs := by
  simp only [vsPart]
  split_ifs <;> exact ⟨rfl, rfl⟩

theorem isRGBHV_isHV (c : Call) (hc : c.isRGBHV = true) : c.isHV = true := by
  cases c <;> first | rfl | simp [Call.isRGBHV] at hc

/-- One `eval_RGB444_HV` call on the engine mirrored in the horizontal sync, with hs
inverted: the mirrored result, the same returned value and the same effects. -/
theorem step_mirrorH (s : VideoOut) (c : Call) (hc : c.isRGBHV = true) (hb : c.hs ≤ 1)
    (hpol : s.hs_pol = 1) (hprev : s.prev_hs ≤ 1) :
    (mirrorH s).step c.invH =
      { st := mirrorH (s.step c).st, ret := (s.step c).ret, out := (s.step c).out } := by
  cases c with
  | RGB444_HV cycle clk vs hs red green blue =>
    simp only [Call.hs] at hb
    have hp : (mirrorH s).prev_clk = s.prev_clk := rfl
    have hcap : capRGBHV (mirrorH s) red green blue = capRGBHV s red green blue := rfl
    simp only [Call.invH, VideoOut.step, eval_RGB444_HV_eq, hp, hcap]
    split_ifs
    · rw [vsPart_mirrorH]
      obtain ⟨v1, v2⟩ := vsPart_hs s cycle vs (capRGBHV s red green blue)
      exact hsPart_mirrorH _ cycle clk vs hs (v1.trans hpol) hb (by rw [v2]; exact hprev)
    · rfl
  | RGB444_DE _ _ _ _ _ _ => simp [Call.isRGBHV] at hc
  | YUV444_HV _ _ _ _ _ _ _ => simp [Call.isRGBHV] at hc
  | YUV444_DE _ _ _ _ _ _ => simp [Call.isRGBHV] at hc
  | YUV422_HV _ _ _ _ _ _ => simp [Call.isRGBHV] at hc
  | YUV422_DE _ _ _ _ _ => simp [Call.isRGBHV] at hc
  | YUV420_DE _ _ _ _ _ _ => simp [Call.isRGBHV] at hc

/-- One `eval_RGB444_HV` call on the engine mirrored in the vertical sync, with vs
inverted. -/
theorem step_mirrorV (s : VideoOut) (c : Call) (hc : c.isRGBHV = true) (hb : c.vs ≤ 1)
    (hpol : s.vs_pol = 1) (hprev : s.prev_vs ≤ 1) :
    (mirrorV s).step c.invV =
      { st := mirrorV (s.step c).st, ret := (s.step c).ret, out := (s.step c).out } := by
  cases c with
  | RGB444_HV cycle clk vs hs red green blue =>
    simp only [Call.vs] at hb
    have hp : (mirrorV s).prev_clk = s.prev_clk := rfl
    have hcap : capRGBHV (mirrorV s) red green blue = capRGBHV s red green blue := rfl
    simp only [Call.invV, VideoOut.step, eval_RGB444_HV_eq, hp, hcap]
    split_ifs
    · rw [vsPart_mirrorV s cycle vs _ hpol hb hprev]
      exact hsPart_mirrorV _ cycle clk vs hs
    · rfl
  | RGB444_DE _ _ _ _ _ _ => simp [Call.isRGBHV] at hc
  | YUV444_HV _ _ _ _ _ _ _ => simp [Call.isRGBHV] at hc
  | YUV444_DE _ _ _ _ _ _ => simp [Call.isRGBHV] at hc
  | YUV422_HV _ _ _ _ _ _ => simp [Call.isRGBHV] at hc
  | YUV422_DE _ _ _ _ _ => simp [Call.isRGBHV] at hc
  | YUV420_DE _ _ _ _ _ _ => simp [Call.isRGBHV] at hc

/-- Before the first rising-clock sample: a call on the engine with the horizontal
polarity inverted and hs inverted.  A non-rising call keeps the relation; a rising
call with hs = 0 leads to the mirrored engine. -/
theorem step_lowerH (s : VideoOut) (c : Call) (hc : c.isRGBHV = true) (hpol : s.hs_pol = 1) :
    (¬ (c.clk ≠ 0 ∧ s.prev_clk = 0) →
      (lowerH s).step c.invH =
        { st := lowerH (s.step c).st, ret := (s.step c).ret, out := (s.step c).out }) ∧
    ((c.clk ≠ 0 ∧ s.prev_clk = 0) → c.hs = 0 →
      (lowerH s).step c.invH =
        { st := mirrorH (s.step c).st, ret := (s.step c).ret, out := (s.step c).out }) := by
  cases c with
  | RGB444_HV cycle clk vs hs red green blue =>
    have hp : (lowerH s).prev_clk = s.prev_clk := rfl
    have hcap : capRGBHV (lowerH s) red green blue = capRGBHV s red green blue := rfl
    simp only [Call.invH, VideoOut.step, eval_RGB444_HV_eq, hp, hcap, Call.clk, Call.hs]
    constructor
    · intro hr
      simp only [if_neg hr]
      rfl
    · intro hr h0
      subst h0
      simp only [if_pos hr, vsPart_lowerH, Nat.sub_zero]
      exact hsPart_lowerH_quiet _ cycle clk vs
        ((vsPart_hs s cycle vs (capRGBHV s red green blue)).1.trans hpol)
  | RGB444_DE _ _ _ _ _ _ => simp [Call.isRGBHV] at hc
  | YUV444_HV _ _ _ _ _ _ _ => simp [Call.isRGBHV] at hc
  | YUV444_DE _ _ _ _ _ _ => simp [Call.isRGBHV] at hc
  | YUV422_HV _ _ _ _ _ _ => simp [Call.isRGBHV] at hc
  | YUV422_DE _ _ _ _ _ => simp [Call.isRGBHV] at hc
  | YUV420_DE _ _ _ _ _ _ => simp [Call.isRGBHV] at hc

/-- Before the first rising-clock sample, for the vertical polarity. -/
theorem step_lowerV (s : VideoOut) (c : Call) (hc : c.isRGBHV = true) (hpol : s.vs_pol = 1) :
    (¬ (c.clk ≠ 0 ∧ s.prev_clk = 0) →
      (lowerV s).step c.invV =
        { st := lowerV (s.step c).st, ret := (s.step c).ret, out := (s.step c).out }) ∧
    ((c.clk ≠ 0 ∧ s.prev_clk = 0) → c.vs = 0 →
      (lowerV s).step c.invV =
        { st := mirrorV (s.step c).st, ret := (s.step c).ret, out := (s.step c).out }) := by
  cases c with
  | RGB444_HV cycle clk vs hs red green blue =>
    have hp : (lowerV s).prev_clk = s.prev_clk := rfl
    have hcap : capRGBHV (lowerV s) red green blue = capRGBHV s red green blue := rfl
    simp only [Call.invV, VideoOut.step, eval_RGB444_HV_eq, hp, hcap, Call.clk, Call.vs]
    constructor
    · intro hr
      simp only [if_neg hr]
      rfl
    · intro hr h0
      subst h0
      simp only [if_pos hr, Nat.sub_zero]
      rw [vsPart_lowerV_quiet s cycle _ hpol]
      exact hsPart_lowerV_quiet _ cycle clk hs
  | RGB444_DE _ _ _ _ _ _ => simp [Call.isRGBHV] at hc
  | YUV444_HV _ _ _ _ _ _ _ => simp [Call.isRGBHV] at hc
  | YUV444_DE _ _ _ _ _ _ => simp [Call.isRGBHV] at hc
  | YUV422_HV _ _ _ _ _ _ => simp [Call.isRGBHV] at hc
  | YUV422_DE _ _ _ _ _ => simp [Call.isRGBHV] at hc
  | YUV420_DE _ _ _ _ _ _ => simp [Call.isRGBHV] at hc

theorem stepH_inv (s : VideoOut) (c : Call) (hc : c.isRGBHV = true) (hb : c.hs ≤ 1)
    (hpol : s.hs_pol = 1) (hprev : s.prev_hs ≤ 1) :
    (s.step c).st.hs_pol = 1 ∧ (s.step c).st.prev_hs ≤ 1 := by
  obtain ⟨-, -, c1, -⟩ := config_fields (step_config s c)
  have hsc := stepHV_scan s c (isRGBHV_isHV c hc)
  simp only [VideoOut.scan, Prod.mk.injEq] at hsc
  obtain ⟨-, -, -, p1, -⟩ := hsc
  refine ⟨c1.trans hpol, ?_⟩
  rw [p1]
  split_ifs
  · exact hb
  · exact hprev

theorem stepV_inv (s : VideoOut) (c : Call) (hc : c.isRGBHV = true) (hb : c.vs ≤ 1)
    (hpol : s.vs_pol = 1) (hprev : s.prev_vs ≤ 1) :
    (s.step c).st.vs_pol = 1 ∧ (s.step c).st.prev_vs ≤ 1 := by
  obtain ⟨-, -, -, c2, -⟩ := config_fields (step_config s c)
  have hsc := stepHV_scan s c (isRGBHV_isHV c hc)
  simp only [VideoOut.scan, Prod.mk.injEq] at hsc
  obtain ⟨-, -, -, -, p2, -⟩ := hsc
  refine ⟨c2.trans hpol, ?_⟩
  rw [p2]
  split_ifs
  · exact hb
  · exact hprev

theorem exec_mirrorH (cs : List Call) :
    ∀ s : VideoOut, (∀ c ∈ cs, c.isRGBHV = true ∧ c.hs ≤ 1) → s.hs_pol = 1 → s.prev_hs ≤ 1 →
      (mirrorH s).trace (cs.map Call.invH) = s.trace cs ∧
      (mirrorH s).rets (cs.map Call.invH) = s.rets cs ∧
      (mirrorH s).exec (cs.map Call.invH) = mirrorH (s.exec cs) := by
  induction cs with
  | nil => intro s _ _ _; exact ⟨rfl, rfl, rfl⟩
  | cons c cs ih =>
    intro s hcs hpol hprev
    obtain ⟨hc, hb⟩ := hcs c (List.mem_cons_self _ _)
    obtain ⟨q1, q2⟩ := stepH_inv s c hc hb hpol hprev
    obtain ⟨i1, i2, i3⟩ := ih (s.step c).st (fun d hd => hcs d (List.mem_cons_of_mem _ hd)) q1 q2
    simp only [List.map_cons, VideoOut.trace, VideoOut.rets, VideoOut.exec,
      step_mirrorH s c hc hb hpol hprev, i1, i2, i3]
    exact ⟨trivial, trivial, trivial⟩

theorem exec_mirrorV (cs : List Call) :
    ∀ s : VideoOut, (∀ c ∈ cs, c.isRGBHV = true ∧ c.vs ≤ 1) → s.vs_pol = 1 → s.prev_vs ≤ 1 →
      (mirrorV s).trace (cs.map Call.invV) = s.trace cs ∧
      (mirrorV s).rets (cs.map Call.invV) = s.rets cs ∧
      (mirrorV s).exec (cs.map Call.invV) = mirrorV (s.exec cs) := by
  induction cs with
  | nil => intro s _ _ _; exact ⟨rfl, rfl, rfl⟩
  | cons c cs ih =>
    intro s hcs hpol hprev
    obtain ⟨hc, hb⟩ := hcs c (List.mem_cons_self _ _)
    obtain ⟨q1, q2⟩ := stepV_inv s c hc hb hpol hprev
    obtain ⟨i1, i2, i3⟩ := ih (s.step c).st (fun d hd => hcs d (List.mem_cons_of_mem _ hd)) q1 q2
    simp only [List.map_cons, VideoOut.trace, VideoOut.rets, VideoOut.exec,
      step_mirrorV s c hc hb hpol hprev, i1, i2, i3]
    exact ⟨trivial, trivial, trivial⟩

/-- The engine with the horizontal polarity inverted, fed the hs-inverted sequence
from the start: same effects and returned values, and the same engine up to the
polarity and the stored hs level. -/
theorem exec_lowerH (cs : List Call) :
    ∀ s : VideoOut, (∀ c ∈ cs, c.isRGBHV = true ∧ c.hs ≤ 1) → s.hs_pol = 1 →
      firstRise (fun c => decide (c.hs = 0)) s.prev_clk cs = true →
      (lowerH s).trace (cs.map Call.invH) = s.trace cs ∧
      (lowerH s).rets (cs.map Call.invH) = s.rets cs ∧
      ((lowerH s).exec (cs.map Call.invH) = lowerH (s.exec cs) ∨
        (lowerH s).exec (cs.map Call.invH) = mirrorH (s.exec cs)) := by
  induction cs with
  | nil => intro s _ _ _; exact ⟨rfl, rfl, Or.inl rfl⟩
  | cons c cs ih =>
    intro s hcs hpol hq
    obtain ⟨hc, hb⟩ := hcs c (List.mem_cons_self _ _)
    have hrest := fun d hd => hcs d (List.mem_cons_of_mem c hd)
    obtain ⟨l1, l2⟩ := step_lowerH s c hc hpol
    have hpol1 : (s.step c).st.hs_pol = 1 :=
      (config_fields (step_config s c)).2.2.1.trans hpol
    simp only [firstRise] at hq
    by_cases hr : c.clk ≠ 0 ∧ s.prev_clk = 0
    · rw [if_pos hr, decide_eq_true_eq] at hq
      have hph : (s.step c).st.prev_hs ≤ 1 := by
        rw [stepHV_prev_hs s c (isRGBHV_isHV c hc) hr, hq]
        exact Nat.zero_le 1
      obtain ⟨i1, i2, i3⟩ := exec_mirrorH cs (s.step c).st hrest hpol1 hph
      simp only [List.map_cons, VideoOut.trace, VideoOut.rets, VideoOut.exec, l2 hr hq, i1, i2, i3]
      exact ⟨trivial, trivial, Or.inr trivial⟩
    · rw [if_neg hr] at hq
      have hclk : (s.step c).st.prev_clk = c.clk := (stepHV_dump s c (isRGBHV_isHV c hc)).1
      obtain ⟨i1, i2, i3⟩ := ih (s.step c).st hrest hpol1 (by rw [hclk]; exact hq)
      simp only [List.map_cons, VideoOut.trace, VideoOut.rets, VideoOut.exec, l1 hr, i1, i2]
      exact ⟨trivial, trivial, i3⟩

/-- The same for the vertical polarity and the vs-inverted sequence. -/
theorem exec_lowerV (cs : List Call) :
    ∀ s : VideoOut, (∀ c ∈ cs, c.isRGBHV = true ∧ c.vs ≤ 1) → s.vs_pol = 1 →
      firstRise (fun c => decide (c.vs = 0)) s.prev_clk cs = true →
      (lowerV s).trace (cs.map Call.invV) = s.trace cs ∧
      (lowerV s).rets (cs.map Call.invV) = s.rets cs ∧
      ((lowerV s).exec (cs.map Call.invV) = lowerV (s.exec cs) ∨
        (lowerV s).exec (cs.map Call.invV) = mirrorV (s.exec cs)) := by
  induction cs with
  | nil => intro s _ _ _; exact ⟨rfl, rfl, Or.inl rfl⟩
  | cons c cs ih =>
    intro s hcs hpol hq
    obtain ⟨hc, hb⟩ := hcs c (List.mem_cons_self _ _)
    have hrest := fun d hd => hcs d (List.mem_cons_of_mem c hd)
    obtain ⟨l1, l2⟩ := step_lowerV s c hc hpol
    have hpol1 : (s.step c).st.vs_pol = 1 :=
      (config_fields (step_config s c)).2.2.2.1.trans hpol
    simp only [firstRise] at hq
    by_cases hr : c.clk ≠ 0 ∧ s.prev_clk = 0
    · rw [if_pos hr, decide_eq_true_eq] at hq
      have hpv : (s.step c).st.prev_vs ≤ 1 := by
        rw [(stepHV_dump s c (isRGBHV_isHV c hc)).2.1, if_pos hr, hq]
        exact Nat.zero_le 1
      obtain ⟨i1, i2, i3⟩ := exec_mirrorV cs (s.step c).st hrest hpol1 hpv
      simp only [List.map_cons, VideoOut.trace, VideoOut.rets, VideoOut.exec, l2 hr hq, i1, i2, i3]
      exact ⟨trivial, trivial, Or.inr trivial⟩
    · rw [if_neg hr] at hq
      have hclk : (s.step c).st.prev_clk = c.clk := (stepHV_dump s c (isRGBHV_isHV c hc)).1
      obtain ⟨i1, i2, i3⟩ := ih (s.step c).st hrest hpol1 (by rw [hclk]; exact hq)
      simp only [List.map_cons, VideoOut.trace, VideoOut.rets, VideoOut.exec, l1 hr, i1, i2]
      exact ⟨trivial, trivial, i3⟩

theorem firstRise_mono (p q : Call → Bool) (h : ∀ c, p c = true → q c = true) (cs : List Call) :
    ∀ prev, firstRise p prev cs = true → firstRise q prev cs = true := by
  induction cs with
  | nil => intro _ _; rfl
  | cons c cs ih =>
    intro prev hp
    simp only [firstRise] at hp ⊢
    split_ifs with hr
    · rw [if_pos hr] at hp
      exact h c hp
    · rw [if_neg hr] at hp
      exact ih c.clk hp

theorem invH_fields (c : Call) :
    (c.invH.isRGBHV = c.isRGBHV ∧ c.invH.clk = c.clk) ∧ c.invH.vs = c.vs := by
  cases c <;> exact ⟨⟨rfl, rfl⟩, rfl⟩

theorem firstRise_invH (cs : List Call) :
    ∀ prev, firstRise (fun c => decide (c.vs = 0)) prev cs = true →
      firstRise (fun c => decide (c.vs = 0)) prev (cs.map Call.invH) = true := by
  induction cs with
  | nil => intro _ _; rfl
  | cons c cs ih =>
    intro prev hp
    obtain ⟨⟨-, e1⟩, e2⟩ := invH_fields c
    simp only [List.map_cons, firstRise, e1, e2] at hp ⊢
    split_ifs with hr
    · rw [if_pos hr] at hp
      exact hp
    · rw [if_neg hr] at hp
      exact ih c.clk hp

theorem counts_of_lowerH (x y : VideoOut) (h : x = lowerH y ∨ x = mirrorH y) :
    x.hcount = y.hcount ∧ x.vcount = y.vcount := by
  rcases h with h | h <;> rw [h] <;> exact ⟨rfl, rfl⟩

theorem counts_of_lowerV (x y : VideoOut) (h : x = lowerV y ∨ x = mirrorV y) :
    x.hcount = y.hcount ∧ x.vcount = y.vcount := by
  rcases h with h | h <;> rw [h] <;> exact ⟨rfl, rfl⟩

/-- C28: let E+ be constructed with polarity HS_POS_POL | VS_POS_POL = 3 and let the
calls be `eval_RGB444_HV` calls with hs, vs in 0, 1 whose first rising-clock sample has
hs = 0 and vs = 0.  (1) The otherwise identical engine with polarity 0, fed the
sequence with hs and vs inverted, produces the same effects in the same order (pixel
writes, finalize calls, log lines), the same returned values and the same hcount and
vcount.  (2) The engine with polarity VS_POS_POL = 2 (only the HS bit cleared) does so
when only hs is inverted, and (3) the engine with polarity HS_POS_POL = 1 (only the VS
bit cleared) when only vs is inverted: each bit concerns the detection of its own sync
only. -/
theorem C28_polarity_symmetry (debug depth hoffset hactive voffset vactive : Nat)
    (file : List Nat) (junk : Uninit) (cs : List Call)
    (hcs : ∀ c ∈ cs, c.isRGBHV = true ∧ c.vs ≤ 1 ∧ c.hs ≤ 1)
    (hq : firstRise (fun c => decide (c.hs = 0 ∧ c.vs = 0)) 0 cs = true) :
    ((VideoOut.new debug depth 0 hoffset hactive voffset vactive file junk).trace
        ((cs.map Call.invH).map Call.invV) =
        (VideoOut.new debug depth 3 hoffset hactive voffset vactive file junk).trace cs ∧
      (VideoOut.new debug depth 0 hoffset hactive voffset vactive file junk).rets
        ((cs.map Call.invH).map Call.invV) =
        (VideoOut.new debug depth 3 hoffset hactive voffset vactive file junk).rets cs ∧
      ((VideoOut.new debug depth 0 hoffset hactive voffset vactive file junk).exec
        ((cs.map Call.invH).map Call.invV)).hcount =
        ((VideoOut.new debug depth 3 hoffset hactive voffset vactive file junk).exec cs).hcount ∧
      ((VideoOut.new debug depth 0 hoffset hactive voffset vactive file junk).exec
        ((cs.map Call.invH).map Call.invV)).vcount =
        ((VideoOut.new debug depth 3 hoffset hactive voffset vactive file junk).exec cs).vcount) ∧
    ((VideoOut.new debug depth 2 hoffset hactive voffset vactive file junk).trace
        (cs.map Call.invH) =
        (VideoOut.new debug depth 3 hoffset hactive voffset vactive file junk).trace cs ∧
      (VideoOut.new debug depth 2 hoffset hactive voffset vactive file junk).rets
        (cs.map Call.invH) =
        (VideoOut.new debug depth 3 hoffset hactive voffset vactive file junk).rets cs ∧
      ((VideoOut.new debug depth 2 hoffset hactive voffset vactive file junk).exec
        (cs.map Call.invH)).hcount =
        ((VideoOut.new debug depth 3 hoffset hactive voffset vactive file junk).exec cs).hcount ∧
      ((VideoOut.new debug depth 2 hoffset hactive voffset vactive file junk).exec
        (cs.map Call.invH)).vcount =
        ((VideoOut.new debug depth 3 hoffset hactive voffset vactive file junk).exec cs).vcount) ∧
    ((VideoOut.new debug depth 1 hoffset hactive voffset vactive file junk).trace
        (cs.map Call.invV) =
        (VideoOut.new debug depth 3 hoffset hactive voffset vactive file junk).trace cs ∧
      (VideoOut.new debug depth 1 hoffset hactive voffset vactive file junk).rets
        (cs.map Call.invV) =
        (VideoOut.new debug depth 3 hoffset hactive voffset vactive file junk).rets cs ∧
      ((VideoOut.new debug depth 1 hoffset hactive voffset vactive file junk).exec
        (cs.map Call.invV)).hcount =
        ((VideoOut.new debug depth 3 hoffset hactive voffset vactive file junk).exec cs).hcount ∧
      ((VideoOut.new debug depth 1 hoffset hactive voffset vactive file junk).exec
        (cs.map Call.invV)).vcount =
        ((VideoOut.new debug depth 3 hoffset hactive voffset vactive file junk).exec cs).vcount) := by
  have e2 : VideoOut.new debug depth 2 hoffset hactive voffset vactive file junk =
      lowerH (VideoOut.new debug depth 3 hoffset hactive voffset vactive file junk) := rfl
  have e1 : VideoOut.new debug depth 1 hoffset hactive voffset vactive file junk =
      lowerV (VideoOut.new debug depth 3 hoffset hactive voffset vactive file junk) := rfl
  have e0 : VideoOut.new debug depth 0 hoffset hactive voffset vactive file junk =
      lowerV (lowerH (VideoOut.new debug depth 3 hoffset hactive voffset vactive file junk)) := rfl
  have hqh : firstRise (fun c => decide (c.hs = 0)) 0 cs = true :=
    firstRise_mono _ _ (fun c h => by
      rw [decide_eq_true_eq] at h ⊢
      exact h.1) cs 0 hq
  have hqv : firstRise (fun c => decide (c.vs = 0)) 0 cs = true :=
    firstRise_mono _ _ (fun c h => by
      rw [decide_eq_true_eq] at h ⊢
      exact h.2) cs 0 hq
  obtain ⟨a1, a2, a3⟩ := exec_lowerH cs
    (VideoOut.new debug depth 3 hoffset hactive voffset vactive file junk)
    (fun c hc => ⟨(hcs c hc).1, (hcs c hc).2.2⟩) rfl hqh
  obtain ⟨b1, b2, b3⟩ := exec_lowerV cs
    (VideoOut.new debug depth 3 hoffset hactive voffset vactive file junk)
    (fun c hc => ⟨(hcs c hc).1, (hcs c hc).2.1⟩) rfl hqv
  have hmap : ∀ c ∈ cs.map Call.invH, c.isRGBHV = true ∧ c.vs ≤ 1 := by
    intro c hc
    obtain ⟨d, hd, rfl⟩ := List.mem_map.1 hc
    obtain ⟨⟨f1, -⟩, f2⟩ := invH_fields d
    rw [f1, f2]
    exact ⟨(hcs d hd).1, (hcs d hd).2.1⟩
  obtain ⟨c1, c2, c3⟩ := exec_lowerV (cs.map Call.invH)
    (lowerH (VideoOut.new debug depth 3 hoffset hactive voffset vactive file junk)) hmap rfl
    (firstRise_invH cs 0 hqv)
  rw [e0, e1, e2]
  obtain ⟨k1, k2⟩ := counts_of_lowerH _ _ a3
  obtain ⟨m1, m2⟩ := counts_of_lowerV _ _ b3
  obtain ⟨n1, n2⟩ := counts_of_lowerV _ _ c3
  exact ⟨⟨c1.trans a1, c2.trans a2, n1.trans k1, n2.trans k2⟩, ⟨a1, a2, k1, k2⟩,
    ⟨b1, b2, m1, m2⟩⟩

/-- Witness of C28 on a 4 x 2 engine and the sequence `demoSync`: the engine of
polarity 0 fed the inverted levels returns the same values and ends at the same
counts. -/
theorem C28_polarity_symmetry_witness :
    (VideoOut.new 0 8 0 0 4 0 2 snapshotName Uninit.zero).rets
        ((demoSync.map Call.invH).map Call.invV) =
      (VideoOut.new 0 8 3 0 4 0 2 snapshotName Uninit.zero).rets demoSync ∧
    ((VideoOut.new 0 8 0 0 4 0 2 snapshotName Uninit.zero).exec
        ((demoSync.map Call.invH).map Call.invV)).hcount =
      ((VideoOut.new 0 8 3 0 4 0 2 snapshotName Uninit.zero).exec demoSync).hcount :=
  have h := (C28_polarity_symmetry 0 8 0 4 0 2 snapshotName Uninit.zero demoSync (by decide)
    (by decide)).1
  ⟨h.2.1, h.2.2.1⟩

/-! ### Raster placement in the sync discipline, any colour depth -/

theorem hvSample_pos (s : VideoOut) (W H c r phs hs : Nat) (p : Nat × Nat × Nat)
    (hst : HVpos s W H c r phs) (hc' vc' : Nat)
    (h1 : (if hsRise s hs then 0 else u16 (s.hcount + 1)) = hc')
    (h2 : (if hsRise s hs ∧ s.hcount > 4 then u16 (s.vcount + 1) else s.vcount) = vc') :
    HVpos (s.exec (hvSample 0 hs p)) W H hc' vc' hs ∧
      (s.exec (hvSample 0 hs p)).config = s.config := by
  obtain ⟨⟨a1, a2, a3, a4⟩, ⟨b1, b2⟩, ⟨c1, c2⟩, ⟨d1, d2, d3⟩⟩ := hst
  have hcfg0 := riseHV_config s 0 1 0 hs (capRGBHV s p.1 p.2.1 p.2.2)
  have hcfg := config_fields hcfg0
  have hv : ¬ vsRise s 0 := by simp [vsRise, b2]
  rw [(hvSample_run s 0 hs p d1).1]
  refine ⟨⟨⟨?_, ?_, ?_, ?_⟩, ⟨?_, ?_⟩, ⟨?_, ?_⟩, ⟨rfl, rfl, rfl⟩⟩, hcfg0⟩
  · exact hcfg.2.2.2.2.2.1.trans a1
  · exact hcfg.2.2.2.2.2.2.1.trans a2
  · exact hcfg.2.2.2.2.2.2.2.1.trans a3
  · exact hcfg.2.2.2.2.2.2.2.2.1.trans a4
  · exact hcfg.2.2.1.trans b1
  · exact hcfg.2.2.2.1.trans b2
  · rw [← h1]
    show (hsPart (vsPart s 0 0 _) 0 1 0 hs).st.hcount = _
    rw [riseHV_hcount, if_neg hv]
  · rw [← h2]
    show (hsPart (vsPart s 0 0 _) 0 1 0 hs).st.vcount = _
    rw [riseHV_vcount, if_neg hv]

/-- A pixel sample inside the active area is written at the current position with the
masked and shifted channels and advances the horizontal count. -/
theorem hvSample_pixel_pos (s : VideoOut) (W H c r phs : Nat) (p : Nat × Nat × Nat)
    (hs : HVpos s W H c r phs) (hc : c < W) (hr : r < H) (hW16 : W < 65536) :
    (HVpos (s.exec (hvSample 0 0 p)) W H (c + 1) r 0 ∧
      (s.exec (hvSample 0 0 p)).config = s.config) ∧
      pixelWrites (s.trace (hvSample 0 0 p)) =
        [((c : Int), (r : Int),
          { Red := (convRGB s p).1, Green := (convRGB s p).2.1, Blue := (convRGB s p).2.2 })] := by
  have hs' := hs
  obtain ⟨⟨a1, a2, a3, a4⟩, ⟨b1, b2⟩, ⟨c1, c2⟩, ⟨d1, d2, d3⟩⟩ := hs'
  have hh : ¬ hsRise s 0 := by simp [hsRise, b1]
  have hwin : inWindow s := by
    simp only [inWindow, a1, a2, a3, a4, c1, c2]
    omega
  refine ⟨hvSample_pos s W H c r phs 0 p hs (c + 1) r ?_ ?_, ?_⟩
  · rw [if_neg hh, c1, u16]
    exact Nat.mod_eq_of_lt (by omega)
  · rw [if_neg (fun h => hh h.1), c2]
  · rw [(hvSample_run s 0 0 p d1).2, riseHV_pixelWrites, capRGBHV_eq, if_pos hwin]
    simp only [pixelWrites_setPixel, pixelWrites_nil, a1, a2, c1, c2]
    simp [rgbPixel, convRGB]

/-- The sample closing a line of at least 5 pixels: nothing is written, the vertical
count advances and the horizontal count restarts. -/
theorem hvSample_hsync_pos (s : VideoOut) (W H r : Nat) (p : Nat × Nat × Nat)
    (hs : HVpos s W H W r 0) (hW : 5 ≤ W) (hr : r < H) (hH16 : H < 65536) :
    (HVpos (s.exec (hvSample 0 1 p)) W H 0 (r + 1) 1 ∧
      (s.exec (hvSample 0 1 p)).config = s.config) ∧
      pixelWrites (s.trace (hvSample 0 1 p)) = [] := by
  have hs' := hs
  obtain ⟨⟨a1, a2, a3, a4⟩, ⟨b1, b2⟩, ⟨c1, c2⟩, ⟨d1, d2, d3⟩⟩ := hs'
  have hh : hsRise s 1 := by simp [hsRise, b1, d3]
  have hwin : ¬ inWindow s := by
    simp only [inWindow, a1, a2, a3, a4, c1, c2]
    omega
  refine ⟨hvSample_pos s W H W r 0 1 p hs 0 (r + 1) ?_ ?_, ?_⟩
  · rw [if_pos hh]
  · rw [if_pos ⟨hh, by omega⟩, c2, u16]
    exact Nat.mod_eq_of_lt (by omega)
  · rw [(hvSample_run s 0 1 p d1).2, riseHV_pixelWrites, capRGBHV_eq, if_neg hwin]
    rfl

theorem convRGB_config {s t : VideoOut} (h : s.config = t.config) : convRGB s = convRGB t := by
  obtain ⟨h1, h2, -⟩ := config_fields h
  funext p
  simp only [convRGB, h1, h2]

/-- The first `n` pixel samples of row `r`. -/
theorem hvPixels_pos (W H r : Nat) (row : Nat → Nat × Nat × Nat) (hr : r < H) (hW16 : W < 65536)
    (n : Nat) :
    ∀ (s : VideoOut) (phs : Nat), n ≤ W → HVpos s W H 0 r phs →
      (HVpos (s.exec (hvPixels row n)) W H n r (if n = 0 then phs else 0) ∧
        (s.exec (hvPixels row n)).config = s.config) ∧
        pixelWrites (s.trace (hvPixels row n)) = rowWrites r (fun c => convRGB s (row c)) n := by
  induction n with
  | zero => intro s phs _ hs; exact ⟨⟨hs, rfl⟩, rfl⟩
  | succ n ih =>
    intro s phs hn hs
    obtain ⟨⟨i1, i2⟩, i3⟩ := ih s phs (by omega) hs
    obtain ⟨⟨j1, j2⟩, j3⟩ := hvSample_pixel_pos (s.exec (hvPixels row n)) W H n r _ (row n) i1
      (by omega) hr hW16
    rw [convRGB_config i2] at j3
    simp only [hvPixels, rowWrites, exec_append, trace_append, pixelWrites_append, i3, j3]
    exact ⟨⟨by simpa using j1, j2.trans i2⟩, trivial⟩

/-- One scanline: W pixel samples and the horizontal-sync sample. -/
theorem hvRow_pos (W H r : Nat) (row : Nat → Nat × Nat × Nat) (sync : Nat × Nat × Nat)
    (hW : 5 ≤ W) (hW16 : W < 65536) (hr : r < H) (hH16 : H < 65536)
    (s : VideoOut) (phs : Nat) (hs : HVpos s W H 0 r phs) :
    (HVpos (s.exec (hvRow W row sync)) W H 0 (r + 1) 1 ∧
      (s.exec (hvRow W row sync)).config = s.config) ∧
      pixelWrites (s.trace (hvRow W row sync)) = rowWrites r (fun c => convRGB s (row c)) W ∧
      pixelWrites ((s.exec (hvPixels row W)).trace (hvSample 0 1 sync)) = [] := by
  obtain ⟨⟨i1, i2⟩, i3⟩ := hvPixels_pos W H r row hr hW16 W s phs (le_refl W) hs
  rw [if_neg (by omega)] at i1
  obtain ⟨⟨j1, j2⟩, j3⟩ := hvSample_hsync_pos (s.exec (hvPixels row W)) W H r sync i1 hW hr hH16
  simp only [hvRow, exec_append, trace_append, pixelWrites_append, i3, j3, List.append_nil]
  exact ⟨⟨j1, j2.trans i2⟩, trivial, trivial⟩

/-- The first `n` scanlines. -/
theorem hvRows_pos (W H : Nat) (pix : Nat → Nat → Nat × Nat × Nat) (sync : Nat × Nat × Nat)
    (hW : 5 ≤ W) (hW16 : W < 65536) (hH16 : H < 65536)
    (s : VideoOut) (hs : HVpos s W H 0 0 0) (n : Nat) :
    n ≤ H →
      (HVpos (s.exec (hvRows W pix sync n)) W H 0 n (if n = 0 then 0 else 1) ∧
        (s.exec (hvRows W pix sync n)).config = s.config) ∧
        pixelWrites (s.trace (hvRows W pix sync n)) =
          rasterWrites W (fun r c => convRGB s (pix r c)) n := by
  induction n with
  | zero => intro _; exact ⟨⟨hs, rfl⟩, rfl⟩
  | succ n ih =>
    intro hn
    obtain ⟨⟨i1, i2⟩, i3⟩ := ih (by omega)
    obtain ⟨⟨j1, j2⟩, j3, -⟩ := hvRow_pos W H n (pix n) sync hW hW16 (by omega) hH16
      (s.exec (hvRows W pix sync n)) _ i1
    rw [convRGB_config i2] at j3
    simp only [hvRows, rasterWrites, exec_append, trace_append, pixelWrites_append, i3, j3]
    exact ⟨⟨by simpa using j1, j2.trans i2⟩, trivial⟩

/-- C23: on a fresh engine with offsets 0, active area W x H with 5 <= W < 2^16 and
H < 2^16 (in particular H >= 1), positive polarities, any colour depth and debug flag,
driven through `eval_RGB444_HV` with H rows of W rising-clock pixel samples (hs = 0,
vs = 0), each row followed by one rising-clock sample with hs = 1: the pixel writes are
exactly the W*H writes in raster order, the c-th sample of row r being written at
(c, r) with its masked and shifted channels; each horizontal-sync sample writes
nothing; and after the H rows vcount = H and hcount = 0. -/
theorem C23_hv_raster_placement (debug depth W H : Nat) (file : List Nat) (junk : Uninit)
    (pix : Nat → Nat → Nat × Nat × Nat) (sync : Nat × Nat × Nat)
    (hW : 5 ≤ W) (hW16 : W < 65536) (hH16 : H < 65536) :
    (pixelWrites ((VideoOut.new debug depth 3 0 W 0 H file junk).trace (hvRows W pix sync H)) =
        rasterWrites W (fun r c => convRGB (VideoOut.new debug depth 3 0 W 0 H file junk)
          (pix r c)) H ∧
      ∀ r c, r < H → c < W →
        (pixelWrites ((VideoOut.new debug depth 3 0 W 0 H file junk).trace
          (hvRows W pix sync H)))[W * r + c]? =
        some ((c : Int), (r : Int),
          rgbPixel (VideoOut.new debug depth 3 0 W 0 H file junk) (pix r c).1 (pix r c).2.1
            (pix r c).2.2)) ∧
    (∀ r, r < H →
      pixelWrites (((VideoOut.new debug depth 3 0 W 0 H file junk).exec
        (hvRows W pix sync r ++ hvPixels (pix r) W)).trace (hvSample 0 1 sync)) = []) ∧
    ((VideoOut.new debug depth 3 0 W 0 H file junk).exec (hvRows W pix sync H)).vcount = H ∧
    ((VideoOut.new debug depth 3 0 W 0 H file junk).exec (hvRows W pix sync H)).hcount = 0 := by
  have h0 : HVpos (VideoOut.new debug depth 3 0 W 0 H file junk) W H 0 0 0 :=
    ⟨⟨rfl, rfl, rfl, rfl⟩, ⟨rfl, rfl⟩, ⟨rfl, rfl⟩, ⟨rfl, rfl, rfl⟩⟩
  obtain ⟨⟨⟨-, -, ⟨k1, k2⟩, -⟩, -⟩, k3⟩ := hvRows_pos W H pix sync hW hW16 hH16 _ h0 H (le_refl H)
  refine ⟨⟨k3, ?_⟩, ?_, k2, k1⟩
  · intro r c hr hc
    rw [k3, rasterWrites_get W _ H r c hr hc]
    rfl
  · intro r hr
    obtain ⟨⟨i1, -⟩, -⟩ := hvRows_pos W H pix sync hW hW16 hH16 _ h0 r (by omega)
    rw [exec_append]
    exact (hvRow_pos W H r (pix r) sync hW hW16 hr hH16 _ _ i1).2.2

/-- Witness of C23 on a 5 x 2 engine of depth 4: the third sample of the second row is
written at (2, 1), and after the two rows vcount = 2 and hcount = 0. -/
theorem C23_hv_raster_placement_witness :
    (pixelWrites ((VideoOut.new 0 4 3 0 5 0 2 snapshotName Uninit.zero).trace
        (hvRows 5 demoPix (0, 0, 0) 2)))[5 * 1 + 2]? =
      some (((2 : Nat) : Int), ((1 : Nat) : Int),
        rgbPixel (VideoOut.new 0 4 3 0 5 0 2 snapshotName Uninit.zero) (demoPix 1 2).1
          (demoPix 1 2).2.1 (demoPix 1 2).2.2) ∧
    ((VideoOut.new 0 4 3 0 5 0 2 snapshotName Uninit.zero).exec
      (hvRows 5 demoPix (0, 0, 0) 2)).vcount = 2 :=
  have h := C23_hv_raster_placement 0 4 5 2 snapshotName Uninit.zero demoPix (0, 0, 0)
    (by decide) (by decide) (by decide)
  ⟨h.1.2 1 2 (by decide) (by decide), h.2.2.1⟩

/-! ### Index safety of the 4:2:0 reconstruction -/

theorem lumaPart_hcount1 (s : VideoOut) (de_y luma : Nat) :
    (lumaPart s de_y luma).hcount1 =
      if de_y ≠ 0 then (if u16 (s.hcount1 + 1) = s.hor_size then 0 else u16 (s.hcount1 + 1))
      else s.hcount1 := by
  simp only [lumaPart]
  split_ifs <;> rfl

theorem chromaPart_hcount2 (s : VideoOut) (de_c chroma : Nat) :
    (chromaPart s de_c chroma).hcount2 =
      if de_c ≠ 0 then (if u16 (s.hcount2 + 1) = s.hor_size then 0 else u16 (s.hcount2 + 1))
      else s.hcount2 := by
  simp only [chromaPart]
  split_ifs <;> rfl

theorem lumaPart_Dims (s : VideoOut) (W de_y luma : Nat) (h : Dims s W) :
    Dims (lumaPart s de_y luma) W := by
  have e : (lumaPart s de_y luma).c_buf = s.c_buf ∧
      ((lumaPart s de_y luma).y_buf = s.y_buf ∨
        (lumaPart s de_y luma).y_buf = bufSet s.y_buf (s.vcount1 &&& 3) s.hcount1 (luma : Int)) := by
    simp only [lumaPart]
    split_ifs
    · exact ⟨rfl, Or.inr rfl⟩
    · exact ⟨rfl, Or.inr rfl⟩
    · exact ⟨rfl, Or.inl rfl⟩
  obtain ⟨e1, e2⟩ := e
  unfold Dims at h ⊢
  rw [e1]
  refine ⟨?_, h.2⟩
  rcases e2 with e2 | e2 <;> rw [e2]
  · exact h.1
  · exact ⟨by rw [bufSet_length]; exact h.1.1,
      fun k hk => by rw [bufSet_row_length]; exact h.1.2 k hk⟩

theorem chromaPart_Dims (s : VideoOut) (W de_c chroma : Nat) (h : Dims s W) :
    Dims (chromaPart s de_c chroma) W := by
  have e : (chromaPart s de_c chroma).y_buf = s.y_buf ∧
      ((chromaPart s de_c chroma).c_buf = s.c_buf ∨
        (chromaPart s de_c chroma).c_buf =
          bufSet s.c_buf (s.vcount2 &&& 1) s.hcount2 (chroma : Int)) := by
    simp only [chromaPart]
    split_ifs
    · exact ⟨rfl, Or.inr rfl⟩
    · exact ⟨rfl, Or.inr rfl⟩
    · exact ⟨rfl, Or.inl rfl⟩
  obtain ⟨e1, e2⟩ := e
  unfold Dims at h ⊢
  rw [e1]
  refine ⟨h.1, ?_⟩
  rcases e2 with e2 | e2 <;> rw [e2]
  · exact h.2
  · exact ⟨by rw [bufSet_length]; exact h.2.1,
      fun k hk => by rw [bufSet_row_length]; exact h.2.2 k hk⟩

/-- The two storing blocks keep the invariant. -/
theorem store420_Inv (s : VideoOut) (W H : Nat) (hW16 : W < 65536) (h : Inv420 s W H)
    (de_y de_c luma chroma : Nat) :
    Inv420 (chromaPart (lumaPart s de_y luma) de_c chroma) W H := by
  obtain ⟨⟨a1, a2⟩, ⟨b1, b2⟩, ⟨c1, c2⟩, d⟩ := h
  obtain ⟨⟨l1, -, l3⟩, -⟩ := lumaPart_counts s de_y luma
  obtain ⟨⟨m1, -, m3⟩, -⟩ := chromaPart_counts (lumaPart s de_y luma) de_c chroma
  have hcl := config_fields (lumaPart_config s de_y luma)
  have hcc := config_fields ((chromaPart_config (lumaPart s de_y luma) de_c chroma).trans
    (lumaPart_config s de_y luma))
  refine ⟨⟨hcc.2.2.2.2.2.2.2.1.trans a1, hcc.2.2.2.2.2.2.2.2.1.trans a2⟩, ⟨?_, ?_⟩, ⟨?_, ?_⟩,
    chromaPart_Dims _ W de_c chroma (lumaPart_Dims s W de_y luma d)⟩
  · rw [m3, lumaPart_hcount1, a1]
    unfold u16
    split_ifs <;> omega
  · rw [chromaPart_hcount2, l3, hcl.2.2.2.2.2.2.2.1, a1]
    unfold u16
    split_ifs <;> omega
  · rw [m1, l1]
    exact c1
  · rw [m1, l1]
    exact c2

theorem mem_emitWrites (s : VideoOut) (l c n : Nat) (w : Int × Int × RGBApixel)
    (h : w ∈ emitWrites s l c n) :
    (0 ≤ w.1 ∧ w.1 < ((2 * n : Nat) : Int)) ∧
      (w.2.1 = (s.vcount : Int) ∨ w.2.1 = (s.vcount : Int) + 1) := by
  simp only [emitWrites, List.mem_flatten, List.mem_map, List.mem_range] at h
  obtain ⟨_, ⟨j, hj, rfl⟩, hw⟩ := h
  obtain ⟨h1, h2⟩ := mem_blockWrites _ _ _ _ _ _ _ _ _ w hw
  refine ⟨?_, h2⟩
  push_cast at h1 ⊢
  omega

/-- The emission block keeps the invariant and writes inside the frame. -/
theorem emitPart_Inv (s : VideoOut) (W H : Nat) (hWe : W % 2 = 0) (hHe : H % 2 = 0)
    (hH16 : H < 65536) (h : Inv420 s W H) (cycle clk : Nat) :
    Inv420 (emitPart s cycle clk).st W H ∧
      ∀ w ∈ pixelWrites (emitPart s cycle clk).out,
        (0 ≤ w.1 ∧ w.1 < (W : Int)) ∧ (0 ≤ w.2.1 ∧ w.2.1 < (H : Int)) := by
  obtain ⟨⟨a1, a2⟩, ⟨b1, b2⟩, ⟨c1, c2⟩, d⟩ := h
  have hcfg := config_fields (emitPart_config s cycle clk)
  obtain ⟨⟨e1, e2⟩, ⟨e3, e4⟩, -⟩ := emitPart_same s cycle clk
  have hu : u16 (s.vcount + 2) = s.vcount + 2 := Nat.mod_eq_of_lt (by omega)
  refine ⟨⟨⟨hcfg.2.2.2.2.2.2.2.1.trans a1, hcfg.2.2.2.2.2.2.2.2.1.trans a2⟩,
    ⟨by rw [e1]; exact b1, by rw [e2]; exact b2⟩, ?_, ?_⟩, ?_⟩
  · rw [emitPart_vcount, hu, a2]
    split_ifs <;> omega
  · unfold Dims at d ⊢
    rw [e3, e4]
    exact d
  · intro w hw
    rw [emitPart_pixelWrites] at hw
    split_ifs at hw
    · obtain ⟨h1, h2⟩ := mem_emitWrites _ _ _ _ w hw
      rw [a1] at h1
      push_cast at h1
      omega
    · simp at hw

theorem ring_bounds (n : Nat) :
    n &&& 3 ≤ 3 ∧ n &&& 1 ≤ 1 ∧ (n &&& 2) ^^^ 2 ≤ 3 ∧ (n &&& 2) ^^^ 3 ≤ 3 ∧
      (n &&& 1) ^^^ 1 ≤ 1 := by
  have h1 : n &&& 1 = 0 ∨ n &&& 1 = 1 := by
    rw [and_one]
    omega
  have h2 : n &&& 2 = 0 ∨ n &&& 2 = 2 := by
    rw [and_two]
    split_ifs
    · exact Or.inr rfl
    · exact Or.inl rfl
  refine ⟨by rw [and_three]; omega, by omega, ?_, ?_, ?_⟩
  · rcases h2 with h | h <;> rw [h] <;> decide
  · rcases h2 with h | h <;> rw [h] <;> decide
  · rcases h1 with h | h <;> rw [h] <;> decide

/-- Every line-buffer access of a rising-clock call is within the rings and the line
width. -/
theorem accesses420_safe (s : VideoOut) (W H : Nat) (hWe : W % 2 = 0) (hW16 : W < 65536)
    (h : Inv420 s W H) (de_y de_c luma chroma : Nat) :
    ∀ a ∈ accesses420 s de_y de_c luma chroma,
      (a.1 = true → a.2.1 ≤ 3 ∧ a.2.2 < W) ∧ (a.1 = false → a.2.1 ≤ 1 ∧ a.2.2 < W) := by
  have h2 := store420_Inv s W H hW16 h de_y de_c luma chroma
  obtain ⟨⟨a1, a2⟩, ⟨b1, b2⟩, -, -⟩ := h
  obtain ⟨⟨-, -, l3⟩, -⟩ := lumaPart_counts s de_y luma
  intro a ha
  simp only [accesses420, List.mem_append] at ha
  rcases ha with (ha | ha) | ha
  · split_ifs at ha
    · simp only [List.mem_singleton] at ha
      subst ha
      exact ⟨fun _ => ⟨(ring_bounds _).1, b1⟩, fun h => by simp at h⟩
    · simp at ha
  · split_ifs at ha
    · simp only [List.mem_singleton] at ha
      subst ha
      exact ⟨fun h => by simp at h, fun _ => ⟨(ring_bounds _).2.1, by rw [l3]; exact b2⟩⟩
    · simp at ha
  · split_ifs at ha
    · simp only [List.mem_flatten, List.mem_map, List.mem_range] at ha
      obtain ⟨_, ⟨k, hk, rfl⟩, hm⟩ := ha
      rw [h2.1.1] at hk
      have hb := ring_bounds (chromaPart (lumaPart s de_y luma) de_c chroma).vcount1
      have hc := ring_bounds (chromaPart (lumaPart s de_y luma) de_c chroma).vcount2
      simp only [blockReads, List.mem_cons, List.mem_singleton, List.not_mem_nil, or_false] at hm
      rcases hm with rfl | rfl | rfl | rfl | rfl | rfl
      · exact ⟨fun h => by simp at h, fun _ => ⟨hc.2.2.2.2, by show 2 * k < W; omega⟩⟩
      · exact ⟨fun h => by simp at h, fun _ => ⟨hc.2.2.2.2, by show 2 * k + 1 < W; omega⟩⟩
      · exact ⟨fun _ => ⟨hb.2.2.1, by show 2 * k < W; omega⟩, fun h => by simp at h⟩
      · exact ⟨fun _ => ⟨hb.2.2.1, by show 2 * k + 1 < W; omega⟩, fun h => by simp at h⟩
      · exact ⟨fun _ => ⟨hb.2.2.2.1, by show 2 * k < W; omega⟩, fun h => by simp at h⟩
      · exact ⟨fun _ => ⟨hb.2.2.2.1, by show 2 * k + 1 < W; omega⟩, fun h => by simp at h⟩
    · simp at ha

theorem step420_Inv (s : VideoOut) (W H : Nat) (hWe : W % 2 = 0) (hHe : H % 2 = 0)
    (hW16 : W < 65536) (hH16 : H < 65536) (h : Inv420 s W H) (c : Call)
    (hc : c.is420 = true) :
    Inv420 (s.step c).st W H ∧
      ∀ w ∈ pixelWrites (s.step c).out,
        (0 ≤ w.1 ∧ w.1 < (W : Int)) ∧ (0 ≤ w.2.1 ∧ w.2.1 < (H : Int)) := by
  cases c with
  | YUV420_DE cycle clk de_y de_c luma chroma =>
    simp only [VideoOut.step, eval_YUV420_DE_eq]
    split_ifs
    · exact emitPart_Inv _ W H hWe hHe hH16 (store420_Inv s W H hW16 h de_y de_c luma chroma)
        cycle clk
    · exact ⟨h, fun w hw => by simp [idle] at hw⟩
  | RGB444_HV _ _ _ _ _ _ _ => simp [Call.is420] at hc
  | YUV444_HV _ _ _ _ _ _ _ => simp [Call.is420] at hc
  | YUV422_HV _ _ _ _ _ _ => simp [Call.is420] at hc
  | RGB444_DE _ _ _ _ _ _ => simp [Call.is420] at hc
  | YUV444_DE _ _ _ _ _ _ => simp [Call.is420] at hc
  | YUV422_DE _ _ _ _ _ => simp [Call.is420] at hc

theorem exec420_Inv (W H : Nat) (hWe : W % 2 = 0) (hHe : H % 2 = 0) (hW16 : W < 65536)
    (hH16 : H < 65536) (cs : List Call) :
    ∀ s : VideoOut, Inv420 s W H → (∀ c ∈ cs, c.is420 = true) →
      Inv420 (s.exec cs) W H ∧
        ∀ w ∈ pixelWrites (s.trace cs),
          (0 ≤ w.1 ∧ w.1 < (W : Int)) ∧ (0 ≤ w.2.1 ∧ w.2.1 < (H : Int)) := by
  induction cs with
  | nil => intro s h _; exact ⟨h, by simp [VideoOut.trace]⟩
  | cons c cs ih =>
    intro s h hcs
    obtain ⟨i1, i2⟩ := step420_Inv s W H hWe hHe hW16 hH16 h c (hcs c (List.mem_cons_self _ _))
    obtain ⟨j1, j2⟩ := ih (s.step c).st i1 (fun d hd => hcs d (List.mem_cons_of_mem _ hd))
    refine ⟨j1, ?_⟩
    intro w hw
    simp only [VideoOut.trace, pixelWrites_append, List.mem_append] at hw
    rcases hw with hw | hw
    · exact i2 w hw
    · exact j2 w hw

/-- C25: for an engine constructed with even hor_size = W >= 2 and even
ver_size = H >= 2 (both below 2^16) and driven only through `eval_YUV420_DE`: after
the sequence (hence after every call) hcount1 < W, hcount2 < W, vcount < H and vcount
is even, and the line buffers keep their allocated shape (16 luma and 8 chroma lines
of W entries); every line-buffer access of a following rising-clock call (stores and
reads, the i+1 reads included) uses a luma line index in 0..3 or a chroma line index
in 0..1 and a column index below W; and every pixel write has 0 <= x < W and
0 <= y < H. -/
theorem C25_yuv420_index_safety (debug depth polarity hoffset W voffset H : Nat)
    (file : List Nat) (junk : Uninit) (hW : 2 ≤ W) (hWe : W % 2 = 0) (hW16 : W < 65536)
    (hH : 2 ≤ H) (hHe : H % 2 = 0) (hH16 : H < 65536) (cs : List Call)
    (hcs : ∀ c ∈ cs, c.is420 = true) :
    (((VideoOut.new debug depth polarity hoffset W voffset H file junk).exec cs).hcount1 < W ∧
      ((VideoOut.new debug depth polarity hoffset W voffset H file junk).exec cs).hcount2 < W ∧
      ((VideoOut.new debug depth polarity hoffset W voffset H file junk).exec cs).vcount < H ∧
      ((VideoOut.new debug depth polarity hoffset W voffset H file junk).exec cs).vcount % 2 = 0 ∧
      Dims ((VideoOut.new debug depth polarity hoffset W voffset H file junk).exec cs) W) ∧
    (∀ de_y de_c luma chroma : Nat,
      ∀ a ∈ accesses420 ((VideoOut.new debug depth polarity hoffset W voffset H file junk).exec
          cs) de_y de_c luma chroma,
        (a.1 = true → a.2.1 ≤ 3 ∧ a.2.2 < W) ∧ (a.1 = false → a.2.1 ≤ 1 ∧ a.2.2 < W)) ∧
    (∀ w ∈ pixelWrites ((VideoOut.new debug depth polarity hoffset W voffset H file junk).trace
        cs),
      (0 ≤ w.1 ∧ w.1 < (W : Int)) ∧ (0 ≤ w.2.1 ∧ w.2.1 < (H : Int))) := by
  have h0 : Inv420 (VideoOut.new debug depth polarity hoffset W voffset H file junk) W H :=
    ⟨⟨rfl, rfl⟩, ⟨by show 0 < W; omega, by show 0 < W; omega⟩, ⟨by show 0 < H; omega, rfl⟩,
      Dims_new _ _ _ _ _ _ _ _ _⟩
  obtain ⟨h1, h2⟩ := exec420_Inv W H hWe hHe hW16 hH16 cs _ h0 hcs
  refine ⟨⟨h1.2.1.1, h1.2.1.2, h1.2.2.1.1, h1.2.2.1.2, h1.2.2.2⟩, ?_, h2⟩
  intro de_y de_c luma chroma
  exact accesses420_safe _ W H hWe hW16 h1 de_y de_c luma chroma

/-- Witness of C25 on a 2 x 4 engine driven by `demoMix420`, where chroma arrives after
the luma lines: the counters stay in range. -/
theorem C25_yuv420_index_safety_witness :
    ((VideoOut.new 0 8 0 0 2 0 4 snapshotName Uninit.zero).exec demoMix420).hcount1 < 2 ∧
    ((VideoOut.new 0 8 0 0 2 0 4 snapshotName Uninit.zero).exec demoMix420).vcount < 4 ∧
    ∀ w ∈ pixelWrites ((VideoOut.new 0 8 0 0 2 0 4 snapshotName Uninit.zero).trace demoMix420),
      (0 ≤ w.1 ∧ w.1 < ((2 : Nat) : Int)) ∧ (0 ≤ w.2.1 ∧ w.2.1 < ((4 : Nat) : Int)) :=
  have h := C25_yuv420_index_safety 0 8 0 0 2 0 4 snapshotName Uninit.zero (by decide)
    (by decide) (by decide) (by decide) (by decide) (by decide) demoMix420 (by decide)
  ⟨h.1.1, h.1.2.2.1, h.2.2⟩

/-! ### Line selection of the 4:2:0 reconstruction under any interleaving -/

theorem lumaPart_fields (s : VideoOut) (de_y luma : Nat) :
    ((lumaPart s de_y luma).y_buf =
        (if de_y ≠ 0 then bufSet s.y_buf (s.vcount1 &&& 3) s.hcount1 (luma : Int) else s.y_buf) ∧
      (lumaPart s de_y luma).c_buf = s.c_buf) ∧
    (lumaPart s de_y luma).vcount1 =
      (if de_y ≠ 0 ∧ u16 (s.hcount1 + 1) = s.hor_size then u16 (s.vcount1 + 1)
       else s.vcount1) := by
  simp only [lumaPart]
  split_ifs <;> simp_all

theorem chromaPart_fields (s : VideoOut) (de_c chroma : Nat) :
    ((chromaPart s de_c chroma).c_buf =
        (if de_c ≠ 0 then bufSet s.c_buf (s.vcount2 &&& 1) s.hcount2 (chroma : Int)
         else s.c_buf) ∧
      (chromaPart s de_c chroma).y_buf = s.y_buf) ∧
    (chromaPart s de_c chroma).vcount2 =
      (if de_c ≠ 0 ∧ u16 (s.hcount2 + 1) = s.hor_size then u16 (s.vcount2 + 1)
       else s.vcount2) := by
  simp only [chromaPart]
  split_ifs <;> simp_all

/-- Two samples in the same ring entry are a whole number of ring turns apart. -/
theorem slot_apart4 (W j n : Nat) (hjn : j < n)
    (h : (j / W) % 4 = (n / W) % 4 ∧ j % W = n % W) : (j / W + 4) * W ≤ n := by
  have e1 := Nat.div_add_mod j W
  have e2 := Nat.div_add_mod n W
  have hlt : W * (j / W) < W * (n / W) := by omega
  have hab : j / W < n / W := Nat.lt_of_mul_lt_mul_left hlt
  have h4 : j / W + 4 ≤ n / W := by omega
  have := Nat.mul_le_mul_left W h4
  rw [Nat.mul_comm]
  omega

theorem slot_apart2 (W j n : Nat) (hjn : j < n)
    (h : (j / W) % 2 = (n / W) % 2 ∧ j % W = n % W) : (j / W + 2) * W ≤ n := by
  have e1 := Nat.div_add_mod j W
  have e2 := Nat.div_add_mod n W
  have hlt : W * (j / W) < W * (n / W) := by omega
  have hab : j / W < n / W := Nat.lt_of_mul_lt_mul_left hlt
  have h4 : j / W + 2 ≤ n / W := by omega
  have := Nat.mul_le_mul_left W h4
  rw [Nat.mul_comm]
  omega

theorem bufGet_bufSet_other (b : List (List Int)) (k h k' h' : Nat) (v : Int)
    (hne : ¬ (k' = k ∧ h' = h)) : bufGet (bufSet b k h v) k' h' = bufGet b k' h' := by
  by_cases hk : k = k'
  · subst hk
    exact bufGet_bufSet_col b k h h' v (fun e => hne ⟨rfl, e.symm⟩)
  · exact bufGet_bufSet_row b k h k' h' v hk

theorem lumaPart_off (s : VideoOut) (luma : Nat) : lumaPart s 0 luma = s := by
  simp [lumaPart]

/-- Storing one luma sample appends it to the received luma samples. -/
theorem lumaPart_Ring (s : VideoOut) (W : Nat) (Ls Cs : List Nat) (hW : 0 < W)
    (hW16 : W < 65536) (h : Ring420 s W Ls Cs) (de_y luma : Nat) (hde : de_y ≠ 0) :
    Ring420 (lumaPart s de_y luma) W (Ls ++ [luma]) Cs := by
  obtain ⟨⟨a1, d⟩, ⟨b1, b2⟩, ⟨c1, c2⟩, ry, rc⟩ := h
  obtain ⟨⟨l1, l2, l3⟩, -⟩ := lumaPart_counts s de_y luma
  obtain ⟨⟨f1, f2⟩, f3⟩ := lumaPart_fields s de_y luma
  have hcfg := config_fields (lumaPart_config s de_y luma)
  have hmod := Nat.mod_lt Ls.length hW
  have hsd := succ_divmod W Ls.length hW
  have hu : u16 (s.hcount1 + 1) = Ls.length % W + 1 := by
    rw [b1]
    exact Nat.mod_eq_of_lt (by omega)
  have hlen : (Ls ++ [luma]).length = Ls.length + 1 := by simp
  refine ⟨⟨hcfg.2.2.2.2.2.2.2.1.trans a1, lumaPart_Dims s W de_y luma d⟩, ⟨?_, ?_⟩,
    ⟨by rw [l3]; exact c1, by rw [l2]; exact c2⟩, ?_, ?_⟩
  · rw [lumaPart_hcount1, if_pos hde, hu, a1, hlen]
    by_cases e : Ls.length % W + 1 = W
    · rw [if_pos e, (hsd.1 e).1]
    · rw [if_neg e, (hsd.2 e).1]
  · rw [f3, hu, a1, hlen, b2]
    by_cases e : Ls.length % W + 1 = W
    · rw [if_pos ⟨hde, e⟩, (hsd.1 e).2]
      unfold u16
      omega
    · rw [if_neg (fun hh => e hh.2), (hsd.2 e).2]
  · intro j hj hcap
    rw [hlen] at hj hcap
    rw [f1, if_pos hde, b1, b2, and_three,
      show Ls.length / W % 65536 % 4 = Ls.length / W % 4 by omega]
    by_cases hjn : j = Ls.length
    · subst hjn
      rw [bufGet_bufSet_self _ _ _ _ (by rw [d.1.1]; omega)
        (by rw [d.1.2 _ (by omega)]; exact hmod),
        List.getD_append_right _ _ _ _ (Nat.le_refl _)]
      simp
    · have hlt : j < Ls.length := by omega
      have hne : ¬ (j / W % 4 = Ls.length / W % 4 ∧ j % W = Ls.length % W) := by
        intro hsame
        have := slot_apart4 W j Ls.length hlt hsame
        omega
      rw [bufGet_bufSet_other _ _ _ _ _ _ hne, ry j hlt (by omega),
        List.getD_append _ _ _ _ hlt]
  · rw [f2]
    exact rc

/-- Storing one chroma sample appends it to the received chroma samples. -/
theorem chromaPart_Ring (s : VideoOut) (W : Nat) (Ls Cs : List Nat) (hW : 0 < W)
    (hW16 : W < 65536) (h : Ring420 s W Ls Cs) (de_c chroma : Nat) (hde : de_c ≠ 0) :
    Ring420 (chromaPart s de_c chroma) W Ls (Cs ++ [chroma]) := by
  obtain ⟨⟨a1, d⟩, ⟨b1, b2⟩, ⟨c1, c2⟩, ry, rc⟩ := h
  obtain ⟨⟨l1, l2, l3⟩, -⟩ := chromaPart_counts s de_c chroma
  obtain ⟨⟨f1, f2⟩, f3⟩ := chromaPart_fields s de_c chroma
  have hcfg := config_fields (chromaPart_config s de_c chroma)
  have hmod := Nat.mod_lt Cs.length hW
  have hsd := succ_divmod W Cs.length hW
  have hu : u16 (s.hcount2 + 1) = Cs.length % W + 1 := by
    rw [c1]
    exact Nat.mod_eq_of_lt (by omega)
  have hlen : (Cs ++ [chroma]).length = Cs.length + 1 := by simp
  refine ⟨⟨hcfg.2.2.2.2.2.2.2.1.trans a1, chromaPart_Dims s W de_c chroma d⟩,
    ⟨by rw [l3]; exact b1, by rw [l2]; exact b2⟩, ⟨?_, ?_⟩, ?_, ?_⟩
  · rw [chromaPart_hcount2, if_pos hde, hu, a1, hlen]
    by_cases e : Cs.length % W + 1 = W
    · rw [if_pos e, (hsd.1 e).1]
    · rw [if_neg e, (hsd.2 e).1]
  · rw [f3, hu, a1, hlen, c2]
    by_cases e : Cs.length % W + 1 = W
    · rw [if_pos ⟨hde, e⟩, (hsd.1 e).2]
      unfold u16
      omega
    · rw [if_neg (fun hh => e hh.2), (hsd.2 e).2]
  · rw [f2]
    exact ry
  · intro j hj hcap
    rw [hlen] at hj hcap
    rw [f1, if_pos hde, c1, c2, and_one,
      show Cs.length / W % 65536 % 2 = Cs.length / W % 2 by omega]
    by_cases hjn : j = Cs.length
    · subst hjn
      rw [bufGet_bufSet_self _ _ _ _ (by rw [d.2.1]; omega)
        (by rw [d.2.2 _ (by omega)]; exact hmod),
        List.getD_append_right _ _ _ _ (Nat.le_refl _)]
      simp
    · have hlt : j < Cs.length := by omega
      have hne : ¬ (j / W % 2 = Cs.length / W % 2 ∧ j % W = Cs.length % W) := by
        intro hsame
        have := slot_apart2 W j Cs.length hlt hsame
        omega
      rw [bufGet_bufSet_other _ _ _ _ _ _ hne, rc j hlt (by omega),
        List.getD_append _ _ _ _ hlt]

/-- An emission that is not the frame boundary leaves the rings as they are. -/
theorem emitPart_Ring (s : VideoOut) (W : Nat) (Ls Cs : List Nat) (h : Ring420 s W Ls Cs)
    (hb : ¬ boundary420 s) (cycle clk : Nat) : Ring420 (emitPart s cycle clk).st W Ls Cs := by
  obtain ⟨⟨a1, d⟩, ⟨b1, b2⟩, ⟨c1, c2⟩, ry, rc⟩ := h
  have hcfg := config_fields (emitPart_config s cycle clk)
  obtain ⟨⟨e1, e2⟩, ⟨e3, e4⟩, -⟩ := emitPart_same s cycle clk
  refine ⟨⟨hcfg.2.2.2.2.2.2.2.1.trans a1, ?_⟩, ⟨by rw [e1]; exact b1, ?_⟩,
    ⟨by rw [e2]; exact c1, ?_⟩, ?_, ?_⟩
  · unfold Dims at d ⊢
    rw [e3, e4]
    exact d
  · rw [emitPart_vcount1, if_neg hb]
    exact b2
  · rw [emitPart_vcount2, if_neg hb]
    exact c2
  · rw [e3]
    exact ry
  · rw [e4]
    exact rc

/-- The two storing blocks append this call's samples to the received ones. -/
theorem store420_Ring (s : VideoOut) (W : Nat) (Ls Cs : List Nat) (hW : 0 < W)
    (hW16 : W < 65536) (h : Ring420 s W Ls Cs) (de_y de_c luma chroma : Nat) :
    Ring420 (chromaPart (lumaPart s de_y luma) de_c chroma) W
      (Ls ++ (if de_y ≠ 0 then [luma] else [])) (Cs ++ (if de_c ≠ 0 then [chroma] else [])) := by
  have h1 : Ring420 (lumaPart s de_y luma) W (Ls ++ (if de_y ≠ 0 then [luma] else [])) Cs := by
    by_cases hde : de_y ≠ 0
    · rw [if_pos hde]
      exact lumaPart_Ring s W Ls Cs hW hW16 h de_y luma hde
    · have h0 : de_y = 0 := by omega
      subst h0
      rw [if_neg hde, lumaPart_off, List.append_nil]
      exact h
  by_cases hde : de_c ≠ 0
  · rw [if_pos hde]
    exact chromaPart_Ring _ W _ Cs hW hW16 h1 de_c chroma hde
  · have h0 : de_c = 0 := by omega
    subst h0
    rw [if_neg hde, chromaPart_off, List.append_nil]
    exact h1

theorem step420_prev_clk (s : VideoOut) (c : Call) (hc : c.is420 = true) :
    (s.step c).st.prev_clk = c.clk := by
  cases c with
  | YUV420_DE cycle clk de_y de_c luma chroma =>
    simp only [VideoOut.step, eval_YUV420_DE_eq, Call.clk]
    split_ifs
    · exact (emitPart_same _ cycle clk).2.2
    · rfl
  | RGB444_HV _ _ _ _ _ _ _ => simp [Call.is420] at hc
  | YUV444_HV _ _ _ _ _ _ _ => simp [Call.is420] at hc
  | YUV422_HV _ _ _ _ _ _ => simp [Call.is420] at hc
  | RGB444_DE _ _ _ _ _ _ => simp [Call.is420] at hc
  | YUV444_DE _ _ _ _ _ _ => simp [Call.is420] at hc
  | YUV422_DE _ _ _ _ _ => simp [Call.is420] at hc

/-- One `eval_YUV420_DE` call that does not signal the frame boundary appends its
samples to the received ones. -/
theorem step420_Ring (s : VideoOut) (W : Nat) (Ls Cs : List Nat) (hW : 0 < W)
    (hW16 : W < 65536) (h : Ring420 s W Ls Cs) (c : Call) (hc : c.is420 = true)
    (hb : signalsBoundary s c = false) :
    Ring420 (s.step c).st W
      (Ls ++ (if (c.clk ≠ 0 ∧ s.prev_clk = 0) ∧ c.deY ≠ 0 then [c.lumaIn] else []))
      (Cs ++ (if (c.clk ≠ 0 ∧ s.prev_clk = 0) ∧ c.deC ≠ 0 then [c.chromaIn] else [])) := by
  cases c with
  | YUV420_DE cycle clk de_y de_c luma chroma =>
    simp only [VideoOut.step, eval_YUV420_DE_eq, Call.clk, Call.deY, Call.deC, Call.lumaIn,
      Call.chromaIn]
    simp only [signalsBoundary, decide_eq_false_iff_not] at hb
    by_cases hr : clk ≠ 0 ∧ s.prev_clk = 0
    · have h2 := store420_Ring s W Ls Cs hW hW16 h de_y de_c luma chroma
      simp only [if_pos hr, and_iff_right hr]
      exact emitPart_Ring _ W _ _ h2 (fun hbd => hb ⟨hr, hbd⟩) cycle clk
    · have e1 : ¬ ((clk ≠ 0 ∧ s.prev_clk = 0) ∧ de_y ≠ 0) := fun hh => hr hh.1
      have e2 : ¬ ((clk ≠ 0 ∧ s.prev_clk = 0) ∧ de_c ≠ 0) := fun hh => hr hh.1
      rw [if_neg hr, if_neg e1, if_neg e2, List.append_nil, List.append_nil]
      exact h
  | RGB444_HV _ _ _ _ _ _ _ => simp [Call.is420] at hc
  | YUV444_HV _ _ _ _ _ _ _ => simp [Call.is420] at hc
  | YUV422_HV _ _ _ _ _ _ => simp [Call.is420] at hc
  | RGB444_DE _ _ _ _ _ _ => simp [Call.is420] at hc
  | YUV444_DE _ _ _ _ _ _ => simp [Call.is420] at hc
  | YUV422_DE _ _ _ _ _ => simp [Call.is420] at hc

/-- Within a frame (no frame boundary signalled) the rings hold the received samples. -/
theorem exec420_Ring (W : Nat) (hW : 0 < W) (hW16 : W < 65536) (cs : List Call) :
    ∀ (s : VideoOut) (Ls Cs : List Nat), Ring420 s W Ls Cs → (∀ c ∈ cs, c.is420 = true) →
      boundaryCount s cs = 0 →
      Ring420 (s.exec cs) W (Ls ++ lumaStream s.prev_clk cs) (Cs ++ chromaStream s.prev_clk cs) := by
  induction cs with
  | nil =>
    intro s Ls Cs h _ _
    simp only [VideoOut.exec, lumaStream, chromaStream, List.append_nil]
    exact h
  | cons c cs ih =>
    intro s Ls Cs h hcs hb
    have hc := hcs c (List.mem_cons_self _ _)
    simp only [boundaryCount] at hb
    have hb1 : signalsBoundary s c = false := by
      by_contra hne
      rw [Bool.not_eq_false] at hne
      rw [if_pos hne] at hb
      omega
    have hb2 : boundaryCount (s.step c).st cs = 0 := by omega
    have h1 := step420_Ring s W Ls Cs hW hW16 h c hc hb1
    have h2 := ih (s.step c).st _ _ h1 (fun d hd => hcs d (List.mem_cons_of_mem _ hd)) hb2
    rw [step420_prev_clk s c hc] at h2
    simp only [VideoOut.exec, lumaStream, chromaStream]
    rw [← List.append_assoc, ← List.append_assoc]
    exact h2

theorem pos_div_mod (r W x : Nat) (hx : x < W) : (r * W + x) / W = r ∧ (r * W + x) % W = x := by
  have hW : 0 < W := by omega
  exact (Nat.div_mod_unique hW).2 ⟨by rw [Nat.mul_comm W r, Nat.add_comm], hx⟩

/-- A luma line of which nothing has been overwritten is read back from its ring slot. -/
theorem ring_row_y (s : VideoOut) (W : Nat) (Ls Cs : List Nat) (h : Ring420 s W Ls Cs)
    (r x : Nat) (hx : x < W) (h1 : r * W + W ≤ Ls.length) (h2 : Ls.length ≤ r * W + 4 * W) :
    bufGet s.y_buf (r % 4) x = ((Ls.getD (r * W + x) 0 : Nat) : Int) := by
  obtain ⟨e1, e2⟩ := pos_div_mod r W x hx
  have h3 := h.2.2.2.1 (r * W + x) (by omega) (by rw [e1, Nat.add_mul]; exact h2)
  rw [e1, e2] at h3
  exact h3

/-- A chroma line of which nothing has been overwritten is read back from its ring slot. -/
theorem ring_row_c (s : VideoOut) (W : Nat) (Ls Cs : List Nat) (h : Ring420 s W Ls Cs)
    (r x : Nat) (hx : x < W) (h1 : r * W + W ≤ Cs.length) (h2 : Cs.length ≤ r * W + 2 * W) :
    bufGet s.c_buf (r % 2) x = ((Cs.getD (r * W + x) 0 : Nat) : Int) := by
  obtain ⟨e1, e2⟩ := pos_div_mod r W x hx
  have h3 := h.2.2.2.2 (r * W + x) (by omega) (by rw [e1, Nat.add_mul]; exact h2)
  rw [e1, e2] at h3
  exact h3

/-- The slot chosen for the upper luma line when the luma line counter is 2 or 3 ahead. -/
theorem luma_slot (v m : Nat) (hv : v % 2 = 0) (h1 : v + 2 ≤ m) (h2 : m ≤ v + 3) :
    (m &&& 2) ^^^ 2 = v % 4 := by
  rw [and_two]
  split_ifs with h
  · have e : v % 4 = 0 := by omega
    rw [e]
    rfl
  · have e : v % 4 = 2 := by omega
    rw [e]
    rfl

/-- The slot chosen for the chroma line when the chroma line counter is 1 ahead. -/
theorem chroma_slot (u : Nat) : ((u + 1) &&& 1) ^^^ 1 = u % 2 := by
  rw [and_one]
  rcases Nat.mod_two_eq_zero_or_one u with h | h
  · have e : (u + 1) % 2 = 1 := by omega
    rw [e, h]
    rfl
  · have e : (u + 1) % 2 = 0 := by omega
    rw [e, h]
    rfl

/-- An emission reads luma lines v, v + 1 and chroma line v / 2 of the received samples,
as long as fewer than v + 4 luma lines and fewer than v / 2 + 2 chroma lines are complete. -/
theorem emitWrites_Ring (s : VideoOut) (W H : Nat) (Ls Cs : List Nat)
    (f : Int → Int → Int → RGBApixel) (hW : 0 < W) (hH16 : H < 65536) (hHe : H % 2 = 0)
    (h : Ring420 s W Ls Cs) (hi : Inv420 s W H) (hf : s.yuv2rgb = f) (hr : ready420 s)
    (hl : Ls.length / W ≤ s.vcount + 3) (hc : Cs.length / W ≤ s.vcount / 2 + 1) :
    emitWrites s ((s.vcount1 &&& 2) ^^^ 2) ((s.vcount2 &&& 1) ^^^ 1) (W / 2) =
      linePairWrites f W Ls Cs s.vcount := by
  obtain ⟨-, -, ⟨c1, c2⟩, -⟩ := hi
  have hv1 : s.vcount1 = Ls.length / W := by
    rw [h.2.1.2]
    exact Nat.mod_eq_of_lt (by omega)
  have hv2 : s.vcount2 = Cs.length / W := by
    rw [h.2.2.1.2]
    exact Nat.mod_eq_of_lt (by omega)
  obtain ⟨r1, r2⟩ := hr
  rw [hv1] at r1
  rw [hv2] at r2
  have a1 : s.vcount + 2 ≤ Ls.length / W := by omega
  have a2 : s.vcount / 2 + 1 ≤ Cs.length / W := by omega
  have b1 : (s.vcount + 2) * W ≤ Ls.length := (Nat.le_div_iff_mul_le hW).1 a1
  have b2 : Ls.length < (s.vcount + 4) * W := (Nat.div_lt_iff_lt_mul hW).1 (by omega)
  have b3 : (s.vcount / 2 + 1) * W ≤ Cs.length := (Nat.le_div_iff_mul_le hW).1 a2
  have b4 : Cs.length < (s.vcount / 2 + 2) * W := (Nat.div_lt_iff_lt_mul hW).1 (by omega)
  rw [Nat.add_mul] at b1 b2 b3 b4
  have hL : (s.vcount1 &&& 2) ^^^ 2 = s.vcount % 4 := by
    rw [hv1]
    exact luma_slot _ _ c2 a1 hl
  have hC : (s.vcount2 &&& 1) ^^^ 1 = s.vcount / 2 % 2 := by
    rw [hv2, show Cs.length / W = s.vcount / 2 + 1 by omega]
    exact chroma_slot _
  have hL1 : s.vcount % 4 + 1 = (s.vcount + 1) % 4 := by omega
  have e1 : (s.vcount + 1) * W = s.vcount * W + W := by rw [Nat.add_mul, Nat.one_mul]
  rw [hL, hC]
  unfold emitWrites linePairWrites
  congr 1
  apply List.map_congr_left
  intro j hj
  have hjm : j < W / 2 := List.mem_range.1 hj
  have y0 := fun (x : Nat) (hx : x < W) =>
    ring_row_y s W Ls Cs h s.vcount x hx (by omega) (by omega)
  have y1 := fun (x : Nat) (hx : x < W) =>
    ring_row_y s W Ls Cs h (s.vcount + 1) x hx (by rw [e1]; omega) (by rw [e1]; omega)
  have c0 := fun (x : Nat) (hx : x < W) =>
    ring_row_c s W Ls Cs h (s.vcount / 2) x hx (by omega) (by omega)
  rw [hL1, y0 (2 * j) (by omega), y0 (2 * j + 1) (by omega), y1 (2 * j) (by omega),
    y1 (2 * j + 1) (by omega), c0 (2 * j) (by omega), c0 (2 * j + 1) (by omega), hf]

/-- C24 (amended): on a fresh engine with even hor_size W >= 2 and even ver_size H >= 2,
after any sequence of `eval_YUV420_DE` calls within the first frame (no frame boundary
signalled, any interleaving and timing of de_y and de_c), a rising-clock call that emits
the line pair at rows (v, v + 1) writes the 2 x 2 blocks built from the v-th and
(v + 1)-th luma lines and the (v div 2)-th chroma line received (this call's samples
included, lines counted from 0 in arrival order), provided that at that call fewer than
v + 4 luma lines and fewer than v div 2 + 2 chroma lines have been received completely. -/
theorem C24_yuv420_line_selection (debug depth polarity hoffset W voffset H : Nat)
    (file : List Nat) (junk : Uninit) (hW : 2 ≤ W) (hWe : W % 2 = 0) (hW16 : W < 65536)
    (hH : 2 ≤ H) (hHe : H % 2 = 0) (hH16 : H < 65536) (cs : List Call)
    (cycle clk de_y de_c luma chroma : Nat)
    (hcs : ∀ c ∈ cs, c.is420 = true)
    (hb : boundaryCount (VideoOut.new debug depth polarity hoffset W voffset H file junk) cs = 0)
    (hclk : clk ≠ 0 ∧
      ((VideoOut.new debug depth polarity hoffset W voffset H file junk).exec cs).prev_clk = 0)
    (hr : ready420 (chromaPart (lumaPart
      ((VideoOut.new debug depth polarity hoffset W voffset H file junk).exec cs) de_y luma)
      de_c chroma))
    (hl : (lumaStream 0 cs ++ (if de_y ≠ 0 then [luma] else [])).length / W ≤
      ((VideoOut.new debug depth polarity hoffset W voffset H file junk).exec cs).vcount + 3)
    (hc : (chromaStream 0 cs ++ (if de_c ≠ 0 then [chroma] else [])).length / W ≤
      ((VideoOut.new debug depth polarity hoffset W voffset H file junk).exec cs).vcount / 2 + 1) :
    pixelWrites (((VideoOut.new debug depth polarity hoffset W voffset H file junk).exec
        cs).eval_YUV420_DE cycle clk de_y de_c luma chroma).out =
      linePairWrites (VideoOut.new debug depth polarity hoffset W voffset H file junk).yuv2rgb W
        (lumaStream 0 cs ++ (if de_y ≠ 0 then [luma] else []))
        (chromaStream 0 cs ++ (if de_c ≠ 0 then [chroma] else []))
        ((VideoOut.new debug depth polarity hoffset W voffset H file junk).exec cs).vcount := by
  have hW0 : 0 < W := by omega
  have h0 : Inv420 (VideoOut.new debug depth polarity hoffset W voffset H file junk) W H :=
    ⟨⟨rfl, rfl⟩, ⟨by show 0 < W; omega, by show 0 < W; omega⟩, ⟨by show 0 < H; omega, rfl⟩,
      Dims_new _ _ _ _ _ _ _ _ _⟩
  have g0 : Ring420 (VideoOut.new debug depth polarity hoffset W voffset H file junk) W [] [] :=
    ⟨⟨rfl, Dims_new _ _ _ _ _ _ _ _ _⟩,
      ⟨by show 0 = 0 % W; rw [Nat.zero_mod], by show 0 = 0 / W % 65536; rw [Nat.zero_div]⟩,
      ⟨by show 0 = 0 % W; rw [Nat.zero_mod], by show 0 = 0 / W % 65536; rw [Nat.zero_div]⟩,
      fun j hj => absurd hj (Nat.not_lt_zero j), fun j hj => absurd hj (Nat.not_lt_zero j)⟩
  obtain ⟨i1, -⟩ := exec420_Inv W H hWe hHe hW16 hH16 cs _ h0 hcs
  have g1 := exec420_Ring W hW0 hW16 cs _ [] [] g0 hcs hb
  rw [List.nil_append, List.nil_append] at g1
  have g2 := store420_Ring _ W _ _ hW0 hW16 g1 de_y de_c luma chroma
  have i2 := store420_Inv _ W H hW16 i1 de_y de_c luma chroma
  have hvc : (chromaPart (lumaPart
      ((VideoOut.new debug depth polarity hoffset W voffset H file junk).exec cs) de_y luma)
      de_c chroma).vcount =
      ((VideoOut.new debug depth polarity hoffset W voffset H file junk).exec cs).vcount :=
    ((chromaPart_counts _ de_c chroma).1.1).trans ((lumaPart_counts _ de_y luma).1.1)
  have hf : (chromaPart (lumaPart
      ((VideoOut.new debug depth polarity hoffset W voffset H file junk).exec cs) de_y luma)
      de_c chroma).yuv2rgb =
      (VideoOut.new debug depth polarity hoffset W voffset H file junk).yuv2rgb :=
    (yuv2rgb_config ((chromaPart_config _ de_c chroma).trans (lumaPart_config _ de_y luma))).trans
      (exec_yuv2rgb cs _)
  rw [eval_YUV420_DE_eq, if_pos hclk, emitPart_pixelWrites, if_pos hr, i2.1.1]
  have hWW : (W + 1) / 2 = W / 2 := by omega
  rw [hWW, ← hvc]
  rw [← hvc] at hl hc
  exact emitWrites_Ring _ W H _ _ _ hW0 hH16 hHe g2 i2 hf hr hl hc

/-- Witness of C24 on a 2 x 4 engine driven by the first ten calls of `demoMix420`: the
call carrying the last chroma sample of chroma line 0 emits rows (0, 1) from luma lines
0, 1 and chroma line 0, while the third luma line has already begun. -/
theorem C24_yuv420_line_selection_witness :
    pixelWrites (((VideoOut.new 0 8 0 0 2 0 4 snapshotName Uninit.zero).exec
        (List.take 10 demoMix420)).eval_YUV420_DE 10 1 0 1 0 101).out =
      linePairWrites (VideoOut.new 0 8 0 0 2 0 4 snapshotName Uninit.zero).yuv2rgb 2
        (lumaStream 0 (List.take 10 demoMix420) ++ (if (0 : Nat) ≠ 0 then [0] else []))
        (chromaStream 0 (List.take 10 demoMix420) ++ (if (1 : Nat) ≠ 0 then [101] else []))
        ((VideoOut.new 0 8 0 0 2 0 4 snapshotName Uninit.zero).exec
          (List.take 10 demoMix420)).vcount :=
  C24_yuv420_line_selection 0 8 0 0 2 0 4 snapshotName Uninit.zero (by decide) (by decide)
    (by decide) (by decide) (by decide) (by decide) (List.take 10 demoMix420) 10 1 0 1 0 101
    (by decide) (by decide) (by decide) (by decide) (by decide) (by decide)

/-- Counterexample to C24 as stated, on a fresh 2 x 8 engine within the first frame.
After `demoLumaAhead` (luma lines 0..3 = [10, 11], [20, 21], [30, 31], [40, 41] received
before any chroma) the call completing chroma line 0 emits rows (0, 1) with the lumas of
lines 2 and 3, not of lines 0 and 1. After `demoChromaAhead` (chroma lines [100, 110],
[200, 210] received before any luma) the call completing luma line 1 emits rows (0, 1)
with chroma line 1, not chroma line 0. -/
theorem C24_counterexample :
    ((∀ c ∈ demoLumaAhead, c.is420 = true) ∧
      boundaryCount (VideoOut.new 0 8 0 0 2 0 8 snapshotName Uninit.zero) demoLumaAhead = 0 ∧
      ((VideoOut.new 0 8 0 0 2 0 8 snapshotName Uninit.zero).exec demoLumaAhead).vcount = 0 ∧
      lumaStream 0 demoLumaAhead = [10, 11, 20, 21, 30, 31, 40, 41] ∧
      pixelWrites (((VideoOut.new 0 8 0 0 2 0 8 snapshotName Uninit.zero).exec
          demoLumaAhead).eval_YUV420_DE 0 1 0 1 0 128).out =
        blockWrites (VideoOut.new 0 8 0 0 2 0 8 snapshotName Uninit.zero).yuv2rgb 0 0
          30 31 40 41 128 128 ∧
      pixelWrites (((VideoOut.new 0 8 0 0 2 0 8 snapshotName Uninit.zero).exec
          demoLumaAhead).eval_YUV420_DE 0 1 0 1 0 128).out ≠
        linePairWrites (VideoOut.new 0 8 0 0 2 0 8 snapshotName Uninit.zero).yuv2rgb 2
          (lumaStream 0 demoLumaAhead) (chromaStream 0 demoLumaAhead ++ [128]) 0) ∧
    ((∀ c ∈ demoChromaAhead, c.is420 = true) ∧
      boundaryCount (VideoOut.new 0 8 0 0 2 0 8 snapshotName Uninit.zero) demoChromaAhead = 0 ∧
      ((VideoOut.new 0 8 0 0 2 0 8 snapshotName Uninit.zero).exec demoChromaAhead).vcount = 0 ∧
      chromaStream 0 demoChromaAhead = [100, 110, 200, 210] ∧
      pixelWrites (((VideoOut.new 0 8 0 0 2 0 8 snapshotName Uninit.zero).exec
          demoChromaAhead).eval_YUV420_DE 0 1 1 0 21 0).out =
        blockWrites (VideoOut.new 0 8 0 0 2 0 8 snapshotName Uninit.zero).yuv2rgb 0 0
          10 11 20 21 200 210 ∧
      pixelWrites (((VideoOut.new 0 8 0 0 2 0 8 snapshotName Uninit.zero).exec
          demoChromaAhead).eval_YUV420_DE 0 1 1 0 21 0).out ≠
        linePairWrites (VideoOut.new 0 8 0 0 2 0 8 snapshotName Uninit.zero).yuv2rgb 2
          (lumaStream 0 demoChromaAhead ++ [21]) (chromaStream 0 demoChromaAhead) 0) := by
  decide

/-! ### The graphics converter -/

theorem testBit_high (w k : Nat) (hw : w < 65536) (hk : 16 ≤ k) : Nat.testBit w k = false := by
  apply Nat.testBit_lt_two_pow
  calc w < 2 ^ 16 := hw
    _ ≤ 2 ^ k := Nat.pow_le_pow_right (by decide) hk

theorem testBit_plane (p k : Nat) : Nat.testBit (0x8000 >>> p) k = decide (p + k = 15) := by
  rw [Nat.testBit_shiftRight, show (0x8000 : Nat) = 2 ^ 15 by rfl, Nat.testBit_two_pow]
  by_cases h : p + k = 15
  · simp [h]
  · have h2 : ¬ 15 = p + k := fun e => h e.symm
    simp [h, h2]

theorem plane_lt (p : Nat) : 0x8000 >>> p < 2 ^ 16 := by
  rw [Nat.shiftRight_eq_div_pow]
  exact lt_of_le_of_lt (Nat.div_le_self _ _) (by decide)

/-- The plane loop over the first n planes keeps the word below 2^16 and sets bit 15 - p
for each plane p whose source bit is set. -/
theorem planes_fold (lay : gfx_layout) (src : Nat → Nat) (base x y : Nat) (n : Nat) :
    ∀ w : Nat, w < 65536 →
      (List.range n).foldl (fun (w p : Nat) =>
        if src (base + (gfx_bit lay p x y >>> 3)) &&& (0x80 >>> (gfx_bit lay p x y &&& 7)) ≠ 0
        then (w ||| (0x8000 >>> p)) % 65536 else w) w < 65536 ∧
      ∀ k, Nat.testBit ((List.range n).foldl (fun (w p : Nat) =>
        if src (base + (gfx_bit lay p x y >>> 3)) &&& (0x80 >>> (gfx_bit lay p x y &&& 7)) ≠ 0
        then (w ||| (0x8000 >>> p)) % 65536 else w) w) k =
        (Nat.testBit w k ||
          (decide (k ≤ 15 ∧ 15 - k < n) && gfx_test lay src base x y (15 - k))) := by
  induction n with
  | zero =>
    intro w hw
    refine ⟨hw, ?_⟩
    intro k
    simp
  | succ n ih =>
    intro w hw
    obtain ⟨h1, h2⟩ := ih w hw
    rw [List.range_succ, List.foldl_append, List.foldl_cons, List.foldl_nil]
    generalize (List.range n).foldl (fun (w p : Nat) =>
        if src (base + (gfx_bit lay p x y >>> 3)) &&& (0x80 >>> (gfx_bit lay p x y &&& 7)) ≠ 0
        then (w ||| (0x8000 >>> p)) % 65536 else w) w = r at h1 h2
    have hor : r ||| (0x8000 >>> n) < 65536 := Nat.or_lt_two_pow h1 (plane_lt n)
    by_cases ht : src (base + (gfx_bit lay n x y >>> 3)) &&&
        (0x80 >>> (gfx_bit lay n x y &&& 7)) ≠ 0
    · rw [if_pos ht, Nat.mod_eq_of_lt hor]
      refine ⟨hor, ?_⟩
      intro k
      have hg : gfx_test lay src base x y n = true := by
        simp only [gfx_test]
        exact decide_eq_true ht
      rw [Nat.testBit_or, h2 k, testBit_plane]
      by_cases e : n + k = 15
      · have e1 : 15 - k = n := by omega
        have e2 : ¬ (k ≤ 15 ∧ 15 - k < n) := by omega
        have e3 : k ≤ 15 ∧ 15 - k < n + 1 := by omega
        simp [e, e1, e2, e3, hg]
      · have e2 : (k ≤ 15 ∧ 15 - k < n + 1) ↔ (k ≤ 15 ∧ 15 - k < n) := by omega
        simp [e, e2]
    · rw [if_neg ht]
      refine ⟨h1, ?_⟩
      intro k
      have hg : gfx_test lay src base x y n = false := by
        simp only [gfx_test]
        exact decide_eq_false ht
      rw [h2 k]
      by_cases e : n + k = 15
      · have e1 : 15 - k = n := by omega
        have e2 : ¬ (k ≤ 15 ∧ 15 - k < n) := by omega
        simp [e1, e2, hg]
      · have e2 : (k ≤ 15 ∧ 15 - k < n + 1) ↔ (k ≤ 15 ∧ 15 - k < n) := by omega
        simp [e2]

theorem gfx_planes_lt (lay : gfx_layout) (src : Nat → Nat) (base x y w : Nat) (hw : w < 65536) :
    gfx_planes lay src base x y w < 65536 :=
  (planes_fold lay src base x y lay.planes w hw).1

theorem gfx_planes_bits (lay : gfx_layout) (src : Nat → Nat) (base x y w : Nat)
    (hw : w < 65536) (k : Nat) :
    Nat.testBit (gfx_planes lay src base x y w) k =
      (Nat.testBit w k || gfx_mark lay src base x y k) :=
  (planes_fold lay src base x y lay.planes w hw).2 k

theorem shift4_lt (w : Nat) (hw : w < 65536) : w >>> 4 < 65536 := by
  rw [Nat.shiftRight_eq_div_pow]
  exact lt_of_le_of_lt (Nat.div_le_self _ _) hw

/-- One row iteration: the word shifted right by four bits, with the marks of the row. -/
theorem row_bits (lay : gfx_layout) (src : Nat → Nat) (base x y w : Nat) (hw : w < 65536)
    (k : Nat) :
    Nat.testBit (gfx_planes lay src base x y (w >>> 4)) k =
      (Nat.testBit w (4 + k) || gfx_mark lay src base x y k) := by
  rw [gfx_planes_bits lay src base x y _ (shift4_lt w hw), Nat.testBit_shiftRight]

/-- Four row iterations: every bit of the word comes from the marks of the four rows. -/
theorem group_bits (lay : gfx_layout) (src : Nat → Nat) (base x y0 y1 y2 y3 w : Nat)
    (hw : w < 65536) (k : Nat) :
    Nat.testBit (gfx_planes lay src base x y3
      (gfx_planes lay src base x y2
        (gfx_planes lay src base x y1
          (gfx_planes lay src base x y0 (w >>> 4) >>> 4) >>> 4) >>> 4)) k =
      ((((gfx_mark lay src base x y0 (4 + (4 + (4 + k))) ||
        gfx_mark lay src base x y1 (4 + (4 + k))) ||
        gfx_mark lay src base x y2 (4 + k)) ||
        gfx_mark lay src base x y3 k)) := by
  have h0 := gfx_planes_lt lay src base x y0 _ (shift4_lt w hw)
  have h1 := gfx_planes_lt lay src base x y1 _ (shift4_lt _ h0)
  have h2 := gfx_planes_lt lay src base x y2 _ (shift4_lt _ h1)
  rw [row_bits lay src base x y3 _ h2, row_bits lay src base x y2 _ h1,
    row_bits lay src base x y1 _ h0, row_bits lay src base x y0 w hw,
    testBit_high w _ hw (by omega), Bool.false_or]

theorem gfx_group_bits (lay : gfx_layout) (src : Nat → Nat) (base x g k : Nat) :
    Nat.testBit (gfx_group lay src base x g) k =
      ((((gfx_mark lay src base x (4 * g) (4 + (4 + (4 + k))) ||
        gfx_mark lay src base x (4 * g + 1) (4 + (4 + k))) ||
        gfx_mark lay src base x (4 * g + 2) (4 + k)) ||
        gfx_mark lay src base x (4 * g + 3) k)) := by
  have h := group_bits lay src base x (4 * g) (4 * g + 1) (4 * g + 2) (4 * g + 3) 0
    (by decide) k
  rw [show (0 : Nat) >>> 4 = 0 by rfl] at h
  exact h

/-- The word left by four row iterations does not depend on the incoming word. -/
theorem group_from (lay : gfx_layout) (src : Nat → Nat) (base x g w : Nat) (hw : w < 65536) :
    gfx_planes lay src base x (4 * g + 3)
      (gfx_planes lay src base x (4 * g + 2)
        (gfx_planes lay src base x (4 * g + 1)
          (gfx_planes lay src base x (4 * g) (w >>> 4) >>> 4) >>> 4) >>> 4) =
      gfx_group lay src base x g := by
  apply Nat.eq_of_testBit_eq
  intro k
  rw [group_bits lay src base x _ _ _ _ w hw, gfx_group_bits]

theorem gfx_group_lt (lay : gfx_layout) (src : Nat → Nat) (base x g : Nat) :
    gfx_group lay src base x g < 65536 := by
  unfold gfx_group
  apply gfx_planes_lt
  apply shift4_lt
  apply gfx_planes_lt
  apply shift4_lt
  apply gfx_planes_lt
  apply shift4_lt
  apply gfx_planes_lt
  decide

theorem gfx_row_keep (lay : gfx_layout) (src : Nat → Nat) (base x : Nat) (st : Nat × List Nat)
    (y : Nat) (hy : y % 4 ≠ 3) :
    gfx_row lay src base x st y = (gfx_planes lay src base x y (st.1 >>> 4), st.2) := by
  unfold gfx_row
  rw [and_three, if_neg hy]

theorem gfx_row_emit (lay : gfx_layout) (src : Nat → Nat) (base x : Nat) (st : Nat × List Nat)
    (y : Nat) (hy : y % 4 = 3) :
    gfx_row lay src base x st y =
      (gfx_planes lay src base x y (st.1 >>> 4),
        st.2 ++ [gfx_planes lay src base x y (st.1 >>> 4)]) := by
  unfold gfx_row
  rw [and_three, if_pos hy]

/-- The row loop over 4 * G rows appends the G group words of the column. -/
theorem rows_fold (lay : gfx_layout) (src : Nat → Nat) (base x : Nat) (G : Nat) :
    ∀ (w : Nat) (out : List Nat), w < 65536 →
      ((List.range (4 * G)).foldl (gfx_row lay src base x) (w, out)).1 < 65536 ∧
      ((List.range (4 * G)).foldl (gfx_row lay src base x) (w, out)).2 =
        out ++ (List.range G).map (gfx_group lay src base x) := by
  induction G with
  | zero =>
    intro w out hw
    exact ⟨hw, by simp⟩
  | succ G ih =>
    intro w out hw
    obtain ⟨h1, h2⟩ := ih w out hw
    have e : List.range (4 * (G + 1)) =
        List.range (4 * G) ++ [4 * G, 4 * G + 1, 4 * G + 2, 4 * G + 3] := by
      rw [show 4 * (G + 1) = 4 * G + 4 by omega, List.range_add]
      rfl
    rw [e, List.foldl_append]
    generalize (List.range (4 * G)).foldl (gfx_row lay src base x) (w, out) = st at h1 h2
    obtain ⟨v, o⟩ := st
    simp only at h1 h2
    subst h2
    simp only [List.foldl_cons, List.foldl_nil]
    rw [gfx_row_keep lay src base x _ (4 * G) (by omega),
      gfx_row_keep lay src base x _ (4 * G + 1) (by omega),
      gfx_row_keep lay src base x _ (4 * G + 2) (by omega),
      gfx_row_emit lay src base x _ (4 * G + 3) (by omega)]
    simp only
    rw [group_from lay src base x G v h1]
    refine ⟨gfx_group_lt lay src base x G, ?_⟩
    rw [List.range_succ, List.map_append, List.map_cons, List.map_nil, List.append_assoc]

theorem gfx_column_eq (lay : gfx_layout) (src : Nat → Nat) (base x : Nat)
    (hH : lay.height % 4 = 0) (w : Nat) (out : List Nat) (hw : w < 65536) :
    (gfx_column lay src base (w, out) x).1 < 65536 ∧
      (gfx_column lay src base (w, out) x).2 =
        out ++ (List.range (lay.height / 4)).map (gfx_group lay src base x) := by
  unfold gfx_column
  have e : lay.height = 4 * (lay.height / 4) := by omega
  have h := rows_fold lay src base x (lay.height / 4) w out hw
  rw [← e] at h
  exact h

/-- The column loop over any list of columns appends the group words column by column. -/
theorem columns_fold (lay : gfx_layout) (src : Nat → Nat) (base : Nat)
    (hH : lay.height % 4 = 0) (xs : List Nat) :
    ∀ (w : Nat) (out : List Nat), w < 65536 →
      (xs.foldl (gfx_column lay src base) (w, out)).1 < 65536 ∧
      (xs.foldl (gfx_column lay src base) (w, out)).2 =
        out ++ xs.flatMap (fun x => (List.range (lay.height / 4)).map
          (gfx_group lay src base x)) := by
  induction xs with
  | nil =>
    intro w out hw
    exact ⟨hw, by simp⟩
  | cons x xs ih =>
    intro w out hw
    obtain ⟨h1, h2⟩ := gfx_column_eq lay src base x hH w out hw
    rw [List.foldl_cons]
    generalize gfx_column lay src base (w, out) x = st at h1 h2
    obtain ⟨v, o⟩ := st
    simp only at h1 h2
    subst h2
    obtain ⟨i1, i2⟩ := ih v _ h1
    refine ⟨i1, ?_⟩
    rw [i2, List.flatMap_cons, List.append_assoc]

/-- The tile loop over any list of tiles appends the group words tile by tile. -/
theorem tiles_fold (lay : gfx_layout) (src : Nat → Nat) (hH : lay.height % 4 = 0)
    (ts : List Nat) :
    ∀ (w : Nat) (out : List Nat), w < 65536 →
      (ts.foldl (gfx_tile lay src) (w, out)).1 < 65536 ∧
      (ts.foldl (gfx_tile lay src) (w, out)).2 =
        out ++ ts.flatMap (fun t => (List.range lay.width).reverse.flatMap
          (fun x => (List.range (lay.height / 4)).map
            (gfx_group lay src (t * (lay.charincrement >>> 3)) x))) := by
  induction ts with
  | nil =>
    intro w out hw
    exact ⟨hw, by simp⟩
  | cons t ts ih =>
    intro w out hw
    obtain ⟨h1, h2⟩ := columns_fold lay src (t * (lay.charincrement >>> 3)) hH
      (List.range lay.width).reverse w out hw
    rw [List.foldl_cons]
    have e : gfx_tile lay src (w, out) t =
        (List.range lay.width).reverse.foldl
          (gfx_column lay src (t * (lay.charincrement >>> 3))) (w, out) := rfl
    rw [e]
    generalize (List.range lay.width).reverse.foldl
          (gfx_column lay src (t * (lay.charincrement >>> 3))) (w, out) = st at h1 h2
    obtain ⟨v, o⟩ := st
    simp only at h1 h2
    subst h2
    obtain ⟨i1, i2⟩ := ih v _ h1
    refine ⟨i1, ?_⟩
    rw [i2, List.flatMap_cons, List.append_assoc]

/-- A tile count that fits the `int` loop counter is the number of tile iterations. -/
theorem gfx_tmax_eq (lay : gfx_layout) (ht : lay.total < 2 ^ 31) : gfx_tmax lay = lay.total := by
  unfold gfx_tmax
  have e : lay.total % 2 ^ 32 = lay.total := Nat.mod_eq_of_lt (by omega)
  rw [e, if_pos ht]

theorem gfx_tmax_le (lay : gfx_layout) : gfx_tmax lay ≤ lay.total := by
  unfold gfx_tmax
  have e : lay.total % 2 ^ 32 ≤ lay.total := Nat.mod_le _ _
  split_ifs <;> omega

/-- The output of `gfx_convert_CCW` as a list comprehension: tile by tile, column by
column from the last to the first, one word per group of four rows. -/
theorem gfx_convert_CCW_eq (lay : gfx_layout) (src : Nat → Nat) (hH : lay.height % 4 = 0)
    (ht : lay.total < 2 ^ 31) :
    gfx_convert_CCW lay src =
      (List.range lay.total).flatMap (fun t => (List.range lay.width).reverse.flatMap
        (fun x => (List.range (lay.height / 4)).map
          (gfx_group lay src (t * (lay.charincrement >>> 3)) x))) := by
  unfold gfx_convert_CCW
  rw [gfx_tmax_eq lay ht, (tiles_fold lay src hH (List.range lay.total) 0 [] (by decide)).2,
    List.nil_append]

theorem flatMap_block_length (f : Nat → List Nat) (n : Nat) (xs : List Nat)
    (hf : ∀ a ∈ xs, (f a).length = n) : (xs.flatMap f).length = xs.length * n := by
  induction xs with
  | nil => simp
  | cons a xs ih =>
    rw [List.flatMap_cons, List.length_append, hf a (List.mem_cons_self _ _),
      ih (fun b hb => hf b (List.mem_cons_of_mem _ hb)), List.length_cons, Nat.succ_mul,
      Nat.add_comm]

theorem column_block_length (lay : gfx_layout) (src : Nat → Nat) (base : Nat) :
    ∀ x ∈ (List.range lay.width).reverse,
      ((List.range (lay.height / 4)).map (gfx_group lay src base x)).length =
        lay.height / 4 := by
  intro x _
  rw [List.length_map, List.length_range]

theorem tile_block_length (lay : gfx_layout) (src : Nat → Nat) :
    ∀ t ∈ List.range lay.total,
      ((List.range lay.width).reverse.flatMap (fun x => (List.range (lay.height / 4)).map
        (gfx_group lay src (t * (lay.charincrement >>> 3)) x))).length =
        lay.width * (lay.height / 4) := by
  intro t _
  rw [flatMap_block_length _ _ _ (column_block_length lay src _), List.length_reverse,
    List.length_range]

/-- Number of words written by `gfx_convert_CCW`. -/
theorem gfx_convert_CCW_length (lay : gfx_layout) (src : Nat → Nat)
    (hH : lay.height % 4 = 0) (ht : lay.total < 2 ^ 31) :
    (gfx_convert_CCW lay src).length = lay.total * (lay.width * (lay.height / 4)) := by
  rw [gfx_convert_CCW_eq lay src hH ht, flatMap_block_length _ _ _ (tile_block_length lay src),
    List.length_range]

/-- Bound on every access of `gfx_convert_CCW` from bounds on the entries of the three
offset arrays. -/
theorem gfx_accesses_bound (lay : gfx_layout) (T Mo Mx My : Nat)
    (hT : lay.total ≤ T + 1)
    (hp : ∀ p, p < lay.planes → lay.planeoffset.getD p 0 ≤ Mo)
    (hx : ∀ x, x < lay.width → lay.xoffset.getD x 0 ≤ Mx)
    (hy : ∀ y, y < lay.height → lay.yoffset.getD y 0 ≤ My) :
    ∀ a ∈ gfx_accesses lay,
      a.1 < lay.planes ∧ a.2.1 < lay.width ∧ a.2.2.1 < lay.height ∧
        a.2.2.2 ≤ T * (lay.charincrement >>> 3) + (Mo + Mx + My) / 8 := by
  intro a ha
  simp only [gfx_accesses, List.mem_flatMap, List.mem_map, List.mem_range, List.mem_reverse]
    at ha
  obtain ⟨t, h1, x, h2, y, h3, p, h4, e⟩ := ha
  subst e
  refine ⟨h4, h2, h3, ?_⟩
  have ht : t ≤ T := by
    have := gfx_tmax_le lay
    omega
  have b1 : t * (lay.charincrement >>> 3) ≤ T * (lay.charincrement >>> 3) :=
    Nat.mul_le_mul_right _ ht
  have b2 : gfx_bit lay p x y ≤ Mo + Mx + My := by
    unfold gfx_bit
    have := hp p h4
    have := hx x h2
    have := hy y h3
    exact le_trans (Nat.mod_le _ _) (by omega)
  have b3 : gfx_bit lay p x y >>> 3 ≤ (Mo + Mx + My) / 8 := by
    rw [show gfx_bit lay p x y >>> 3 = gfx_bit lay p x y / 8 from
      Nat.shiftRight_eq_div_pow _ 3]
    exact Nat.div_le_div_right b2
  show t * (lay.charincrement >>> 3) + (gfx_bit lay p x y >>> 3) ≤ _
  omega

theorem staysInside_of (lay : gfx_layout) (loaded written T Mo Mx My : Nat)
    (hH : lay.height % 4 = 0) (ht : lay.total < 2 ^ 31) (hT : lay.total ≤ T + 1)
    (hp : ∀ p, p < lay.planes → lay.planeoffset.getD p 0 ≤ Mo)
    (hx : ∀ x, x < lay.width → lay.xoffset.getD x 0 ≤ Mx)
    (hy : ∀ y, y < lay.height → lay.yoffset.getD y 0 ≤ My)
    (hl : lay.planes ≤ lay.planeoffset.length ∧ lay.width ≤ lay.xoffset.length ∧
      lay.height ≤ lay.yoffset.length)
    (hN : T * (lay.charincrement >>> 3) + (Mo + Mx + My) / 8 < loaded)
    (hw : 2 * (lay.total * (lay.width * (lay.height / 4))) = written)
    (h1 : loaded ≤ 512 * 1024) (h2 : written ≤ 512 * 1024) :
    staysInside lay loaded written := by
  refine ⟨?_, ?_, h1, h2⟩
  · intro a ha
    obtain ⟨a1, a2, a3, a4⟩ := gfx_accesses_bound lay T Mo Mx My hT hp hx hy a ha
    exact ⟨by omega, by omega, by omega, by omega⟩
  · intro src
    rw [gfx_convert_CCW_length lay src hH ht]
    exact hw

/-- C30: `gfx_convert_CCW` stays inside the ROM images for the five shipped layouts
`chrlayout_1943`, `chrlayout_gs`, `sprlayout_1943`, `fgnlayout` and `bgnlayout`: every
source byte index read over all tiles is below the number of bytes loaded (0x8000, 0x4000,
0x40000, 0x40000, 0x10000), every index used in `planeoffset`, `xoffset` and `yoffset` is
within the entries listed by the initialiser, and the number of output bytes written
equals the size passed to `write_rom` (0x10000, 0x8000, 0x40000, 0x40000, 0x10000), all
within the 512 KB buffers. -/
theorem C30_shipped_layouts_stay_inside :
    staysInside chrlayout_1943 0x8000 0x10000 ∧
    staysInside chrlayout_gs 0x4000 0x08000 ∧
    staysInside sprlayout_1943 0x40000 0x40000 ∧
    staysInside fgnlayout 0x40000 0x40000 ∧
    staysInside bgnlayout 0x10000 0x10000 := by
  refine ⟨?_, ?_, ?_, ?_, ?_⟩
  · exact staysInside_of chrlayout_1943 _ _ 2047 4 11 112 (by decide) (by decide) (by decide)
      (by decide) (by decide) (by decide) (by decide) (by decide) (by decide) (by decide)
      (by decide)
  · exact staysInside_of chrlayout_gs _ _ 1023 4 11 112 (by decide) (by decide) (by decide)
      (by decide) (by decide) (by decide) (by decide) (by decide) (by decide) (by decide)
      (by decide)
  · exact staysInside_of sprlayout_1943 _ _ 2047 (2048*64*8+4) 267 240 (by decide) (by decide)
      (by decide) (by decide) (by decide) (by decide) (by decide) (by decide) (by decide)
      (by decide) (by decide)
  · exact staysInside_of fgnlayout _ _ 511 (512*256*8+4) 1547 496 (by decide) (by decide)
      (by decide) (by decide) (by decide) (by decide) (by decide) (by decide) (by decide)
      (by decide) (by decide)
  · exact staysInside_of bgnlayout _ _ 127 (128*256*8+4) 1547 496 (by decide) (by decide)
      (by decide) (by decide) (by decide) (by decide) (by decide) (by decide) (by decide)
      (by decide) (by decide)

/-! ### The conversion tables -/

/-- An entry of a table built by the constructor loop with a factor k <= 256: the 16-bit
store keeps the product. -/
theorem table_entry (k : Nat) (hk : k ≤ 256) (i : Nat) (hi : i < 256) :
    u16 (i * k) = i * k ∧
      ((List.range 256).map (fun i => ((u16 (i * k) : Nat) : Int))).getD i 0 =
        (k : Int) * (i : Int) := by
  have hlt : i * k < 65536 := by nlinarith
  have e : u16 (i * k) = i * k := by
    unfold u16
    exact Nat.mod_eq_of_lt hlt
  refine ⟨e, ?_⟩
  rw [table_getD k i hi, e]
  push_cast
  ring

theorem table_length (k : Nat) :
    ((List.range 256).map (fun i => ((u16 (i * k) : Nat) : Int))).length = 256 := by
  rw [List.length_map, List.length_range]

/-- C31: on an engine built by the constructor with any depth (0..255 and beyond), and
after any sequence of calls (the empty one included), each of the four tables has 256
entries and for every i in 0..255 u_to_g[i] = 44*i, u_to_b[i] = 226*i, v_to_r[i] = 180*i
and v_to_g[i] = 91*i, the 16-bit cast of the initialiser truncating none of the four
products; and for every integer input c the index (c & mask) << shift that `yuv2rgb`
forms for cb and for cr (`chromaIndex`) lies in 0..255, so each of its four table reads
is inside the table. -/
theorem C31_tables_exact_indices_in_range
    (debug depth polarity hoffset hactive voffset vactive : Nat) (file : List Nat)
    (junk : Uninit) (cs : List Call) :
    ((((VideoOut.new debug depth polarity hoffset hactive voffset vactive file junk).exec
          cs).u_to_g.length = 256 ∧
      ((VideoOut.new debug depth polarity hoffset hactive voffset vactive file junk).exec
          cs).u_to_b.length = 256) ∧
      ((VideoOut.new debug depth polarity hoffset hactive voffset vactive file junk).exec
          cs).v_to_r.length = 256 ∧
      ((VideoOut.new debug depth polarity hoffset hactive voffset vactive file junk).exec
          cs).v_to_g.length = 256) ∧
    (∀ i : Nat, i < 256 →
      (((VideoOut.new debug depth polarity hoffset hactive voffset vactive file junk).exec
          cs).u_to_g.getD i 0 = 44 * (i : Int) ∧
        ((VideoOut.new debug depth polarity hoffset hactive voffset vactive file junk).exec
          cs).u_to_b.getD i 0 = 226 * (i : Int)) ∧
      ((VideoOut.new debug depth polarity hoffset hactive voffset vactive file junk).exec
          cs).v_to_r.getD i 0 = 180 * (i : Int) ∧
      ((VideoOut.new debug depth polarity hoffset hactive voffset vactive file junk).exec
          cs).v_to_g.getD i 0 = 91 * (i : Int)) ∧
    (∀ i : Nat, i < 256 →
      (u16 (i * 44) = i * 44 ∧ u16 (i * 226) = i * 226) ∧
        u16 (i * 180) = i * 180 ∧ u16 (i * 91) = i * 91) ∧
    (∀ c : Int,
      0 ≤ ((VideoOut.new debug depth polarity hoffset hactive voffset vactive file junk).exec
          cs).chromaIndex c ∧
      ((VideoOut.new debug depth polarity hoffset hactive voffset vactive file junk).exec
          cs).chromaIndex c < 256 ∧
      (((VideoOut.new debug depth polarity hoffset hactive voffset vactive file junk).exec
          cs).chromaIndex c).toNat < 256) := by
  obtain ⟨hsh, hmk, -, -, -, -, -, -, -, hug, hub, hvr, hvg, -⟩ :=
    config_fields (exec_config cs
      (VideoOut.new debug depth polarity hoffset hactive voffset vactive file junk))
  refine ⟨⟨⟨?_, ?_⟩, ?_, ?_⟩, ?_, ?_, ?_⟩
  · rw [hug]; exact table_length 44
  · rw [hub]; exact table_length 226
  · rw [hvr]; exact table_length 180
  · rw [hvg]; exact table_length 91
  · intro i hi
    rw [hug, hub, hvr, hvg]
    exact ⟨⟨(table_entry 44 (by decide) i hi).2, (table_entry 226 (by decide) i hi).2⟩,
      (table_entry 180 (by decide) i hi).2, (table_entry 91 (by decide) i hi).2⟩
  · intro i hi
    exact ⟨⟨(table_entry 44 (by decide) i hi).1, (table_entry 226 (by decide) i hi).1⟩,
      (table_entry 180 (by decide) i hi).1, (table_entry 91 (by decide) i hi).1⟩
  · intro c
    have h0 : 0 ≤ ((VideoOut.new debug depth polarity hoffset hactive voffset vactive file
        junk).exec cs).chromaIndex c := by
      unfold VideoOut.chromaIndex
      exact mul_nonneg (andMask_nonneg _ _) (by positivity)
    have h1 : ((VideoOut.new debug depth polarity hoffset hactive voffset vactive file
        junk).exec cs).chromaIndex c < 256 := by
      unfold VideoOut.chromaIndex
      rw [hsh, hmk]
      exact index_lt depth c
    exact ⟨h0, h1, by omega⟩

/-! ### The vertical count wraps at 2^16 -/

/-- Pixel samples (hs = 0, vs = 0) only advance the horizontal count. -/
theorem hvPixels_counts (W H r : Nat) (row : Nat → Nat × Nat × Nat) (n : Nat) :
    ∀ (s : VideoOut) (phs : Nat), n < 65536 → HVpos s W H 0 r phs →
      HVpos (s.exec (hvPixels row n)) W H n r (if n = 0 then phs else 0) := by
  induction n with
  | zero => intro s phs _ hs; exact hs
  | succ n ih =>
    intro s phs hn hs
    have i1 := ih s phs (by omega) hs
    have i1' := i1
    obtain ⟨-, ⟨b1, -⟩, ⟨c1, c2⟩, -⟩ := i1'
    have hh : ¬ hsRise (s.exec (hvPixels row n)) 0 := by simp [hsRise, b1]
    have j := (hvSample_pos (s.exec (hvPixels row n)) W H n r _ 0 (row n) i1 (n + 1) r
      (by rw [if_neg hh, c1, u16]; exact Nat.mod_eq_of_lt (by omega))
      (by rw [if_neg (fun h => hh h.1), c2])).1
    simp only [hvPixels, exec_append]
    rw [if_neg (by omega)]
    exact j

theorem demoLastLine_pos : HVpos demoLastLine 5 65535 5 65535 0 := by
  have h0 : HVpos (VideoOut.new 0 8 3 0 5 0 65535 snapshotName Uninit.zero) 5 65535 0 0 0 :=
    ⟨⟨rfl, rfl, rfl, rfl⟩, ⟨rfl, rfl⟩, ⟨rfl, rfl⟩, ⟨rfl, rfl, rfl⟩⟩
  have h1 := (hvRows_pos 5 65535 demoPix (0, 0, 0) (by decide) (by decide) (by decide) _ h0
    65535 (le_refl _)).1.1
  have h2 := hvPixels_counts 5 65535 65535 (demoPix 65535) 5 _ _ (by decide) h1
  unfold demoLastLine
  rw [exec_append]
  exact h2

/-- Counterexample to C12 as stated: `demoLastLine` is the fresh 5 x 65535 engine after
65535 scanlines and five pixel samples, at hcount = 5 > 4 and vcount = 65535. The next
rising-clock call of `eval_RGB444_HV` with hs = 1, vs = 0 recognises a horizontal-sync
edge and no vertical-sync edge, and leaves vcount = 0 (the 16-bit `vcount++` wraps), not
the old vcount + 1 = 65536. -/
theorem C12_counterexample :
    (demoLastLine.hcount = 5 ∧ demoLastLine.vcount = 65535) ∧
    (((1 : Nat) ≠ 0 ∧ demoLastLine.prev_clk = 0) ∧ ¬ vsRise demoLastLine 0 ∧
      hsRise demoLastLine 1) ∧
    (demoLastLine.step (Call.RGB444_HV 0 1 0 1 0 0 0)).st.hcount = 0 ∧
    (demoLastLine.step (Call.RGB444_HV 0 1 0 1 0 0 0)).st.vcount = 0 ∧
    (demoLastLine.step (Call.RGB444_HV 0 1 0 1 0 0 0)).st.vcount ≠ demoLastLine.vcount + 1 := by
  obtain ⟨-, ⟨b1, b2⟩, ⟨c1, c2⟩, ⟨d1, d2, d3⟩⟩ := demoLastLine_pos
  have hv : ¬ vsRise demoLastLine 0 := by simp [vsRise, b2]
  have hh : hsRise demoLastLine 1 := by simp [hsRise, b1, d3]
  obtain ⟨e1, e2⟩ := stepHV_counts demoLastLine (Call.RGB444_HV 0 1 0 1 0 0 0) rfl
    ⟨by decide, d1⟩
  have f1 : (demoLastLine.step (Call.RGB444_HV 0 1 0 1 0 0 0)).st.hcount = 0 := by
    rw [e1]
    exact if_pos hh
  have f2 : (demoLastLine.step (Call.RGB444_HV 0 1 0 1 0 0 0)).st.vcount = 0 := by
    rw [e2]
    show (if vsRise demoLastLine 0 then 0
      else if hsRise demoLastLine 1 ∧ demoLastLine.hcount > 4 then u16 (demoLastLine.vcount + 1)
      else demoLastLine.vcount) = 0
    rw [if_neg hv, if_pos ⟨hh, by rw [c1]; decide⟩, c2]
    rfl
  refine ⟨⟨c1, c2⟩, ⟨⟨by decide, d1⟩, hv, hh⟩, f1, f2, ?_⟩
  rw [f2, c2]
  decide
